import Mathlib

/-!
ESBTL PDB reader: a shallow embedding.

The development follows the headers under `libs/ESBTL/include/ESBTL`:
`constants.h`, `PDB.h`, `occupancy_handlers.h`, `line_selectors.h`,
`atom_selectors.h`, `global_functions.h`, `molecular_system.h`, `builder.h`,
`line_reader.h`, `iterators.h` and `selected_atom_iterator.h`.

Conventions of the embedding.

* A `std::string` is a `List Char`; a line is one such list, as returned by
  `getline` (it holds no newline).
* `exit(EXIT_FAILURE)`, a failed `assert`, an uncaught C++ exception and an
  access outside a container all end the process: they are the `error` case of
  `Except Fatal`. Assertions are modelled as compiled in (no `NDEBUG`).
* `int` values are `Int`; the conversion `int -> unsigned` is `% 2^32`.
* A `double` read from a fixed-column field is the exact rational value of the
  decimal literal in that field. Only plain decimal literals are accepted
  (optional sign, digits, optional point); the comparisons `==`, `<=`, `>=`
  made by the code on such values agree with the rational ones because
  rounding to binary64 is monotone and injective on literals of this width.
  A rational has no signed zero: the text `-0.000` is read as 0, and no
  statement is made on a field that holds it. Literals with an exponent and
  the spellings of infinity and of not-a-number are not converted.
* `std::map<K,V>` is a list of pairs kept in ascending key order, with the
  no-overwrite `insert` of the standard library.
* `PDB::Line_format<>` is embedded at its default argument
  `Mandatory_fields_default`.
* An iterator of a `std::map` is either singular (default-constructed) or the
  position before the entries that remain. Dereferencing or incrementing
  `end()`, and any use of a singular iterator, is undefined in C++ and is a stop
  here. The loops of `make_valid` and of `increment` over the chains or the
  residues are recursions on the entries that remain; the loops over the atoms of
  a model (`Selected_atom_iterator::increment`, the loop of a client from a begin
  iterator to an end iterator) take fuel, and `none` is the result of a run
  that is out of fuel.
* An accessor that returns a reference to an element (`get_model`, `get_chain`,
  `get_residue`, `get_atom`) returns the element here; the container is a value
  that such a call does not return, hence does not change. The counts
  `number_of_chains`, `number_of_residues` and `number_of_atoms` are natural
  numbers.
-/

namespace ESBTL

/-- A line of text (`std::string`). -/
abbrev Line := List Char

/-- The ways the process can stop. -/
inductive Fatal where
  | cannot_extract_field (fname : String)
  | field_is_empty (fname : String)
  | cannot_convert (s : List Char)
  | cannot_extract_charge
  | out_of_range
  | no_occupancy_policy
  | ambiguous_occupancy
  | assertion_failed (what : String)
  | cannot_find_model (i : Int)
  deriving DecidableEq, Repr

deriving instance DecidableEq for Except

/-! ## constants.h -/

def NO_CHARGE : Int := 66

/-- The macro `NO_FLOAT` is `std::numeric_limits<double>::max()`. -/
def NO_FLOAT : ℚ := 2 ^ 1024 - 2 ^ 971

def RMK : Int := 0

def DISCARD : Int := -1

/-! ## Strings -/

/-- The character after the last one of `c_str()`. -/
def NUL : Char := Char.ofNat 0

/-- The test `strncmp(s.c_str(), p, n) == 0` on NUL-terminated strings: at most
`n` characters are compared and the comparison stops after a common NUL. -/
def strncmp_eq : List Char → List Char → Nat → Bool
  | _, _, 0 => true
  | s, p, n + 1 =>
    if s.headD NUL ≠ p.headD NUL then false
    else if s.headD NUL = NUL then true
    else strncmp_eq s.tail p.tail n

/-- Whitespace in the classic locale (`std::isspace`). -/
def is_space (c : Char) : Bool :=
  c = ' ' || c = '\t' || c = '\n' || c = Char.ofNat 11 || c = Char.ofNat 12 || c = '\r'

/-- The function `boost::trim`: whitespace is removed at both ends. -/
def trim (s : List Char) : List Char :=
  ((s.dropWhile is_space).reverse.dropWhile is_space).reverse

/-- The call `s.substr(pos, n)`; `pos > s.size()` throws `std::out_of_range`. -/
def substr (s : List Char) (pos n : Nat) : Except Fatal (List Char) :=
  if pos > s.length then .error Fatal.out_of_range else .ok ((s.drop pos).take n)

/-! ## boost::lexical_cast -/

def digit_value (c : Char) : Option Nat :=
  if '0' ≤ c ∧ c ≤ '9' then some (c.toNat - 48) else none

/-- The value of a string of decimal digits, read left to right from `acc`. -/
def digits_value : Nat → List Char → Option Nat
  | acc, [] => some acc
  | acc, c :: cs =>
    match digit_value c with
    | some d => digits_value (10 * acc + d) cs
    | none => none

/-- A non-empty string of decimal digits. -/
def parse_digits (s : List Char) : Option Nat :=
  if s = [] then none else digits_value 0 s

/-- The cast `lexical_cast<int>`: an optional sign and decimal digits, the
whole string being consumed, with a value that fits a 32-bit `int`. -/
def lexical_cast_int (s : List Char) : Option Int :=
  match s with
  | '-' :: r => (parse_digits r).bind fun n => if n ≤ 2147483648 then some (-(n : Int)) else none
  | '+' :: r => (parse_digits r).bind fun n => if n < 2147483648 then some (n : Int) else none
  | r => (parse_digits r).bind fun n => if n < 2147483648 then some (n : Int) else none

/-- The unsigned part of a decimal literal `ddd`, `ddd.`, `.ddd` or `ddd.ddd`. -/
def parse_decimal (s : List Char) : Option ℚ :=
  let ip := s.takeWhile fun c => c ≠ '.'
  let rest := s.dropWhile fun c => c ≠ '.'
  let fp := rest.tail
  if ip = [] ∧ fp = [] then none
  else
    match digits_value 0 ip, digits_value 0 fp with
    | some i, some f => some ((i : ℚ) + (f : ℚ) / (10 : ℚ) ^ fp.length)
    | _, _ => none

/-- The cast `lexical_cast<double>` on plain decimal literals. -/
def lexical_cast_double (s : List Char) : Option ℚ :=
  match s with
  | '-' :: r => (parse_decimal r).map fun q => -q
  | '+' :: r => parse_decimal r
  | r => parse_decimal r

/-- The cast `lexical_cast<char>`: the string must hold one character. -/
def lexical_cast_char (s : List Char) : Option Char :=
  match s with
  | [c] => some c
  | _ => none

/-- The cast `lexical_cast<std::string>` copies its argument. -/
def lexical_cast_string (s : List Char) : Option (List Char) := some s

namespace PDB

/-! ## PDB.h -/

/-- The type of a line read in a PDB file. -/
inductive Record_type where
  | ATOM | HETATM | MODEL | ENDMDL | TER | END | ANISOU | CONECT | MASTER | UNKNOWN
  deriving DecidableEq, Repr

/-- The width of a field, `to-from+1` in `unsigned` arithmetic. -/
def field_width (frm upto : Nat) : Nat := (upto + 4294967296 - frm + 1) % 4294967296

/-- The template `extract_field<T>`, the conversion `lexical_cast<T>` being
the argument `cast`. -/
def extract_field {τ : Type} (cast : List Char → Option τ) (line : Line) (frm upto : Nat)
    (default_value : τ) (name : String) (is_mandatory : Bool) : Except Fatal τ :=
  match substr line frm (field_width frm upto) with
  | .error e => .error e
  | .ok sub =>
    let s := trim sub
    if s.length = 0 then
      if !is_mandatory then .ok default_value
      else .error (Fatal.field_is_empty name)
    else
      match cast s with
      | some v => .ok v
      | none => .error (Fatal.cannot_convert s)

/-- Which fields of a coordinate line are mandatory. -/
structure Mandatory_fields where
  record_name : Bool
  atom_serial_number : Bool
  atom_name : Bool
  alternate_location : Bool
  residue_name : Bool
  chain_identifier : Bool
  residue_sequence_number : Bool
  insertion_code : Bool
  x : Bool
  y : Bool
  z : Bool
  occupancy : Bool
  temperature_factor : Bool
  element : Bool
  charge_str : Bool
  model_number : Bool

def Mandatory_fields_default : Mandatory_fields where
  record_name := true
  atom_serial_number := true
  atom_name := true
  alternate_location := false
  residue_name := true
  chain_identifier := false
  residue_sequence_number := true
  insertion_code := false
  x := true
  y := true
  z := true
  occupancy := true
  temperature_factor := true
  element := true
  charge_str := false
  model_number := true

/-- The body that the preprocessor definition `RECOVER_FIELD(FNAME,TYPE,FROM,TO,DEF)`
gives to `get_FNAME`. -/
def RECOVER_FIELD {τ : Type} (cast : List Char → Option τ) (mandatory : Bool) (fname : String)
    (frm upto : Nat) (dflt : τ) (line : Line) : Except Fatal τ :=
  if line.length < upto then
    if !mandatory then .ok dflt
    else .error (Fatal.cannot_extract_field fname)
  else extract_field cast line frm upto dflt fname mandatory

/-- Helper class to extract fields from a line of a PDB file. -/
structure Line_format where
  type : Record_type
  deriving DecidableEq, Repr

namespace Line_format

/-- The constructor `Line_format(line)`: nine tests in sequence, a later match
replacing an earlier one. -/
def new (line : Line) : Line_format :=
  let t0 := Record_type.UNKNOWN
  let t1 := if strncmp_eq line "ATOM".toList 4 then Record_type.ATOM else t0
  let t2 := if strncmp_eq line "HETATM".toList 6 then Record_type.HETATM else t1
  let t3 := if strncmp_eq line "MODEL".toList 5 then Record_type.MODEL else t2
  let t4 := if strncmp_eq line "ENDMDL".toList 6 then Record_type.ENDMDL else t3
  let t5 := if strncmp_eq line "TER".toList 3 then Record_type.TER else t4
  let t6 := if strncmp_eq line "END".toList 3 then Record_type.END else t5
  let t7 := if strncmp_eq line "ANISOU".toList 6 then Record_type.ANISOU else t6
  let t8 := if strncmp_eq line "CONECT".toList 6 then Record_type.CONECT else t7
  let t9 := if strncmp_eq line "MASTER".toList 6 then Record_type.MASTER else t8
  { type := t9 }

def record_type (lf : Line_format) : Record_type := lf.type

def is_hetatm (lf : Line_format) : Bool := decide (lf.type = Record_type.HETATM)

def get_record_name (_lf : Line_format) (line : Line) : Except Fatal (List Char) :=
  RECOVER_FIELD lexical_cast_string Mandatory_fields_default.record_name "record_name" 0 5 [' '] line

def get_atom_serial_number (_lf : Line_format) (line : Line) : Except Fatal Int :=
  RECOVER_FIELD lexical_cast_int Mandatory_fields_default.atom_serial_number
    "atom_serial_number" 6 10 (-1) line

def get_atom_name (_lf : Line_format) (line : Line) : Except Fatal (List Char) :=
  RECOVER_FIELD lexical_cast_string Mandatory_fields_default.atom_name "atom_name" 12 15 [' '] line

def get_alternate_location (_lf : Line_format) (line : Line) : Except Fatal Char :=
  RECOVER_FIELD lexical_cast_char Mandatory_fields_default.alternate_location
    "alternate_location" 16 16 ' ' line

def get_residue_name (_lf : Line_format) (line : Line) : Except Fatal (List Char) :=
  RECOVER_FIELD lexical_cast_string Mandatory_fields_default.residue_name
    "residue_name" 17 19 [' '] line

def get_chain_identifier (_lf : Line_format) (line : Line) : Except Fatal Char :=
  RECOVER_FIELD lexical_cast_char Mandatory_fields_default.chain_identifier
    "chain_identifier" 21 21 ' ' line

def get_residue_sequence_number (_lf : Line_format) (line : Line) : Except Fatal Int :=
  RECOVER_FIELD lexical_cast_int Mandatory_fields_default.residue_sequence_number
    "residue_sequence_number" 22 25 (-1) line

def get_insertion_code (_lf : Line_format) (line : Line) : Except Fatal Char :=
  RECOVER_FIELD lexical_cast_char Mandatory_fields_default.insertion_code
    "insertion_code" 26 26 ' ' line

def get_x (_lf : Line_format) (line : Line) : Except Fatal ℚ :=
  RECOVER_FIELD lexical_cast_double Mandatory_fields_default.x "x" 30 37 NO_FLOAT line

def get_y (_lf : Line_format) (line : Line) : Except Fatal ℚ :=
  RECOVER_FIELD lexical_cast_double Mandatory_fields_default.y "y" 38 45 NO_FLOAT line

def get_z (_lf : Line_format) (line : Line) : Except Fatal ℚ :=
  RECOVER_FIELD lexical_cast_double Mandatory_fields_default.z "z" 46 53 NO_FLOAT line

def get_occupancy (_lf : Line_format) (line : Line) : Except Fatal ℚ :=
  RECOVER_FIELD lexical_cast_double Mandatory_fields_default.occupancy
    "occupancy" 54 59 NO_FLOAT line

def get_temperature_factor (_lf : Line_format) (line : Line) : Except Fatal ℚ :=
  RECOVER_FIELD lexical_cast_double Mandatory_fields_default.temperature_factor
    "temperature_factor" 60 65 NO_FLOAT line

def get_element (_lf : Line_format) (line : Line) : Except Fatal (List Char) :=
  RECOVER_FIELD lexical_cast_string Mandatory_fields_default.element "element" 76 77 [' '] line

/-- Extract the field charge as a string. -/
def get_charge_str (_lf : Line_format) (line : Line) : Except Fatal (List Char) :=
  RECOVER_FIELD lexical_cast_string Mandatory_fields_default.charge_str
    "charge_str" 78 79 [' '] line

/-- Extract the field charge as an integer. -/
def get_charge (lf : Line_format) (line : Line) : Except Fatal Int :=
  match get_charge_str lf line with
  | .error e => .error e
  | .ok charge_str =>
    if charge_str = [' '] then .ok NO_CHARGE
    else
      let sign : Except Fatal Int :=
        if charge_str.length = 2 then
          if charge_str.getD 1 NUL = '-' then .ok (-1)
          else if charge_str.getD 1 NUL ≠ '+' then .error Fatal.cannot_extract_charge
          else .ok 1
        else .ok 1
      match sign with
      | .error e => .error e
      | .ok ch =>
        match lexical_cast_int [charge_str.getD 0 NUL] with
        | some v => .ok (ch * v)
        | none => .error (Fatal.cannot_convert [charge_str.getD 0 NUL])

def get_model_number (_lf : Line_format) (line : Line) : Except Fatal Int :=
  RECOVER_FIELD lexical_cast_int Mandatory_fields_default.model_number "model_number" 10 13 (-1) line

end Line_format

end PDB

open PDB

/-! ## std::map -/

/-- The member `find` of `std::map` on the ascending list of its entries, for
the key order `lt`: keys are equal when neither is less than the other. -/
def map_find {κ ν : Type} (lt : κ → κ → Bool) (k : κ) : List (κ × ν) → Option ν
  | [] => none
  | (k1, v1) :: rest =>
    if lt k1 k then map_find lt k rest
    else if lt k k1 then none
    else some v1

/-- The member `insert` of `std::map`: the entry is placed in key order, and
nothing changes when the key is already there. -/
def map_insert {κ ν : Type} (lt : κ → κ → Bool) (k : κ) (v : ν) : List (κ × ν) → List (κ × ν)
  | [] => [(k, v)]
  | (k1, v1) :: rest =>
    if lt k1 k then (k1, v1) :: map_insert lt k v rest
    else if lt k k1 then (k, v) :: (k1, v1) :: rest
    else (k1, v1) :: rest

/-- A write through the reference `it->second` of the entry found for `k`. -/
def map_assign {κ ν : Type} (lt : κ → κ → Bool) (k : κ) (v : ν) : List (κ × ν) → List (κ × ν)
  | [] => []
  | (k1, v1) :: rest =>
    if lt k1 k then (k1, v1) :: map_assign lt k v rest
    else if lt k k1 then (k1, v1) :: rest
    else (k1, v) :: rest

/-- The order of `int` keys. -/
def int_lt (a b : Int) : Bool := decide (a < b)

/-- The order of `unsigned` keys. -/
def unsigned_lt (a b : Nat) : Bool := decide (a < b)

/-- The order of `char` keys, by character code. -/
def char_lt (a b : Char) : Bool := decide (a.toNat < b.toNat)

/-- The order of `double` keys. -/
def double_lt (a b : ℚ) : Bool := decide (a < b)

/-- The order of `std::pair<int,char>` keys: lexicographic. -/
def pair_lt (a b : Int × Char) : Bool :=
  int_lt a.1 b.1 || (!int_lt b.1 a.1 && char_lt a.2 b.2)

/-- The conversion of an `int` to `unsigned`. -/
def to_unsigned (i : Int) : Nat := (i % 4294967296).toNat

/-! ## molecular_system.h -/

/-- The class `Molecular_atom`: a point and the fields of a coordinate line. The
pointer to the owning residue is the position of the atom in the hierarchy. -/
structure Molecular_atom where
  x : ℚ
  y : ℚ
  z : ℚ
  is_hetatm : Bool
  atom_serial_number : Int
  atom_name : List Char
  alternate_location : Char
  occupancy : ℚ
  temperature_factor : ℚ
  element : List Char
  charge : Int
  deriving DecidableEq

/-- The class `Molecular_residue`. -/
structure Molecular_residue where
  residue_name : List Char
  residue_sequence_number : Int
  insertion_code : Char
  atom_container : List (Nat × Molecular_atom)
  deriving DecidableEq

/-- The class `Molecular_chain`. -/
structure Molecular_chain where
  chain_identifier : Char
  residue_container : List ((Int × Char) × Molecular_residue)
  deriving DecidableEq

/-- The class `Molecular_model`. -/
structure Molecular_model where
  model_number : Int
  chain_container : List (Char × Molecular_chain)
  deriving DecidableEq

/-- The class `Molecular_system`. -/
structure Molecular_system where
  name : List Char
  index : Int
  alternate_location : Char
  model_container : List (Int × Molecular_model)
  deriving DecidableEq

namespace Molecular_atom

/-- The constructor `Molecular_atom(line_format, line, res)`. -/
def new (lf : Line_format) (line : Line) : Except Fatal Molecular_atom := do
  let x ← lf.get_x line
  let y ← lf.get_y line
  let z ← lf.get_z line
  let sn ← lf.get_atom_serial_number line
  let name ← lf.get_atom_name line
  let altloc ← lf.get_alternate_location line
  let occ ← lf.get_occupancy line
  let tf ← lf.get_temperature_factor line
  let el ← lf.get_element line
  let ch ← lf.get_charge line
  pure { x := x, y := y, z := z, is_hetatm := lf.is_hetatm, atom_serial_number := sn,
         atom_name := name, alternate_location := altloc, occupancy := occ,
         temperature_factor := tf, element := el, charge := ch }

end Molecular_atom

namespace Molecular_residue

/-- The constructor `Molecular_residue(line_format, line, ch)`. -/
def new (lf : Line_format) (line : Line) : Except Fatal Molecular_residue := do
  let rn ← lf.get_residue_name line
  let sn ← lf.get_residue_sequence_number line
  let ic ← lf.get_insertion_code line
  pure { residue_name := rn, residue_sequence_number := sn, insertion_code := ic,
         atom_container := [] }

/-- The member `add_atom`: the serial number is read, the assertion that it is
not yet a key is checked, the atom is built and inserted. -/
def add_atom (r : Molecular_residue) (lf : Line_format) (line : Line) :
    Except Fatal Molecular_residue := do
  let sn ← lf.get_atom_serial_number line
  if (map_find unsigned_lt (to_unsigned sn) r.atom_container).isSome then
    throw (Fatal.assertion_failed "Two atoms with same serial numbers.")
  else
    let atom ← Molecular_atom.new lf line
    pure { r with atom_container := map_insert unsigned_lt (to_unsigned sn) atom r.atom_container }

def number_of_atoms (r : Molecular_residue) : Nat := r.atom_container.length

/-- The atoms of the residue, in the order of the container. -/
def atoms (r : Molecular_residue) : List Molecular_atom := r.atom_container.map Prod.snd

/-- The member `get_atom(sn)`, with its assertion. -/
def get_atom (r : Molecular_residue) (sn : Nat) : Except Fatal Molecular_atom :=
  match map_find unsigned_lt sn r.atom_container with
  | some a => pure a
  | none => throw (Fatal.assertion_failed "atom_container_.find(sn)!=atom_container_.end()")

end Molecular_residue

namespace Molecular_chain

/-- The member `get_or_create_residue(line_format, line)`: the chain after the
call, the key of the residue and the residue referred to. -/
def get_or_create_residue (c : Molecular_chain) (lf : Line_format) (line : Line) :
    Except Fatal (Molecular_chain × (Int × Char) × Molecular_residue) := do
  let ressn ← lf.get_residue_sequence_number line
  let insc ← lf.get_insertion_code line
  match map_find pair_lt (ressn, insc) c.residue_container with
  | some r => pure (c, (ressn, insc), r)
  | none =>
    let r ← Molecular_residue.new lf line
    pure ({ c with residue_container := map_insert pair_lt (ressn, insc) r c.residue_container },
          (ressn, insc), r)

/-- The member `get_residue(ressn, insc)`, with its assertion. -/
def get_residue (c : Molecular_chain) (ressn : Int) (insc : Char) : Except Fatal Molecular_residue :=
  match map_find pair_lt (ressn, insc) c.residue_container with
  | some r => pure r
  | none => throw (Fatal.assertion_failed "it!=residue_container_.end()")

def number_of_residues (c : Molecular_chain) : Nat := c.residue_container.length

/-- The atoms of the chain, residue after residue. -/
def atoms (c : Molecular_chain) : List Molecular_atom :=
  c.residue_container.flatMap fun e => e.2.atoms

def number_of_atoms (c : Molecular_chain) : Nat :=
  c.residue_container.foldl (fun total e => total + e.2.number_of_atoms) 0

end Molecular_chain

namespace Molecular_model

/-- The constructor `Molecular_model(nbm, sys)`. -/
def new (nbm : Int) : Molecular_model := { model_number := nbm, chain_container := [] }

/-- The member `get_or_create_chain(line_format, line)`: the model after the
call, the key of the chain and the chain referred to. -/
def get_or_create_chain (m : Molecular_model) (lf : Line_format) (line : Line) :
    Except Fatal (Molecular_model × Char × Molecular_chain) := do
  let ch ← lf.get_chain_identifier line
  match map_find char_lt ch m.chain_container with
  | some c => pure (m, ch, c)
  | none =>
    let id ← lf.get_chain_identifier line
    let c : Molecular_chain := { chain_identifier := id, residue_container := [] }
    pure ({ m with chain_container := map_insert char_lt ch c m.chain_container }, ch, c)

/-- The member `get_chain(id)`, with its assertion. -/
def get_chain (m : Molecular_model) (id : Char) : Except Fatal Molecular_chain :=
  match map_find char_lt id m.chain_container with
  | some c => pure c
  | none => throw (Fatal.assertion_failed "itch!=chain_container_.end()")

/-- The member `get_residue(ch_id, ressn, insc)`. -/
def get_residue (m : Molecular_model) (ch_id : Char) (ressn : Int) (insc : Char) :
    Except Fatal Molecular_residue := do
  let c ← m.get_chain ch_id
  c.get_residue ressn insc

/-- The member `get_atom(ch_id, ressn, insc, atom_sn)`. -/
def get_atom (m : Molecular_model) (ch_id : Char) (ressn : Int) (insc : Char) (atom_sn : Nat) :
    Except Fatal Molecular_atom := do
  let c ← m.get_chain ch_id
  let r ← c.get_residue ressn insc
  r.get_atom atom_sn

def number_of_chains (m : Molecular_model) : Nat := m.chain_container.length

/-- The atoms of the model, chain after chain. -/
def atoms (m : Molecular_model) : List Molecular_atom :=
  m.chain_container.flatMap fun e => e.2.atoms

def number_of_residues (m : Molecular_model) : Nat :=
  m.chain_container.foldl (fun total e => total + e.2.number_of_residues) 0

def number_of_atoms (m : Molecular_model) : Nat :=
  m.chain_container.foldl (fun total e => total + e.2.number_of_atoms) 0

end Molecular_model

namespace Molecular_system

/-- The constructor `Molecular_system(index, name)` with the default name. -/
def new (index : Int) : Molecular_system :=
  { name := "no_name".toList, index := index, alternate_location := ' ', model_container := [] }

def has_no_model (s : Molecular_system) : Bool := s.model_container.isEmpty

def has_model (s : Molecular_system) (i : Int) : Bool :=
  (map_find int_lt i s.model_container).isSome

def number_of_models (s : Molecular_system) : Nat := s.model_container.length

/-- The atoms of the system, model after model. -/
def atoms (s : Molecular_system) : List Molecular_atom :=
  s.model_container.flatMap fun e => e.2.atoms

def set_altloc (s : Molecular_system) (c : Char) : Molecular_system :=
  { s with alternate_location := c }

/-- The member `get_or_create_model(i)`: the system after the call and the
model referred to. -/
def get_or_create_model (s : Molecular_system) (i : Int) : Molecular_system × Molecular_model :=
  match map_find int_lt i s.model_container with
  | some m => (s, m)
  | none =>
    ({ s with model_container := map_insert int_lt i (Molecular_model.new i) s.model_container },
     Molecular_model.new i)

/-- The member `get_model(i)`. -/
def get_model (s : Molecular_system) (i : Int) : Except Fatal Molecular_model :=
  match map_find int_lt i s.model_container with
  | some m => pure m
  | none => throw (Fatal.cannot_find_model i)

/-- The member `interpret_line`: the descent through model, chain and residue
by references, then `add_atom`; the writes made through the references are put
back level by level. -/
def interpret_line (s : Molecular_system) (lf : Line_format) (line : Line) (current_model : Int) :
    Except Fatal Molecular_system := do
  let (s1, model) := s.get_or_create_model current_model
  let (model1, ch, chain) ← model.get_or_create_chain lf line
  let (chain1, rk, residue) ← chain.get_or_create_residue lf line
  let residue1 ← residue.add_atom lf line
  let chain2 : Molecular_chain :=
    { chain1 with residue_container := map_assign pair_lt rk residue1 chain1.residue_container }
  let model2 : Molecular_model :=
    { model1 with chain_container := map_assign char_lt ch chain2 model1.chain_container }
  pure { s1 with model_container := map_assign int_lt current_model model2 s1.model_container }

end Molecular_system

/-! ## global_functions.h, on a pair of a line format and a line -/

/-- Check if an atom is an hydrogen. -/
def is_hydrogen (lf : Line_format) (line : Line) : Except Fatal Bool := do
  let el ← lf.get_element line
  pure (decide (el = "H".toList))

/-- Check if an atom belongs to a water molecule. -/
def is_water (lf : Line_format) (line : Line) : Except Fatal Bool := do
  let resname ← lf.get_residue_name line
  pure (decide (resname = "HOH".toList) || decide (resname = "SOL".toList)
        || decide (resname = "WAT".toList))

/-! ## builder.h -/

/-- The class `All_atom_system_builder`. The capacity of the container is not
part of the state: the assertion on it and the unchecked access
`systems_[system_info-1]` are one test against the size. -/
structure All_atom_system_builder where
  current_model : Int
  systems_ : List Molecular_system
  prebuilt_systems : Bool
  max_systems : Nat
  deriving DecidableEq

namespace All_atom_system_builder

/-- The constructor: `max_systems_` systems numbered from 1 are appended. -/
def new (systems : List Molecular_system) (max_systems_ : Nat) : All_atom_system_builder :=
  { current_model := 1,
    systems_ := systems ++ (List.range max_systems_).map fun i => Molecular_system.new ((i : Int) + 1),
    prebuilt_systems := true,
    max_systems := max_systems_ }

/-- The member `interpret_line`. -/
def interpret_line (b : All_atom_system_builder) (lf : Line_format) (line : Line)
    (system_info : Int) : Except Fatal All_atom_system_builder :=
  if system_info = RMK then
    if lf.record_type = Record_type.MODEL then do
      let n ← lf.get_model_number line
      pure { b with current_model := n }
    else pure b
  else
    let systems1 :=
      if !b.prebuilt_systems && decide ((b.systems_.length : Int) < system_info) then
        b.systems_ ++ [Molecular_system.new system_info]
      else b.systems_
    if system_info < 1 ∨ (systems1.length : Int) < system_info then
      throw Fatal.out_of_range
    else
      match systems1.get? (system_info - 1).toNat with
      | none => throw Fatal.out_of_range
      | some sys => do
        let sys1 ← sys.interpret_line lf line b.current_model
        pure { b with systems_ := systems1.set (system_info - 1).toNat sys1 }

/-- The member `create_systems`. -/
def create_systems (b : All_atom_system_builder) (altloc : Char) : All_atom_system_builder :=
  { b with systems_ := b.systems_.map fun s => s.set_altloc altloc }

/-- The atoms of the systems of the container. -/
def atoms (b : All_atom_system_builder) : List Molecular_atom :=
  b.systems_.flatMap fun s => s.atoms

/-- A sequence of calls of `interpret_line`, each on a line and the integer
given for it, the line format being built from the line. -/
def interpret_lines (b : All_atom_system_builder) :
    List (Line × Int) → Except Fatal All_atom_system_builder
  | [] => pure b
  | (line, system_info) :: rest =>
    match b.interpret_line (Line_format.new line) line system_info with
    | .error e => .error e
    | .ok b1 => interpret_lines b1 rest

end All_atom_system_builder

/-- Whether a call gives a MODEL record to the builder as a remark. -/
def is_MODEL_call (c : Line × Int) : Bool :=
  decide (c.2 = RMK) && decide ((Line_format.new c.1).record_type = Record_type.MODEL)

/-- The model number in force after a sequence of calls, in the words of the
specification: 1 when no MODEL record came, else the number carried by the
last MODEL record. -/
def model_number_in_force (calls : List (Line × Int)) : Int :=
  match (calls.filter is_MODEL_call).getLast? with
  | none => 1
  | some c =>
    match (Line_format.new c.1).get_model_number c.1 with
    | .ok n => n
    | .error _ => 1

/-! ## occupancy_handlers.h -/

/-- The concept of an occupancy policy with state `π`: `add_or_postpone` gives
the state after the call and the integer returned; `finalize` is given the
member `interpret_line` of the builder it is called with, and gives the builder
after the call and the integer returned. -/
structure Occupancy_policy (π : Type) where
  add_or_postpone : π → Line_format → Line → Int → Except Fatal (π × Int)
  finalize : {β : Type} → (β → Line_format → Line → Int → Except Fatal β) → π → β →
    Except Fatal (β × Int)

/-- The class `No_occupancy_policy`. -/
def No_occupancy_policy : Occupancy_policy Unit where
  add_or_postpone := fun p lf line system_index => do
    let occupancy_value ← lf.get_occupancy line
    if occupancy_value = 1 then pure (p, system_index)
    else
      let altloc ← lf.get_alternate_location line
      if altloc ≠ ' ' then pure (p, system_index)
      else throw Fatal.no_occupancy_policy
  finalize := fun _ _ b => pure (b, 0)

/-- The class `Accept_all_occupancy_policy`. -/
def Accept_all_occupancy_policy : Occupancy_policy Unit where
  add_or_postpone := fun p _ _ system_index => pure (p, system_index)
  finalize := fun _ _ b => pure (b, 0)

/-- The class `Accept_none_occupancy_policy`. -/
def Accept_none_occupancy_policy : Occupancy_policy Unit where
  add_or_postpone := fun p lf line system_index => do
    let occupancy_value ← lf.get_occupancy line
    if occupancy_value = 1 then pure (p, system_index)
    else
      let altloc ← lf.get_alternate_location line
      if altloc ≠ ' ' then pure (p, system_index)
      else pure (p, DISCARD)
  finalize := fun _ _ b => pure (b, 0)

/-- The state of `internal::Min_or_max_occupancy_policy`. -/
structure Min_or_max_state where
  lines : List (ℚ × (Int × List Line))
  min_or_max_occupancy : ℚ
  deriving DecidableEq

namespace Min_or_max_occupancy_policy

/-- The constructor. -/
def new (take_max : Bool) : Min_or_max_state :=
  { lines := [], min_or_max_occupancy := if take_max then 0 else 1 }

/-- The member `add_line`: the entry of the occupancy value is created with the
system index when it is missing, then the line is appended to its list. -/
def add_line (p : Min_or_max_state) (occupancy_value : ℚ) (line : Line) (system_index : Int) :
    Min_or_max_state :=
  match map_find double_lt occupancy_value p.lines with
  | some e =>
    { p with lines := map_assign double_lt occupancy_value (e.1, e.2 ++ [line]) p.lines }
  | none =>
    let lines1 := map_insert double_lt occupancy_value (system_index, []) p.lines
    { p with lines := map_assign double_lt occupancy_value (system_index, [line]) lines1 }

/-- The member `add_or_postpone`. -/
def add_or_postpone (take_max : Bool) (p : Min_or_max_state) (lf : Line_format) (line : Line)
    (system_index : Int) : Except Fatal (Min_or_max_state × Int) := do
  let occupancy_value ← lf.get_occupancy line
  if occupancy_value = 1 then pure (p, system_index)
  else
    let altloc ← lf.get_alternate_location line
    if altloc ≠ ' ' then pure (p, system_index)
    else
      let do_take_it : Bool :=
        if take_max then decide (occupancy_value ≥ p.min_or_max_occupancy)
        else decide (occupancy_value ≤ p.min_or_max_occupancy)
      if do_take_it then
        pure ({ add_line p occupancy_value line system_index with
                min_or_max_occupancy := occupancy_value }, DISCARD)
      else pure (p, DISCARD)

/-- The loop of `finalize` over the lines of one entry. -/
def replay {β : Type} (interpret_line : β → Line_format → Line → Int → Except Fatal β)
    (system_index : Int) : List Line → β → Int → Except Fatal (β × Int)
  | [], b, lines_added => pure (b, lines_added)
  | cur :: rest, b, lines_added => do
    let b1 ← interpret_line b (Line_format.new cur) cur system_index
    replay interpret_line system_index rest b1 (lines_added + 1)

/-- The member `finalize`. Dereferencing the end iterator, when the running
extremum is not a key, is undefined and modelled as a stop. -/
def finalize {β : Type} (interpret_line : β → Line_format → Line → Int → Except Fatal β)
    (p : Min_or_max_state) (b : β) : Except Fatal (β × Int) :=
  if p.lines.isEmpty then pure (b, 0)
  else if p.min_or_max_occupancy = 1 / 2 then throw Fatal.ambiguous_occupancy
  else
    match map_find double_lt p.min_or_max_occupancy p.lines with
    | none => throw Fatal.out_of_range
    | some e => replay interpret_line e.1 e.2 b 0

end Min_or_max_occupancy_policy

/-- A sequence of calls of `add_or_postpone`, each on a line and the system
index given for it, the line format being built from the line. -/
def Min_or_max_occupancy_policy.add_or_postpone_all (take_max : Bool) (p : Min_or_max_state) :
    List (Line × Int) → Except Fatal Min_or_max_state
  | [] => pure p
  | (line, system_index) :: rest =>
    match Min_or_max_occupancy_policy.add_or_postpone take_max p (Line_format.new line) line
        system_index with
    | .error e => .error e
    | .ok (p1, _) => Min_or_max_occupancy_policy.add_or_postpone_all take_max p1 rest

/-- The class `Max_occupancy_policy`. -/
def Max_occupancy_policy : Occupancy_policy Min_or_max_state where
  add_or_postpone := Min_or_max_occupancy_policy.add_or_postpone true
  finalize := fun interp p b => Min_or_max_occupancy_policy.finalize interp p b

/-- The class `Min_occupancy_policy`. -/
def Min_occupancy_policy : Occupancy_policy Min_or_max_state where
  add_or_postpone := Min_or_max_occupancy_policy.add_or_postpone false
  finalize := fun interp p b => Min_or_max_occupancy_policy.finalize interp p b

/-- The class `Atom_list_occupancy_policy`, its state being the set
`selected_atoms`. -/
def Atom_list_occupancy_policy : Occupancy_policy (List Int) where
  add_or_postpone := fun selected_atoms lf line system_index => do
    let occupancy_value ← lf.get_occupancy line
    if occupancy_value = 1 then pure (selected_atoms, system_index)
    else
      let altloc ← lf.get_alternate_location line
      if altloc ≠ ' ' then pure (selected_atoms, system_index)
      else
        let sn ← lf.get_atom_serial_number line
        if sn ∈ selected_atoms then pure (selected_atoms, system_index)
        else pure (selected_atoms, DISCARD)
  finalize := fun _ _ b => pure (b, 0)

/-! ## line_selectors.h -/

/-- The class `PDB_line_selector`. -/
structure PDB_line_selector where
  discarded : Int
  deriving DecidableEq

namespace PDB_line_selector

def new : PDB_line_selector := { discarded := 0 }

/-- The member `keep`. -/
def keep {π : Type} (occ : Occupancy_policy π) (self : PDB_line_selector) (lf : Line_format)
    (line : Line) (occupancy : π) : Except Fatal (PDB_line_selector × π × Int) :=
  if lf.record_type = Record_type.ATOM ∨ lf.record_type = Record_type.HETATM then do
    let (occupancy1, r) ← occ.add_or_postpone occupancy lf line 1
    pure (self, occupancy1, r)
  else if lf.record_type = Record_type.MODEL then pure (self, occupancy, RMK)
  else pure ({ self with discarded := self.discarded + 1 }, occupancy, DISCARD)

def max_nb_systems (_self : PDB_line_selector) : Nat := 1

end PDB_line_selector

/-- The class `PDB_line_selector_two_systems`, which has no data member. -/
structure PDB_line_selector_two_systems where
  deriving DecidableEq

namespace PDB_line_selector_two_systems

/-- The member `keep`. -/
def keep {π : Type} (occ : Occupancy_policy π) (self : PDB_line_selector_two_systems)
    (lf : Line_format) (line : Line) (occupancy : π) :
    Except Fatal (PDB_line_selector_two_systems × π × Int) :=
  if lf.record_type = Record_type.ATOM ∨ lf.record_type = Record_type.HETATM then do
    if (← is_hydrogen lf line) then pure (self, occupancy, DISCARD)
    else if (← is_water lf line) then
      let (occupancy1, r) ← occ.add_or_postpone occupancy lf line 2
      pure (self, occupancy1, r)
    else
      let (occupancy1, r) ← occ.add_or_postpone occupancy lf line 1
      pure (self, occupancy1, r)
  else if lf.record_type = Record_type.MODEL then pure (self, occupancy, RMK)
  else pure (self, occupancy, DISCARD)

def max_nb_systems (_self : PDB_line_selector_two_systems) : Nat := 2

end PDB_line_selector_two_systems

/-! ## line_reader.h -/

/-- The local state of the loop of `read_stream`. -/
structure Reader_state (σ π β : Type) where
  line_selector : σ
  occupancy : π
  builder : β
  default_altloc : Char
  nblines : Int

namespace Line_reader

/-- The end of a turn of the loop: the line goes to the builder and is counted. -/
def pass_line {σ π β : Type}
    (interpret_line : β → Line_format → Line → Int → Except Fatal β)
    (st : Reader_state σ π β) (line_format : Line_format) (line : Line) (system_index : Int) :
    Except Fatal (Reader_state σ π β) :=
  match interpret_line st.builder line_format line system_index with
  | .error e => .error e
  | .ok b1 => pure { st with builder := b1, nblines := st.nblines + 1 }

/-- One turn of the loop of `read_stream`, on the line given by `getline`. -/
def read_line {σ π β : Type}
    (keep : σ → Line_format → Line → π → Except Fatal (σ × π × Int))
    (interpret_line : β → Line_format → Line → Int → Except Fatal β)
    (st : Reader_state σ π β) (line : Line) : Except Fatal (Reader_state σ π β) :=
  if line.isEmpty then pure st
  else
    let line_format := Line_format.new line
    match keep st.line_selector line_format line st.occupancy with
    | .error e => .error e
    | .ok (sel1, occ1, system_index) =>
      let st1 : Reader_state σ π β := { st with line_selector := sel1, occupancy := occ1 }
      if system_index ≠ DISCARD then
        match line_format.get_alternate_location line with
        | .error e => .error e
        | .ok altloc =>
          if altloc ≠ ' ' then
            if st1.default_altloc = ' ' then
              pass_line interpret_line { st1 with default_altloc := altloc } line_format line
                system_index
            else if altloc ≠ st1.default_altloc then pure st1
            else pass_line interpret_line st1 line_format line system_index
          else pass_line interpret_line st1 line_format line system_index
      else pure st1

/-- The loop of `read_stream` over the lines of the input. -/
def read_lines {σ π β : Type}
    (keep : σ → Line_format → Line → π → Except Fatal (σ × π × Int))
    (interpret_line : β → Line_format → Line → Int → Except Fatal β) :
    List Line → Reader_state σ π β → Except Fatal (Reader_state σ π β)
  | [], st => pure st
  | line :: rest, st =>
    match read_line keep interpret_line st line with
    | .error e => .error e
    | .ok st1 => read_lines keep interpret_line rest st1

/-- The member `read_stream`: the selector, the builder and the number of lines
read when it returns. The input is the list of the lines that `getline` gives
until the end of the stream. -/
def read_stream {σ π β : Type}
    (keep : σ → Line_format → Line → π → Except Fatal (σ × π × Int))
    (finalize : π → β → Except Fatal (β × Int))
    (interpret_line : β → Line_format → Line → Int → Except Fatal β)
    (create_systems : β → Char → β)
    (line_selector : σ) (builder : β) (input : List Line) (occupancy : π) (default_altloc : Char) :
    Except Fatal (σ × β × Int) :=
  match read_lines keep interpret_line input
      { line_selector := line_selector, occupancy := occupancy, builder := builder,
        default_altloc := default_altloc, nblines := 0 } with
  | .error e => .error e
  | .ok st =>
    match finalize st.occupancy st.builder with
    | .error e => .error e
    | .ok (b1, added) => pure (st.line_selector, create_systems b1 st.default_altloc, st.nblines + added)

end Line_reader

/-! ## line_selectors.h: the selector by chains -/

/-- The class `PDB_line_selector_chain`. -/
structure PDB_line_selector_chain where
  system_index_map_ : List (Char × Int)
  keep_hydrogen_ : Bool
  keep_water_ : Bool
  keep_remaining_chains_ : Bool
  Water_Bfactorlim_ : ℚ
  max_chain_index : Int
  nb_atm_htm_seen_ : Nat
  discarded : Int
  deriving DecidableEq

namespace PDB_line_selector_chain

/-- The inner loop of the constructor: every character of one string is
inserted with the index of the string. -/
def insert_group (m : List (Char × Int)) (index : Int) : List Char → List (Char × Int)
  | [] => m
  | c :: cs => insert_group (map_insert char_lt c index m) index cs

/-- The outer loop of the constructor over the range of strings, on the map
and `max_chain_index`. -/
def insert_groups : List (List Char) → List (Char × Int) × Int → List (Char × Int) × Int
  | [], st => st
  | str :: rest, (m, max_chain_index) =>
    insert_groups rest (insert_group m (max_chain_index + 1) str, max_chain_index + 1)

/-- The constructor from a range of strings and the four flags. -/
def new (groups : List (List Char)) (keep_water keep_remaining_chains : Bool)
    (Water_Bfactorlim : ℚ) (keep_hydrogen : Bool) : PDB_line_selector_chain :=
  { system_index_map_ := (insert_groups groups ([], 0)).1,
    keep_hydrogen_ := keep_hydrogen,
    keep_water_ := keep_water,
    keep_remaining_chains_ := keep_remaining_chains,
    Water_Bfactorlim_ := Water_Bfactorlim,
    max_chain_index := (insert_groups groups ([], 0)).2,
    nb_atm_htm_seen_ := 0,
    discarded := 0 }

/-- The member `keep`. -/
def keep {π : Type} (occ : Occupancy_policy π) (self : PDB_line_selector_chain)
    (lf : Line_format) (line : Line) (occupancy : π) :
    Except Fatal (PDB_line_selector_chain × π × Int) :=
  if lf.record_type = Record_type.ATOM ∨ lf.record_type = Record_type.HETATM then do
    let ch ← lf.get_chain_identifier line
    let it := map_find char_lt ch self.system_index_map_
    let self1 : PDB_line_selector_chain :=
      { self with nb_atm_htm_seen_ := (self.nb_atm_htm_seen_ + 1) % 4294967296 }
    let hydrogen ← if !self.keep_hydrogen_ then is_hydrogen lf line else pure false
    if hydrogen then pure (self1, occupancy, DISCARD)
    else if (← is_water lf line) then
      if !self.keep_water_ then pure (self1, occupancy, DISCARD)
      else if (← lf.get_temperature_factor line) > self.Water_Bfactorlim_ then
        pure (self1, occupancy, DISCARD)
      else
        let (occupancy1, r) ← occ.add_or_postpone occupancy lf line (self.max_chain_index + 1)
        pure (self1, occupancy1, r)
    else
      match it with
      | none =>
        if self.keep_remaining_chains_ then
          let (occupancy1, r) ← occ.add_or_postpone occupancy lf line
            (self.max_chain_index + (if self.keep_water_ then 2 else 1))
          pure (self1, occupancy1, r)
        else pure (self1, occupancy, DISCARD)
      | some index =>
        let (occupancy1, r) ← occ.add_or_postpone occupancy lf line index
        pure (self1, occupancy1, r)
  else if lf.record_type = Record_type.MODEL then pure (self, occupancy, RMK)
  else pure ({ self with discarded := self.discarded + 1 }, occupancy, DISCARD)

/-- The member `max_nb_systems`, an `unsigned`. -/
def max_nb_systems (self : PDB_line_selector_chain) : Nat :=
  to_unsigned (self.max_chain_index + (if self.keep_water_ then 1 else 0)
    + (if self.keep_remaining_chains_ then 1 else 0))

end PDB_line_selector_chain

/-! ## atom_selectors.h, on a pair of a line format and a line -/

/-- The concept of an atom selection: a function object called on an atom, here
on a line format and a line. -/
abbrev Atom_selection := Line_format → Line → Except Fatal Bool

/-- The class `Select_by_resname`. -/
def Select_by_resname (name : List Char) : Atom_selection := fun lf line => do
  let resname ← lf.get_residue_name line
  pure (decide (resname = name))

/-- The class `Select_by_atmname`. -/
def Select_by_atmname (name : List Char) : Atom_selection := fun lf line => do
  let atmname ← lf.get_atom_name line
  pure (decide (atmname = name))

/-- The class `Select_by_element`. -/
def Select_by_element (name : List Char) : Atom_selection := fun lf line => do
  let el ← lf.get_element line
  pure (decide (el = name))

/-- The class `Select_by_chainids`, the set of characters being given by the
string of the constructor. -/
def Select_by_chainids (chs : List Char) : Atom_selection := fun lf line => do
  let ch ← lf.get_chain_identifier line
  pure (decide (ch ∈ chs))

/-! ## line_selectors.h: the generic selector -/

/-- The class template `internal::Generic_line_selector_base<T...>`: its
specialization for one parameter, and the one for a first parameter and a
non-empty rest. The classes `Generic_line_selector<T1,...>` for one to ten
parameters unroll the same recursion. -/
inductive Generic_line_selector_base where
  | one (t0_ : Atom_selection)
  | more (t0_ : Atom_selection) (base : Generic_line_selector_base)

namespace Generic_line_selector_base

/-- The constant `nb_system`. -/
def nb_system : Generic_line_selector_base → Nat
  | one _ => 1
  | more _ base => base.nb_system + 1

/-- The member `operator()`. -/
def call : Generic_line_selector_base → Line_format → Line → Except Fatal Int
  | one t0_, lf, line => do
    if (← t0_ lf line) then pure 1
    else pure (-1)
  | more t0_ base, lf, line => do
    if (← t0_ lf line) then pure 1
    else
      let ret ← base.call lf line
      if ret ≠ -1 then pure (ret + 1)
      else pure (-1)

end Generic_line_selector_base

/-- The class `Generic_line_selector<T...>`. -/
abbrev Generic_line_selector := Generic_line_selector_base

namespace Generic_line_selector

/-- The member `keep`. -/
def keep {π : Type} (occ : Occupancy_policy π) (self : Generic_line_selector)
    (lf : Line_format) (line : Line) (occupancy : π) :
    Except Fatal (Generic_line_selector × π × Int) :=
  if lf.record_type = Record_type.ATOM ∨ lf.record_type = Record_type.HETATM then do
    let ret ← Generic_line_selector_base.call self lf line
    if ret ≠ -1 then
      let (occupancy1, r) ← occ.add_or_postpone occupancy lf line ret
      pure (self, occupancy1, r)
    else pure (self, occupancy, DISCARD)
  else if lf.record_type = Record_type.MODEL then pure (self, occupancy, RMK)
  else pure (self, occupancy, DISCARD)

/-- The member `max_nb_systems`. -/
def max_nb_systems (self : Generic_line_selector) : Nat :=
  Generic_line_selector_base.nb_system self

end Generic_line_selector

/-! ## PDB.h: the output of an atom -/

/-- The characters of `s.c_str()` as a C string: those before the first NUL. -/
def c_str (s : List Char) : List Char := s.takeWhile fun c => c ≠ NUL

/-- The decimal digits of a natural number. -/
def nat_digits (n : Nat) : List Char := Nat.toDigits 10 n

/-- The characters that the conversions `d` and `i` give for an `int`, before padding. -/
def int_digits (i : Int) : List Char :=
  if i < 0 then '-' :: nat_digits i.natAbs else nat_digits i.natAbs

/-- Padding to a minimal width: blanks are put on the left, nothing is cut. -/
def pad (w : Nat) (s : List Char) : List Char := List.replicate (w - s.length) ' ' ++ s

/-- The directive `%wd` of `boost::format` on an `int`. -/
def format_d (w : Nat) (i : Int) : List Char := pad w (int_digits i)

/-- The directive `%ws` of `boost::format` on a C string. -/
def format_s (w : Nat) (s : List Char) : List Char := pad w s

/-- The directive `%c` of `boost::format` on a `char`. -/
def format_c (c : Char) : List Char := [c]

/-- The directive `% wi` of `boost::format` on an `int`: a blank stands where a
negative number has its sign. -/
def format_space_i (w : Nat) (i : Int) : List Char :=
  pad w (if i < 0 then int_digits i else ' ' :: int_digits i)

/-- The integer nearest to `n / d`, a tie going to the even one. -/
def round_half_even (n d : Nat) : Nat :=
  if 2 * (n % d) < d then n / d
  else if d < 2 * (n % d) then n / d + 1
  else if (n / d) % 2 = 0 then n / d
  else n / d + 1

/-- The directive `%w.pf` of `boost::format` on a `double`: fixed notation with
`prec` digits after the point, the value being rounded to the nearest. -/
def format_f (w prec : Nat) (q : ℚ) : List Char :=
  let scaled := round_half_even (q.num.natAbs * 10 ^ prec) q.den
  let fp := nat_digits (scaled % 10 ^ prec)
  let body := nat_digits (scaled / 10 ^ prec)
    ++ (if prec = 0 then [] else '.' :: (List.replicate (prec - fp.length) '0' ++ fp))
  pad w (if q < 0 then '-' :: body else body)

/-- The values that `get_atom_pdb_format` asks of its argument, a model of the
concept of an atom of a PDB file. -/
structure PDB_Atom where
  is_hetatm : Bool
  atom_serial_number : Int
  atom_name : List Char
  alternate_location : Char
  residue_name : List Char
  chain_identifier : Char
  residue_sequence_number : Int
  insertion_code : Char
  x : ℚ
  y : ℚ
  z : ℚ
  occupancy : ℚ
  temperature_factor : ℚ
  element : List Char
  charge : Int
  deriving DecidableEq

/-- The function `get_atom_pdb_format`. -/
def get_atom_pdb_format (atom : PDB_Atom) : List Char :=
  (if !atom.is_hetatm then "ATOM  ".toList else "HETATM".toList)
  ++ (format_d 5 atom.atom_serial_number ++ [' '] ++ format_s 4 (c_str atom.atom_name)
      ++ format_c atom.alternate_location ++ format_s 3 (c_str atom.residue_name) ++ [' ']
      ++ format_c atom.chain_identifier ++ format_d 4 atom.residue_sequence_number
      ++ format_c atom.insertion_code ++ [' ', ' ', ' ']
      ++ format_f 8 3 atom.x ++ format_f 8 3 atom.y ++ format_f 8 3 atom.z
      ++ format_f 6 2 atom.occupancy ++ format_f 6 2 atom.temperature_factor
      ++ "          ".toList ++ format_s 2 (c_str atom.element))
  ++ (if atom.charge = NO_CHARGE then "  ".toList else format_space_i 2 atom.charge)

/-! ## std::map: iterators -/

/-- An iterator of a `std::map`: singular when it was default-constructed, else the
position before the entries that remain, `end()` being the position where none
remains. -/
inductive Map_iterator (α : Type) where
  | singular
  | position (rest : List α)
  deriving DecidableEq

namespace Map_iterator

/-- The operator `++`, undefined on a singular iterator and on `end()`. -/
def increment {α : Type} : Map_iterator α → Except Fatal (Map_iterator α)
  | position (_ :: rest) => pure (position rest)
  | _ => throw Fatal.out_of_range

/-- The operator `==` on two iterators of one container, which are equal when as many
entries remain; undefined when one of them is singular. -/
def equal {α : Type} : Map_iterator α → Map_iterator α → Except Fatal Bool
  | position a, position b => pure (a.length == b.length)
  | _, _ => throw Fatal.out_of_range

/-- The operator `*`, undefined on a singular iterator and on `end()`. -/
def dereference {α : Type} : Map_iterator α → Except Fatal α
  | position (e :: _) => pure e
  | _ => throw Fatal.out_of_range

end Map_iterator

/-- The member `begin` of `std::map`. -/
def map_begin {α : Type} (c : List α) : Map_iterator α := .position c

/-- The member `end` of `std::map`. -/
def map_end {α : Type} (_c : List α) : Map_iterator α := .position []

/-! ## molecular_system.h: the members that create by identifiers -/

/-- The constructor `Molecular_chain(id, mod)`. -/
def Molecular_chain.new (id : Char) : Molecular_chain :=
  { chain_identifier := id, residue_container := [] }

/-- The constructor `Molecular_residue(resname, index, insc, ch)`. -/
def Molecular_residue.new_by_name (resname : List Char) (index : Int) (insc : Char) :
    Molecular_residue :=
  { residue_name := resname, residue_sequence_number := index, insertion_code := insc,
    atom_container := [] }

/-- The member `get_or_create_chain(id)`: the model after the call and the chain
referred to. -/
def Molecular_model.get_or_create_chain_by_id (m : Molecular_model) (id : Char) :
    Molecular_model × Molecular_chain :=
  match map_find char_lt id m.chain_container with
  | some c => (m, c)
  | none =>
    let c := Molecular_chain.new id
    ({ m with chain_container := map_insert char_lt id c m.chain_container }, c)

/-- The member `get_or_create_residue(resname, ressn, insc)`: the chain after the call
and the residue referred to. -/
def Molecular_chain.get_or_create_residue_by_name (c : Molecular_chain) (resname : List Char)
    (ressn : Int) (insc : Char) : Molecular_chain × Molecular_residue :=
  match map_find pair_lt (ressn, insc) c.residue_container with
  | some r => (c, r)
  | none =>
    let r := Molecular_residue.new_by_name resname ressn insc
    ({ c with residue_container := map_insert pair_lt (ressn, insc) r c.residue_container }, r)

/-! ## iterators.h -/

/-- The class `Chains_iterator_from_model`. -/
structure Chains_iterator_from_model where
  chain_it : Map_iterator (Char × Molecular_chain)
  deriving DecidableEq

namespace Chains_iterator_from_model

def increment (self : Chains_iterator_from_model) : Except Fatal Chains_iterator_from_model := do
  let it ← self.chain_it.increment
  pure { chain_it := it }

def equal (self other : Chains_iterator_from_model) : Except Fatal Bool :=
  other.chain_it.equal self.chain_it

/-- The member `dereference`, which is `Model::dereference(chain_it)`. -/
def dereference (self : Chains_iterator_from_model) : Except Fatal Molecular_chain := do
  let e ← self.chain_it.dereference
  pure e.2

end Chains_iterator_from_model

/-- The member `chains_begin` of `Molecular_model`. -/
def Molecular_model.chains_begin (m : Molecular_model) : Chains_iterator_from_model :=
  { chain_it := map_begin m.chain_container }

/-- The member `chains_end` of `Molecular_model`. -/
def Molecular_model.chains_end (m : Molecular_model) : Chains_iterator_from_model :=
  { chain_it := map_end m.chain_container }

/-- The class `Residues_iterator_from_chain`. -/
structure Residues_iterator_from_chain where
  res_it : Map_iterator ((Int × Char) × Molecular_residue)
  deriving DecidableEq

namespace Residues_iterator_from_chain

/-- The default constructor. -/
def default_constructed : Residues_iterator_from_chain := { res_it := .singular }

def increment (self : Residues_iterator_from_chain) : Except Fatal Residues_iterator_from_chain := do
  let it ← self.res_it.increment
  pure { res_it := it }

def equal (self other : Residues_iterator_from_chain) : Except Fatal Bool :=
  other.res_it.equal self.res_it

/-- The member `dereference`, which is `Chain::dereference(res_it)`. -/
def dereference (self : Residues_iterator_from_chain) : Except Fatal Molecular_residue := do
  let e ← self.res_it.dereference
  pure e.2

end Residues_iterator_from_chain

/-- The member `residues_begin` of `Molecular_chain`. -/
def Molecular_chain.residues_begin (c : Molecular_chain) : Residues_iterator_from_chain :=
  { res_it := map_begin c.residue_container }

/-- The member `residues_end` of `Molecular_chain`. -/
def Molecular_chain.residues_end (c : Molecular_chain) : Residues_iterator_from_chain :=
  { res_it := map_end c.residue_container }

/-- The class `Residues_iterator_from_model`. -/
structure Residues_iterator_from_model where
  chain_it : Chains_iterator_from_model
  chain_end : Chains_iterator_from_model
  res_it : Residues_iterator_from_chain
  res_end : Residues_iterator_from_chain
  deriving DecidableEq

namespace Residues_iterator_from_model

/-- The constructor: the residue iterators are set from the chain of `chain_it` when
it is not the end, and stay default-constructed otherwise. -/
def new (model : Molecular_model) (is_end : Bool) : Except Fatal Residues_iterator_from_model := do
  let chain_it := if is_end then model.chains_end else model.chains_begin
  let chain_end := model.chains_end
  if !(← chain_it.equal chain_end) then
    let chain ← chain_it.dereference
    pure { chain_it := chain_it, chain_end := chain_end, res_it := chain.residues_begin,
           res_end := chain.residues_end }
  else
    pure { chain_it := chain_it, chain_end := chain_end,
           res_it := Residues_iterator_from_chain.default_constructed,
           res_end := Residues_iterator_from_chain.default_constructed }

/-- The loop `do ... while (res_it==res_end)` of `increment`, `chain_it` being the
position before the chains `chains`: each turn moves `chain_it` by one chain. -/
def increment_loop (chain_end : Chains_iterator_from_model) :
    List (Char × Molecular_chain) → Residues_iterator_from_chain → Residues_iterator_from_chain →
    Except Fatal Residues_iterator_from_model
  | [], _, _ => throw Fatal.out_of_range
  | _ :: rest, res_it, res_end => do
    let chain_it : Chains_iterator_from_model := { chain_it := .position rest }
    if !(← chain_it.equal chain_end) then
      let chain ← chain_it.dereference
      if (← chain.residues_begin.equal chain.residues_end) then
        increment_loop chain_end rest chain.residues_begin chain.residues_end
      else
        pure { chain_it := chain_it, chain_end := chain_end, res_it := chain.residues_begin,
               res_end := chain.residues_end }
    else
      pure { chain_it := chain_it, chain_end := chain_end, res_it := res_it, res_end := res_end }

/-- The member `increment`. -/
def increment (self : Residues_iterator_from_model) : Except Fatal Residues_iterator_from_model := do
  let res_it ← self.res_it.increment
  if (← res_it.equal self.res_end) then
    match self.chain_it.chain_it with
    | .singular => throw Fatal.out_of_range
    | .position chains => increment_loop self.chain_end chains res_it self.res_end
  else pure { self with res_it := res_it }

/-- The member `equal`. -/
def equal (self other : Residues_iterator_from_model) : Except Fatal Bool := do
  if (← self.chain_it.equal other.chain_it) then
    if (← self.chain_it.equal self.chain_end) then pure true
    else other.res_it.equal self.res_it
  else pure false

/-- The member `dereference`. -/
def dereference (self : Residues_iterator_from_model) : Except Fatal Molecular_residue :=
  self.res_it.dereference

end Residues_iterator_from_model

/-- The member `residues_begin` of `Molecular_model`. -/
def Molecular_model.residues_begin (m : Molecular_model) : Except Fatal Residues_iterator_from_model :=
  Residues_iterator_from_model.new m false

/-- The member `residues_end` of `Molecular_model`. -/
def Molecular_model.residues_end (m : Molecular_model) : Except Fatal Residues_iterator_from_model :=
  Residues_iterator_from_model.new m true

/-- The class `Atoms_iterator_from_residue`. -/
structure Atoms_iterator_from_residue where
  atm_it : Map_iterator (Nat × Molecular_atom)
  atm_end : Map_iterator (Nat × Molecular_atom)
  deriving DecidableEq

namespace Atoms_iterator_from_residue

/-- The default constructor. -/
def default_constructed : Atoms_iterator_from_residue :=
  { atm_it := .singular, atm_end := .singular }

def increment (self : Atoms_iterator_from_residue) : Except Fatal Atoms_iterator_from_residue := do
  let it ← self.atm_it.increment
  pure { self with atm_it := it }

def equal (self other : Atoms_iterator_from_residue) : Except Fatal Bool :=
  other.atm_it.equal self.atm_it

/-- The member `dereference`, which is `Residue::dereference(atm_it)`. -/
def dereference (self : Atoms_iterator_from_residue) : Except Fatal Molecular_atom := do
  let e ← self.atm_it.dereference
  pure e.2

end Atoms_iterator_from_residue

/-- The member `atoms_begin` of `Molecular_residue`. -/
def Molecular_residue.atoms_begin (r : Molecular_residue) : Atoms_iterator_from_residue :=
  { atm_it := map_begin r.atom_container, atm_end := map_end r.atom_container }

/-- The member `atoms_end` of `Molecular_residue`. -/
def Molecular_residue.atoms_end (r : Molecular_residue) : Atoms_iterator_from_residue :=
  { atm_it := map_end r.atom_container, atm_end := map_end r.atom_container }

/-- The class `Atoms_iterator_from_chain`. -/
structure Atoms_iterator_from_chain where
  res_it : Residues_iterator_from_chain
  res_end : Residues_iterator_from_chain
  atm_it : Atoms_iterator_from_residue
  atm_end : Atoms_iterator_from_residue
  deriving DecidableEq

namespace Atoms_iterator_from_chain

/-- The loop of `make_valid`, `res_it` being the position before the residues
`residues`: each turn moves `res_it` by one residue. -/
def make_valid_loop (res_end : Residues_iterator_from_chain) :
    List ((Int × Char) × Molecular_residue) → Atoms_iterator_from_residue →
    Atoms_iterator_from_residue → Except Fatal Atoms_iterator_from_chain
  | [], atm_it, atm_end => do
    if (← atm_it.equal atm_end) then throw Fatal.out_of_range
    else pure { res_it := { res_it := .position [] }, res_end := res_end, atm_it := atm_it,
                atm_end := atm_end }
  | e :: rest, atm_it, atm_end => do
    if (← atm_it.equal atm_end) then
      let res_it : Residues_iterator_from_chain := { res_it := .position rest }
      if (← res_it.equal res_end) then
        pure { res_it := res_it, res_end := res_end, atm_it := atm_it, atm_end := atm_end }
      else
        let residue ← res_it.dereference
        make_valid_loop res_end rest residue.atoms_begin residue.atoms_end
    else pure { res_it := { res_it := .position (e :: rest) }, res_end := res_end,
                atm_it := atm_it, atm_end := atm_end }

/-- The member `make_valid`. -/
def make_valid (self : Atoms_iterator_from_chain) : Except Fatal Atoms_iterator_from_chain :=
  match self.res_it.res_it with
  | .singular => do
    if (← self.atm_it.equal self.atm_end) then throw Fatal.out_of_range
    else pure self
  | .position residues => make_valid_loop self.res_end residues self.atm_it self.atm_end

/-- The constructor. -/
def new (chain : Molecular_chain) (is_end : Bool) : Except Fatal Atoms_iterator_from_chain := do
  let res_it := if is_end then chain.residues_end else chain.residues_begin
  let res_end := chain.residues_end
  if !(← res_it.equal res_end) then
    let residue ← res_it.dereference
    make_valid { res_it := res_it, res_end := res_end, atm_it := residue.atoms_begin,
                 atm_end := residue.atoms_end }
  else
    pure { res_it := res_it, res_end := res_end,
           atm_it := Atoms_iterator_from_residue.default_constructed,
           atm_end := Atoms_iterator_from_residue.default_constructed }

/-- The member `increment`. -/
def increment (self : Atoms_iterator_from_chain) : Except Fatal Atoms_iterator_from_chain := do
  let atm_it ← self.atm_it.increment
  make_valid { self with atm_it := atm_it }

/-- The member `equal`. -/
def equal (self other : Atoms_iterator_from_chain) : Except Fatal Bool := do
  if (← self.res_it.equal other.res_it) then
    if (← self.res_it.equal self.res_end) then pure true
    else other.atm_it.equal self.atm_it
  else pure false

/-- The member `dereference`. -/
def dereference (self : Atoms_iterator_from_chain) : Except Fatal Molecular_atom :=
  self.atm_it.dereference

/-- The default constructor. -/
def default_constructed : Atoms_iterator_from_chain :=
  { res_it := Residues_iterator_from_chain.default_constructed,
    res_end := Residues_iterator_from_chain.default_constructed,
    atm_it := Atoms_iterator_from_residue.default_constructed,
    atm_end := Atoms_iterator_from_residue.default_constructed }

end Atoms_iterator_from_chain

/-- The member `atoms_begin` of `Molecular_chain`. -/
def Molecular_chain.atoms_begin (c : Molecular_chain) : Except Fatal Atoms_iterator_from_chain :=
  Atoms_iterator_from_chain.new c false

/-- The member `atoms_end` of `Molecular_chain`. -/
def Molecular_chain.atoms_end (c : Molecular_chain) : Except Fatal Atoms_iterator_from_chain :=
  Atoms_iterator_from_chain.new c true

/-- The class `Atoms_iterator_from_model`. -/
structure Atoms_iterator_from_model where
  chain_it : Chains_iterator_from_model
  chain_end : Chains_iterator_from_model
  atm_it : Atoms_iterator_from_chain
  atm_end : Atoms_iterator_from_chain
  deriving DecidableEq

namespace Atoms_iterator_from_model

/-- The loop of `make_valid`, `chain_it` being the position before the chains
`chains`: each turn moves `chain_it` by one chain. -/
def make_valid_loop (chain_end : Chains_iterator_from_model) :
    List (Char × Molecular_chain) → Atoms_iterator_from_chain → Atoms_iterator_from_chain →
    Except Fatal Atoms_iterator_from_model
  | [], atm_it, atm_end => do
    if (← atm_it.equal atm_end) then throw Fatal.out_of_range
    else pure { chain_it := { chain_it := .position [] }, chain_end := chain_end,
                atm_it := atm_it, atm_end := atm_end }
  | e :: rest, atm_it, atm_end => do
    if (← atm_it.equal atm_end) then
      let chain_it : Chains_iterator_from_model := { chain_it := .position rest }
      if (← chain_it.equal chain_end) then
        pure { chain_it := chain_it, chain_end := chain_end, atm_it := atm_it,
               atm_end := atm_end }
      else
        let chain ← chain_it.dereference
        let atm_it1 ← chain.atoms_begin
        let atm_end1 ← chain.atoms_end
        make_valid_loop chain_end rest atm_it1 atm_end1
    else pure { chain_it := { chain_it := .position (e :: rest) }, chain_end := chain_end,
                atm_it := atm_it, atm_end := atm_end }

/-- The member `make_valid`. -/
def make_valid (self : Atoms_iterator_from_model) : Except Fatal Atoms_iterator_from_model :=
  match self.chain_it.chain_it with
  | .singular => do
    if (← self.atm_it.equal self.atm_end) then throw Fatal.out_of_range
    else pure self
  | .position chains => make_valid_loop self.chain_end chains self.atm_it self.atm_end

/-- The constructor. -/
def new (model : Molecular_model) (is_end : Bool) : Except Fatal Atoms_iterator_from_model := do
  let chain_it := if is_end then model.chains_end else model.chains_begin
  let chain_end := model.chains_end
  if !(← chain_it.equal chain_end) then
    let chain ← chain_it.dereference
    let atm_it ← chain.atoms_begin
    let atm_end ← chain.atoms_end
    make_valid { chain_it := chain_it, chain_end := chain_end, atm_it := atm_it,
                 atm_end := atm_end }
  else
    pure { chain_it := chain_it, chain_end := chain_end,
           atm_it := Atoms_iterator_from_chain.default_constructed,
           atm_end := Atoms_iterator_from_chain.default_constructed }

/-- The member `is_end`. -/
def is_end (self : Atoms_iterator_from_model) : Except Fatal Bool :=
  self.chain_it.equal self.chain_end

/-- The member `increment`. -/
def increment (self : Atoms_iterator_from_model) : Except Fatal Atoms_iterator_from_model := do
  let atm_it ← self.atm_it.increment
  make_valid { self with atm_it := atm_it }

/-- The member `equal`. -/
def equal (self other : Atoms_iterator_from_model) : Except Fatal Bool := do
  if (← self.chain_it.equal other.chain_it) then
    if (← self.chain_it.equal self.chain_end) then pure true
    else other.atm_it.equal self.atm_it
  else pure false

/-- The member `dereference`. -/
def dereference (self : Atoms_iterator_from_model) : Except Fatal Molecular_atom :=
  self.atm_it.dereference

end Atoms_iterator_from_model

/-- The member `atoms_begin` of `Molecular_model`. -/
def Molecular_model.atoms_begin (m : Molecular_model) : Except Fatal Atoms_iterator_from_model :=
  Atoms_iterator_from_model.new m false

/-- The member `atoms_end` of `Molecular_model`. -/
def Molecular_model.atoms_end (m : Molecular_model) : Except Fatal Atoms_iterator_from_model :=
  Atoms_iterator_from_model.new m true

/-! ## selected_atom_iterator.h -/

/-- The class `Selected_atom_iterator`, the function object `keep` being a function of
the atom. -/
structure Selected_atom_iterator where
  atom_iterator : Atoms_iterator_from_model
  keep : Molecular_atom → Bool

namespace Selected_atom_iterator

/-- The member `increment`: the loop `do ++atom_iterator; while (!atom_iterator.is_end()
&& !keep(*atom_iterator))`, each turn taking one unit of `fuel`; the result is `none`
when the fuel runs out. -/
def increment : Nat → Selected_atom_iterator → Option (Except Fatal Selected_atom_iterator)
  | 0, _ => none
  | fuel + 1, self =>
    match self.atom_iterator.increment with
    | .error e => some (.error e)
    | .ok it =>
      match it.is_end with
      | .error e => some (.error e)
      | .ok true => some (.ok { self with atom_iterator := it })
      | .ok false =>
        match it.dereference with
        | .error e => some (.error e)
        | .ok a =>
          if !self.keep a then increment fuel { self with atom_iterator := it }
          else some (.ok { self with atom_iterator := it })

/-- The constructor. -/
def new (fuel : Nat) (it : Atoms_iterator_from_model) (functor : Molecular_atom → Bool) :
    Option (Except Fatal Selected_atom_iterator) :=
  match it.is_end with
  | .error e => some (.error e)
  | .ok true => some (.ok { atom_iterator := it, keep := functor })
  | .ok false =>
    match it.dereference with
    | .error e => some (.error e)
    | .ok a =>
      if !functor a then increment fuel { atom_iterator := it, keep := functor }
      else some (.ok { atom_iterator := it, keep := functor })

/-- The member `equal`. -/
def equal (self other : Selected_atom_iterator) : Except Fatal Bool :=
  self.atom_iterator.equal other.atom_iterator

/-- The member `dereference`. -/
def dereference (self : Selected_atom_iterator) : Except Fatal Molecular_atom :=
  self.atom_iterator.dereference

end Selected_atom_iterator

/-- The function `make_selected_atom_iterator`. -/
def make_selected_atom_iterator (fuel : Nat) (iterator : Atoms_iterator_from_model)
    (functor : Molecular_atom → Bool) : Option (Except Fatal Selected_atom_iterator) :=
  Selected_atom_iterator.new fuel iterator functor

/-! ## Vocabulary of the statements -/

/-- The occupancy read on a line, and 0 when the field cannot be read. -/
def occupancy_of (line : Line) : ℚ :=
  match (Line_format.new line).get_occupancy line with
  | .ok o => o
  | .error _ => 0

/-- The alternate location read on a line. -/
def altloc_of (line : Line) : Char :=
  match (Line_format.new line).get_alternate_location line with
  | .ok c => c
  | .error _ => ' '

/-- A line is ambiguous when its occupancy is not 1 and its alternate location
is blank. -/
def is_ambiguous (line : Line) : Bool :=
  decide (occupancy_of line ≠ 1) && decide (altloc_of line = ' ')

/-- The integers returned by the selector on the non-empty lines of the input,
in order, with the selector and the policy after the last call. -/
def selector_results {σ π : Type}
    (keep : σ → Line_format → Line → π → Except Fatal (σ × π × Int)) :
    σ → π → List Line → Except Fatal (List (Line × Int) × σ × π)
  | sel, occ, [] => .ok ([], sel, occ)
  | sel, occ, line :: rest =>
    if line.isEmpty then selector_results keep sel occ rest
    else
      match keep sel (Line_format.new line) line occ with
      | .error e => .error e
      | .ok (sel1, occ1, k) =>
        match selector_results keep sel1 occ1 rest with
        | .error e => .error e
        | .ok (t, sel2, occ2) => .ok ((line, k) :: t, sel2, occ2)

/-- The alternate location that a read resolves, in the words of the
specification: the one asked for when it is not blank, else the one of the
first line that the selector did not discard and whose alternate location is
not blank, else a blank. -/
def resolved_altloc (default_altloc : Char) (results : List (Line × Int)) : Char :=
  if default_altloc ≠ ' ' then default_altloc
  else
    match results.find? fun e => decide (e.2 ≠ DISCARD) && decide (altloc_of e.1 ≠ ' ') with
    | some e => altloc_of e.1
    | none => ' '

/-- The lines that are not discarded by the selector and whose alternate
location is blank or `c`, with the integer of the selector. -/
def passed_calls (c : Char) (results : List (Line × Int)) : List (Line × Int) :=
  results.filter fun e =>
    decide (e.2 ≠ DISCARD) && (decide (altloc_of e.1 = ' ') || decide (altloc_of e.1 = c))

/-- The order of the occupancies in the direction of the policy: `a` comes no
later than `b` when `a ≤ b` for the maximum, `b ≤ a` for the minimum. -/
def not_beyond (take_max : Bool) (a b : ℚ) : Prop := if take_max then a ≤ b else b ≤ a

instance not_beyond_decidable (take_max : Bool) (a b : ℚ) : Decidable (not_beyond take_max a b) :=
  match take_max with
  | true => inferInstanceAs (Decidable (a ≤ b))
  | false => inferInstanceAs (Decidable (b ≤ a))

/-- Every line buffered by a `Min_or_max_occupancy_policy` has a blank alternate
location. -/
def buffered_blank (p : Min_or_max_state) : Prop :=
  ∀ e ∈ p.lines, ∀ l ∈ e.2.2, altloc_of l = ' '

/-- The system index given with the first call of a list. -/
def first_index : List (Line × Int) → Int
  | [] => 0
  | c :: _ => c.2

/-- The ambiguous calls whose occupancy is `o`. -/
def calls_at (o : ℚ) (calls : List (Line × Int)) : List (Line × Int) :=
  calls.filter fun c => is_ambiguous c.1 && decide (occupancy_of c.1 = o)

/-- What holds of the state of a `Min_or_max_occupancy_policy` after the calls
`calls`: no entry when no call was ambiguous; every key and every ambiguous
occupancy offered no later than the running extremum; and, once an ambiguous
call was offered, the entry of the running extremum holds the ambiguous lines
of that occupancy in the order of the calls, with the index of the first. -/
structure Min_or_max_inv (take_max : Bool) (p : Min_or_max_state) (calls : List (Line × Int)) :
    Prop where
  empty : (∀ c ∈ calls, is_ambiguous c.1 = false) →
    p.lines = [] ∧ p.min_or_max_occupancy = if take_max then 0 else 1
  keys : ∀ key, (map_find double_lt key p.lines).isSome = true →
    not_beyond take_max key p.min_or_max_occupancy
  extremal : ∀ c ∈ calls, is_ambiguous c.1 = true →
    not_beyond take_max (occupancy_of c.1) p.min_or_max_occupancy
  bucket : (∃ c ∈ calls, is_ambiguous c.1 = true) →
    calls_at p.min_or_max_occupancy calls ≠ [] ∧
    map_find double_lt p.min_or_max_occupancy p.lines =
      some (first_index (calls_at p.min_or_max_occupancy calls),
            (calls_at p.min_or_max_occupancy calls).map Prod.fst)

/-- The function objects of a generic selector, in the order of its template
parameters. -/
def Generic_line_selector_base.predicates : Generic_line_selector_base → List Atom_selection
  | .one t0_ => [t0_]
  | .more t0_ base => t0_ :: base.predicates

/-- Whether the integer returned by `add_or_postpone` is always the system index
it was given or DISCARD. -/
def returns_index_or_DISCARD {π : Type} (occ : Occupancy_policy π) : Prop :=
  ∀ (p p1 : π) (lf : Line_format) (line : Line) (k r : Int),
    occ.add_or_postpone p lf line k = .ok (p1, r) → r = k ∨ r = DISCARD

/-- Whether an integer returned by `keep` is RMK, DISCARD or the number of one of
`n` systems. -/
def is_RMK_DISCARD_or_system (r : Int) (n : Nat) : Prop :=
  r = RMK ∨ r = DISCARD ∨ (1 ≤ r ∧ r ≤ (n : Int))



/-- The value that a getter gives when the columns of its field hold `seg`: the text is
trimmed; an empty text gives the default value or, for a mandatory field, a stop; any
other text is converted. -/
def field_value {τ : Type} (cast : List Char → Option τ) (mandatory : Bool) (fname : String)
    (dflt : τ) (seg : List Char) : Except Fatal τ :=
  if (trim seg).length = 0 then
    if !mandatory then .ok dflt else .error (Fatal.field_is_empty fname)
  else
    match cast (trim seg) with
    | some v => .ok v
    | none => .error (Fatal.cannot_convert (trim seg))

/-- Whether a string is one that a field of `w` columns gives back when read: not
empty, of at most `w` characters, none of them whitespace or NUL. -/
def is_name_of_width (w : Nat) (s : List Char) : Prop :=
  s ≠ [] ∧ s.length ≤ w ∧ ∀ c ∈ s, is_space c = false ∧ c ≠ NUL

/-- Whether a character is one that a field of one column gives back when read: a
blank, or not whitespace. -/
def is_blank_or_not_space (c : Char) : Prop := is_space c = true → c = ' '

/-- Whether the text of a field of `w` columns is a decimal with `prec` fractional
digits in fixed notation: blanks on the left, then a minus sign or nothing, the integer
part without a redundant zero on its left, the point and `prec` digits; zero has no
minus sign. -/
def is_fixed_decimal (w prec : Nat) (t : List Char) : Prop :=
  ∃ (neg : Bool) (ip : Nat) (fp : List Char),
    t = pad w ((if neg then ['-'] else []) ++ nat_digits ip ++ '.' :: fp) ∧ t.length = w ∧
    fp.length = prec ∧ (∀ c ∈ fp, (digit_value c).isSome = true) ∧
    (neg = true → ip ≠ 0 ∨ ∃ c ∈ fp, c ≠ '0')

/-- Whether a character is a decimal digit. -/
def is_digit (c : Char) : Bool := decide ('0' ≤ c ∧ c ≤ '9')

/-- The value of a string of decimal digits, its first digit weighing the most. -/
def decimal_value (s : List Char) : Nat := s.foldl (fun acc c => 10 * acc + (c.toNat - 48)) 0

/-- Whether a string is a decimal integer literal: a sign or none, then one decimal
digit at least and nothing else. -/
def is_integer_literal (s : List Char) : Bool :=
  match s with
  | '-' :: r => !r.isEmpty && r.all is_digit
  | '+' :: r => !r.isEmpty && r.all is_digit
  | r => !r.isEmpty && r.all is_digit

/-- The integer that a decimal integer literal denotes. -/
def integer_literal_value (s : List Char) : Int :=
  match s with
  | '-' :: r => -(decimal_value r : Int)
  | '+' :: r => (decimal_value r : Int)
  | r => (decimal_value r : Int)

/-- The text of the columns `frm` to `upto` of a line, as far as the line goes. -/
def columns (line : Line) (frm upto : Nat) : List Char := (line.drop frm).take (upto + 1 - frm)

/-- The policy of the greatest occupancy or the one of the least occupancy. -/
def extremal_occupancy_policy (take_max : Bool) : Occupancy_policy Min_or_max_state :=
  if take_max then Max_occupancy_policy else Min_occupancy_policy

/-- Whether every turn of the loop of `read_stream` on a line that returns leaves the
builder and the number of lines passed to it as they were. -/
def turn_leaves_builder {σ π β : Type}
    (keep : σ → Line_format → Line → π → Except Fatal (σ × π × Int))
    (interp : β → Line_format → Line → Int → Except Fatal β) (line : Line) : Prop :=
  ∀ st st1 : Reader_state σ π β, Line_reader.read_line keep interp st line = .ok st1 →
    st1.builder = st.builder ∧ st1.nblines = st.nblines

/-- The loop `for (it = first; it != last; ++it)` of a client, which collects `*it`:
each turn takes one unit of `fuel`, and the result is `none` when the fuel runs out. -/
def visited {ι α : Type} (equal : ι → ι → Except Fatal Bool)
    (dereference : ι → Except Fatal α) (increment : ι → Option (Except Fatal ι)) :
    Nat → ι → ι → Option (Except Fatal (List α))
  | 0, _, _ => none
  | fuel + 1, it, last =>
    match equal it last with
    | .error e => some (.error e)
    | .ok true => some (.ok [])
    | .ok false =>
      match dereference it with
      | .error e => some (.error e)
      | .ok a =>
        match increment it with
        | none => none
        | some (.error e) => some (.error e)
        | some (.ok it1) =>
          match visited equal dereference increment fuel it1 last with
          | none => none
          | some (.error e) => some (.error e)
          | some (.ok l) => some (.ok (a :: l))

/-- The atoms that the loop from `atoms_begin()` to `atoms_end()` of a residue visits. -/
def Molecular_residue.visited_atoms (fuel : Nat) (r : Molecular_residue) :
    Option (Except Fatal (List Molecular_atom)) :=
  visited Atoms_iterator_from_residue.equal Atoms_iterator_from_residue.dereference
    (fun it => some it.increment) fuel r.atoms_begin r.atoms_end

/-- The atoms that the loop from `atoms_begin()` to `atoms_end()` of a model visits. -/
def Molecular_model.visited_atoms (fuel : Nat) (m : Molecular_model) :
    Option (Except Fatal (List Molecular_atom)) :=
  match m.atoms_begin, m.atoms_end with
  | .ok first, .ok last =>
    visited Atoms_iterator_from_model.equal Atoms_iterator_from_model.dereference
      (fun it => some it.increment) fuel first last
  | .error e, _ => some (.error e)
  | _, .error e => some (.error e)

/-- The residues of a model, chain after chain. -/
def Molecular_model.residues (m : Molecular_model) : List Molecular_residue :=
  m.chain_container.flatMap fun e => e.2.residue_container.map Prod.snd

/-- The residues that the loop from `residues_begin()` to `residues_end()` of a model
visits. -/
def Molecular_model.visited_residues (fuel : Nat) (m : Molecular_model) :
    Option (Except Fatal (List Molecular_residue)) :=
  match m.residues_begin, m.residues_end with
  | .ok first, .ok last =>
    visited Residues_iterator_from_model.equal Residues_iterator_from_model.dereference
      (fun it => some it.increment) fuel first last
  | .error e, _ => some (.error e)
  | _, .error e => some (.error e)

/-- The atoms that the loop from the selected iterator made from `atoms_begin()` to the
one made from `atoms_end()` visits, for the selection `p`. -/
def Molecular_model.visited_selected_atoms (fuel : Nat) (m : Molecular_model)
    (p : Molecular_atom → Bool) : Option (Except Fatal (List Molecular_atom)) :=
  match m.atoms_begin, m.atoms_end with
  | .ok b, .ok e =>
    match make_selected_atom_iterator fuel b p, make_selected_atom_iterator fuel e p with
    | some (.ok first), some (.ok last) =>
      visited Selected_atom_iterator.equal Selected_atom_iterator.dereference
        (fun it => Selected_atom_iterator.increment fuel it) fuel first last
    | some (.error e), _ => some (.error e)
    | _, some (.error e) => some (.error e)
    | _, _ => none
  | .error e, _ => some (.error e)
  | _, .error e => some (.error e)

/-- A sequence of calls of `add_atom` on a residue, each on a line format and a line. -/
def Molecular_residue.add_atoms (r : Molecular_residue) :
    List (Line_format × Line) → Except Fatal Molecular_residue
  | [] => pure r
  | (lf, line) :: rest =>
    match r.add_atom lf line with
    | .error e => .error e
    | .ok r1 => Molecular_residue.add_atoms r1 rest

/-- The serial numbers of the atoms that the loop over a residue visits. -/
def Molecular_residue.visited_serial_numbers (fuel : Nat) (r : Molecular_residue) :
    Option (Except Fatal (List Int)) :=
  match r.visited_atoms fuel with
  | none => none
  | some (.error e) => some (.error e)
  | some (.ok l) => some (.ok (l.map fun a => a.atom_serial_number))

/-- Whether a state of the iterator over the atoms of a chain has the atoms `l` left to
visit: at the end of the chain none is left; before it, the atom iterator is inside the
residue of `res_it`, at least one atom of that residue is left, and the atoms of the
later residues follow. -/
def Atoms_iterator_from_chain.yields (it : Atoms_iterator_from_chain)
    (l : List Molecular_atom) : Prop :=
  it.res_end = { res_it := .position [] } ∧
  ((it.res_it = { res_it := .position [] } ∧ l = []) ∨
   ∃ e rest entries, it.res_it = { res_it := .position (e :: rest) } ∧ entries ≠ [] ∧
     it.atm_it = { atm_it := .position entries, atm_end := .position [] } ∧
     it.atm_end = { atm_it := .position [], atm_end := .position [] } ∧
     l = entries.map Prod.snd ++ rest.flatMap fun e1 => e1.2.atoms)

/-- The iterator that `atoms_end()` of a chain returns. -/
def Atoms_iterator_from_chain.past_the_end : Atoms_iterator_from_chain :=
  { res_it := { res_it := .position [] }, res_end := { res_it := .position [] },
    atm_it := Atoms_iterator_from_residue.default_constructed,
    atm_end := Atoms_iterator_from_residue.default_constructed }

/-- Whether a state of the iterator over the atoms of a model has the atoms `l` left to
visit: at the end of the model none is left; before it, the atom iterator is inside the
chain of `chain_it`, at least one atom of that chain is left, and the atoms of the later
chains follow. -/
def Atoms_iterator_from_model.yields (it : Atoms_iterator_from_model)
    (l : List Molecular_atom) : Prop :=
  it.chain_end = { chain_it := .position [] } ∧
  ((it.chain_it = { chain_it := .position [] } ∧ l = []) ∨
   ∃ e rest l1, it.chain_it = { chain_it := .position (e :: rest) } ∧ l1 ≠ [] ∧
     it.atm_it.yields l1 ∧ it.atm_end = Atoms_iterator_from_chain.past_the_end ∧
     l = l1 ++ rest.flatMap fun e1 => e1.2.atoms)

/-- The iterator that `atoms_end()` of a model returns. -/
def Atoms_iterator_from_model.past_the_end : Atoms_iterator_from_model :=
  { chain_it := { chain_it := .position [] }, chain_end := { chain_it := .position [] },
    atm_it := Atoms_iterator_from_chain.default_constructed,
    atm_end := Atoms_iterator_from_chain.default_constructed }

/-- Whether the keys of the entries of a container come in strictly ascending order. -/
def keys_ascending {κ ν : Type} (lt : κ → κ → Bool) (c : List (κ × ν)) : Prop :=
  c.Pairwise fun a b => lt a.1 b.1 = true

/-- Whether the chains of a model come in ascending order of their identifiers and the
residues of each chain in ascending order of their sequence numbers and insertion
codes. -/
def Molecular_model.is_ordered (m : Molecular_model) : Prop :=
  keys_ascending char_lt m.chain_container ∧
  ∀ e ∈ m.chain_container, keys_ascending pair_lt e.2.residue_container

/-- Whether a state of the iterator over the residues of a model has the residues `l`
left to visit: at the end of the model none is left; before it, the residue iterator is
inside the chain of `chain_it`, at least one residue of that chain is left, and the
residues of the later chains follow. -/
def Residues_iterator_from_model.yields (it : Residues_iterator_from_model)
    (l : List Molecular_residue) : Prop :=
  it.chain_end = { chain_it := .position [] } ∧
  ((it.chain_it = { chain_it := .position [] } ∧ l = []) ∨
   ∃ e rest entries, it.chain_it = { chain_it := .position (e :: rest) } ∧ entries ≠ [] ∧
     it.res_it = { res_it := .position entries } ∧ it.res_end = { res_it := .position [] } ∧
     l = entries.map Prod.snd ++ rest.flatMap fun e1 => e1.2.residue_container.map Prod.snd)

/-- The iterator that `residues_end()` of a model returns. -/
def Residues_iterator_from_model.past_the_end : Residues_iterator_from_model :=
  { chain_it := { chain_it := .position [] }, chain_end := { chain_it := .position [] },
    res_it := Residues_iterator_from_chain.default_constructed,
    res_end := Residues_iterator_from_chain.default_constructed }

/-- The lines of an input that are not empty and whose record type is ATOM, HETATM or
MODEL. -/
def coordinate_and_MODEL_lines (input : List Line) : List Line :=
  input.filter fun line =>
    !line.isEmpty &&
      (decide ((Line_format.new line).record_type = Record_type.ATOM) ||
       decide ((Line_format.new line).record_type = Record_type.HETATM) ||
       decide ((Line_format.new line).record_type = Record_type.MODEL))

/-- What a read leaves apart from the selector: the policy, the builder, the alternate
location and the number of lines passed to the builder. -/
def Reader_state.without_selector {σ π β : Type} (st : Reader_state σ π β) : π × β × Char × Int :=
  (st.occupancy, st.builder, st.default_altloc, st.nblines)

/-- Whether a comparison of keys is a strict total order, as `std::map` asks of it. -/
structure Strict_order {κ : Type} (lt : κ → κ → Bool) : Prop where
  trans : ∀ a b c, lt a b = true → lt b c = true → lt a c = true
  asymm : ∀ a b, lt a b = true → lt b a = false
  total : ∀ a b, lt a b = false → lt b a = false → a = b

/-- The residue that a system holds in the model `cm`, the chain `ch` and under the key
`(rs, ic)`, if any. -/
def Molecular_system.find_residue (s : Molecular_system) (cm : Int) (ch : Char) (rs : Int)
    (ic : Char) : Option Molecular_residue :=
  (map_find int_lt cm s.model_container).bind fun m =>
    (map_find char_lt ch m.chain_container).bind fun c =>
      map_find pair_lt (rs, ic) c.residue_container

/-- Whether the atoms of every residue of a model come in ascending order of their
keys. -/
def Molecular_model.atoms_ordered (m : Molecular_model) : Prop :=
  ∀ c ∈ m.chain_container, ∀ r ∈ c.2.residue_container,
    keys_ascending unsigned_lt r.2.atom_container

/-- Whether the containers of a system are in ascending order of their keys at every
level, each model being kept under its model number. -/
def Molecular_system.is_well_formed (s : Molecular_system) : Prop :=
  keys_ascending int_lt s.model_container ∧
  ∀ e ∈ s.model_container, e.2.model_number = e.1 ∧ e.2.is_ordered ∧ e.2.atoms_ordered

/-- The calls whose line an extremal policy puts into its buffer, when the running extremum
is `extremum` before the first call: the ambiguous calls whose occupancy is not before the
running extremum, which is that occupancy afterwards. -/
def buffered_calls (take_max : Bool) : ℚ → List (Line × Int) → List (Line × Int)
  | _, [] => []
  | extremum, c :: rest =>
    if is_ambiguous c.1 && decide (not_beyond take_max extremum (occupancy_of c.1)) then
      c :: buffered_calls take_max (occupancy_of c.1) rest
    else buffered_calls take_max extremum rest

/-- The buffered calls of a new extremal policy whose occupancy is `o`. -/
def buffered_at (take_max : Bool) (o : ℚ) (calls : List (Line × Int)) : List (Line × Int) :=
  (buffered_calls take_max (Min_or_max_occupancy_policy.new take_max).min_or_max_occupancy
    calls).filter fun c => decide (occupancy_of c.1 = o)

/-- A coordinate line with atom serial number 42. -/
def line_CA_42 : Line :=
  "ATOM     42  CA  ALA A   1      11.104  13.207   6.100  1.00 20.00           C".toList

/-- A residue that holds one atom, under the key 42. -/
def residue_ALA_with_42 : Molecular_residue :=
  { residue_name := "ALA".toList, residue_sequence_number := 1, insertion_code := ' ',
    atom_container :=
      [(42, { x := 1, y := 2, z := 3, is_hetatm := false, atom_serial_number := 42,
              atom_name := "N".toList, alternate_location := ' ', occupancy := 1,
              temperature_factor := 20, element := "N".toList, charge := NO_CHARGE })] }

/-- A MODEL record carrying the number 2. -/
def line_MODEL_2 : Line := "MODEL        2".toList

/-- The atom that `line_CA_42` describes. -/
def atom_CA_42 : Molecular_atom :=
  { x := 11104 / 1000, y := 13207 / 1000, z := 61 / 10, is_hetatm := false,
    atom_serial_number := 42, atom_name := "CA".toList, alternate_location := ' ',
    occupancy := 1, temperature_factor := 20, element := "C".toList, charge := NO_CHARGE }

/-- The system numbered 1 that holds `atom_CA_42` under the model number `nbm`. -/
def system_with_CA_42 (nbm : Int) (altloc : Char) : Molecular_system :=
  { name := "no_name".toList, index := 1, alternate_location := altloc,
    model_container :=
      [(nbm, { model_number := nbm,
               chain_container :=
                 [('A', { chain_identifier := 'A',
                          residue_container :=
                            [((1, ' '), { residue_name := "ALA".toList,
                                          residue_sequence_number := 1,
                                          insertion_code := ' ',
                                          atom_container := [(42, atom_CA_42)] })] })] })] }

/-- A hydrogen of a water molecule. -/
def line_water_H : Line :=
  "HETATM  101  H1  HOH A 201       1.000   2.000   3.000  1.00 30.00           H".toList

/-- The oxygen of a water molecule. -/
def line_water_O : Line :=
  "HETATM  100  O   HOH A 201       1.500   2.500   3.500  1.00 30.00           O".toList

/-- An atom with occupancy 0.50 and a blank alternate location. -/
def line_occ_050 : Line :=
  "ATOM      7  CB  SER A   2       4.000   5.000   6.000  0.50 25.00           C".toList

/-- An atom with occupancy 0.30 and a blank alternate location. -/
def line_occ_030 : Line :=
  "ATOM      8  OG  SER A   2       4.100   5.100   6.100  0.30 25.00           O".toList

/-- An atom with occupancy 0.70 and a blank alternate location. -/
def line_occ_070 : Line :=
  "ATOM      9  OG  SER A   2       4.200   5.200   6.200  0.70 25.00           O".toList

/-- An atom with occupancy 0.50 and the alternate location A. -/
def line_occ_050_altA : Line :=
  "ATOM     10  CB ASER A   3       7.000   8.000   9.000  0.50 25.00           C".toList

/-- An atom with occupancy 0.50 and the alternate location B. -/
def line_occ_050_altB : Line :=
  "ATOM     11  CB BSER A   3       7.100   8.100   9.100  0.50 25.00           C".toList

/-- A builder that keeps the list of the calls made to it. -/
def recording_interpret_line (log : List (Line × Int)) (_lf : Line_format) (line : Line)
    (system_info : Int) : Except Fatal (List (Line × Int)) :=
  .ok (log ++ [(line, system_info)])

/-- The calls of the fourth scenario: occupancies 0.30 and 0.70 with a blank
alternate location, 0.50 with the alternate location A. -/
def calls_030_050A_070 : List (Line × Int) :=
  [(line_occ_030, 1), (line_occ_050_altA, 1), (line_occ_070, 1)]

/-- The state of the maximum policy after the calls of the fourth scenario. -/
def state_030_070 : Min_or_max_state :=
  { lines := [(3 / 10, (1, [line_occ_030])), (7 / 10, (1, [line_occ_070]))],
    min_or_max_occupancy := 7 / 10 }

/-- The state of an extremal policy after one ambiguous call of occupancy 0.50. -/
def state_050 : Min_or_max_state :=
  { lines := [(1 / 2, (1, [line_occ_050]))], min_or_max_occupancy := 1 / 2 }

/-- An END record. -/
def line_END : Line := "END".toList

/-- The input of a read: two conformers A and B of one atom, an atom with
occupancy 0.70 and a blank alternate location, and an END record. -/
def input_altA_altB_070 : List Line :=
  [line_occ_050_altA, line_occ_050_altB, line_occ_070, line_END]

/-- The system that a read of `input_altA_altB_070` builds under the maximum
policy: the atom of the conformer A, the atom of occupancy 0.70 replayed when the
policy finalizes, and the alternate location A. -/
def system_after_read : Molecular_system :=
  { name := "no_name".toList, index := 1, alternate_location := 'A',
    model_container :=
      [(1, { model_number := 1,
             chain_container :=
               [('A', { chain_identifier := 'A',
                        residue_container :=
                          [((2, ' '),
                            { residue_name := "SER".toList, residue_sequence_number := 2,
                              insertion_code := ' ',
                              atom_container :=
                                [(9, { x := 21 / 5, y := 26 / 5, z := 31 / 5,
                                       is_hetatm := false, atom_serial_number := 9,
                                       atom_name := "OG".toList, alternate_location := ' ',
                                       occupancy := 7 / 10, temperature_factor := 25,
                                       element := "O".toList, charge := NO_CHARGE })] }),
                           ((3, ' '),
                            { residue_name := "SER".toList, residue_sequence_number := 3,
                              insertion_code := ' ',
                              atom_container :=
                                [(10, { x := 7, y := 8, z := 9, is_hetatm := false,
                                        atom_serial_number := 10, atom_name := "CB".toList,
                                        alternate_location := 'A', occupancy := 1 / 2,
                                        temperature_factor := 25, element := "C".toList,
                                        charge := NO_CHARGE })] })] })] })] }

/-- The builder after that read. -/
def builder_after_read : All_atom_system_builder :=
  { current_model := 1, systems_ := [system_after_read], prebuilt_systems := true,
    max_systems := 1 }

/-- Two groups of chains: the chains A and B, and the chain C. -/
def groups_AB_C : List (List Char) := ["AB".toList, "C".toList]

/-- Two groups of chains that both hold the chain A. -/
def groups_XA_A : List (List Char) := ["XA".toList, "A".toList]

/-- A generic selector of two systems: the chain B, then the element C. -/
def selector_chain_B_element_C : Generic_line_selector :=
  .more (Select_by_chainids "B".toList) (.one (Select_by_element "C".toList))

/-- The coordinate line `line_CA_42` followed by the character 2 in column 78: a line of
79 characters, which ends in the middle of the charge field. -/
def line_CA_42_then_2 : Line := line_CA_42 ++ ['2']

/-- An atom with the values of `line_CA_42` and the charge `charge`. -/
def PDB_atom_CA_42 (charge : Int) : PDB_Atom :=
  { is_hetatm := false, atom_serial_number := 42, atom_name := "CA".toList,
    alternate_location := ' ', residue_name := "ALA".toList, chain_identifier := 'A',
    residue_sequence_number := 1, insertion_code := ' ', x := 11104 / 1000,
    y := 13207 / 1000, z := 61 / 10, occupancy := 1, temperature_factor := 20,
    element := "C".toList, charge := charge }

/-- The atom `PDB_atom_CA_42` with no charge and an empty element. -/
def PDB_atom_without_element : PDB_Atom :=
  { PDB_atom_CA_42 NO_CHARGE with element := [] }

/-- A coordinate line whose atom serial number field holds a letter. -/
def line_serial_4x2 : Line :=
  "ATOM    4x2  CA  ALA A   1      11.104  13.207   6.100  1.00 20.00           C".toList

/-- A coordinate line whose atom serial number is 5. -/
def line_serial_5 : Line :=
  "ATOM      5  CA  ALA A   1      11.104  13.207   6.100  1.00 20.00           C".toList

/-- A coordinate line whose atom serial number is -1. -/
def line_serial_minus_1 : Line :=
  "ATOM     -1  CB  ALA A   1      12.104  13.207   6.100  1.00 20.00           C".toList

/-- The calls of `add_atom` on the line of serial number 5, then on the one of serial
number -1. -/
def calls_serial_5_minus_1 : List (Line_format × Line) :=
  [(Line_format.new line_serial_5, line_serial_5),
   (Line_format.new line_serial_minus_1, line_serial_minus_1)]

/-- The residue that the calls `calls_serial_5_minus_1` build: the key of the atom of
serial number -1 is 4294967295. -/
def residue_serials_5_minus_1 : Molecular_residue :=
  { residue_name := "ALA".toList, residue_sequence_number := 1, insertion_code := ' ',
    atom_container :=
      [(5, { atom_CA_42 with atom_serial_number := 5 }),
       (4294967295, { atom_CA_42 with x := 12104 / 1000, atom_serial_number := -1,
                                      atom_name := "CB".toList })] }

/-- The calls of `add_atom` on the line of serial number 42, then on the one of serial
number 5. -/
def calls_serial_42_5 : List (Line_format × Line) :=
  [(Line_format.new line_CA_42, line_CA_42), (Line_format.new line_serial_5, line_serial_5)]

/-- The residue that the calls `calls_serial_42_5` build. -/
def residue_serials_5_42 : Molecular_residue :=
  { residue_name := "ALA".toList, residue_sequence_number := 1, insertion_code := ' ',
    atom_container :=
      [(5, { atom_CA_42 with atom_serial_number := 5 }), (42, atom_CA_42)] }

/-- A model whose first chain `A` has no residue and whose chain `B` has the residue
`residue_ALA_with_42`. -/
def model_empty_A_then_B : Molecular_model :=
  { model_number := 1,
    chain_container :=
      [('A', Molecular_chain.new 'A'),
       ('B', { chain_identifier := 'B', residue_container := [((1, ' '), residue_ALA_with_42)] })] }

/-- A model of one chain without a residue, as `get_or_create_chain('A')` makes it. -/
def model_only_empty_A : Molecular_model :=
  ((Molecular_model.new 1).get_or_create_chain_by_id 'A').1

/-- A model whose chain `A` has one residue, whose chain `B` has none and whose chain
`C` has one residue. -/
def model_A_empty_B_C : Molecular_model :=
  { model_number := 1,
    chain_container :=
      [('A', { chain_identifier := 'A', residue_container := [((1, ' '), residue_ALA_with_42)] }),
       ('B', Molecular_chain.new 'B'),
       ('C', { chain_identifier := 'C', residue_container := [((7, ' '), residue_serials_5_42)] })] }

/-- A model with a first chain without a residue, a chain whose middle residue has no
atom, a chain without a residue and a last chain whose last residue has no atom. -/
def model_with_empty_parts : Molecular_model :=
  { model_number := 1,
    chain_container :=
      [('A', Molecular_chain.new 'A'),
       ('B', { chain_identifier := 'B',
               residue_container :=
                 [((1, ' '), residue_ALA_with_42),
                  ((2, ' '), Molecular_residue.new_by_name "GLY".toList 2 ' '),
                  ((3, ' '), residue_serials_5_42)] }),
       ('C', Molecular_chain.new 'C'),
       ('D', { chain_identifier := 'D',
               residue_container :=
                 [((1, ' '), residue_serials_5_minus_1),
                  ((2, ' '), Molecular_residue.new_by_name "GLY".toList 2 ' ')] })] }

/-- The selection of the atoms whose name is `CA`. -/
def select_CA (a : Molecular_atom) : Bool := decide (a.atom_name = "CA".toList)

/-- A coordinate line of 78 characters for the atom N, of serial number 1, of the residue
ALA 1 of the chain A. -/
def line_N_1 : Line :=
  "ATOM      1  N   ALA A   1      11.104  13.207   6.100  1.00 20.00           N".toList

/-- The atom that `line_N_1` describes. -/
def atom_N_1 : Molecular_atom :=
  { x := 11104 / 1000, y := 13207 / 1000, z := 61 / 10, is_hetatm := false,
    atom_serial_number := 1, atom_name := "N".toList, alternate_location := ' ',
    occupancy := 1, temperature_factor := 20, element := "N".toList, charge := NO_CHARGE }

/-- The system numbered 1 that holds `atom_N_1` alone, in the residue ALA 1 of the chain
A of the model 1. -/
def system_with_N_1 : Molecular_system :=
  { name := "no_name".toList, index := 1, alternate_location := ' ',
    model_container :=
      [(1, { model_number := 1,
             chain_container :=
               [('A', { chain_identifier := 'A',
                        residue_container :=
                          [((1, ' '), { residue_name := "ALA".toList,
                                        residue_sequence_number := 1, insertion_code := ' ',
                                        atom_container := [(1, atom_N_1)] })] })] })] }

/-- An ENDMDL record. -/
def line_ENDMDL : Line := "ENDMDL".toList

/-- A remark, an END record, an empty line, an ENDMDL record, then the coordinate line
`line_N_1`. -/
def input_END_then_N_1 : List Line :=
  ["REMARK   1".toList, line_END, [], line_ENDMDL, line_N_1]

/-- The line `line_N_1` with the chain B in place of the chain A: the same serial number 1
in another residue. -/
def line_N_1_of_chain_B : Line :=
  "ATOM      1  N   ALA B   1      11.104  13.207   6.100  1.00 20.00           N".toList

/-- The system numbered 1 that holds the atom of `line_N_1_of_chain_B` alone, in the residue
ALA 1 of the chain B of the model 1. -/
def system_with_N_1_of_chain_B : Molecular_system :=
  { name := "no_name".toList, index := 1, alternate_location := ' ',
    model_container :=
      [(1, { model_number := 1,
             chain_container :=
               [('B', { chain_identifier := 'B',
                        residue_container :=
                          [((1, ' '), { residue_name := "ALA".toList,
                                        residue_sequence_number := 1, insertion_code := ' ',
                                        atom_container := [(1, atom_N_1)] })] })] })] }

/-- The line of occupancy 0.70 offered with the system index 1, then with the system
index 2. -/
def calls_070_twice : List (Line × Int) := [(line_occ_070, 1), (line_occ_070, 2)]

/-- The state of the maximum policy after `calls_070_twice`. -/
def state_070_twice : Min_or_max_state :=
  { lines := [(7 / 10, (1, [line_occ_070, line_occ_070]))], min_or_max_occupancy := 7 / 10 }

/-- The coordinate line `line_CA_42` followed by the charge `2+` in the columns 78-79: a
line of 80 characters. -/
def line_CA_42_charge_2_plus : Line := line_CA_42 ++ ['2', '+']

/-- The coordinate line `line_CA_42` followed by the charge `2-` in the columns 78-79: a
line of 80 characters. -/
def line_CA_42_charge_2_minus : Line := line_CA_42 ++ ['2', '-']

theorem NUL_not_mem_of_all (p : List Char) (h : p.all (fun c => c ≠ NUL) = true) : NUL ∉ p := by
  intro hmem
  have := List.all_eq_true.mp h NUL hmem
  simp at this

/-- On a pattern free of NUL, `strncmp` over the pattern's length is the prefix test. -/
theorem strncmp_eq_iff_prefix (p : List Char) (hp : NUL ∉ p) (s : List Char) :
    strncmp_eq s p p.length = true ↔ p <+: s := by
  induction p generalizing s with
  | nil => simp [strncmp_eq]
  | cons c p ih =>
    have hc : c ≠ NUL := fun h => hp (by simp [h])
    have hp1 : NUL ∉ p := fun h => hp (by simp [h])
    cases s with
    | nil => simp [strncmp_eq, Ne.symm hc]
    | cons a s =>
      by_cases hac : a = c
      · subst hac
        simp [strncmp_eq, hc, ih hp1, List.cons_prefix_cons]
      · have hca : ¬ c = a := fun h => hac h.symm
        simp [strncmp_eq, hac, hca, List.cons_prefix_cons]

/-- The nine tests of the constructor as one chain, the last test first. -/
theorem Line_format.type_new (line : Line) :
    (Line_format.new line).type =
      if "MASTER".toList <+: line then Record_type.MASTER
      else if "CONECT".toList <+: line then Record_type.CONECT
      else if "ANISOU".toList <+: line then Record_type.ANISOU
      else if "END".toList <+: line then Record_type.END
      else if "TER".toList <+: line then Record_type.TER
      else if "ENDMDL".toList <+: line then Record_type.ENDMDL
      else if "MODEL".toList <+: line then Record_type.MODEL
      else if "HETATM".toList <+: line then Record_type.HETATM
      else if "ATOM".toList <+: line then Record_type.ATOM
      else Record_type.UNKNOWN := by
  have h4 := strncmp_eq_iff_prefix "ATOM".toList (NUL_not_mem_of_all _ (by decide)) line
  have h6 := strncmp_eq_iff_prefix "HETATM".toList (NUL_not_mem_of_all _ (by decide)) line
  have h5 := strncmp_eq_iff_prefix "MODEL".toList (NUL_not_mem_of_all _ (by decide)) line
  have h6a := strncmp_eq_iff_prefix "ENDMDL".toList (NUL_not_mem_of_all _ (by decide)) line
  have h3 := strncmp_eq_iff_prefix "TER".toList (NUL_not_mem_of_all _ (by decide)) line
  have h3a := strncmp_eq_iff_prefix "END".toList (NUL_not_mem_of_all _ (by decide)) line
  have h6b := strncmp_eq_iff_prefix "ANISOU".toList (NUL_not_mem_of_all _ (by decide)) line
  have h6c := strncmp_eq_iff_prefix "CONECT".toList (NUL_not_mem_of_all _ (by decide)) line
  have h6d := strncmp_eq_iff_prefix "MASTER".toList (NUL_not_mem_of_all _ (by decide)) line
  simp only [List.length_cons, List.length_nil, String.toList] at h4 h6 h5 h6a h3 h3a h6b h6c h6d
  simp only [Line_format.new, String.toList, h4, h6, h5, h6a, h3, h3a, h6b, h6c, h6d]

/-- Two texts that both begin a line are comparable for the prefix order. -/
theorem prefix_excl (p q line : List Char) (hpq : ¬ p <+: q) (hqp : ¬ q <+: p)
    (hp : p <+: line) : ¬ q <+: line := by
  intro hq
  rcases List.prefix_or_prefix_of_prefix hp hq with h | h
  · exact hpq h
  · exact hqp h

/-- C2: classification is case-sensitive and left-anchored. The record type is ATOM,
HETATM, MODEL, TER, ANISOU, CONECT or MASTER exactly when the line begins with that
text; it is END when the line begins with END but not with ENDMDL; it is UNKNOWN
exactly when the line begins with none of the nine texts; and `is_hetatm` holds
exactly when the type is HETATM. -/
theorem record_type_by_prefix (line : Line) :
    ((Line_format.new line).record_type = Record_type.ATOM ↔ "ATOM".toList <+: line) ∧
    ((Line_format.new line).record_type = Record_type.HETATM ↔ "HETATM".toList <+: line) ∧
    ((Line_format.new line).record_type = Record_type.MODEL ↔ "MODEL".toList <+: line) ∧
    ((Line_format.new line).record_type = Record_type.TER ↔ "TER".toList <+: line) ∧
    ((Line_format.new line).record_type = Record_type.ANISOU ↔ "ANISOU".toList <+: line) ∧
    ((Line_format.new line).record_type = Record_type.CONECT ↔ "CONECT".toList <+: line) ∧
    ((Line_format.new line).record_type = Record_type.MASTER ↔ "MASTER".toList <+: line) ∧
    ("END".toList <+: line ∧ ¬ "ENDMDL".toList <+: line →
      (Line_format.new line).record_type = Record_type.END) ∧
    ((Line_format.new line).record_type = Record_type.UNKNOWN ↔
      ¬ "ATOM".toList <+: line ∧ ¬ "HETATM".toList <+: line ∧ ¬ "MODEL".toList <+: line ∧
      ¬ "ENDMDL".toList <+: line ∧ ¬ "TER".toList <+: line ∧ ¬ "END".toList <+: line ∧
      ¬ "ANISOU".toList <+: line ∧ ¬ "CONECT".toList <+: line ∧ ¬ "MASTER".toList <+: line) ∧
    ((Line_format.new line).is_hetatm = true ↔
      (Line_format.new line).record_type = Record_type.HETATM) := by
  have e := prefix_excl
  have hEM : "ENDMDL".toList <+: line → "END".toList <+: line :=
    fun h => List.IsPrefix.trans (by decide) h
  simp only [Line_format.record_type, Line_format.is_hetatm, Line_format.type_new, decide_eq_true_eq]
  by_cases h9 : "MASTER".toList <+: line
  · have := e _ "ATOM".toList line (by decide) (by decide) h9
    have := e _ "HETATM".toList line (by decide) (by decide) h9
    have := e _ "MODEL".toList line (by decide) (by decide) h9
    have := e _ "ENDMDL".toList line (by decide) (by decide) h9
    have := e _ "TER".toList line (by decide) (by decide) h9
    have := e _ "END".toList line (by decide) (by decide) h9
    have := e _ "ANISOU".toList line (by decide) (by decide) h9
    have := e _ "CONECT".toList line (by decide) (by decide) h9
    simp_all
  by_cases h8 : "CONECT".toList <+: line
  · have := e _ "ATOM".toList line (by decide) (by decide) h8
    have := e _ "HETATM".toList line (by decide) (by decide) h8
    have := e _ "MODEL".toList line (by decide) (by decide) h8
    have := e _ "ENDMDL".toList line (by decide) (by decide) h8
    have := e _ "TER".toList line (by decide) (by decide) h8
    have := e _ "END".toList line (by decide) (by decide) h8
    have := e _ "ANISOU".toList line (by decide) (by decide) h8
    simp_all
  by_cases h7 : "ANISOU".toList <+: line
  · have := e _ "ATOM".toList line (by decide) (by decide) h7
    have := e _ "HETATM".toList line (by decide) (by decide) h7
    have := e _ "MODEL".toList line (by decide) (by decide) h7
    have := e _ "ENDMDL".toList line (by decide) (by decide) h7
    have := e _ "TER".toList line (by decide) (by decide) h7
    have := e _ "END".toList line (by decide) (by decide) h7
    simp_all
  by_cases h6 : "END".toList <+: line
  · have := e _ "ATOM".toList line (by decide) (by decide) h6
    have := e _ "HETATM".toList line (by decide) (by decide) h6
    have := e _ "MODEL".toList line (by decide) (by decide) h6
    have := e _ "TER".toList line (by decide) (by decide) h6
    simp_all
  have h4 : ¬ "ENDMDL".toList <+: line := fun h => h6 (hEM h)
  by_cases h5 : "TER".toList <+: line
  · have := e _ "ATOM".toList line (by decide) (by decide) h5
    have := e _ "HETATM".toList line (by decide) (by decide) h5
    have := e _ "MODEL".toList line (by decide) (by decide) h5
    simp_all
  by_cases h3 : "MODEL".toList <+: line
  · have := e _ "ATOM".toList line (by decide) (by decide) h3
    have := e _ "HETATM".toList line (by decide) (by decide) h3
    simp_all
  by_cases h2 : "HETATM".toList <+: line
  · have := e _ "ATOM".toList line (by decide) (by decide) h2
    simp_all
  by_cases h1 : "ATOM".toList <+: line <;> simp_all

/-- C3: a line that begins with ENDMDL is classified END, never ENDMDL: the test for
`END`, made after the one for `ENDMDL`, replaces its result. -/
theorem endmdl_line_classified_END :
    (Line_format.new "ENDMDL".toList).record_type = Record_type.END ∧
    (∀ line : Line, "ENDMDL".toList <+: line →
      (Line_format.new line).record_type = Record_type.END) ∧
    (∀ line : Line, (Line_format.new line).record_type ≠ Record_type.ENDMDL) := by
  have hEM : ∀ line : Line, "ENDMDL".toList <+: line → "END".toList <+: line :=
    fun line h => List.IsPrefix.trans (by decide) h
  have h2 : ∀ line : Line, "ENDMDL".toList <+: line →
      (Line_format.new line).record_type = Record_type.END := by
    intro line h
    have e := prefix_excl
    have := e _ "MASTER".toList line (by decide) (by decide) h
    have := e _ "CONECT".toList line (by decide) (by decide) h
    have := e _ "ANISOU".toList line (by decide) (by decide) h
    have := hEM line h
    simp_all [Line_format.record_type, Line_format.type_new]
  refine ⟨by decide, h2, ?_⟩
  intro line
  by_cases h : "ENDMDL".toList <+: line
  · rw [h2 line h]; decide
  · simp only [Line_format.record_type, Line_format.type_new]
    split_ifs <;> simp

/-- A mandatory field whose line is shorter than the column `TO` is a fatal error. -/
theorem RECOVER_FIELD_short_mandatory {τ : Type} (cast : List Char → Option τ) (fname : String)
    (frm upto : Nat) (dflt : τ) (line : Line) (h : line.length < upto) :
    RECOVER_FIELD cast true fname frm upto dflt line = .error (Fatal.cannot_extract_field fname) := by
  simp [RECOVER_FIELD, h]

/-- C1: on the 10-character line `ATOM  1234`, too short to hold column 10 of the
atom serial number (columns 6..10), the getter returns 1234 instead of stopping:
the length test of `RECOVER_FIELD` is `length < TO`, so a line of length exactly
`TO` is read from its truncated field. -/
theorem get_atom_serial_number_on_truncated_field :
    "ATOM  1234".toList.length ≤ 10 ∧
    Line_format.get_atom_serial_number (Line_format.new "ATOM  1234".toList) "ATOM  1234".toList
      = .ok 1234 := by
  decide


/-! ## The keyed containers -/

theorem map_insert_of_find_isSome {κ ν : Type} (lt : κ → κ → Bool) (k : κ) (v : ν)
    (m : List (κ × ν)) (h : (map_find lt k m).isSome = true) : map_insert lt k v m = m := by
  induction m with
  | nil => simp [map_find] at h
  | cons e rest ih =>
    obtain ⟨k1, v1⟩ := e
    by_cases h1 : lt k1 k = true
    · simp only [map_find, h1, if_true] at h
      simp [map_insert, h1, ih h]
    · by_cases h2 : lt k k1 = true
      · simp [map_find, h1, h2] at h
      · simp [map_insert, h1, h2]

/-! ## Residues -/

/-- C4: when the serial number of the line is already a key of the atom container,
`add_atom` stops on its assertion, and the insertion it would have made leaves
the container as it is: the stored atom is not overwritten and none is added. -/
theorem add_atom_duplicate_serial (r : Molecular_residue) (lf : Line_format) (line : Line)
    (sn : Int) (hsn : lf.get_atom_serial_number line = .ok sn)
    (hkey : (map_find unsigned_lt (to_unsigned sn) r.atom_container).isSome = true) :
    r.add_atom lf line = .error (Fatal.assertion_failed "Two atoms with same serial numbers.") ∧
    ∀ a : Molecular_atom,
      map_insert unsigned_lt (to_unsigned sn) a r.atom_container = r.atom_container := by
  refine ⟨?_, fun a => map_insert_of_find_isSome _ _ _ _ hkey⟩
  simp only [Molecular_residue.add_atom, hsn, bind, Except.bind, hkey, if_true]
  rfl

theorem add_atom_duplicate_serial_witness :
    (Line_format.new line_CA_42).get_atom_serial_number line_CA_42 = .ok 42 ∧
    (map_find unsigned_lt (to_unsigned 42) residue_ALA_with_42.atom_container).isSome = true ∧
    residue_ALA_with_42.add_atom (Line_format.new line_CA_42) line_CA_42
      = .error (Fatal.assertion_failed "Two atoms with same serial numbers.") ∧
    ∀ a : Molecular_atom,
      map_insert unsigned_lt (to_unsigned 42) a residue_ALA_with_42.atom_container
        = residue_ALA_with_42.atom_container :=
  ⟨by decide, by decide,
   add_atom_duplicate_serial residue_ALA_with_42 (Line_format.new line_CA_42) line_CA_42 42
     (by decide) (by decide)⟩

theorem map_find_insert_self {κ ν : Type} (lt : κ → κ → Bool) (hirr : ∀ a, lt a a = false)
    (k : κ) (v : ν) (m : List (κ × ν)) (h : map_find lt k m = none) :
    map_find lt k (map_insert lt k v m) = some v := by
  induction m with
  | nil => simp [map_insert, map_find, hirr]
  | cons e rest ih =>
    obtain ⟨k1, v1⟩ := e
    by_cases h1 : lt k1 k = true
    · simp only [map_find, h1, if_true] at h
      simp [map_insert, map_find, h1, ih h]
    · by_cases h2 : lt k k1 = true
      · simp [map_insert, map_find, h1, h2, hirr]
      · simp [map_find, h1, h2] at h

theorem map_find_assign_self {κ ν : Type} (lt : κ → κ → Bool) (k : κ) (v : ν)
    (m : List (κ × ν)) (h : (map_find lt k m).isSome = true) :
    map_find lt k (map_assign lt k v m) = some v := by
  induction m with
  | nil => simp [map_find] at h
  | cons e rest ih =>
    obtain ⟨k1, v1⟩ := e
    by_cases h1 : lt k1 k = true
    · simp only [map_find, h1, if_true] at h
      simp [map_assign, map_find, h1, ih h]
    · by_cases h2 : lt k k1 = true
      · simp [map_find, h1, h2] at h
      · simp [map_assign, map_find, h1, h2]

theorem int_lt_irrefl (a : Int) : int_lt a a = false := by simp [int_lt]

theorem unsigned_lt_irrefl (a : Nat) : unsigned_lt a a = false := by simp [unsigned_lt]

theorem char_lt_irrefl (a : Char) : char_lt a a = false := by simp [char_lt]

theorem double_lt_irrefl (a : ℚ) : double_lt a a = false := by simp [double_lt]

theorem pair_lt_irrefl (a : Int × Char) : pair_lt a a = false := by
  simp [pair_lt, int_lt_irrefl, char_lt_irrefl]

/-! ## The descent of `interpret_line` -/

theorem add_atom_ok (r r1 : Molecular_residue) (lf : Line_format) (line : Line)
    (h : r.add_atom lf line = .ok r1) :
    ∃ sn atom, lf.get_atom_serial_number line = .ok sn ∧ Molecular_atom.new lf line = .ok atom ∧
      map_find unsigned_lt (to_unsigned sn) r.atom_container = none ∧
      r1 = { r with atom_container :=
              map_insert unsigned_lt (to_unsigned sn) atom r.atom_container } := by
  simp only [Molecular_residue.add_atom, bind, Except.bind] at h
  split at h
  · simp at h
  · rename_i sn hsn
    split at h
    · exact absurd h (by intro h; cases h)
    · rename_i hfind
      split at h
      · simp at h
      · rename_i atom hatom
        refine ⟨sn, atom, hsn, hatom, ?_, ?_⟩
        · simpa using hfind
        · simp [pure, Except.pure] at h
          exact h.symm

theorem get_or_create_model_find (s : Molecular_system) (i : Int) :
    map_find int_lt i (s.get_or_create_model i).1.model_container
      = some (s.get_or_create_model i).2 := by
  unfold Molecular_system.get_or_create_model
  split
  · rename_i m hm
    simpa using hm
  · rename_i hm
    simpa using map_find_insert_self int_lt int_lt_irrefl i _ _ hm

theorem get_or_create_chain_ok (m m1 : Molecular_model) (lf : Line_format) (line : Line)
    (ch : Char) (c : Molecular_chain) (h : m.get_or_create_chain lf line = .ok (m1, ch, c)) :
    lf.get_chain_identifier line = .ok ch ∧ map_find char_lt ch m1.chain_container = some c ∧
    m1.model_number = m.model_number := by
  simp only [Molecular_model.get_or_create_chain, bind, Except.bind] at h
  split at h
  · simp at h
  · rename_i ch0 hch
    split at h
    · rename_i c0 hc0
      simp only [pure, Except.pure, Except.ok.injEq, Prod.mk.injEq] at h
      obtain ⟨rfl, rfl, rfl⟩ := h
      exact ⟨hch, hc0, rfl⟩
    · rename_i hc0
      simp only [hch, pure, Except.pure, Except.ok.injEq, Prod.mk.injEq] at h
      obtain ⟨rfl, rfl, rfl⟩ := h
      exact ⟨hch, map_find_insert_self char_lt char_lt_irrefl _ _ _ hc0, rfl⟩

theorem get_or_create_residue_ok (c c1 : Molecular_chain) (lf : Line_format) (line : Line)
    (rk : Int × Char) (r : Molecular_residue)
    (h : c.get_or_create_residue lf line = .ok (c1, rk, r)) :
    lf.get_residue_sequence_number line = .ok rk.1 ∧ lf.get_insertion_code line = .ok rk.2 ∧
    map_find pair_lt rk c1.residue_container = some r ∧
    c1.chain_identifier = c.chain_identifier := by
  simp only [Molecular_chain.get_or_create_residue, bind, Except.bind] at h
  split at h
  · simp at h
  · rename_i rs hrs
    split at h
    · simp at h
    · rename_i ic hic
      split at h
      · rename_i r0 hr0
        simp only [pure, Except.pure, Except.ok.injEq, Prod.mk.injEq] at h
        obtain ⟨rfl, rfl, rfl⟩ := h
        exact ⟨hrs, hic, hr0, rfl⟩
      · rename_i hr0
        split at h
        · simp at h
        · rename_i r0 hnew
          simp only [pure, Except.pure, Except.ok.injEq, Prod.mk.injEq] at h
          obtain ⟨rfl, rfl, rfl⟩ := h
          exact ⟨hrs, hic, map_find_insert_self pair_lt pair_lt_irrefl _ _ _ hr0, rfl⟩

/-- What a successful `Molecular_system::interpret_line` has done: the atom built
from the line is found by the accessors under the model number given, at the chain
identifier, residue key and serial number read from the line. -/
theorem interpret_line_stores (s s1 : Molecular_system) (lf : Line_format) (line : Line)
    (cm : Int) (h : s.interpret_line lf line cm = .ok s1) :
    ∃ ch rs ic sn atom model,
      lf.get_chain_identifier line = .ok ch ∧ lf.get_residue_sequence_number line = .ok rs ∧
      lf.get_insertion_code line = .ok ic ∧ lf.get_atom_serial_number line = .ok sn ∧
      Molecular_atom.new lf line = .ok atom ∧
      s1.get_model cm = .ok model ∧ model.get_atom ch rs ic (to_unsigned sn) = .ok atom := by
  simp only [Molecular_system.interpret_line, bind, Except.bind] at h
  have hm := get_or_create_model_find s cm
  generalize s.get_or_create_model cm = gm at h hm
  obtain ⟨s0, model⟩ := gm
  simp only at h hm
  split at h
  · simp at h
  · rename_i x hx
    obtain ⟨model1, ch, chain⟩ := x
    obtain ⟨hch, hfc, -⟩ := get_or_create_chain_ok _ _ _ _ _ _ hx
    simp only at h
    split at h
    · simp at h
    · rename_i y hy
      obtain ⟨chain1, rk, residue⟩ := y
      obtain ⟨hrs, hic, hfr, -⟩ := get_or_create_residue_ok _ _ _ _ _ _ hy
      simp only at h
      split at h
      · simp at h
      · rename_i residue1 hadd
        obtain ⟨sn, atom, hsn, hatom, hnone, hr1⟩ := add_atom_ok _ _ _ _ hadd
        simp only [pure, Except.pure, Except.ok.injEq] at h
        subst h
        refine ⟨ch, rk.1, rk.2, sn, atom, ?_, hch, hrs, hic, hsn, hatom, ?_, ?_⟩
        rotate_left
        · simp only [Molecular_system.get_model]
          rw [map_find_assign_self int_lt cm _ _ (by simp [hm])]
          exact rfl
        · simp only [Molecular_model.get_atom, Molecular_model.get_chain, bind, Except.bind]
          rw [map_find_assign_self char_lt ch _ _ (by simp [hfc])]
          simp only [pure, Except.pure, Molecular_chain.get_residue]
          rw [map_find_assign_self pair_lt _ _ _ (by simp [hfr])]
          simp only [pure, Except.pure, Molecular_residue.get_atom, hr1]
          rw [map_find_insert_self unsigned_lt unsigned_lt_irrefl _ _ _ hnone]

/-! ## The builder -/

theorem builder_interpret_line_RMK (b : All_atom_system_builder) (lf : Line_format) (line : Line) :
    b.interpret_line lf line RMK =
      if lf.record_type = Record_type.MODEL then
        match lf.get_model_number line with
        | .ok n => .ok { b with current_model := n }
        | .error e => .error e
      else .ok b := by
  simp only [All_atom_system_builder.interpret_line, if_true, bind, Except.bind]
  split
  · split <;> simp_all [pure, Except.pure]
  · rfl

theorem builder_interpret_line_coordinate (b b1 : All_atom_system_builder) (lf : Line_format)
    (line : Line) (k : Int) (hk : k ≠ RMK) (h : b.interpret_line lf line k = .ok b1) :
    b1.current_model = b.current_model ∧
    ∃ (systems1 : List Molecular_system) (sys sys1 : Molecular_system),
      (systems1 = b.systems_ ∨
        (b.prebuilt_systems = false ∧ systems1 = b.systems_ ++ [Molecular_system.new k])) ∧
      1 ≤ k ∧
      systems1.get? (k - 1).toNat = some sys ∧
      sys.interpret_line lf line b.current_model = .ok sys1 ∧
      b1.systems_ = systems1.set (k - 1).toNat sys1 ∧
      b1.systems_.get? (k - 1).toNat = some sys1 := by
  unfold All_atom_system_builder.interpret_line at h
  rw [if_neg hk] at h
  simp only at h
  generalize hs1 : (if (!b.prebuilt_systems && decide ((b.systems_.length : Int) < k)) = true
    then b.systems_ ++ [Molecular_system.new k] else b.systems_) = systems1 at h
  have hs1' : systems1 = b.systems_ ∨
      (b.prebuilt_systems = false ∧ systems1 = b.systems_ ++ [Molecular_system.new k]) := by
    subst hs1
    split
    · rename_i hc
      right
      simp only [Bool.and_eq_true, Bool.not_eq_true', decide_eq_true_eq] at hc
      exact ⟨hc.1, rfl⟩
    · left; rfl
  by_cases hc : k < 1 ∨ (systems1.length : Int) < k
  · rw [if_pos hc] at h
    cases h
  · rw [if_neg hc] at h
    cases hg : systems1.get? (k - 1).toNat with
    | none =>
      rw [hg] at h
      cases h
    | some sys =>
      rw [hg] at h
      simp only [bind, Except.bind] at h
      cases hi : sys.interpret_line lf line b.current_model with
      | error e =>
        rw [hi] at h
        cases h
      | ok sys1 =>
        rw [hi] at h
        simp only [pure, Except.pure, Except.ok.injEq] at h
        subst h
        refine ⟨rfl, systems1, sys, sys1, hs1', ?_, hg, hi, rfl, ?_⟩
        · omega
        · have hlt := (List.get?_eq_some.mp hg).1
          rw [List.get?_eq_getElem?, List.getElem?_set_self hlt]

theorem interpret_lines_append (b : All_atom_system_builder) (xs ys : List (Line × Int)) :
    b.interpret_lines (xs ++ ys) =
      match b.interpret_lines xs with
      | .ok b1 => b1.interpret_lines ys
      | .error e => .error e := by
  induction xs generalizing b with
  | nil => rfl
  | cons c xs ih =>
    obtain ⟨line, k⟩ := c
    simp only [List.cons_append, All_atom_system_builder.interpret_lines]
    split
    · rfl
    · exact ih _

/-- The current model number of the builder after a sequence of calls. -/
theorem current_model_after (b b1 : All_atom_system_builder) (calls : List (Line × Int))
    (h : b.interpret_lines calls = .ok b1) :
    b1.current_model =
      match (calls.filter is_MODEL_call).getLast? with
      | none => b.current_model
      | some c =>
        match (Line_format.new c.1).get_model_number c.1 with
        | .ok n => n
        | .error _ => 1 := by
  induction calls generalizing b with
  | nil =>
    simp only [All_atom_system_builder.interpret_lines, pure, Except.pure, Except.ok.injEq] at h
    subst h
    rfl
  | cons c rest ih =>
    obtain ⟨line, k⟩ := c
    simp only [All_atom_system_builder.interpret_lines] at h
    split at h
    · simp at h
    · rename_i b2 hb2
      have ih1 := ih b2 h
      by_cases hc : is_MODEL_call (line, k) = true
      · have hc2 : k = RMK ∧ (Line_format.new line).record_type = Record_type.MODEL := by
          simpa [is_MODEL_call] using hc
        obtain ⟨hk, ht⟩ := hc2
        subst hk
        rw [builder_interpret_line_RMK, if_pos ht] at hb2
        rw [List.filter_cons_of_pos hc, List.getLast?_cons]
        split at hb2
        · rename_i n hn
          simp only [Except.ok.injEq] at hb2
          subst hb2
          rw [ih1]
          cases hl : (List.filter is_MODEL_call rest).getLast? with
          | none => simp [hn]
          | some c1 => simp
        · simp at hb2
      · rw [List.filter_cons_of_neg hc]
        have hcm : b2.current_model = b.current_model := by
          by_cases hk : k = RMK
          · subst hk
            have ht : ¬ (Line_format.new line).record_type = Record_type.MODEL := by
              intro ht
              exact hc (by simp [is_MODEL_call, ht])
            rw [builder_interpret_line_RMK, if_neg ht] at hb2
            simp only [Except.ok.injEq] at hb2
            subst hb2
            rfl
          · exact (builder_interpret_line_coordinate _ _ _ _ _ hk hb2).1
        rw [ih1, hcm]

/-- A builder starts with the model number 1; a coordinate line given to it
after a sequence of calls is stored, in the system of the index given, under
the model number in force (1 before any MODEL record, else the number of the
last MODEL record), where the accessors find its atom; and a record that is not
a MODEL record, such as ENDMDL, given as a remark leaves the builder as it is. -/
theorem coordinate_line_attached_to_model_in_force (systems : List Molecular_system) (n : Nat)
    (pre : List (Line × Int)) (line : Line) (k : Int) (b1 : All_atom_system_builder)
    (hk : k ≠ RMK)
    (hrun : (All_atom_system_builder.new systems n).interpret_lines (pre ++ [(line, k)])
      = .ok b1) :
    (All_atom_system_builder.new systems n).current_model = 1 ∧
    (∃ sys model atom ch rs ic sn,
      b1.systems_.get? (k - 1).toNat = some sys ∧
      sys.get_model (model_number_in_force pre) = .ok model ∧
      (Line_format.new line).get_chain_identifier line = .ok ch ∧
      (Line_format.new line).get_residue_sequence_number line = .ok rs ∧
      (Line_format.new line).get_insertion_code line = .ok ic ∧
      (Line_format.new line).get_atom_serial_number line = .ok sn ∧
      Molecular_atom.new (Line_format.new line) line = .ok atom ∧
      model.get_atom ch rs ic (to_unsigned sn) = .ok atom) ∧
    (∀ (b : All_atom_system_builder) (l : Line),
      (Line_format.new l).record_type ≠ Record_type.MODEL →
      b.interpret_line (Line_format.new l) l RMK = .ok b) := by
  refine ⟨rfl, ?_, ?_⟩
  · rw [interpret_lines_append] at hrun
    split at hrun
    · rename_i b0 hb0
      have hcm := current_model_after _ _ _ hb0
      simp only [All_atom_system_builder.interpret_lines] at hrun
      split at hrun
      · simp at hrun
      · rename_i b2 hb2
        simp only [pure, Except.pure, Except.ok.injEq] at hrun
        subst hrun
        obtain ⟨-, -, sys, sys1, -, -, -, hsys, -, hget⟩ :=
          builder_interpret_line_coordinate _ _ _ _ _ hk hb2
        obtain ⟨ch, rs, ic, sn, atom, model, hch, hrs, hic, hsn, hatom, hmodel, hga⟩ :=
          interpret_line_stores _ _ _ _ _ hsys
        refine ⟨sys1, model, atom, ch, rs, ic, sn, hget, ?_, hch, hrs, hic, hsn, hatom, hga⟩
        have : model_number_in_force pre = b0.current_model := by
          rw [hcm]
          rfl
        rw [this]
        exact hmodel
    · simp at hrun
  · intro b l hl
    rw [builder_interpret_line_RMK, if_neg hl]

theorem coordinate_line_attached_to_model_in_force_witness :
    (1 : Int) ≠ RMK ∧
    (All_atom_system_builder.new [] 1).interpret_lines ([(line_MODEL_2, RMK)] ++ [(line_CA_42, 1)])
      = .ok { current_model := 2, systems_ := [system_with_CA_42 2 ' '],
              prebuilt_systems := true, max_systems := 1 } ∧
    model_number_in_force [(line_MODEL_2, RMK)] = 2 ∧
    ∃ sys model atom ch rs ic sn,
      [system_with_CA_42 2 ' '].get? ((1 : Int) - 1).toNat = some sys ∧
      sys.get_model (model_number_in_force [(line_MODEL_2, RMK)]) = .ok model ∧
      (Line_format.new line_CA_42).get_chain_identifier line_CA_42 = .ok ch ∧
      (Line_format.new line_CA_42).get_residue_sequence_number line_CA_42 = .ok rs ∧
      (Line_format.new line_CA_42).get_insertion_code line_CA_42 = .ok ic ∧
      (Line_format.new line_CA_42).get_atom_serial_number line_CA_42 = .ok sn ∧
      Molecular_atom.new (Line_format.new line_CA_42) line_CA_42 = .ok atom ∧
      model.get_atom ch rs ic (to_unsigned sn) = .ok atom :=
  ⟨by decide, by decide!, by decide,
   (coordinate_line_attached_to_model_in_force [] 1 [(line_MODEL_2, RMK)] line_CA_42 1
      { current_model := 2, systems_ := [system_with_CA_42 2 ' '],
        prebuilt_systems := true, max_systems := 1 }
      (by decide) (by decide!)).2.1⟩

/-! ## Field getters that cannot stop -/

theorem trim_length_le (s : List Char) : (trim s).length ≤ s.length := by
  unfold trim
  rw [List.length_reverse]
  calc ((s.dropWhile is_space).reverse.dropWhile is_space).length
      ≤ (s.dropWhile is_space).reverse.length := (List.dropWhile_sublist _).length_le
    _ = (s.dropWhile is_space).length := List.length_reverse _
    _ ≤ s.length := (List.dropWhile_sublist _).length_le

/-- An optional one-column field is always read. -/
theorem RECOVER_FIELD_char_optional (fname : String) (col : Nat) (line : Line) :
    ∃ c, RECOVER_FIELD lexical_cast_char false fname col col ' ' line = .ok c := by
  unfold RECOVER_FIELD
  split
  · exact ⟨' ', rfl⟩
  · rename_i hlen
    have hw : field_width col col = 1 := by
      unfold field_width
      omega
    have hsub : substr line col 1 = .ok ((line.drop col).take 1) := by
      unfold substr
      rw [if_neg (by omega)]
    unfold extract_field
    rw [hw, hsub]
    simp only
    have hl : (trim ((line.drop col).take 1)).length ≤ 1 :=
      le_trans (trim_length_le _) (by simp [List.length_take])
    split
    · exact ⟨' ', rfl⟩
    · rename_i hne
      match htr : trim ((line.drop col).take 1), hl, hne with
      | [], _, hne => simp at hne
      | [c], _, _ => exact ⟨c, by simp [lexical_cast_char]⟩
      | _ :: _ :: _, hl, _ => simp at hl

theorem get_alternate_location_ok (lf : Line_format) (line : Line) :
    ∃ c, lf.get_alternate_location line = .ok c :=
  RECOVER_FIELD_char_optional _ 16 line

/-! ## The occupancy policies -/

/-- C9: for the policy `No_occupancy_policy`, on a line whose occupancy and alternate
location are read, `add_or_postpone` returns the system index given when the occupancy
is 1 or the alternate location is not blank, and stops exactly when the occupancy is
not 1 and the alternate location is blank. -/
theorem no_occupancy_policy_add_or_postpone (lf : Line_format) (line : Line) (system_index : Int)
    (occ : ℚ) (altloc : Char) (hocc : lf.get_occupancy line = .ok occ)
    (halt : lf.get_alternate_location line = .ok altloc) :
    (occ = 1 ∨ altloc ≠ ' ' →
      No_occupancy_policy.add_or_postpone () lf line system_index = .ok ((), system_index)) ∧
    ((∃ e, No_occupancy_policy.add_or_postpone () lf line system_index = .error e) ↔
      (occ ≠ 1 ∧ altloc = ' ')) := by
  by_cases h1 : occ = 1
  · simp [No_occupancy_policy, bind, Except.bind, hocc, h1, pure, Except.pure]
  · by_cases h2 : altloc = ' '
    · simp [No_occupancy_policy, bind, Except.bind, hocc, halt, h1, h2, throw, throwThe,
        MonadExceptOf.throw]
    · simp [No_occupancy_policy, bind, Except.bind, hocc, halt, h1, h2, pure, Except.pure]

theorem no_occupancy_policy_add_or_postpone_witness :
    (Line_format.new line_occ_050).get_occupancy line_occ_050 = .ok (1 / 2) ∧
    (Line_format.new line_occ_050).get_alternate_location line_occ_050 = .ok ' ' ∧
    ∃ e, No_occupancy_policy.add_or_postpone () (Line_format.new line_occ_050) line_occ_050 1
      = .error e :=
  ⟨by decide!, by decide,
   ((no_occupancy_policy_add_or_postpone (Line_format.new line_occ_050) line_occ_050 1 (1 / 2) ' '
      (by decide!) (by decide)).2).mpr ⟨by norm_num, rfl⟩⟩

/-! ## The selector of two systems -/

/-- C10, as stated, fails: the hydrogen `line_water_H` of a water molecule is a HETATM
line whose residue name is HOH, and `keep` discards it instead of returning 2. -/
theorem two_systems_keep_water_hydrogen :
    (Line_format.new line_water_H).record_type = Record_type.HETATM ∧
    (Line_format.new line_water_H).get_residue_name line_water_H = .ok "HOH".toList ∧
    PDB_line_selector_two_systems.keep Accept_all_occupancy_policy {}
      (Line_format.new line_water_H) line_water_H () = .ok ({}, (), DISCARD) ∧
    DISCARD ≠ 2 := by
  decide

/-- C10, amended: for the selector of two systems with the policy that accepts every
line, a coordinate line whose element is read and is not `H` and whose residue name is
HOH, SOL or WAT is kept for the system 2. -/
theorem two_systems_keep_water (self : PDB_line_selector_two_systems) (lf : Line_format)
    (line : Line) (el rn : List Char)
    (hrec : lf.record_type = Record_type.ATOM ∨ lf.record_type = Record_type.HETATM)
    (hel : lf.get_element line = .ok el) (hH : el ≠ "H".toList)
    (hrn : lf.get_residue_name line = .ok rn)
    (hw : rn = "HOH".toList ∨ rn = "SOL".toList ∨ rn = "WAT".toList) :
    PDB_line_selector_two_systems.keep Accept_all_occupancy_policy self lf line ()
      = .ok (self, (), 2) := by
  have hwat : is_water lf line = .ok true := by
    rcases hw with h | h | h <;> simp [is_water, hrn, h, bind, Except.bind, pure, Except.pure]
  have hhyd : is_hydrogen lf line = .ok false := by
    simp [is_hydrogen, hel, bind, Except.bind, pure, Except.pure]
    simpa using hH
  simp only [PDB_line_selector_two_systems.keep, if_pos hrec, bind, Except.bind, hhyd, hwat,
    Accept_all_occupancy_policy, pure, Except.pure]
  rfl

theorem two_systems_keep_water_witness :
    ((Line_format.new line_water_O).record_type = Record_type.ATOM ∨
      (Line_format.new line_water_O).record_type = Record_type.HETATM) ∧
    (Line_format.new line_water_O).get_element line_water_O = .ok "O".toList ∧
    "O".toList ≠ "H".toList ∧
    (Line_format.new line_water_O).get_residue_name line_water_O = .ok "HOH".toList ∧
    PDB_line_selector_two_systems.keep Accept_all_occupancy_policy {}
      (Line_format.new line_water_O) line_water_O () = .ok ({}, (), 2) :=
  ⟨by decide, by decide, by decide, by decide,
   two_systems_keep_water {} (Line_format.new line_water_O) line_water_O "O".toList "HOH".toList
     (by decide) (by decide) (by decide) (by decide) (Or.inl rfl)⟩

/-! ## The stops of the builder -/

theorem except_bind_ne_error {α β : Type} (E : Fatal) (x : Except Fatal α)
    (f : α → Except Fatal β) (hx : x ≠ .error E) (hf : ∀ a, f a ≠ .error E) :
    (x >>= f) ≠ .error E := by
  cases x with
  | error e =>
    intro h
    simp only [bind, Except.bind, Except.error.injEq] at h
    exact hx (by rw [h])
  | ok a => exact hf a

theorem RECOVER_FIELD_ne_ambiguous {τ : Type} (cast : List Char → Option τ) (mandatory : Bool)
    (fname : String) (frm upto : Nat) (dflt : τ) (line : Line) :
    RECOVER_FIELD cast mandatory fname frm upto dflt line ≠ .error Fatal.ambiguous_occupancy := by
  unfold RECOVER_FIELD
  by_cases h1 : line.length < upto
  · rw [if_pos h1]
    cases mandatory <;> simp
  · rw [if_neg h1]
    unfold extract_field substr
    by_cases h2 : frm > line.length
    · simp [h2]
    · simp only [if_neg h2]
      by_cases h3 : (trim ((line.drop frm).take (field_width frm upto))).length = 0
      · rw [if_pos h3]
        cases mandatory <;> simp
      · rw [if_neg h3]
        cases cast (trim ((line.drop frm).take (field_width frm upto))) <;> simp

theorem get_charge_ne_ambiguous (lf : Line_format) (line : Line) :
    lf.get_charge line ≠ .error Fatal.ambiguous_occupancy := by
  unfold Line_format.get_charge
  have h := RECOVER_FIELD_ne_ambiguous lexical_cast_string Mandatory_fields_default.charge_str
    "charge_str" 78 79 [' '] line
  unfold Line_format.get_charge_str
  cases hc : RECOVER_FIELD lexical_cast_string Mandatory_fields_default.charge_str
      "charge_str" 78 79 [' '] line with
  | error e =>
    intro h1
    simp only [Except.error.injEq] at h1
    exact h (by rw [hc, h1])
  | ok s =>
    simp only
    split_ifs <;> simp
    all_goals
      split <;> simp

theorem atom_new_ne_ambiguous (lf : Line_format) (line : Line) :
    Molecular_atom.new lf line ≠ .error Fatal.ambiguous_occupancy := by
  unfold Molecular_atom.new
  refine except_bind_ne_error _ _ _ (RECOVER_FIELD_ne_ambiguous _ _ _ _ _ _ _) fun _ => ?_
  refine except_bind_ne_error _ _ _ (RECOVER_FIELD_ne_ambiguous _ _ _ _ _ _ _) fun _ => ?_
  refine except_bind_ne_error _ _ _ (RECOVER_FIELD_ne_ambiguous _ _ _ _ _ _ _) fun _ => ?_
  refine except_bind_ne_error _ _ _ (RECOVER_FIELD_ne_ambiguous _ _ _ _ _ _ _) fun _ => ?_
  refine except_bind_ne_error _ _ _ (RECOVER_FIELD_ne_ambiguous _ _ _ _ _ _ _) fun _ => ?_
  refine except_bind_ne_error _ _ _ (RECOVER_FIELD_ne_ambiguous _ _ _ _ _ _ _) fun _ => ?_
  refine except_bind_ne_error _ _ _ (RECOVER_FIELD_ne_ambiguous _ _ _ _ _ _ _) fun _ => ?_
  refine except_bind_ne_error _ _ _ (RECOVER_FIELD_ne_ambiguous _ _ _ _ _ _ _) fun _ => ?_
  refine except_bind_ne_error _ _ _ (RECOVER_FIELD_ne_ambiguous _ _ _ _ _ _ _) fun _ => ?_
  refine except_bind_ne_error _ _ _ (get_charge_ne_ambiguous lf line) fun _ => ?_
  simp [pure, Except.pure]

theorem residue_new_ne_ambiguous (lf : Line_format) (line : Line) :
    Molecular_residue.new lf line ≠ .error Fatal.ambiguous_occupancy := by
  unfold Molecular_residue.new
  refine except_bind_ne_error _ _ _ (RECOVER_FIELD_ne_ambiguous _ _ _ _ _ _ _) fun _ => ?_
  refine except_bind_ne_error _ _ _ (RECOVER_FIELD_ne_ambiguous _ _ _ _ _ _ _) fun _ => ?_
  refine except_bind_ne_error _ _ _ (RECOVER_FIELD_ne_ambiguous _ _ _ _ _ _ _) fun _ => ?_
  simp [pure, Except.pure]

theorem add_atom_ne_ambiguous (r : Molecular_residue) (lf : Line_format) (line : Line) :
    r.add_atom lf line ≠ .error Fatal.ambiguous_occupancy := by
  unfold Molecular_residue.add_atom
  refine except_bind_ne_error _ _ _ (RECOVER_FIELD_ne_ambiguous _ _ _ _ _ _ _) fun sn => ?_
  split_ifs
  · simp [throw, throwThe, MonadExceptOf.throw]
  · refine except_bind_ne_error _ _ _ (atom_new_ne_ambiguous lf line) fun _ => ?_
    simp [pure, Except.pure]

theorem get_or_create_residue_ne_ambiguous (c : Molecular_chain) (lf : Line_format)
    (line : Line) : c.get_or_create_residue lf line ≠ .error Fatal.ambiguous_occupancy := by
  unfold Molecular_chain.get_or_create_residue
  refine except_bind_ne_error _ _ _ (RECOVER_FIELD_ne_ambiguous _ _ _ _ _ _ _) fun rs => ?_
  refine except_bind_ne_error _ _ _ (RECOVER_FIELD_ne_ambiguous _ _ _ _ _ _ _) fun ic => ?_
  split
  · simp [pure, Except.pure]
  · refine except_bind_ne_error _ _ _ (residue_new_ne_ambiguous lf line) fun _ => ?_
    simp [pure, Except.pure]

theorem get_or_create_chain_ne_ambiguous (m : Molecular_model) (lf : Line_format)
    (line : Line) : m.get_or_create_chain lf line ≠ .error Fatal.ambiguous_occupancy := by
  unfold Molecular_model.get_or_create_chain
  refine except_bind_ne_error _ _ _ (RECOVER_FIELD_ne_ambiguous _ _ _ _ _ _ _) fun ch => ?_
  split
  · simp [pure, Except.pure]
  · refine except_bind_ne_error _ _ _ (RECOVER_FIELD_ne_ambiguous _ _ _ _ _ _ _) fun _ => ?_
    simp [pure, Except.pure]

theorem system_interpret_line_ne_ambiguous (s : Molecular_system) (lf : Line_format)
    (line : Line) (cm : Int) : s.interpret_line lf line cm ≠ .error Fatal.ambiguous_occupancy := by
  unfold Molecular_system.interpret_line
  simp only
  refine except_bind_ne_error _ _ _ (get_or_create_chain_ne_ambiguous _ lf line) fun r1 => ?_
  refine except_bind_ne_error _ _ _ (get_or_create_residue_ne_ambiguous _ lf line) fun r2 => ?_
  refine except_bind_ne_error _ _ _ (add_atom_ne_ambiguous _ lf line) fun r3 => ?_
  simp [pure, Except.pure]

/-- The builder never stops with the error of the tie of occupancies. -/
theorem builder_interpret_line_ne_ambiguous (b : All_atom_system_builder) (lf : Line_format)
    (line : Line) (k : Int) : b.interpret_line lf line k ≠ .error Fatal.ambiguous_occupancy := by
  unfold All_atom_system_builder.interpret_line
  by_cases hk : k = RMK
  · rw [if_pos hk]
    split_ifs
    · refine except_bind_ne_error _ _ _ (RECOVER_FIELD_ne_ambiguous _ _ _ _ _ _ _) fun _ => ?_
      simp [pure, Except.pure]
    · simp [pure, Except.pure]
  · rw [if_neg hk]
    simp only
    generalize (if (!b.prebuilt_systems && decide ((b.systems_.length : Int) < k)) = true
      then b.systems_ ++ [Molecular_system.new k] else b.systems_) = systems1
    split_ifs
    · simp [throw, throwThe, MonadExceptOf.throw]
    · cases systems1.get? (k - 1).toNat with
      | none => simp [throw, throwThe, MonadExceptOf.throw]
      | some sys =>
        simp only
        refine except_bind_ne_error _ _ _ (system_interpret_line_ne_ambiguous sys lf line _)
          fun _ => ?_
        simp [pure, Except.pure]

/-! ## The extremal-occupancy policies -/

theorem map_find_insert_isSome {κ ν : Type} (lt : κ → κ → Bool) (k o : κ) (v : ν)
    (m : List (κ × ν)) (h : (map_find lt k (map_insert lt o v m)).isSome = true) :
    (lt k o = false ∧ lt o k = false) ∨ (map_find lt k m).isSome = true := by
  induction m with
  | nil =>
    simp only [map_insert, map_find] at h
    by_cases h1 : lt o k = true
    · simp [h1, map_find] at h
    · by_cases h2 : lt k o = true
      · simp [h1, h2] at h
      · left
        exact ⟨by simpa using h2, by simpa using h1⟩
  | cons e rest ih =>
    obtain ⟨k1, v1⟩ := e
    by_cases c1 : lt k1 o = true
    · simp only [map_insert, c1, if_true, map_find] at h ⊢
      by_cases d1 : lt k1 k = true
      · simp only [d1, if_true] at h ⊢
        exact ih h
      · simp only [d1] at h ⊢
        right
        exact h
    · by_cases c2 : lt o k1 = true
      · simp only [map_insert, c1, c2, if_true] at h
        simp only [map_find] at h
        by_cases h1 : lt o k = true
        · simp only [h1, if_true] at h
          right
          simpa [map_find] using h
        · by_cases h2 : lt k o = true
          · simp [h1, h2] at h
          · left
            exact ⟨by simpa using h2, by simpa using h1⟩
      · simp only [map_insert, c1, c2] at h
        right
        exact h

theorem map_find_assign_isSome {κ ν : Type} (lt : κ → κ → Bool) (k o : κ) (v : ν)
    (m : List (κ × ν)) :
    (map_find lt k (map_assign lt o v m)).isSome = (map_find lt k m).isSome := by
  induction m with
  | nil => rfl
  | cons e rest ih =>
    obtain ⟨k1, v1⟩ := e
    cases c1 : lt k1 o <;> cases c2 : lt o k1 <;> cases d1 : lt k1 k <;> cases d2 : lt k k1 <;>
      simp [map_assign, map_find, c1, c2, d1, d2, ih]

theorem double_lt_eq_of_not (a b : ℚ) (h1 : double_lt a b = false) (h2 : double_lt b a = false) :
    a = b := by
  simp only [double_lt, decide_eq_false_iff_not, not_lt] at h1 h2
  exact le_antisymm h2 h1

theorem not_beyond_refl (tm : Bool) (a : ℚ) : not_beyond tm a a := by
  unfold not_beyond
  split <;> exact le_refl a

theorem not_beyond_trans (tm : Bool) (a b c : ℚ) (h1 : not_beyond tm a b)
    (h2 : not_beyond tm b c) : not_beyond tm a c := by
  unfold not_beyond at *
  split at h1 <;> simp_all <;> linarith

theorem not_beyond_antisymm (tm : Bool) (a b : ℚ) (h1 : not_beyond tm a b)
    (h2 : not_beyond tm b a) : a = b := by
  unfold not_beyond at *
  split at h1 <;> simp_all <;> linarith

theorem not_beyond_total (tm : Bool) (a b : ℚ) : not_beyond tm a b ∨ not_beyond tm b a := by
  unfold not_beyond
  split
  · exact le_total a b
  · exact le_total b a

namespace Min_or_max_occupancy_policy

theorem add_line_find (p : Min_or_max_state) (o : ℚ) (line : Line) (k : Int) :
    map_find double_lt o (add_line p o line k).lines =
      some (match map_find double_lt o p.lines with
            | some e => (e.1, e.2 ++ [line])
            | none => (k, [line])) := by
  unfold add_line
  cases hf : map_find double_lt o p.lines with
  | some e =>
    simp only
    exact map_find_assign_self double_lt o _ _ (by simp [hf])
  | none =>
    simp only
    exact map_find_assign_self double_lt o _ _
      (by simp [map_find_insert_self double_lt double_lt_irrefl o _ _ hf])

theorem add_line_keys (p : Min_or_max_state) (o : ℚ) (line : Line) (k : Int) (key : ℚ)
    (h : (map_find double_lt key (add_line p o line k).lines).isSome = true) :
    key = o ∨ (map_find double_lt key p.lines).isSome = true := by
  unfold add_line at h
  cases hf : map_find double_lt o p.lines with
  | some e =>
    rw [hf] at h
    simp only at h
    rw [map_find_assign_isSome] at h
    exact Or.inr h
  | none =>
    rw [hf] at h
    simp only at h
    rw [map_find_assign_isSome] at h
    rcases map_find_insert_isSome double_lt key o _ _ h with h1 | h1
    · exact Or.inl (double_lt_eq_of_not _ _ h1.1 h1.2)
    · exact Or.inr h1

/-- One call of `add_or_postpone`, by cases on the line. -/
theorem add_or_postpone_cases (tm : Bool) (p p1 : Min_or_max_state) (line : Line) (k r : Int)
    (h : add_or_postpone tm p (Line_format.new line) line k = .ok (p1, r)) :
    (is_ambiguous line = false ∧ p1 = p ∧ r = k) ∨
    (is_ambiguous line = true ∧ r = DISCARD ∧
      ((not_beyond tm p.min_or_max_occupancy (occupancy_of line) ∧
          p1 = { add_line p (occupancy_of line) line k with
                 min_or_max_occupancy := occupancy_of line }) ∨
       (¬ not_beyond tm p.min_or_max_occupancy (occupancy_of line) ∧ p1 = p))) := by
  unfold add_or_postpone at h
  simp only [bind, Except.bind] at h
  cases ho : (Line_format.new line).get_occupancy line with
  | error e => simp [ho] at h
  | ok o =>
    have hoo : occupancy_of line = o := by simp [occupancy_of, ho]
    rw [ho] at h
    simp only at h
    by_cases h1 : o = 1
    · simp only [h1, if_true, pure, Except.pure, Except.ok.injEq, Prod.mk.injEq] at h
      left
      exact ⟨by simp [is_ambiguous, hoo, h1], h.1.symm, h.2.symm⟩
    · rw [if_neg h1] at h
      cases ha : (Line_format.new line).get_alternate_location line with
      | error e => simp [ha] at h
      | ok a =>
        have haa : altloc_of line = a := by simp [altloc_of, ha]
        rw [ha] at h
        simp only at h
        by_cases h2 : a = ' '
        · have hamb : is_ambiguous line = true := by simp [is_ambiguous, hoo, h1, haa, h2]
          simp only [h2, ne_eq, not_true_eq_false, if_false] at h
          right
          refine ⟨hamb, ?_⟩
          by_cases h3 : not_beyond tm p.min_or_max_occupancy o
          · have hd : (if tm = true then decide (o ≥ p.min_or_max_occupancy)
                else decide (o ≤ p.min_or_max_occupancy)) = true := by
              unfold not_beyond at h3
              split at h3 <;> simp_all
            rw [if_pos hd] at h
            simp only [pure, Except.pure, Except.ok.injEq, Prod.mk.injEq] at h
            exact ⟨h.2.symm, Or.inl ⟨hoo ▸ h3, by rw [hoo]; exact h.1.symm⟩⟩
          · have hd : ¬ (if tm = true then decide (o ≥ p.min_or_max_occupancy)
                else decide (o ≤ p.min_or_max_occupancy)) = true := by
              unfold not_beyond at h3
              split at h3 <;> simp_all
            rw [if_neg hd] at h
            simp only [pure, Except.pure, Except.ok.injEq, Prod.mk.injEq] at h
            exact ⟨h.2.symm, Or.inr ⟨hoo ▸ h3, h.1.symm⟩⟩
        · left
          simp only [ne_eq, h2, not_false_eq_true, if_true, pure, Except.pure, Except.ok.injEq,
            Prod.mk.injEq] at h
          exact ⟨by simp [is_ambiguous, haa, h2], h.1.symm, h.2.symm⟩

theorem calls_at_append (o : ℚ) (xs ys : List (Line × Int)) :
    calls_at o (xs ++ ys) = calls_at o xs ++ calls_at o ys := by
  simp [calls_at, List.filter_append]

theorem calls_at_eq_nil_of_no_ambiguous (o : ℚ) (calls : List (Line × Int))
    (h : ∀ c ∈ calls, is_ambiguous c.1 = false) : calls_at o calls = [] := by
  simp only [calls_at, List.filter_eq_nil_iff]
  intro c hc
  simp [h c hc]

theorem first_index_append (xs ys : List (Line × Int)) (h : xs ≠ []) :
    first_index (xs ++ ys) = first_index xs := by
  cases xs with
  | nil => exact absurd rfl h
  | cons c xs => rfl

theorem inv_init (tm : Bool) : Min_or_max_inv tm (new tm) [] where
  empty := fun _ => ⟨rfl, rfl⟩
  keys := fun key h => by simp [new, map_find] at h
  extremal := fun c hc => by simp at hc
  bucket := fun h => by simp at h

/-- The entry that the state holds for an occupancy no earlier than the running
extremum. -/
theorem inv_find_at (tm : Bool) (p : Min_or_max_state) (calls : List (Line × Int))
    (hinv : Min_or_max_inv tm p calls) (o : ℚ)
    (hnb : not_beyond tm p.min_or_max_occupancy o) :
    map_find double_lt o p.lines =
      if calls_at o calls = [] then none
      else some (first_index (calls_at o calls), (calls_at o calls).map Prod.fst) := by
  by_cases hamb : ∃ c ∈ calls, is_ambiguous c.1 = true
  · by_cases ho : o = p.min_or_max_occupancy
    · subst ho
      obtain ⟨hne, hfind⟩ := hinv.bucket hamb
      rw [if_neg hne, hfind]
    · have hnone : map_find double_lt o p.lines = none := by
        cases hf : map_find double_lt o p.lines with
        | none => rfl
        | some e =>
          exact absurd (not_beyond_antisymm tm _ _ (hinv.keys o (by simp [hf])) hnb) ho
      have hnil : calls_at o calls = [] := by
        simp only [calls_at, List.filter_eq_nil_iff]
        intro c hc hco
        simp only [Bool.and_eq_true, decide_eq_true_eq] at hco
        exact ho (not_beyond_antisymm tm _ _ (hco.2 ▸ hinv.extremal c hc hco.1) hnb)
      rw [hnone, if_pos hnil]
  · have hno : ∀ c ∈ calls, is_ambiguous c.1 = false := by
      intro c hc
      cases hca : is_ambiguous c.1 with
      | false => rfl
      | true => exact absurd ⟨c, hc, hca⟩ hamb
    rw [if_pos (calls_at_eq_nil_of_no_ambiguous o calls hno), (hinv.empty hno).1]
    rfl

/-- The invariant after one more call. -/
theorem inv_step (tm : Bool) (p p1 : Min_or_max_state) (calls : List (Line × Int))
    (line : Line) (k r : Int) (hinv : Min_or_max_inv tm p calls)
    (hstep : add_or_postpone tm p (Line_format.new line) line k = .ok (p1, r))
    (hrange : 0 ≤ occupancy_of line ∧ occupancy_of line ≤ 1) :
    Min_or_max_inv tm p1 (calls ++ [(line, k)]) := by
  rcases add_or_postpone_cases tm p p1 line k r hstep with
    ⟨hna, hp, -⟩ | ⟨ha, -, ⟨hnb, hp⟩ | ⟨hnb, hp⟩⟩ <;> rw [hp]
  · -- the line is not ambiguous
    have hat : ∀ o, calls_at o (calls ++ [(line, k)]) = calls_at o calls := by
      intro o
      rw [calls_at_append]
      simp [calls_at, hna]
    refine ⟨?_, hinv.keys, ?_, ?_⟩
    · intro h
      exact hinv.empty fun c hc => h c (List.mem_append_left _ hc)
    · intro c hc hca
      rcases List.mem_append.mp hc with hc | hc
      · exact hinv.extremal c hc hca
      · simp only [List.mem_singleton] at hc
        subst hc
        simp [hna] at hca
    · rintro ⟨c, hc, hca⟩
      rw [hat]
      rcases List.mem_append.mp hc with hc | hc
      · exact hinv.bucket ⟨c, hc, hca⟩
      · simp only [List.mem_singleton] at hc
        subst hc
        simp [hna] at hca
  · -- the line is ambiguous and taken
    have hfind := inv_find_at tm p calls hinv (occupancy_of line) hnb
    refine ⟨?_, ?_, ?_, ?_⟩
    · intro h
      have := h (line, k) (by simp)
      simp [ha] at this
    · intro key hkey
      rcases add_line_keys p (occupancy_of line) line k key hkey with h | h
      · subst h
        exact not_beyond_refl tm _
      · exact not_beyond_trans tm _ _ _ (hinv.keys key h) hnb
    · intro c hc hca
      rcases List.mem_append.mp hc with hc | hc
      · exact not_beyond_trans tm _ _ _ (hinv.extremal c hc hca) hnb
      · simp only [List.mem_singleton] at hc
        subst hc
        exact not_beyond_refl tm _
    · intro _
      have hat : calls_at (occupancy_of line) (calls ++ [(line, k)])
          = calls_at (occupancy_of line) calls ++ [(line, k)] := by
        rw [calls_at_append]
        simp [calls_at, ha]
      simp only
      rw [hat, add_line_find, hfind]
      refine ⟨by simp, ?_⟩
      by_cases hnil : calls_at (occupancy_of line) calls = []
      · rw [if_pos hnil, hnil]
        rfl
      · rw [if_neg hnil, first_index_append _ _ hnil]
        simp
  · -- the line is ambiguous and not taken
    have hbe : not_beyond tm (occupancy_of line) p.min_or_max_occupancy := by
      rcases not_beyond_total tm (occupancy_of line) p.min_or_max_occupancy with h | h
      · exact h
      · exact absurd h hnb
    have hne : occupancy_of line ≠ p.min_or_max_occupancy := by
      intro h
      exact hnb (h ▸ not_beyond_refl tm _)
    have hamb : ∃ c ∈ calls, is_ambiguous c.1 = true := by
      by_contra hno
      have hno1 : ∀ c ∈ calls, is_ambiguous c.1 = false := by
        intro c hc
        cases hca : is_ambiguous c.1 with
        | false => rfl
        | true => exact absurd ⟨c, hc, hca⟩ hno
      have hmm := (hinv.empty hno1).2
      apply hnb
      rw [hmm]
      unfold not_beyond
      cases tm <;> simp [hrange.1, hrange.2]
    have hat : calls_at p.min_or_max_occupancy (calls ++ [(line, k)])
        = calls_at p.min_or_max_occupancy calls := by
      rw [calls_at_append]
      simp [calls_at, hne]
    refine ⟨?_, hinv.keys, ?_, ?_⟩
    · intro h
      have := h (line, k) (by simp)
      simp [ha] at this
    · intro c hc hca
      rcases List.mem_append.mp hc with hc | hc
      · exact hinv.extremal c hc hca
      · simp only [List.mem_singleton] at hc
        subst hc
        exact hbe
    · intro _
      rw [hat]
      exact hinv.bucket hamb

/-- The invariant after a sequence of calls. -/
theorem inv_run (tm : Bool) (calls pre : List (Line × Int)) (p p1 : Min_or_max_state)
    (hinv : Min_or_max_inv tm p pre)
    (hrun : add_or_postpone_all tm p calls = .ok p1)
    (hrange : ∀ c ∈ calls, 0 ≤ occupancy_of c.1 ∧ occupancy_of c.1 ≤ 1) :
    Min_or_max_inv tm p1 (pre ++ calls) := by
  induction calls generalizing pre p with
  | nil =>
    simp only [add_or_postpone_all, pure, Except.pure, Except.ok.injEq] at hrun
    subst hrun
    simpa using hinv
  | cons c rest ih =>
    obtain ⟨line, k⟩ := c
    simp only [add_or_postpone_all] at hrun
    split at hrun
    · simp at hrun
    · rename_i p2 r hstep
      have h2 := inv_step tm p p2 pre line k r hinv hstep (hrange (line, k) (by simp))
      have h3 := ih (pre ++ [(line, k)]) p2 h2 hrun
        (fun c hc => hrange c (List.mem_cons_of_mem _ hc))
      simpa using h3

theorem replay_eq_foldlM {β : Type} (interp : β → Line_format → Line → Int → Except Fatal β)
    (idx : Int) (ls : List Line) (b : β) (n : Int) :
    replay interp idx ls b n =
      (ls.foldlM (fun b1 l => interp b1 (Line_format.new l) l idx) b).map
        (fun b1 => (b1, n + (ls.length : Int))) := by
  induction ls generalizing b n with
  | nil => simp [replay, Except.map, pure, Except.pure]
  | cons l ls ih =>
    simp only [replay, List.foldlM_cons, bind, Except.bind]
    cases interp b (Line_format.new l) l idx with
    | error e => rfl
    | ok b1 =>
      simp only [ih, List.length_cons, Nat.cast_add, Nat.cast_one]
      congr 1
      funext b2
      congr 1
      ring

/-- C7: after any sequence of `add_or_postpone` calls on lines whose occupancies lie
in [0,1], `finalize` returns 0 without a call when no line was ambiguous; and when `M`
is the extremal occupancy of the ambiguous lines (the maximum for `take_max`, the
minimum otherwise) and is not 0.5, `finalize` gives the builder exactly the ambiguous
lines of occupancy `M`, each once and in the order of the calls, with the system index
of the first of them, and returns their number. -/
theorem finalize_passes_extremal_lines (take_max : Bool) (calls : List (Line × Int))
    (p : Min_or_max_state)
    (hrun : add_or_postpone_all take_max (new take_max) calls = .ok p)
    (hrange : ∀ c ∈ calls, 0 ≤ occupancy_of c.1 ∧ occupancy_of c.1 ≤ 1)
    {β : Type} (interp : β → Line_format → Line → Int → Except Fatal β) (b : β) :
    ((∀ c ∈ calls, is_ambiguous c.1 = false) → finalize interp p b = .ok (b, 0)) ∧
    (∀ M : ℚ, (∃ c ∈ calls, is_ambiguous c.1 = true ∧ occupancy_of c.1 = M) →
      (∀ c ∈ calls, is_ambiguous c.1 = true → not_beyond take_max (occupancy_of c.1) M) →
      M ≠ 1 / 2 →
      finalize interp p b =
        (((calls_at M calls).map Prod.fst).foldlM
          (fun b1 l => interp b1 (Line_format.new l) l (first_index (calls_at M calls))) b).map
          (fun b1 => (b1, ((calls_at M calls).length : Int)))) := by
  have hinv := inv_run take_max calls [] (new take_max) p (inv_init take_max) hrun hrange
  simp only [List.nil_append] at hinv
  constructor
  · intro hno
    have := (hinv.empty hno).1
    simp [finalize, this, pure, Except.pure]
  · rintro M ⟨c, hc, hca, hcM⟩ hext hM
    have hamb : ∃ c ∈ calls, is_ambiguous c.1 = true := ⟨c, hc, hca⟩
    obtain ⟨hne, hfind⟩ := hinv.bucket hamb
    have hmm : p.min_or_max_occupancy = M := by
      obtain ⟨c1, hc1⟩ := List.exists_mem_of_ne_nil _ hne
      simp only [calls_at, List.mem_filter, Bool.and_eq_true, decide_eq_true_eq] at hc1
      have h1 := hext c1 hc1.1 hc1.2.1
      rw [hc1.2.2] at h1
      have h2 := hinv.extremal c hc hca
      rw [hcM] at h2
      exact not_beyond_antisymm take_max _ _ h1 h2
    rw [hmm] at hfind
    have hlines : p.lines ≠ [] := by
      intro h
      rw [h] at hfind
      simp [map_find] at hfind
    have hemp : p.lines.isEmpty = false := by
      cases hl : p.lines with
      | nil => exact absurd hl hlines
      | cons _ _ => rfl
    unfold finalize
    rw [hemp, hmm]
    simp only [Bool.false_eq_true, if_false, if_neg hM, hfind]
    rw [replay_eq_foldlM]
    simp

theorem finalize_passes_extremal_lines_witness :
    add_or_postpone_all true (new true) calls_030_050A_070 = .ok state_030_070 ∧
    (∀ c ∈ calls_030_050A_070, 0 ≤ occupancy_of c.1 ∧ occupancy_of c.1 ≤ 1) ∧
    finalize recording_interpret_line state_030_070 [] = .ok ([(line_occ_070, 1)], 1) :=
  ⟨by decide!, by decide!,
   ((finalize_passes_extremal_lines true calls_030_050A_070 state_030_070 (by decide!)
      (by decide!) recording_interpret_line []).2 (7 / 10) (by decide!) (by decide!)
      (by norm_num)).trans (by decide!)⟩

/-- Whatever the occupancies, a state reached by calls has an entry for its running
extremum as soon as it has an entry, and has entries only after an ambiguous call. -/
theorem reached_state (tm : Bool) (calls pre : List (Line × Int)) (p p1 : Min_or_max_state)
    (hp : (p.lines = [] ∨ (map_find double_lt p.min_or_max_occupancy p.lines).isSome = true) ∧
      (p.lines ≠ [] → ∃ c ∈ pre, is_ambiguous c.1 = true))
    (hrun : add_or_postpone_all tm p calls = .ok p1) :
    (p1.lines = [] ∨ (map_find double_lt p1.min_or_max_occupancy p1.lines).isSome = true) ∧
    (p1.lines ≠ [] → ∃ c ∈ pre ++ calls, is_ambiguous c.1 = true) := by
  induction calls generalizing pre p with
  | nil =>
    simp only [add_or_postpone_all, pure, Except.pure, Except.ok.injEq] at hrun
    subst hrun
    simpa using hp
  | cons c rest ih =>
    obtain ⟨line, k⟩ := c
    simp only [add_or_postpone_all] at hrun
    split at hrun
    · simp at hrun
    · rename_i p2 r hstep
      have h2 : (p2.lines = [] ∨
          (map_find double_lt p2.min_or_max_occupancy p2.lines).isSome = true) ∧
          (p2.lines ≠ [] → ∃ c ∈ pre ++ [(line, k)], is_ambiguous c.1 = true) := by
        rcases add_or_postpone_cases tm p p2 line k r hstep with
          ⟨-, hp2, -⟩ | ⟨ha, -, ⟨-, hp2⟩ | ⟨-, hp2⟩⟩
        · rw [hp2]
          refine ⟨hp.1, fun h => ?_⟩
          obtain ⟨c, hc, hca⟩ := hp.2 h
          exact ⟨c, List.mem_append_left _ hc, hca⟩
        · rw [hp2]
          refine ⟨Or.inr ?_, fun _ => ⟨(line, k), by simp, ha⟩⟩
          simp only
          rw [add_line_find]
          rfl
        · rw [hp2]
          exact ⟨hp.1, fun _ => ⟨(line, k), by simp, ha⟩⟩
      have h3 := ih (pre ++ [(line, k)]) p2 h2 hrun
      simpa using h3

theorem replay_total {β : Type} (interp : β → Line_format → Line → Int → Except Fatal β)
    (htotal : ∀ b lf l k, ∃ b1, interp b lf l k = .ok b1) (idx : Int) (ls : List Line) (b : β)
    (n : Int) : ∃ r, replay interp idx ls b n = .ok r := by
  induction ls generalizing b n with
  | nil => exact ⟨(b, n), rfl⟩
  | cons l ls ih =>
    obtain ⟨b1, hb1⟩ := htotal b (Line_format.new l) l idx
    simp only [replay, bind, Except.bind, hb1]
    exact ih b1 (n + 1)

theorem replay_error {β : Type} (interp : β → Line_format → Line → Int → Except Fatal β)
    (idx : Int) (ls : List Line) (b : β) (n : Int) (e : Fatal)
    (h : replay interp idx ls b n = .error e) :
    ∃ b2 l, interp b2 (Line_format.new l) l idx = .error e := by
  induction ls generalizing b n with
  | nil => cases h
  | cons l ls ih =>
    simp only [replay, bind, Except.bind] at h
    cases hb : interp b (Line_format.new l) l idx with
    | error e1 =>
      rw [hb] at h
      simp only [Except.error.injEq] at h
      exact ⟨b, l, h ▸ hb⟩
    | ok b1 =>
      rw [hb] at h
      exact ih b1 (n + 1) h

/-- C8, as stated, fails: after the line of occupancy 0.70 was offered twice to the policy
of the greatest occupancy, an entry is buffered and the running extremum is 0.7, not 0.5,
yet `finalize` stops when it is given the builder of the systems: the second line that
it replays has the serial number of the first, and the builder stops on it. -/
theorem finalize_stops_without_tie :
    add_or_postpone_all true (new true) calls_070_twice = .ok state_070_twice ∧
    state_070_twice.lines ≠ [] ∧ state_070_twice.min_or_max_occupancy = 7 / 10 ∧
    state_070_twice.min_or_max_occupancy ≠ 1 / 2 ∧
    finalize All_atom_system_builder.interpret_line state_070_twice
        (All_atom_system_builder.new [] 1)
      = .error (Fatal.assertion_failed "Two atoms with same serial numbers.") := by
  decide!

/-- C8, amended: in a state reached by `add_or_postpone` calls, an entry is buffered only
after an ambiguous call. When an entry is buffered and the running extremum is exactly
0.5, `finalize` stops with its own error whatever the builder, so that no line is given to
it. In every other state `finalize` is the replay of the lines of one entry into the
builder, or returns 0 without a call: a stop is then a stop of the builder on a line given
to it. So `finalize` stops with its own error exactly on the tie when the builder never
stops with that error, as is the builder of the systems, and stops at all exactly on the
tie when the builder accepts every line. -/
theorem finalize_fatal_iff_tie (take_max : Bool) (calls : List (Line × Int))
    (p : Min_or_max_state)
    (hrun : add_or_postpone_all take_max (new take_max) calls = .ok p)
    {β : Type} (interp : β → Line_format → Line → Int → Except Fatal β) (b : β) :
    (p.lines ≠ [] → ∃ c ∈ calls, is_ambiguous c.1 = true) ∧
    (p.lines ≠ [] ∧ p.min_or_max_occupancy = 1 / 2 →
      ∀ (γ : Type) (interp1 : γ → Line_format → Line → Int → Except Fatal γ) (b1 : γ),
        finalize interp1 p b1 = .error Fatal.ambiguous_occupancy) ∧
    (¬ (p.lines ≠ [] ∧ p.min_or_max_occupancy = 1 / 2) →
      ∃ (idx : Int) (ls : List Line),
        finalize interp p b =
          (ls.foldlM (fun b1 l => interp b1 (Line_format.new l) l idx) b).map
            (fun b1 => (b1, (ls.length : Int)))) ∧
    (∀ (γ : Type) (interp1 : γ → Line_format → Line → Int → Except Fatal γ) (b1 : γ) (e : Fatal),
      finalize interp1 p b1 = .error e →
      (p.lines ≠ [] ∧ p.min_or_max_occupancy = 1 / 2 ∧ e = Fatal.ambiguous_occupancy) ∨
      ∃ b2 l k, interp1 b2 (Line_format.new l) l k = .error e) ∧
    ((∀ b2 lf l k, interp b2 lf l k ≠ .error Fatal.ambiguous_occupancy) →
      (finalize interp p b = .error Fatal.ambiguous_occupancy ↔
        (p.lines ≠ [] ∧ p.min_or_max_occupancy = 1 / 2))) ∧
    (∀ b1 : All_atom_system_builder,
      finalize All_atom_system_builder.interpret_line p b1 = .error Fatal.ambiguous_occupancy ↔
        (p.lines ≠ [] ∧ p.min_or_max_occupancy = 1 / 2)) ∧
    ((∀ b2 lf l k, ∃ b1, interp b2 lf l k = .ok b1) →
      ((∃ e, finalize interp p b = .error e) ↔
        (p.lines ≠ [] ∧ p.min_or_max_occupancy = 1 / 2))) := by
  have hr := reached_state take_max calls [] (new take_max) p
    ⟨Or.inl rfl, fun h => absurd rfl h⟩ hrun
  simp only [List.nil_append] at hr
  have hfatal : p.lines ≠ [] ∧ p.min_or_max_occupancy = 1 / 2 →
      ∀ (γ : Type) (interp1 : γ → Line_format → Line → Int → Except Fatal γ) (b1 : γ),
        finalize interp1 p b1 = .error Fatal.ambiguous_occupancy := by
    rintro ⟨hl, hm⟩ γ interp1 b1
    have hemp : p.lines.isEmpty = false := by
      cases hl1 : p.lines with
      | nil => exact absurd hl1 hl
      | cons _ _ => rfl
    unfold finalize
    rw [hemp, if_pos hm]
    simp only [Bool.false_eq_true, if_false]
    rfl
  have hreplay : ¬ (p.lines ≠ [] ∧ p.min_or_max_occupancy = 1 / 2) →
      ∀ (γ : Type) (interp1 : γ → Line_format → Line → Int → Except Fatal γ) (b1 : γ),
      ∃ (idx : Int) (ls : List Line),
        finalize interp1 p b1 =
          (ls.foldlM (fun b2 l => interp1 b2 (Line_format.new l) l idx) b1).map
            (fun b2 => (b2, (ls.length : Int))) := by
    intro hno γ interp1 b1
    by_cases hl : p.lines = []
    · exact ⟨0, [], by simp [finalize, hl, pure, Except.pure, Except.map]⟩
    · have hm : ¬ p.min_or_max_occupancy = 1 / 2 := fun hm => hno ⟨hl, hm⟩
      have hemp : p.lines.isEmpty = false := by
        cases hl1 : p.lines with
        | nil => exact absurd hl1 hl
        | cons _ _ => rfl
      rcases hr.1 with h | h
      · exact absurd h hl
      · cases hf : map_find double_lt p.min_or_max_occupancy p.lines with
        | none => simp [hf] at h
        | some entry =>
          refine ⟨entry.1, entry.2, ?_⟩
          unfold finalize
          rw [hemp, if_neg hm]
          simp only [Bool.false_eq_true, if_false, hf]
          rw [replay_eq_foldlM]
          simp
  have horigin : ∀ (γ : Type) (interp1 : γ → Line_format → Line → Int → Except Fatal γ)
      (b1 : γ) (e : Fatal), finalize interp1 p b1 = .error e →
      (p.lines ≠ [] ∧ p.min_or_max_occupancy = 1 / 2 ∧ e = Fatal.ambiguous_occupancy) ∨
      ∃ b2 l k, interp1 b2 (Line_format.new l) l k = .error e := by
    intro γ interp1 b1 e he
    by_cases hl : p.lines = []
    · simp [finalize, hl, pure, Except.pure] at he
    · by_cases hm : p.min_or_max_occupancy = 1 / 2
      · rw [hfatal ⟨hl, hm⟩ γ interp1 b1] at he
        simp only [Except.error.injEq] at he
        exact Or.inl ⟨hl, hm, he.symm⟩
      · have hemp : p.lines.isEmpty = false := by
          cases hl1 : p.lines with
          | nil => exact absurd hl1 hl
          | cons _ _ => rfl
        unfold finalize at he
        rw [hemp, if_neg hm] at he
        simp only [Bool.false_eq_true, if_false] at he
        rcases hr.1 with h | h
        · exact absurd h hl
        · cases hf : map_find double_lt p.min_or_max_occupancy p.lines with
          | none => simp [hf] at h
          | some entry =>
            rw [hf] at he
            simp only at he
            obtain ⟨b2, l, hb2⟩ := replay_error interp1 entry.1 entry.2 b1 0 e he
            exact Or.inr ⟨b2, l, entry.1, hb2⟩
  have hown : ∀ (γ : Type) (interp1 : γ → Line_format → Line → Int → Except Fatal γ) (b1 : γ),
      (∀ b2 lf l k, interp1 b2 lf l k ≠ .error Fatal.ambiguous_occupancy) →
      (finalize interp1 p b1 = .error Fatal.ambiguous_occupancy ↔
        (p.lines ≠ [] ∧ p.min_or_max_occupancy = 1 / 2)) := by
    intro γ interp1 b1 hnever
    refine ⟨fun he => ?_, fun h => hfatal h γ interp1 b1⟩
    rcases horigin γ interp1 b1 _ he with h | ⟨b2, l, k, h⟩
    · exact ⟨h.1, h.2.1⟩
    · exact absurd h (hnever b2 (Line_format.new l) l k)
  refine ⟨hr.2, hfatal, fun hno => hreplay hno β interp b, horigin, hown β interp b,
    fun b1 => hown All_atom_system_builder All_atom_system_builder.interpret_line b1
      builder_interpret_line_ne_ambiguous,
    fun htotal => ⟨?_, fun h => ⟨_, hfatal h β interp b⟩⟩⟩
  · rintro ⟨e, he⟩
    rcases horigin β interp b e he with h | ⟨b2, l, k, h⟩
    · exact ⟨h.1, h.2.1⟩
    · obtain ⟨b3, hb3⟩ := htotal b2 (Line_format.new l) l k
      rw [hb3] at h
      cases h

theorem finalize_fatal_iff_tie_witness :
    add_or_postpone_all false (new false) [(line_occ_050, 1)] = .ok state_050 ∧
    state_050.lines ≠ [] ∧ state_050.min_or_max_occupancy = 1 / 2 ∧
    finalize All_atom_system_builder.interpret_line state_050 (All_atom_system_builder.new [] 1)
      = .error Fatal.ambiguous_occupancy :=
  ⟨by decide!, by decide!, by decide!,
   (finalize_fatal_iff_tie false [(line_occ_050, 1)] state_050 (by decide!)
      All_atom_system_builder.interpret_line (All_atom_system_builder.new [] 1)).2.1
      ⟨by decide!, by decide!⟩ All_atom_system_builder All_atom_system_builder.interpret_line
      (All_atom_system_builder.new [] 1)⟩

end Min_or_max_occupancy_policy

/-! ## The atoms of the hierarchy -/

theorem mem_map_insert {κ ν : Type} (lt : κ → κ → Bool) (k : κ) (v : ν) (m : List (κ × ν))
    (e : κ × ν) (h : e ∈ map_insert lt k v m) : e = (k, v) ∨ e ∈ m := by
  induction m with
  | nil => simpa [map_insert] using h
  | cons e1 rest ih =>
    obtain ⟨k1, v1⟩ := e1
    cases c1 : lt k1 k <;> cases c2 : lt k k1 <;>
      simp only [map_insert, c1, c2, if_true, if_false, Bool.false_eq_true,
        List.mem_cons] at h ⊢
    · exact Or.inr h
    · rcases h with h | h | h
      · exact Or.inl h
      · exact Or.inr (Or.inl h)
      · exact Or.inr (Or.inr h)
    · rcases h with h | h
      · exact Or.inr (Or.inl h)
      · rcases ih h with h | h
        · exact Or.inl h
        · exact Or.inr (Or.inr h)
    · rcases h with h | h
      · exact Or.inr (Or.inl h)
      · rcases ih h with h | h
        · exact Or.inl h
        · exact Or.inr (Or.inr h)

theorem mem_map_assign {κ ν : Type} (lt : κ → κ → Bool) (k : κ) (v : ν) (m : List (κ × ν))
    (e : κ × ν) (h : e ∈ map_assign lt k v m) : e.2 = v ∨ e ∈ m := by
  induction m with
  | nil => simp [map_assign] at h
  | cons e1 rest ih =>
    obtain ⟨k1, v1⟩ := e1
    cases c1 : lt k1 k <;> cases c2 : lt k k1 <;>
      simp only [map_assign, c1, c2, if_true, if_false, Bool.false_eq_true,
        List.mem_cons] at h ⊢
    · rcases h with h | h
      · exact Or.inl (by rw [h])
      · exact Or.inr (Or.inr h)
    · exact Or.inr h
    · rcases h with h | h
      · exact Or.inr (Or.inl h)
      · rcases ih h with h | h
        · exact Or.inl h
        · exact Or.inr (Or.inr h)
    · rcases h with h | h
      · exact Or.inr (Or.inl h)
      · rcases ih h with h | h
        · exact Or.inl h
        · exact Or.inr (Or.inr h)

theorem mem_of_map_find {κ ν : Type} (lt : κ → κ → Bool) (k : κ) (v : ν) (m : List (κ × ν))
    (h : map_find lt k m = some v) : ∃ k1, (k1, v) ∈ m := by
  induction m with
  | nil => simp [map_find] at h
  | cons e1 rest ih =>
    obtain ⟨k1, v1⟩ := e1
    cases c1 : lt k1 k <;> cases c2 : lt k k1 <;>
      simp only [map_find, c1, c2, if_true, if_false, Bool.false_eq_true] at h
    · simp only [Option.some.injEq] at h
      exact ⟨k1, by simp [h]⟩
    · cases h
    · obtain ⟨k2, hk2⟩ := ih h
      exact ⟨k2, List.mem_cons_of_mem _ hk2⟩
    · obtain ⟨k2, hk2⟩ := ih h
      exact ⟨k2, List.mem_cons_of_mem _ hk2⟩

section nested

variable {κ ν α : Type} (lt : κ → κ → Bool) (f : ν → List α)

theorem mem_flatMap_insert (k : κ) (v : ν) (m : List (κ × ν)) (a : α)
    (h : a ∈ (map_insert lt k v m).flatMap fun e => f e.2) :
    a ∈ f v ∨ a ∈ m.flatMap fun e => f e.2 := by
  obtain ⟨e, he, hae⟩ := List.mem_flatMap.mp h
  rcases mem_map_insert lt k v m e he with h1 | h1
  · subst h1
    exact Or.inl hae
  · exact Or.inr (List.mem_flatMap.mpr ⟨e, h1, hae⟩)

theorem mem_flatMap_assign (k : κ) (v : ν) (m : List (κ × ν)) (a : α)
    (h : a ∈ (map_assign lt k v m).flatMap fun e => f e.2) :
    a ∈ f v ∨ a ∈ m.flatMap fun e => f e.2 := by
  obtain ⟨e, he, hae⟩ := List.mem_flatMap.mp h
  rcases mem_map_assign lt k v m e he with h1 | h1
  · rw [h1] at hae
    exact Or.inl hae
  · exact Or.inr (List.mem_flatMap.mpr ⟨e, h1, hae⟩)

theorem mem_flatMap_of_find (k : κ) (v : ν) (m : List (κ × ν)) (a : α)
    (h : map_find lt k m = some v) (ha : a ∈ f v) : a ∈ m.flatMap fun e => f e.2 := by
  obtain ⟨k1, hk1⟩ := mem_of_map_find lt k v m h
  exact List.mem_flatMap.mpr ⟨(k1, v), hk1, ha⟩

end nested

theorem add_atom_atoms (r r1 : Molecular_residue) (lf : Line_format) (line : Line)
    (h : r.add_atom lf line = .ok r1) (a : Molecular_atom) (ha : a ∈ r1.atoms) :
    a ∈ r.atoms ∨ Molecular_atom.new lf line = .ok a := by
  obtain ⟨sn, atom, -, hatom, -, hr1⟩ := add_atom_ok r r1 lf line h
  subst hr1
  simp only [Molecular_residue.atoms, List.mem_map] at ha ⊢
  obtain ⟨e, he, hea⟩ := ha
  rcases mem_map_insert _ _ _ _ e he with h1 | h1
  · subst h1
    right
    rw [hatom, ← hea]
  · exact Or.inl ⟨e, h1, hea⟩

theorem get_or_create_residue_atoms (c c1 : Molecular_chain) (lf : Line_format) (line : Line)
    (rk : Int × Char) (r : Molecular_residue)
    (h : c.get_or_create_residue lf line = .ok (c1, rk, r)) (a : Molecular_atom) :
    (a ∈ c1.atoms → a ∈ c.atoms) ∧ (a ∈ r.atoms → a ∈ c.atoms) := by
  simp only [Molecular_chain.get_or_create_residue, bind, Except.bind] at h
  split at h
  · simp at h
  · split at h
    · simp at h
    · split at h
      · rename_i r0 hr0
        simp only [pure, Except.pure, Except.ok.injEq, Prod.mk.injEq] at h
        obtain ⟨rfl, rfl, rfl⟩ := h
        exact ⟨id, fun ha => mem_flatMap_of_find pair_lt _ _ _ _ _ hr0 ha⟩
      · split at h
        · simp at h
        · rename_i r0 hnew
          simp only [pure, Except.pure, Except.ok.injEq, Prod.mk.injEq] at h
          obtain ⟨rfl, rfl, rfl⟩ := h
          have hr0 : r0.atoms = [] := by
            simp only [Molecular_residue.new, bind, Except.bind] at hnew
            split at hnew
            · simp at hnew
            · split at hnew
              · simp at hnew
              · split at hnew
                · simp at hnew
                · simp only [pure, Except.pure, Except.ok.injEq] at hnew
                  subst hnew
                  rfl
          refine ⟨fun ha => ?_, fun ha => ?_⟩
          · rcases mem_flatMap_insert pair_lt (fun r : Molecular_residue => r.atoms) _ _ _ _ ha
              with h1 | h1
            · rw [hr0] at h1
              simp at h1
            · exact h1
          · rw [hr0] at ha
            simp at ha

theorem get_or_create_chain_atoms (m m1 : Molecular_model) (lf : Line_format) (line : Line)
    (ch : Char) (c : Molecular_chain)
    (h : m.get_or_create_chain lf line = .ok (m1, ch, c)) (a : Molecular_atom) :
    (a ∈ m1.atoms → a ∈ m.atoms) ∧ (a ∈ c.atoms → a ∈ m.atoms) := by
  simp only [Molecular_model.get_or_create_chain, bind, Except.bind] at h
  split at h
  · simp at h
  · rename_i ch0 hch
    split at h
    · rename_i c0 hc0
      simp only [pure, Except.pure, Except.ok.injEq, Prod.mk.injEq] at h
      obtain ⟨rfl, rfl, rfl⟩ := h
      exact ⟨id, fun ha => mem_flatMap_of_find char_lt _ _ _ _ _ hc0 ha⟩
    · simp only [hch, pure, Except.pure, Except.ok.injEq, Prod.mk.injEq] at h
      obtain ⟨rfl, rfl, rfl⟩ := h
      refine ⟨fun ha => ?_, fun ha => ?_⟩
      · rcases mem_flatMap_insert char_lt (fun c : Molecular_chain => c.atoms) _ _ _ _ ha
          with h1 | h1
        · simp [Molecular_chain.atoms] at h1
        · exact h1
      · simp [Molecular_chain.atoms] at ha

theorem get_or_create_model_atoms (s : Molecular_system) (i : Int) (a : Molecular_atom) :
    (a ∈ (s.get_or_create_model i).1.atoms → a ∈ s.atoms) ∧
    (a ∈ (s.get_or_create_model i).2.atoms → a ∈ s.atoms) := by
  unfold Molecular_system.get_or_create_model
  split
  · rename_i m hm
    exact ⟨id, fun ha => mem_flatMap_of_find int_lt _ _ _ _ _ hm ha⟩
  · refine ⟨fun ha => ?_, fun ha => ?_⟩
    · rcases mem_flatMap_insert int_lt (fun m : Molecular_model => m.atoms) _ _ _ _ ha
        with h1 | h1
      · simp [Molecular_model.atoms, Molecular_model.new] at h1
      · exact h1
    · simp [Molecular_model.atoms, Molecular_model.new] at ha

/-- A successful `Molecular_system::interpret_line` adds at most the atom built from
the line, and keeps the name, the index and the alternate location of the system. -/
theorem interpret_line_atoms (s s1 : Molecular_system) (lf : Line_format) (line : Line)
    (cm : Int) (h : s.interpret_line lf line cm = .ok s1) (a : Molecular_atom)
    (ha : a ∈ s1.atoms) : a ∈ s.atoms ∨ Molecular_atom.new lf line = .ok a := by
  simp only [Molecular_system.interpret_line, bind, Except.bind] at h
  have hm := get_or_create_model_atoms s cm a
  generalize s.get_or_create_model cm = gm at h hm
  obtain ⟨s0, model⟩ := gm
  simp only at h hm
  split at h
  · simp at h
  · rename_i x hx
    obtain ⟨model1, ch, chain⟩ := x
    have hc := get_or_create_chain_atoms _ _ _ _ _ _ hx a
    simp only at h
    split at h
    · simp at h
    · rename_i y hy
      obtain ⟨chain1, rk, residue⟩ := y
      have hr := get_or_create_residue_atoms _ _ _ _ _ _ hy a
      simp only at h
      split at h
      · simp at h
      · rename_i residue1 hadd
        simp only [pure, Except.pure, Except.ok.injEq] at h
        subst h
        rcases mem_flatMap_assign int_lt (fun m : Molecular_model => m.atoms) _ _ _ _ ha
          with h1 | h1
        · rcases mem_flatMap_assign char_lt (fun c : Molecular_chain => c.atoms) _ _ _ _ h1
            with h2 | h2
          · rcases mem_flatMap_assign pair_lt (fun r : Molecular_residue => r.atoms) _ _ _ _ h2
              with h3 | h3
            · rcases add_atom_atoms _ _ _ _ hadd a h3 with h4 | h4
              · exact Or.inl (hm.2 (hc.2 (hr.2 h4)))
              · exact Or.inr h4
            · exact Or.inl (hm.2 (hc.2 (hr.1 h3)))
          · exact Or.inl (hm.2 (hc.1 h2))
        · exact Or.inl (hm.1 h1)

theorem atom_new_altloc (lf : Line_format) (line : Line) (a : Molecular_atom)
    (h : Molecular_atom.new lf line = .ok a) : a.alternate_location = altloc_of line := by
  obtain ⟨al, hal⟩ := get_alternate_location_ok lf line
  have hal1 : (Line_format.new line).get_alternate_location line = .ok al := hal
  simp only [Molecular_atom.new, bind, Except.bind, hal] at h
  repeat' split at h
  all_goals first
    | (simp only [reduceCtorEq] at h)
    | skip
  simp only [pure, Except.pure, Except.ok.injEq] at h
  subst h
  simp [altloc_of, hal1]

theorem builder_interpret_line_atoms (b b1 : All_atom_system_builder) (lf : Line_format)
    (line : Line) (k : Int) (h : b.interpret_line lf line k = .ok b1) (a : Molecular_atom)
    (ha : a ∈ b1.atoms) : a ∈ b.atoms ∨ (k ≠ RMK ∧ Molecular_atom.new lf line = .ok a) := by
  by_cases hk : k = RMK
  · subst hk
    rw [builder_interpret_line_RMK] at h
    split at h
    · split at h
      · simp only [Except.ok.injEq] at h
        subst h
        exact Or.inl ha
      · cases h
    · simp only [Except.ok.injEq] at h
      subst h
      exact Or.inl ha
  · obtain ⟨-, systems1, sys, sys1, hs1, -, hg, hi, hset, -⟩ :=
      builder_interpret_line_coordinate b b1 lf line k hk h
    have hsub : ∀ s ∈ systems1, ∀ x ∈ s.atoms, x ∈ b.atoms := by
      intro s hs x hx
      rcases hs1 with h1 | ⟨-, h1⟩
      · subst h1
        exact List.mem_flatMap.mpr ⟨s, hs, hx⟩
      · subst h1
        rcases List.mem_append.mp hs with h2 | h2
        · exact List.mem_flatMap.mpr ⟨s, h2, hx⟩
        · simp only [List.mem_singleton] at h2
          subst h2
          simp [Molecular_system.atoms, Molecular_system.new] at hx
    simp only [All_atom_system_builder.atoms, hset] at ha
    obtain ⟨s, hs, hsa⟩ := List.mem_flatMap.mp ha
    rcases List.mem_or_eq_of_mem_set hs with h1 | h1
    · exact Or.inl (hsub s h1 a hsa)
    · subst h1
      rcases interpret_line_atoms sys _ lf line _ hi a hsa with h2 | h2
      · exact Or.inl (hsub sys (List.get?_mem hg) a h2)
      · exact Or.inr ⟨hk, h2⟩

theorem interpret_lines_atoms (b b1 : All_atom_system_builder) (calls : List (Line × Int))
    (h : b.interpret_lines calls = .ok b1) (a : Molecular_atom) (ha : a ∈ b1.atoms) :
    a ∈ b.atoms ∨ ∃ c ∈ calls, a.alternate_location = altloc_of c.1 := by
  induction calls generalizing b with
  | nil =>
    simp only [All_atom_system_builder.interpret_lines, pure, Except.pure, Except.ok.injEq] at h
    subst h
    exact Or.inl ha
  | cons c rest ih =>
    obtain ⟨line, k⟩ := c
    simp only [All_atom_system_builder.interpret_lines] at h
    split at h
    · simp at h
    · rename_i b2 hb2
      rcases ih b2 h with h1 | ⟨c, hc, hca⟩
      · rcases builder_interpret_line_atoms b b2 _ line k hb2 a h1 with h2 | ⟨-, h2⟩
        · exact Or.inl h2
        · exact Or.inr ⟨(line, k), by simp, atom_new_altloc _ _ _ h2⟩
      · exact Or.inr ⟨c, List.mem_cons_of_mem _ hc, hca⟩

/-! ## The reader -/

theorem resolved_altloc_of_ne (d : Char) (hd : d ≠ ' ') (t : List (Line × Int)) :
    resolved_altloc d t = d := by
  simp [resolved_altloc, hd]

theorem resolved_altloc_cons_skip (d : Char) (line : Line) (k : Int) (t : List (Line × Int))
    (h : k = DISCARD ∨ altloc_of line = ' ') :
    resolved_altloc d ((line, k) :: t) = resolved_altloc d t := by
  unfold resolved_altloc
  have : (decide (k ≠ DISCARD) && decide (altloc_of line ≠ ' ')) = false := by
    rcases h with h | h <;> simp [h]
  simp only [List.find?_cons, this]

theorem resolved_altloc_cons_first (line : Line) (k : Int) (t : List (Line × Int))
    (hk : k ≠ DISCARD) (ha : altloc_of line ≠ ' ') :
    resolved_altloc ' ' ((line, k) :: t) = altloc_of line := by
  unfold resolved_altloc
  have : (decide (k ≠ DISCARD) && decide (altloc_of line ≠ ' ')) = true := by
    simp [hk, ha]
  simp only [List.find?_cons, this, ne_eq, not_true_eq_false, if_false]

theorem passed_calls_cons_of_pos (c : Char) (line : Line) (k : Int) (t : List (Line × Int))
    (hk : k ≠ DISCARD) (ha : altloc_of line = ' ' ∨ altloc_of line = c) :
    passed_calls c ((line, k) :: t) = (line, k) :: passed_calls c t := by
  unfold passed_calls
  rw [List.filter_cons_of_pos]
  rcases ha with ha | ha <;> simp [hk, ha]

theorem passed_calls_cons_of_neg (c : Char) (line : Line) (k : Int) (t : List (Line × Int))
    (h : k = DISCARD ∨ (altloc_of line ≠ ' ' ∧ altloc_of line ≠ c)) :
    passed_calls c ((line, k) :: t) = passed_calls c t := by
  unfold passed_calls
  rw [List.filter_cons_of_neg]
  rcases h with h | h <;> simp [h]

/-- The loop of `read_stream`, told by the results of the selector: the alternate
location it ends with is the resolved one, and the builder has been given, in order,
the lines not discarded whose alternate location is blank or the resolved one. -/
theorem read_lines_spec {σ π : Type}
    (keep : σ → Line_format → Line → π → Except Fatal (σ × π × Int))
    (input : List Line) (st st1 : Reader_state σ π All_atom_system_builder)
    (h : Line_reader.read_lines keep All_atom_system_builder.interpret_line input st = .ok st1) :
    ∃ results, selector_results keep st.line_selector st.occupancy input
        = .ok (results, st1.line_selector, st1.occupancy) ∧
      st1.default_altloc = resolved_altloc st.default_altloc results ∧
      st.builder.interpret_lines (passed_calls st1.default_altloc results) = .ok st1.builder ∧
      st1.nblines = st.nblines + ((passed_calls st1.default_altloc results).length : Int) := by
  induction input generalizing st with
  | nil =>
    simp only [Line_reader.read_lines, pure, Except.pure, Except.ok.injEq] at h
    subst h
    refine ⟨[], rfl, ?_, rfl, by simp [passed_calls]⟩
    unfold resolved_altloc
    by_cases hd : st.default_altloc = ' ' <;> simp [hd]
  | cons line rest ih =>
    simp only [Line_reader.read_lines] at h
    cases hstep : Line_reader.read_line keep All_atom_system_builder.interpret_line st line with
    | error e => simp [hstep] at h
    | ok st2 =>
      rw [hstep] at h
      simp only at h
      obtain ⟨t, ht, hdef, hrun, hnb⟩ := ih st2 h
      unfold Line_reader.read_line at hstep
      by_cases hempty : line.isEmpty = true
      · rw [if_pos hempty] at hstep
        simp only [pure, Except.pure, Except.ok.injEq] at hstep
        subst hstep
        refine ⟨t, ?_, hdef, hrun, hnb⟩
        simp only [selector_results, hempty, if_true]
        exact ht
      · rw [if_neg hempty] at hstep
        simp only at hstep
        cases hkeep : keep st.line_selector (Line_format.new line) line st.occupancy with
        | error e => simp [hkeep] at hstep
        | ok r =>
          obtain ⟨sel1, occ1, k⟩ := r
          rw [hkeep] at hstep
          simp only at hstep
          have hsel : selector_results keep st.line_selector st.occupancy (line :: rest)
              = match selector_results keep sel1 occ1 rest with
                | .error e => .error e
                | .ok (t, sel2, occ2) => .ok ((line, k) :: t, sel2, occ2) := by
            simp only [selector_results, hempty, Bool.false_eq_true, if_false, hkeep]
          by_cases hk : k = DISCARD
          · simp only [hk, ne_eq, not_true_eq_false, if_false, pure, Except.pure,
              Except.ok.injEq] at hstep
            subst hstep
            simp only at ht hdef hrun hnb
            refine ⟨(line, k) :: t, ?_, ?_, ?_, ?_⟩
            · rw [hsel, ht]
            · rw [resolved_altloc_cons_skip _ _ _ _ (Or.inl hk)]
              exact hdef
            · rw [passed_calls_cons_of_neg _ _ _ _ (Or.inl hk)]
              exact hrun
            · rw [passed_calls_cons_of_neg _ _ _ _ (Or.inl hk)]
              exact hnb
          · rw [if_pos hk] at hstep
            obtain ⟨al, hal⟩ := get_alternate_location_ok (Line_format.new line) line
            have hao : altloc_of line = al := by simp [altloc_of, hal]
            rw [hal] at hstep
            simp only at hstep
            by_cases hb : al = ' '
            · -- blank alternate location: the line is passed
              simp only [hb, ne_eq, not_true_eq_false, if_false, Line_reader.pass_line] at hstep
              cases hi : st.builder.interpret_line (Line_format.new line) line k with
              | error e => simp [hi] at hstep
              | ok b2 =>
                rw [hi] at hstep
                simp only [pure, Except.pure, Except.ok.injEq] at hstep
                subst hstep
                simp only at ht hdef hrun hnb
                have hpass := passed_calls_cons_of_pos st1.default_altloc line k t hk
                  (Or.inl (hao.trans hb))
                refine ⟨(line, k) :: t, ?_, ?_, ?_, ?_⟩
                · rw [hsel, ht]
                · rw [resolved_altloc_cons_skip _ _ _ _ (Or.inr (hao.trans hb))]
                  exact hdef
                · rw [hpass]
                  simp only [All_atom_system_builder.interpret_lines, hi]
                  exact hrun
                · rw [hpass, hnb]
                  simp only [List.length_cons, Nat.cast_add, Nat.cast_one]
                  ring
            · rw [if_pos hb] at hstep
              by_cases hd : st.default_altloc = ' '
              · -- the first alternate location met becomes the default
                simp only [hd, if_true, Line_reader.pass_line] at hstep
                cases hi : st.builder.interpret_line (Line_format.new line) line k with
                | error e => simp [hi] at hstep
                | ok b2 =>
                  rw [hi] at hstep
                  simp only [pure, Except.pure, Except.ok.injEq] at hstep
                  subst hstep
                  simp only at ht hdef hrun hnb
                  rw [resolved_altloc_of_ne al hb] at hdef
                  have hpass := passed_calls_cons_of_pos st1.default_altloc line k t hk
                    (Or.inr (hao.trans hdef.symm))
                  refine ⟨(line, k) :: t, ?_, ?_, ?_, ?_⟩
                  · rw [hsel, ht]
                  · rw [hd, resolved_altloc_cons_first _ _ _ hk (hao ▸ hb), hao]
                    exact hdef
                  · rw [hpass]
                    simp only [All_atom_system_builder.interpret_lines, hi]
                    exact hrun
                  · rw [hpass, hnb]
                    simp only [List.length_cons, Nat.cast_add, Nat.cast_one]
                    ring
              · rw [if_neg hd] at hstep
                by_cases hne : al = st.default_altloc
                · -- the alternate location is the default: the line is passed
                  simp only [hne, ne_eq, not_true_eq_false, if_false,
                    Line_reader.pass_line] at hstep
                  cases hi : st.builder.interpret_line (Line_format.new line) line k with
                  | error e => simp [hi] at hstep
                  | ok b2 =>
                    rw [hi] at hstep
                    simp only [pure, Except.pure, Except.ok.injEq] at hstep
                    subst hstep
                    simp only at ht hdef hrun hnb
                    rw [resolved_altloc_of_ne _ hd] at hdef
                    have hpass := passed_calls_cons_of_pos st1.default_altloc line k t hk
                      (Or.inr (hao.trans (hne.trans hdef.symm)))
                    refine ⟨(line, k) :: t, ?_, ?_, ?_, ?_⟩
                    · rw [hsel, ht]
                    · rw [resolved_altloc_of_ne _ hd]
                      exact hdef
                    · rw [hpass]
                      simp only [All_atom_system_builder.interpret_lines, hi]
                      exact hrun
                    · rw [hpass, hnb]
                      simp only [List.length_cons, Nat.cast_add, Nat.cast_one]
                      ring
                · -- another alternate location: the line is skipped
                  rw [if_pos hne] at hstep
                  simp only [pure, Except.pure, Except.ok.injEq] at hstep
                  subst hstep
                  simp only at ht hdef hrun hnb
                  rw [resolved_altloc_of_ne _ hd] at hdef
                  have hskip := passed_calls_cons_of_neg st1.default_altloc line k t
                    (Or.inr ⟨hao ▸ hb, by rw [hao, hdef]; exact hne⟩)
                  refine ⟨(line, k) :: t, ?_, ?_, ?_, ?_⟩
                  · rw [hsel, ht]
                  · rw [resolved_altloc_of_ne _ hd]
                    exact hdef
                  · rw [hskip]
                    exact hrun
                  · rw [hskip]
                    exact hnb

theorem selector_results_inv {σ π : Type}
    (keep : σ → Line_format → Line → π → Except Fatal (σ × π × Int)) (Inv : π → Prop)
    (hkeep : ∀ sel lf line p sel1 p1 k, Inv p → keep sel lf line p = .ok (sel1, p1, k) → Inv p1)
    (input : List Line) (sel : σ) (occ : π) (t : List (Line × Int)) (sel1 : σ) (occ1 : π)
    (hInv : Inv occ) (h : selector_results keep sel occ input = .ok (t, sel1, occ1)) :
    Inv occ1 := by
  induction input generalizing sel occ t with
  | nil =>
    simp only [selector_results, Except.ok.injEq, Prod.mk.injEq] at h
    exact h.2.2 ▸ hInv
  | cons line rest ih =>
    simp only [selector_results] at h
    split at h
    · exact ih sel occ t hInv h
    · split at h
      · cases h
      · rename_i sel2 occ2 k hk
        split at h
        · cases h
        · rename_i t2 sel3 occ3 hr
          simp only [Except.ok.injEq, Prod.mk.injEq] at h
          obtain ⟨-, rfl, rfl⟩ := h
          exact ih sel2 occ2 t2 (hkeep _ _ _ _ _ _ _ hInv hk) hr

theorem create_systems_atoms (b : All_atom_system_builder) (c : Char) :
    (b.create_systems c).atoms = b.atoms := by
  simp only [All_atom_system_builder.atoms, All_atom_system_builder.create_systems]
  induction b.systems_ with
  | nil => rfl
  | cons s rest ih =>
    simp only [List.map_cons, List.flatMap_cons, ih]
    rfl

/-- A line kept by the selector whose alternate location is neither blank nor the
default already fixed is skipped: the turn ends without a call of the builder and
without a stop, whatever the other fields of the line. -/
theorem read_line_skips {σ π β : Type}
    (keep : σ → Line_format → Line → π → Except Fatal (σ × π × Int))
    (interp : β → Line_format → Line → Int → Except Fatal β)
    (st : Reader_state σ π β) (line : Line) (sel1 : σ) (occ1 : π) (k : Int)
    (hne : line ≠ [])
    (hkeep : keep st.line_selector (Line_format.new line) line st.occupancy = .ok (sel1, occ1, k))
    (hk : k ≠ DISCARD) (hal : altloc_of line ≠ ' ') (hd : st.default_altloc ≠ ' ')
    (hdiff : altloc_of line ≠ st.default_altloc) :
    Line_reader.read_line keep interp st line
      = .ok { st with line_selector := sel1, occupancy := occ1 } := by
  obtain ⟨al, hal1⟩ := get_alternate_location_ok (Line_format.new line) line
  have hao : altloc_of line = al := by simp [altloc_of, hal1]
  rw [hao] at hal hdiff
  have hempty : line.isEmpty = false := by
    cases line with
    | nil => exact absurd rfl hne
    | cons _ _ => rfl
  unfold Line_reader.read_line
  simp only [hempty, Bool.false_eq_true, if_false, hkeep, hal1, if_pos hk, if_pos hal, if_neg hd,
    if_pos hdiff]
  rfl

/-- C6: a successful `read_stream` into an `All_atom_system_builder`, told by the
integers `results` that the selector returned on the non-empty lines. With `c` the
resolved alternate location (the one asked for when it is not blank, else the one of
the first line not discarded by the selector whose alternate location is not blank,
else a blank): the builder was given, in order, exactly the lines not discarded whose
alternate location is blank or `c`, the others being skipped without any effect; the
occupancy policy then finalized; every system of the container carries `c`; and every
atom of the container that was not there before the read has the alternate location
blank or `c`; and a turn of the loop on a line kept by the selector whose alternate
location is neither blank nor the default already fixed ends without a call of the
builder and without a stop. The occupancy policy enters by two facts: the selector
keeps a property `Inv` of its state, and under `Inv` the atoms that `finalize` adds
have a blank alternate location. -/
theorem read_stream_alternate_location {σ π : Type}
    (keep : σ → Line_format → Line → π → Except Fatal (σ × π × Int))
    (finalize : π → All_atom_system_builder → Except Fatal (All_atom_system_builder × Int))
    (Inv : π → Prop)
    (hkeep : ∀ sel lf line p sel1 p1 k, Inv p → keep sel lf line p = .ok (sel1, p1, k) → Inv p1)
    (hfin : ∀ p b b1 n, Inv p → finalize p b = .ok (b1, n) →
      ∀ a ∈ b1.atoms, a ∈ b.atoms ∨ a.alternate_location = ' ')
    (line_selector : σ) (builder : All_atom_system_builder) (input : List Line) (occupancy : π)
    (default_altloc : Char) (hInv : Inv occupancy)
    (sel1 : σ) (b1 : All_atom_system_builder) (n : Int)
    (hread : Line_reader.read_stream keep finalize All_atom_system_builder.interpret_line
      All_atom_system_builder.create_systems line_selector builder input occupancy
      default_altloc = .ok (sel1, b1, n)) :
    ∃ results occ1 b2 b3 added,
      selector_results keep line_selector occupancy input = .ok (results, sel1, occ1) ∧
      builder.interpret_lines (passed_calls (resolved_altloc default_altloc results) results)
        = .ok b2 ∧
      finalize occ1 b2 = .ok (b3, added) ∧
      b1 = b3.create_systems (resolved_altloc default_altloc results) ∧
      n = ((passed_calls (resolved_altloc default_altloc results) results).length : Int)
        + added ∧
      (∀ s ∈ b1.systems_, s.alternate_location = resolved_altloc default_altloc results) ∧
      (∀ a ∈ b1.atoms, a ∈ builder.atoms ∨ a.alternate_location = ' ' ∨
        a.alternate_location = resolved_altloc default_altloc results) ∧
      (∀ (st : Reader_state σ π All_atom_system_builder) (line : Line) (sel2 : σ) (occ2 : π)
          (k : Int), line ≠ [] →
        keep st.line_selector (Line_format.new line) line st.occupancy = .ok (sel2, occ2, k) →
        k ≠ DISCARD → altloc_of line ≠ ' ' → st.default_altloc ≠ ' ' →
        altloc_of line ≠ st.default_altloc →
        Line_reader.read_line keep All_atom_system_builder.interpret_line st line
          = .ok { st with line_selector := sel2, occupancy := occ2 }) := by
  unfold Line_reader.read_stream at hread
  split at hread
  · cases hread
  · rename_i st hst
    split at hread
    · cases hread
    · rename_i b3 added hf
      simp only [pure, Except.pure, Except.ok.injEq, Prod.mk.injEq] at hread
      obtain ⟨rfl, rfl, rfl⟩ := hread
      obtain ⟨results, hres, hdef, hrun, hnb⟩ := read_lines_spec keep input _ st hst
      simp only at hres hdef hrun hnb
      rw [hdef] at hrun hnb
      have hI := selector_results_inv keep Inv hkeep input line_selector occupancy results
        st.line_selector st.occupancy hInv hres
      refine ⟨results, st.occupancy, st.builder, b3, added, hres, hrun, hf, by rw [hdef], ?_,
        ?_, ?_, fun st0 line sel2 occ2 k h1 h2 h3 h4 h5 h6 =>
          read_line_skips keep _ st0 line sel2 occ2 k h1 h2 h3 h4 h5 h6⟩
      · rw [hnb]
        ring
      · intro s hs
        simp only [All_atom_system_builder.create_systems, List.mem_map] at hs
        obtain ⟨s0, -, rfl⟩ := hs
        rw [← hdef]
        rfl
      · intro a ha
        rw [create_systems_atoms] at ha
        rcases hfin _ _ _ _ hI hf a ha with h1 | h1
        · rcases interpret_lines_atoms _ _ _ hrun a h1 with h2 | ⟨c, hc, hca⟩
          · exact Or.inl h2
          · right
            simp only [passed_calls, List.mem_filter, Bool.and_eq_true, Bool.or_eq_true,
              decide_eq_true_eq] at hc
            rcases hc.2.2 with h3 | h3
            · exact Or.inl (hca.trans h3)
            · exact Or.inr (hca.trans h3)
        · exact Or.inr (Or.inl h1)

/-! ## The built-in policies and selectors meet the conditions of the reader -/

theorem PDB_line_selector.keep_preserves {π : Type} (occ : Occupancy_policy π) (Inv : π → Prop)
    (hadd : ∀ p lf line k p1 r, Inv p → occ.add_or_postpone p lf line k = .ok (p1, r) → Inv p1)
    (sel : PDB_line_selector) (lf : Line_format) (line : Line) (p : π)
    (sel1 : PDB_line_selector) (p1 : π) (k : Int) (hInv : Inv p)
    (h : PDB_line_selector.keep occ sel lf line p = .ok (sel1, p1, k)) : Inv p1 := by
  unfold PDB_line_selector.keep at h
  split at h
  · simp only [bind, Except.bind] at h
    split at h
    · cases h
    · rename_i r hr
      obtain ⟨p2, r2⟩ := r
      simp only [pure, Except.pure, Except.ok.injEq, Prod.mk.injEq] at h
      obtain ⟨-, rfl, -⟩ := h
      exact hadd _ _ _ _ _ _ hInv hr
  · split at h
    · simp only [pure, Except.pure, Except.ok.injEq, Prod.mk.injEq] at h
      exact h.2.1 ▸ hInv
    · simp only [pure, Except.pure, Except.ok.injEq, Prod.mk.injEq] at h
      exact h.2.1 ▸ hInv

namespace Min_or_max_occupancy_policy

theorem add_or_postpone_preserves_blank (tm : Bool) (p p1 : Min_or_max_state)
    (lf : Line_format) (line : Line) (k r : Int) (hInv : buffered_blank p)
    (h : add_or_postpone tm p lf line k = .ok (p1, r)) : buffered_blank p1 := by
  have h1 : add_or_postpone tm p (Line_format.new line) line k = .ok (p1, r) := h
  rcases add_or_postpone_cases tm p p1 line k r h1 with
    ⟨-, hp, -⟩ | ⟨ha, -, ⟨-, hp⟩ | ⟨-, hp⟩⟩
  · exact hp ▸ hInv
  · have hblank : altloc_of line = ' ' := by
      simp only [is_ambiguous, Bool.and_eq_true, decide_eq_true_eq] at ha
      exact ha.2
    rw [hp]
    intro e he l hl
    simp only [add_line] at he
    split at he
    · rename_i e0 he0
      obtain ⟨k0, hk0⟩ := mem_of_map_find _ _ _ _ he0
      rcases mem_map_assign _ _ _ _ e he with h2 | h2
      · rw [h2] at hl
        simp only [List.mem_append, List.mem_singleton] at hl
        rcases hl with hl | hl
        · exact hInv _ hk0 l hl
        · exact hl ▸ hblank
      · exact hInv e h2 l hl
    · rcases mem_map_assign _ _ _ _ e he with h2 | h2
      · rw [h2] at hl
        simp only [List.mem_singleton] at hl
        exact hl ▸ hblank
      · rcases mem_map_insert _ _ _ _ e h2 with h3 | h3
        · rw [h3] at hl
          simp at hl
        · exact hInv e h3 l hl
  · exact hp ▸ hInv

theorem replay_atoms (idx : Int) (ls : List Line) (b b1 : All_atom_system_builder) (n m : Int)
    (hls : ∀ l ∈ ls, altloc_of l = ' ')
    (h : replay All_atom_system_builder.interpret_line idx ls b n = .ok (b1, m))
    (a : Molecular_atom) (ha : a ∈ b1.atoms) : a ∈ b.atoms ∨ a.alternate_location = ' ' := by
  induction ls generalizing b n with
  | nil =>
    simp only [replay, pure, Except.pure, Except.ok.injEq, Prod.mk.injEq] at h
    exact Or.inl (h.1 ▸ ha)
  | cons l ls ih =>
    simp only [replay, bind, Except.bind] at h
    split at h
    · cases h
    · rename_i b2 hb2
      rcases ih b2 (n + 1) (fun x hx => hls x (List.mem_cons_of_mem _ hx)) h with h1 | h1
      · rcases builder_interpret_line_atoms b b2 _ l idx hb2 a h1 with h2 | ⟨-, h2⟩
        · exact Or.inl h2
        · exact Or.inr ((atom_new_altloc _ _ _ h2).trans (hls l (by simp)))
      · exact Or.inr h1

theorem finalize_atoms (p : Min_or_max_state) (b b1 : All_atom_system_builder) (n : Int)
    (hInv : buffered_blank p)
    (h : finalize All_atom_system_builder.interpret_line p b = .ok (b1, n))
    (a : Molecular_atom) (ha : a ∈ b1.atoms) : a ∈ b.atoms ∨ a.alternate_location = ' ' := by
  unfold finalize at h
  split at h
  · simp only [pure, Except.pure, Except.ok.injEq, Prod.mk.injEq] at h
    exact Or.inl (h.1 ▸ ha)
  · split at h
    · cases h
    · split at h
      · cases h
      · rename_i e he
        obtain ⟨k0, hk0⟩ := mem_of_map_find _ _ _ _ he
        exact replay_atoms e.1 e.2 b b1 0 n (hInv _ hk0) h a ha

end Min_or_max_occupancy_policy

/-! ## A read under the maximum policy -/

theorem read_stream_alternate_location_witness :
    buffered_blank (Min_or_max_occupancy_policy.new true) ∧
    Line_reader.read_stream (PDB_line_selector.keep Max_occupancy_policy)
      (Max_occupancy_policy.finalize All_atom_system_builder.interpret_line)
      All_atom_system_builder.interpret_line All_atom_system_builder.create_systems
      PDB_line_selector.new (All_atom_system_builder.new [] 1)
      input_altA_altB_070 (Min_or_max_occupancy_policy.new true) ' '
      = .ok ({ discarded := 1 }, builder_after_read, 2) ∧
    ∃ results occ1 b2 b3 added,
      selector_results (PDB_line_selector.keep Max_occupancy_policy)
        PDB_line_selector.new (Min_or_max_occupancy_policy.new true) input_altA_altB_070
        = .ok (results, { discarded := 1 }, occ1) ∧
      (All_atom_system_builder.new [] 1).interpret_lines
        (passed_calls (resolved_altloc ' ' results) results) = .ok b2 ∧
      Max_occupancy_policy.finalize All_atom_system_builder.interpret_line occ1 b2
        = .ok (b3, added) ∧
      builder_after_read = b3.create_systems (resolved_altloc ' ' results) ∧
      (2 : Int) = ((passed_calls (resolved_altloc ' ' results) results).length : Int) + added ∧
      (∀ s ∈ builder_after_read.systems_,
        s.alternate_location = resolved_altloc ' ' results) ∧
      (∀ a ∈ builder_after_read.atoms,
        a ∈ (All_atom_system_builder.new [] 1).atoms ∨ a.alternate_location = ' ' ∨
        a.alternate_location = resolved_altloc ' ' results) ∧
      (∀ (st : Reader_state PDB_line_selector Min_or_max_state All_atom_system_builder)
          (line : Line) (sel2 : PDB_line_selector) (occ2 : Min_or_max_state) (k : Int),
        line ≠ [] →
        PDB_line_selector.keep Max_occupancy_policy st.line_selector
          (Line_format.new line) line st.occupancy = .ok (sel2, occ2, k) →
        k ≠ DISCARD → altloc_of line ≠ ' ' → st.default_altloc ≠ ' ' →
        altloc_of line ≠ st.default_altloc →
        Line_reader.read_line (PDB_line_selector.keep Max_occupancy_policy)
          All_atom_system_builder.interpret_line st line
          = .ok { st with line_selector := sel2, occupancy := occ2 }) :=
  ⟨fun e he => by simp [Min_or_max_occupancy_policy.new] at he,
   by decide!,
   read_stream_alternate_location (PDB_line_selector.keep Max_occupancy_policy)
     (Max_occupancy_policy.finalize All_atom_system_builder.interpret_line)
     buffered_blank
     (PDB_line_selector.keep_preserves Max_occupancy_policy buffered_blank
       (fun p lf line k p1 r hI h =>
         Min_or_max_occupancy_policy.add_or_postpone_preserves_blank true p p1 lf line k r hI h))
     (fun p b b1 n hI h a ha => Min_or_max_occupancy_policy.finalize_atoms p b b1 n hI h a ha)
     PDB_line_selector.new (All_atom_system_builder.new [] 1)
     input_altA_altB_070 (Min_or_max_occupancy_policy.new true) ' '
     (fun e he => by simp [Min_or_max_occupancy_policy.new] at he)
     { discarded := 1 } builder_after_read 2 (by decide!)⟩

/-! ## The selectors of one and of two systems -/

/-- C11: for the selector of two systems and a coordinate line whose element is read:
when the element is `H`, `keep` returns DISCARD with every policy, the residue name not
being looked at; when it is not and the policy accepts the line, `keep` returns 2 for the
residue names HOH, SOL and WAT and 1 for every other residue name. -/
theorem two_systems_keep_coordinate_line {π : Type} (occ : Occupancy_policy π)
    (self : PDB_line_selector_two_systems) (lf : Line_format) (line : Line)
    (occupancy occupancy1 : π) (el : List Char)
    (hrec : lf.record_type = Record_type.ATOM ∨ lf.record_type = Record_type.HETATM)
    (hel : lf.get_element line = .ok el) :
    (el = "H".toList →
      PDB_line_selector_two_systems.keep occ self lf line occupancy
        = .ok (self, occupancy, DISCARD)) ∧
    (el ≠ "H".toList → ∀ rn : List Char, lf.get_residue_name line = .ok rn →
      (∀ k : Int, occ.add_or_postpone occupancy lf line k = .ok (occupancy1, k)) →
      PDB_line_selector_two_systems.keep occ self lf line occupancy
        = .ok (self, occupancy1,
            if rn = "HOH".toList ∨ rn = "SOL".toList ∨ rn = "WAT".toList then 2 else 1)) := by
  constructor
  · intro hH
    have hhyd : is_hydrogen lf line = .ok true := by
      simp [is_hydrogen, hel, bind, Except.bind, pure, Except.pure, hH]
    simp only [PDB_line_selector_two_systems.keep, if_pos hrec, bind, Except.bind, hhyd,
      pure, Except.pure, if_true]
  · intro hH rn hrn hacc
    have hhyd : is_hydrogen lf line = .ok false := by
      simp [is_hydrogen, hel, bind, Except.bind, pure, Except.pure]
      simpa using hH
    by_cases hw : rn = "HOH".toList ∨ rn = "SOL".toList ∨ rn = "WAT".toList
    · have hwat : is_water lf line = .ok true := by
        rcases hw with h | h | h <;>
          simp [is_water, hrn, h, bind, Except.bind, pure, Except.pure]
      simp only [PDB_line_selector_two_systems.keep, if_pos hrec, bind, Except.bind, hhyd,
        hwat, hacc, pure, Except.pure, if_pos hw]
      rfl
    · have hwat : is_water lf line = .ok false := by
        simp only [not_or] at hw
        simp [is_water, hrn, bind, Except.bind, pure, Except.pure]
        exact ⟨⟨by simpa using hw.1, by simpa using hw.2.1⟩, by simpa using hw.2.2⟩
      simp only [PDB_line_selector_two_systems.keep, if_pos hrec, bind, Except.bind, hhyd,
        hwat, hacc, pure, Except.pure, if_neg hw]
      rfl

theorem two_systems_keep_coordinate_line_witness :
    ((Line_format.new line_CA_42).record_type = Record_type.ATOM ∨
      (Line_format.new line_CA_42).record_type = Record_type.HETATM) ∧
    (Line_format.new line_CA_42).get_element line_CA_42 = .ok "C".toList ∧
    (Line_format.new line_CA_42).get_residue_name line_CA_42 = .ok "ALA".toList ∧
    PDB_line_selector_two_systems.keep Accept_all_occupancy_policy {}
      (Line_format.new line_CA_42) line_CA_42 () = .ok ({}, (), 1) :=
  ⟨by decide, by decide, by decide,
   (two_systems_keep_coordinate_line Accept_all_occupancy_policy {}
     (Line_format.new line_CA_42) line_CA_42 () () "C".toList (by decide) (by decide)).2
     (by decide) "ALA".toList (by decide) (fun _ => rfl)⟩

/-- C16: for the selector of one system and every line: on an ATOM or HETATM line `keep`
returns what the policy returns for the system 1, which is 1 under the policy that
accepts every line; on a MODEL line it returns RMK with every policy, the state of the
policy unchanged; on every other line it returns DISCARD and `discarded` is one more. -/
theorem single_system_keep {π : Type} (occ : Occupancy_policy π) (self : PDB_line_selector)
    (lf : Line_format) (line : Line) (occupancy : π) :
    (lf.record_type = Record_type.ATOM ∨ lf.record_type = Record_type.HETATM →
      PDB_line_selector.keep occ self lf line occupancy
        = (occ.add_or_postpone occupancy lf line 1).map (fun res => (self, res.1, res.2)) ∧
      PDB_line_selector.keep Accept_all_occupancy_policy self lf line ()
        = .ok (self, (), 1)) ∧
    (lf.record_type = Record_type.MODEL →
      PDB_line_selector.keep occ self lf line occupancy = .ok (self, occupancy, RMK)) ∧
    (lf.record_type ≠ Record_type.ATOM → lf.record_type ≠ Record_type.HETATM →
      lf.record_type ≠ Record_type.MODEL →
      PDB_line_selector.keep occ self lf line occupancy
        = .ok ({ self with discarded := self.discarded + 1 }, occupancy, DISCARD) ∧
      ({ self with discarded := self.discarded + 1 } : PDB_line_selector).discarded
        = self.discarded + 1) := by
  refine ⟨fun hrec => ⟨?_, ?_⟩, fun hm => ?_, fun h1 h2 h3 => ⟨?_, rfl⟩⟩
  · simp only [PDB_line_selector.keep, if_pos hrec, bind, Except.bind, pure, Except.pure]
    cases occ.add_or_postpone occupancy lf line 1 <;> rfl
  · simp only [PDB_line_selector.keep, if_pos hrec, bind, Except.bind, pure, Except.pure,
      Accept_all_occupancy_policy]
  · have hn : ¬ (lf.record_type = Record_type.ATOM ∨ lf.record_type = Record_type.HETATM) := by
      rw [hm]; decide
    simp only [PDB_line_selector.keep, if_neg hn, if_pos hm, pure, Except.pure]
  · have hn : ¬ (lf.record_type = Record_type.ATOM ∨ lf.record_type = Record_type.HETATM) := by
      simp [h1, h2]
    simp only [PDB_line_selector.keep, if_neg hn, if_neg h3, pure, Except.pure]

theorem single_system_keep_witness :
    (Line_format.new line_END).record_type ≠ Record_type.ATOM ∧
    (Line_format.new line_END).record_type ≠ Record_type.HETATM ∧
    (Line_format.new line_END).record_type ≠ Record_type.MODEL ∧
    PDB_line_selector.keep Max_occupancy_policy { discarded := 4 }
      (Line_format.new line_END) line_END state_050
        = .ok ({ discarded := 5 }, state_050, DISCARD) :=
  ⟨by decide, by decide, by decide,
   ((single_system_keep Max_occupancy_policy { discarded := 4 } (Line_format.new line_END)
     line_END state_050).2.2 (by decide) (by decide) (by decide)).1⟩

/-! ## The selector by chains -/

theorem map_find_insert_of_ne {κ ν : Type} (lt : κ → κ → Bool)
    (htrans : ∀ a b c, lt a b = true → lt b c = true → lt a c = true)
    (hasymm : ∀ a b, lt a b = true → lt b a = false)
    (htotal : ∀ a b, lt a b = false → lt b a = false → a = b)
    (k o : κ) (v : ν) (m : List (κ × ν)) (hne : k ≠ o) :
    map_find lt k (map_insert lt o v m) = map_find lt k m := by
  induction m with
  | nil =>
    cases h1 : lt o k <;> cases h2 : lt k o <;> simp [map_insert, map_find, h1, h2]
    exact hne (htotal k o h2 h1)
  | cons e rest ih =>
    obtain ⟨k1, v1⟩ := e
    cases c1 : lt k1 o
    · cases c2 : lt o k1
      · simp [map_insert, c1, c2]
      · simp only [map_insert, c1, c2, if_true, Bool.false_eq_true, if_false]
        cases h1 : lt o k
        · cases h2 : lt k o
          · exact absurd (htotal k o h2 h1) hne
          · have h3 : lt k k1 = true := htrans k o k1 h2 c2
            have h4 : lt k1 k = false := hasymm k k1 h3
            simp [map_find, h1, h2, h3, h4]
        · simp only [map_find, h1, if_true]
    · simp only [map_insert, c1, if_true, map_find]
      cases d1 : lt k1 k
      · simp
      · simp [ih]

theorem char_lt_trans (a b c : Char) (h1 : char_lt a b = true) (h2 : char_lt b c = true) :
    char_lt a c = true := by
  simp only [char_lt, decide_eq_true_eq] at h1 h2 ⊢
  omega

theorem char_lt_asymm (a b : Char) (h1 : char_lt a b = true) : char_lt b a = false := by
  simp only [char_lt, decide_eq_true_eq, decide_eq_false_iff_not] at h1 ⊢
  omega

theorem char_lt_total (a b : Char) (h1 : char_lt a b = false) (h2 : char_lt b a = false) :
    a = b := by
  simp only [char_lt, decide_eq_false_iff_not] at h1 h2
  apply Char.ext
  apply UInt32.ext
  have : a.toNat = b.toNat := by omega
  exact this

theorem map_find_char_insert (k o : Char) (v : Int) (m : List (Char × Int)) :
    map_find char_lt k (map_insert char_lt o v m)
      = match map_find char_lt k m with
        | some w => some w
        | none => if k = o then some v else none := by
  by_cases hko : k = o
  · subst hko
    cases h : map_find char_lt k m with
    | none => simp [map_find_insert_self char_lt char_lt_irrefl k v m h]
    | some w =>
      rw [map_insert_of_find_isSome char_lt k v m (by simp [h]), h]
  · rw [map_find_insert_of_ne char_lt char_lt_trans char_lt_asymm char_lt_total k o v m hko]
    cases h : map_find char_lt k m <;> simp [hko]

theorem insert_group_find (ch : Char) (index : Int) (str : List Char) (m : List (Char × Int)) :
    map_find char_lt ch (PDB_line_selector_chain.insert_group m index str)
      = match map_find char_lt ch m with
        | some w => some w
        | none => if ch ∈ str then some index else none := by
  induction str generalizing m with
  | nil => cases h : map_find char_lt ch m <;> simp [PDB_line_selector_chain.insert_group, h]
  | cons c cs ih =>
    simp only [PDB_line_selector_chain.insert_group]
    rw [ih, map_find_char_insert]
    cases h : map_find char_lt ch m with
    | some w => simp
    | none =>
      by_cases hc : ch = c
      · simp [hc]
      · by_cases hcs : ch ∈ cs <;> simp [hc, hcs]

theorem insert_groups_max_chain_index (groups : List (List Char)) (m : List (Char × Int))
    (index : Int) :
    (PDB_line_selector_chain.insert_groups groups (m, index)).2 = index + groups.length := by
  induction groups generalizing m index with
  | nil => simp [PDB_line_selector_chain.insert_groups]
  | cons g rest ih =>
    simp only [PDB_line_selector_chain.insert_groups]
    rw [ih]
    simp only [List.length_cons, Nat.cast_add, Nat.cast_one]
    omega

theorem insert_groups_find_some (ch : Char) (groups : List (List Char)) (m : List (Char × Int))
    (index w : Int) (h : map_find char_lt ch m = some w) :
    map_find char_lt ch (PDB_line_selector_chain.insert_groups groups (m, index)).1 = some w := by
  induction groups generalizing m index with
  | nil => simpa [PDB_line_selector_chain.insert_groups] using h
  | cons g rest ih =>
    simp only [PDB_line_selector_chain.insert_groups]
    apply ih
    rw [insert_group_find, h]

theorem insert_groups_find_none (ch : Char) (groups : List (List Char)) (m : List (Char × Int))
    (index : Int) (h : map_find char_lt ch m = none) (hall : ∀ g ∈ groups, ch ∉ g) :
    map_find char_lt ch (PDB_line_selector_chain.insert_groups groups (m, index)).1 = none := by
  induction groups generalizing m index with
  | nil => simpa [PDB_line_selector_chain.insert_groups] using h
  | cons g rest ih =>
    simp only [PDB_line_selector_chain.insert_groups]
    apply ih
    · rw [insert_group_find, h]
      simp [hall g (by simp)]
    · intro g1 hg1
      exact hall g1 (by simp [hg1])

theorem insert_groups_find_first (ch : Char) (groups : List (List Char))
    (m : List (Char × Int)) (index : Int) (i : Nat) (g : List Char)
    (h : map_find char_lt ch m = none) (hg : groups[i]? = some g) (hin : ch ∈ g)
    (hfirst : ∀ (j : Nat) (g1 : List Char), j < i → groups[j]? = some g1 → ch ∉ g1) :
    map_find char_lt ch (PDB_line_selector_chain.insert_groups groups (m, index)).1
      = some (index + 1 + i) := by
  induction groups generalizing m index i with
  | nil => simp at hg
  | cons g0 rest ih =>
    simp only [PDB_line_selector_chain.insert_groups]
    cases i with
    | zero =>
      simp only [List.getElem?_cons_zero, Option.some.injEq] at hg
      subst hg
      apply insert_groups_find_some
      rw [insert_group_find, h]
      simp [hin]
    | succ i1 =>
      simp only [List.getElem?_cons_succ] at hg
      have h0 : ch ∉ g0 := hfirst 0 g0 (by omega) (by simp)
      rw [ih (PDB_line_selector_chain.insert_group m (index + 1) g0) (index + 1) i1
        (by rw [insert_group_find, h]; simp [h0]) hg
        (fun j g1 hj hg1 => hfirst (j + 1) g1 (by omega) (by simpa using hg1))]
      congr 1
      push_cast
      omega

theorem mem_insert_group (index : Int) (str : List Char) (m : List (Char × Int))
    (e : Char × Int) (h : e ∈ PDB_line_selector_chain.insert_group m index str) :
    e.2 = index ∨ e ∈ m := by
  induction str generalizing m with
  | nil => exact Or.inr h
  | cons c cs ih =>
    simp only [PDB_line_selector_chain.insert_group] at h
    rcases ih _ h with h1 | h1
    · exact Or.inl h1
    · rcases mem_map_insert char_lt c index m e h1 with h2 | h2
      · left
        rw [h2]
      · exact Or.inr h2

theorem mem_insert_groups (groups : List (List Char)) (m : List (Char × Int)) (index : Int)
    (e : Char × Int) (h : e ∈ (PDB_line_selector_chain.insert_groups groups (m, index)).1) :
    (index + 1 ≤ e.2 ∧ e.2 ≤ index + groups.length) ∨ e ∈ m := by
  induction groups generalizing m index with
  | nil => exact Or.inr h
  | cons g rest ih =>
    simp only [PDB_line_selector_chain.insert_groups] at h
    simp only [List.length_cons, Nat.cast_add, Nat.cast_one]
    rcases ih _ _ h with h1 | h1
    · left
      omega
    · rcases mem_insert_group _ _ _ _ h1 with h2 | h2
      · left
        omega
      · exact Or.inr h2

/-- C13: for the selector by chains built from the groups `groups`, whatever its
counters, and a coordinate line that is not a filtered hydrogen and not a water, with a
policy that accepts the line: when the chain identifier is in the group of position `i`
counted from 0 and in no earlier group, `keep` returns `i + 1`; when it is in no group,
`keep` returns the number of groups plus 2 (water kept) or plus 1 (water not kept) if
`keep_remaining_chains` is set, and DISCARD if it is not. -/
theorem chain_selector_keep_by_chain {π : Type} (occ : Occupancy_policy π)
    (groups : List (List Char)) (keep_water keep_remaining_chains : Bool) (lim : ℚ)
    (keep_hydrogen : Bool) (seen : Nat) (discarded : Int) (lf : Line_format) (line : Line)
    (occupancy occupancy1 : π) (ch : Char)
    (hrec : lf.record_type = Record_type.ATOM ∨ lf.record_type = Record_type.HETATM)
    (hch : lf.get_chain_identifier line = .ok ch)
    (hhyd : keep_hydrogen = true ∨ is_hydrogen lf line = .ok false)
    (hwat : is_water lf line = .ok false)
    (hacc : ∀ k : Int, occ.add_or_postpone occupancy lf line k = .ok (occupancy1, k)) :
    (∀ (i : Nat) (g : List Char), groups[i]? = some g → ch ∈ g →
      (∀ (j : Nat) (g1 : List Char), j < i → groups[j]? = some g1 → ch ∉ g1) →
      PDB_line_selector_chain.keep occ
          { PDB_line_selector_chain.new groups keep_water keep_remaining_chains lim
              keep_hydrogen with nb_atm_htm_seen_ := seen, discarded := discarded }
          lf line occupancy
        = .ok ({ PDB_line_selector_chain.new groups keep_water keep_remaining_chains lim
                   keep_hydrogen with
                 nb_atm_htm_seen_ := (seen + 1) % 4294967296, discarded := discarded },
               occupancy1, (i : Int) + 1)) ∧
    ((∀ g ∈ groups, ch ∉ g) →
      PDB_line_selector_chain.keep occ
          { PDB_line_selector_chain.new groups keep_water keep_remaining_chains lim
              keep_hydrogen with nb_atm_htm_seen_ := seen, discarded := discarded }
          lf line occupancy
        = .ok ({ PDB_line_selector_chain.new groups keep_water keep_remaining_chains lim
                   keep_hydrogen with
                 nb_atm_htm_seen_ := (seen + 1) % 4294967296, discarded := discarded },
               if keep_remaining_chains then
                 (occupancy1, (groups.length : Int) + (if keep_water then 2 else 1))
               else (occupancy, DISCARD))) := by
  have hmax : (PDB_line_selector_chain.insert_groups groups ([], 0)).2 = (groups.length : Int) := by
    rw [insert_groups_max_chain_index]
    simp
  constructor
  · intro i g hg hin hfirst
    have hfind := insert_groups_find_first ch groups [] 0 i g rfl hg hin hfirst
    rcases hhyd with h | h <;>
      simp [PDB_line_selector_chain.keep, PDB_line_selector_chain.new, hrec, bind,
        Except.bind, hch, h, hwat, hfind, hacc, pure, Except.pure, add_comm]
  · intro hall
    have hfind := insert_groups_find_none ch groups [] 0 rfl hall
    rcases hhyd with h | h <;> cases keep_remaining_chains <;>
      simp [PDB_line_selector_chain.keep, PDB_line_selector_chain.new, hrec, bind,
        Except.bind, hch, h, hwat, hfind, hacc, hmax, pure, Except.pure]

theorem chain_selector_keep_by_chain_witness :
    ((Line_format.new line_CA_42).record_type = Record_type.ATOM ∨
      (Line_format.new line_CA_42).record_type = Record_type.HETATM) ∧
    (Line_format.new line_CA_42).get_chain_identifier line_CA_42 = .ok 'A' ∧
    is_hydrogen (Line_format.new line_CA_42) line_CA_42 = .ok false ∧
    is_water (Line_format.new line_CA_42) line_CA_42 = .ok false ∧
    PDB_line_selector_chain.keep Accept_all_occupancy_policy
        { PDB_line_selector_chain.new groups_XA_A true false 200 false with
          nb_atm_htm_seen_ := 7, discarded := 3 }
        (Line_format.new line_CA_42) line_CA_42 ()
      = .ok ({ PDB_line_selector_chain.new groups_XA_A true false 200 false with
               nb_atm_htm_seen_ := (7 + 1) % 4294967296, discarded := 3 },
             (), ((0 : Nat) : Int) + 1) :=
  ⟨by decide, by decide, by decide, by decide,
   (chain_selector_keep_by_chain Accept_all_occupancy_policy groups_XA_A true false 200 false
     7 3 (Line_format.new line_CA_42) line_CA_42 () () 'A' (by decide) (by decide)
     (Or.inr (by decide)) (by decide) (fun _ => rfl)).1 0 "XA".toList rfl (by decide)
     (fun j _ hj _ => absurd hj (Nat.not_lt_zero j))⟩

/-- C14: for the selector by chains built from the groups `groups`, whatever its
counters, and a coordinate line that is not a filtered hydrogen and whose residue name is
HOH, SOL or WAT, whatever its chain identifier: when water is not kept, `keep` returns
DISCARD; when water is kept and the temperature factor is read, `keep` returns DISCARD
if the temperature factor is greater than `Water_Bfactorlim`, and otherwise, with a policy
that accepts the line, the number of groups plus 1. -/
theorem chain_selector_keep_water {π : Type} (occ : Occupancy_policy π)
    (groups : List (List Char)) (keep_water keep_remaining_chains : Bool) (lim : ℚ)
    (keep_hydrogen : Bool) (seen : Nat) (discarded : Int) (lf : Line_format) (line : Line)
    (occupancy occupancy1 : π) (ch : Char) (rn : List Char)
    (hrec : lf.record_type = Record_type.ATOM ∨ lf.record_type = Record_type.HETATM)
    (hch : lf.get_chain_identifier line = .ok ch)
    (hhyd : keep_hydrogen = true ∨ is_hydrogen lf line = .ok false)
    (hrn : lf.get_residue_name line = .ok rn)
    (hw : rn = "HOH".toList ∨ rn = "SOL".toList ∨ rn = "WAT".toList) :
    (keep_water = false →
      PDB_line_selector_chain.keep occ
          { PDB_line_selector_chain.new groups keep_water keep_remaining_chains lim
              keep_hydrogen with nb_atm_htm_seen_ := seen, discarded := discarded }
          lf line occupancy
        = .ok ({ PDB_line_selector_chain.new groups keep_water keep_remaining_chains lim
                   keep_hydrogen with
                 nb_atm_htm_seen_ := (seen + 1) % 4294967296, discarded := discarded },
               occupancy, DISCARD)) ∧
    (keep_water = true → ∀ tf : ℚ, lf.get_temperature_factor line = .ok tf →
      (lim < tf →
        PDB_line_selector_chain.keep occ
            { PDB_line_selector_chain.new groups keep_water keep_remaining_chains lim
                keep_hydrogen with nb_atm_htm_seen_ := seen, discarded := discarded }
            lf line occupancy
          = .ok ({ PDB_line_selector_chain.new groups keep_water keep_remaining_chains lim
                     keep_hydrogen with
                   nb_atm_htm_seen_ := (seen + 1) % 4294967296, discarded := discarded },
                 occupancy, DISCARD)) ∧
      (tf ≤ lim →
        (∀ k : Int, occ.add_or_postpone occupancy lf line k = .ok (occupancy1, k)) →
        PDB_line_selector_chain.keep occ
            { PDB_line_selector_chain.new groups keep_water keep_remaining_chains lim
                keep_hydrogen with nb_atm_htm_seen_ := seen, discarded := discarded }
            lf line occupancy
          = .ok ({ PDB_line_selector_chain.new groups keep_water keep_remaining_chains lim
                     keep_hydrogen with
                   nb_atm_htm_seen_ := (seen + 1) % 4294967296, discarded := discarded },
                 occupancy1, (groups.length : Int) + 1))) := by
  have hmax : (PDB_line_selector_chain.insert_groups groups ([], 0)).2 = (groups.length : Int) := by
    rw [insert_groups_max_chain_index]
    simp
  have hwat : is_water lf line = .ok true := by
    rcases hw with h | h | h <;> simp [is_water, hrn, h, bind, Except.bind, pure, Except.pure]
  refine ⟨fun hkw => ?_, fun hkw tf htf => ⟨fun hgt => ?_, fun hle hacc => ?_⟩⟩
  · rcases hhyd with h | h <;>
      simp [PDB_line_selector_chain.keep, PDB_line_selector_chain.new, hrec, bind,
        Except.bind, hch, h, hwat, hkw, pure, Except.pure]
  · rcases hhyd with h | h <;>
      simp [PDB_line_selector_chain.keep, PDB_line_selector_chain.new, hrec, bind,
        Except.bind, hch, h, hwat, hkw, htf, hgt, pure, Except.pure]
  · rcases hhyd with h | h <;>
      simp [PDB_line_selector_chain.keep, PDB_line_selector_chain.new, hrec, bind,
        Except.bind, hch, h, hwat, hkw, htf, hacc, hmax, not_lt.mpr hle, pure, Except.pure]

theorem chain_selector_keep_water_witness :
    ((Line_format.new line_water_O).record_type = Record_type.ATOM ∨
      (Line_format.new line_water_O).record_type = Record_type.HETATM) ∧
    (Line_format.new line_water_O).get_chain_identifier line_water_O = .ok 'A' ∧
    is_hydrogen (Line_format.new line_water_O) line_water_O = .ok false ∧
    (Line_format.new line_water_O).get_residue_name line_water_O = .ok "HOH".toList ∧
    (Line_format.new line_water_O).get_temperature_factor line_water_O = .ok 30 ∧
    PDB_line_selector_chain.keep Accept_all_occupancy_policy
        { PDB_line_selector_chain.new groups_AB_C true false 200 false with
          nb_atm_htm_seen_ := 0, discarded := 0 }
        (Line_format.new line_water_O) line_water_O ()
      = .ok ({ PDB_line_selector_chain.new groups_AB_C true false 200 false with
               nb_atm_htm_seen_ := (0 + 1) % 4294967296, discarded := 0 },
             (), (groups_AB_C.length : Int) + 1) :=
  ⟨by decide, by decide, by decide, by decide, by decide!,
   ((chain_selector_keep_water Accept_all_occupancy_policy groups_AB_C true false 200 false
     0 0 (Line_format.new line_water_O) line_water_O () () 'A' "HOH".toList (by decide)
     (by decide) (Or.inr (by decide)) (by decide) (Or.inl rfl)).2 rfl 30 (by decide!)).2
     (by norm_num) (fun _ => rfl)⟩

/-! ## The generic selector -/

theorem nb_system_eq_length (self : Generic_line_selector_base) :
    self.nb_system = self.predicates.length := by
  induction self with
  | one t => rfl
  | more t base ih =>
    simp [Generic_line_selector_base.nb_system, Generic_line_selector_base.predicates, ih]

theorem nb_system_pos (self : Generic_line_selector_base) : 1 ≤ self.nb_system := by
  cases self <;> simp [Generic_line_selector_base.nb_system]

theorem call_none (self : Generic_line_selector_base) (lf : Line_format) (line : Line)
    (hall : ∀ p ∈ self.predicates, p lf line = .ok false) : self.call lf line = .ok (-1) := by
  induction self with
  | one t =>
    have h := hall t (by simp [Generic_line_selector_base.predicates])
    simp [Generic_line_selector_base.call, h, bind, Except.bind, pure, Except.pure]
  | more t base ih =>
    have h := hall t (by simp [Generic_line_selector_base.predicates])
    have h1 := ih (fun p hp => hall p (by simp [Generic_line_selector_base.predicates, hp]))
    simp [Generic_line_selector_base.call, h, h1, bind, Except.bind, pure, Except.pure]

theorem call_first (self : Generic_line_selector_base) (lf : Line_format) (line : Line)
    (i : Nat) (p : Atom_selection) (hp : self.predicates[i]? = some p)
    (htrue : p lf line = .ok true)
    (hfirst : ∀ (j : Nat) (q : Atom_selection), j < i → self.predicates[j]? = some q →
      q lf line = .ok false) :
    self.call lf line = .ok ((i : Int) + 1) := by
  induction self generalizing i with
  | one t =>
    cases i with
    | zero =>
      simp only [Generic_line_selector_base.predicates, List.getElem?_cons_zero,
        Option.some.injEq] at hp
      subst hp
      simp [Generic_line_selector_base.call, htrue, bind, Except.bind, pure, Except.pure]
    | succ i1 => simp [Generic_line_selector_base.predicates] at hp
  | more t base ih =>
    cases i with
    | zero =>
      simp only [Generic_line_selector_base.predicates, List.getElem?_cons_zero,
        Option.some.injEq] at hp
      subst hp
      simp [Generic_line_selector_base.call, htrue, bind, Except.bind, pure, Except.pure]
    | succ i1 =>
      simp only [Generic_line_selector_base.predicates, List.getElem?_cons_succ] at hp
      have h0 : t lf line = .ok false :=
        hfirst 0 t (by omega) (by simp [Generic_line_selector_base.predicates])
      have h1 := ih i1 hp (fun j q hj hq =>
        hfirst (j + 1) q (by omega) (by simpa [Generic_line_selector_base.predicates] using hq))
      have hne : ¬ ((i1 : Int) + 1 = -1) := by omega
      simp [Generic_line_selector_base.call, h0, h1, hne, bind, Except.bind, pure,
        Except.pure]

theorem call_range (self : Generic_line_selector_base) (lf : Line_format) (line : Line)
    (r : Int) (h : self.call lf line = .ok r) :
    r = -1 ∨ (1 ≤ r ∧ r ≤ (self.nb_system : Int)) := by
  induction self generalizing r with
  | one t =>
    simp only [Generic_line_selector_base.call, bind, Except.bind, pure, Except.pure] at h
    cases ht : t lf line with
    | error e => simp [ht] at h
    | ok b =>
      cases b <;> simp [ht] at h <;> subst h <;> simp [Generic_line_selector_base.nb_system]
  | more t base ih =>
    simp only [Generic_line_selector_base.call, bind, Except.bind, pure, Except.pure] at h
    cases ht : t lf line with
    | error e => simp [ht] at h
    | ok b =>
      cases b
      · simp only [ht, Bool.false_eq_true, if_false] at h
        cases hb : base.call lf line with
        | error e => simp [hb] at h
        | ok ret =>
          simp only [hb] at h
          by_cases hret : ret = -1
          · simp [hret] at h
            exact Or.inl h.symm
          · simp only [ne_eq, hret, not_false_eq_true, if_true, Except.ok.injEq] at h
            rcases ih ret hb with h1 | h1
            · exact absurd h1 hret
            · right
              simp only [Generic_line_selector_base.nb_system, Nat.cast_add, Nat.cast_one]
              omega
      · simp [ht] at h
        subst h
        right
        have := nb_system_pos base
        simp only [Generic_line_selector_base.nb_system, Nat.cast_add, Nat.cast_one]
        omega

/-- C15: for a generic selector, its function objects being `p_0, ..., p_(n-1)` in the
order of the template parameters, and a coordinate line that the policy accepts:
`max_nb_systems` is `n`, which is at least 1; when `p_i` holds on the line and every
earlier one does not, `keep` returns `i + 1`; when none holds, `keep` returns DISCARD. -/
theorem generic_selector_keep {π : Type} (occ : Occupancy_policy π)
    (self : Generic_line_selector) (lf : Line_format) (line : Line) (occupancy occupancy1 : π)
    (hrec : lf.record_type = Record_type.ATOM ∨ lf.record_type = Record_type.HETATM)
    (hacc : ∀ k : Int, occ.add_or_postpone occupancy lf line k = .ok (occupancy1, k)) :
    Generic_line_selector.max_nb_systems self
      = (Generic_line_selector_base.predicates self).length ∧
    1 ≤ (Generic_line_selector_base.predicates self).length ∧
    (∀ (i : Nat) (p : Atom_selection),
      (Generic_line_selector_base.predicates self)[i]? = some p → p lf line = .ok true →
      (∀ (j : Nat) (q : Atom_selection), j < i →
        (Generic_line_selector_base.predicates self)[j]? = some q → q lf line = .ok false) →
      Generic_line_selector.keep occ self lf line occupancy
        = .ok (self, occupancy1, (i : Int) + 1)) ∧
    ((∀ p ∈ Generic_line_selector_base.predicates self, p lf line = .ok false) →
      Generic_line_selector.keep occ self lf line occupancy
        = .ok (self, occupancy, DISCARD)) := by
  refine ⟨nb_system_eq_length self, ?_, fun i p hp htrue hfirst => ?_, fun hall => ?_⟩
  · rw [← nb_system_eq_length]
    exact nb_system_pos self
  · have hcall := call_first self lf line i p hp htrue hfirst
    have hne : ¬ ((i : Int) + 1 = -1) := by omega
    simp [Generic_line_selector.keep, hrec, hcall, hne, hacc, bind, Except.bind, pure,
      Except.pure]
  · have hcall := call_none self lf line hall
    simp [Generic_line_selector.keep, hrec, hcall, bind, Except.bind, pure, Except.pure,
      DISCARD]

theorem generic_selector_keep_witness :
    ((Line_format.new line_CA_42).record_type = Record_type.ATOM ∨
      (Line_format.new line_CA_42).record_type = Record_type.HETATM) ∧
    Select_by_chainids "B".toList (Line_format.new line_CA_42) line_CA_42 = .ok false ∧
    Select_by_element "C".toList (Line_format.new line_CA_42) line_CA_42 = .ok true ∧
    Generic_line_selector.keep Accept_all_occupancy_policy selector_chain_B_element_C
        (Line_format.new line_CA_42) line_CA_42 ()
      = .ok (selector_chain_B_element_C, (), ((1 : Nat) : Int) + 1) :=
  ⟨by decide, by decide, by decide,
   (generic_selector_keep Accept_all_occupancy_policy selector_chain_B_element_C
     (Line_format.new line_CA_42) line_CA_42 () () (by decide) (fun _ => rfl)).2.2.1 1
     (Select_by_element "C".toList) rfl (by decide)
     (fun j q hj hq => by
       have hj0 : j = 0 := by omega
       subst hj0
       have hq1 : q = Select_by_chainids "B".toList := by
         simpa [selector_chain_B_element_C, Generic_line_selector_base.predicates] using hq.symm
       subst hq1
       decide)⟩

/-! ## The range of the integers returned by `keep` -/

theorem No_occupancy_policy_returns : returns_index_or_DISCARD No_occupancy_policy := by
  intro p p1 lf line k r h
  simp only [No_occupancy_policy, bind, Except.bind, pure, Except.pure, throw,
    throwThe, MonadExceptOf.throw] at h
  repeat' split at h
  all_goals simp_all

theorem Accept_all_occupancy_policy_returns :
    returns_index_or_DISCARD Accept_all_occupancy_policy := by
  intro p p1 lf line k r h
  simp only [Accept_all_occupancy_policy, pure, Except.pure, Except.ok.injEq,
    Prod.mk.injEq] at h
  exact Or.inl h.2.symm

theorem Accept_none_occupancy_policy_returns :
    returns_index_or_DISCARD Accept_none_occupancy_policy := by
  intro p p1 lf line k r h
  simp only [Accept_none_occupancy_policy, bind, Except.bind, pure, Except.pure] at h
  repeat' split at h
  all_goals simp_all

theorem Min_or_max_occupancy_policy_returns (take_max : Bool) (p p1 : Min_or_max_state)
    (lf : Line_format) (line : Line) (k r : Int)
    (h : Min_or_max_occupancy_policy.add_or_postpone take_max p lf line k = .ok (p1, r)) :
    r = k ∨ r = DISCARD := by
  simp only [Min_or_max_occupancy_policy.add_or_postpone, bind, Except.bind, pure,
    Except.pure] at h
  repeat' split at h
  all_goals simp_all

theorem Atom_list_occupancy_policy_returns :
    returns_index_or_DISCARD Atom_list_occupancy_policy := by
  intro p p1 lf line k r h
  simp only [Atom_list_occupancy_policy, bind, Except.bind, pure, Except.pure] at h
  repeat' split at h
  all_goals simp_all

theorem builder_new_length (systems : List Molecular_system) (n : Nat) :
    n ≤ (All_atom_system_builder.new systems n).systems_.length := by
  have h : ∀ l : List Nat, (do let a ← l; pure (a : Int) : List Int).length = l.length := by
    intro l
    induction l with
    | nil => rfl
    | cons a rest ih => simpa using ih
  simp only [All_atom_system_builder.new, List.length_append, List.length_map, h,
    List.length_range]
  omega

theorem builder_interpret_line_in_bounds (b : All_atom_system_builder) (n : Nat)
    (lf : Line_format) (line : Line) (k : Int) (hn : n ≤ b.systems_.length) (h1 : 1 ≤ k)
    (hk : k ≤ (n : Int)) :
    ∃ sys, b.systems_.get? (k - 1).toNat = some sys ∧
      b.interpret_line lf line k
        = (sys.interpret_line lf line b.current_model).map
            (fun sys1 => { b with systems_ := b.systems_.set (k - 1).toNat sys1 }) := by
  have hlen : (k - 1).toNat < b.systems_.length := by omega
  refine ⟨b.systems_.get ⟨(k - 1).toNat, hlen⟩, List.get?_eq_get hlen, ?_⟩
  have hne : ¬ k = RMK := by simp only [RMK]; omega
  have hnl : ¬ ((b.systems_.length : Int) < k) := by omega
  have hn1 : ¬ (k < 1) := by omega
  simp only [All_atom_system_builder.interpret_line, if_neg hne, hnl, decide_False,
    Bool.and_false, Bool.false_eq_true, if_false, hn1, or_self, List.get?_eq_get hlen, bind,
    Except.bind, pure, Except.pure]
  cases (b.systems_.get ⟨(k - 1).toNat, hlen⟩).interpret_line lf line b.current_model <;> rfl

theorem builder_interpret_line_length (b b1 : All_atom_system_builder) (lf : Line_format)
    (line : Line) (k : Int) (h : b.interpret_line lf line k = .ok b1)
    (hk : k = RMK ∨ (1 ≤ k ∧ k ≤ (b.systems_.length : Int))) :
    b1.systems_.length = b.systems_.length := by
  rcases hk with hk | hk
  · simp only [All_atom_system_builder.interpret_line, if_pos hk, bind, Except.bind, pure,
      Except.pure] at h
    repeat' split at h
    all_goals first
      | (cases h; done)
      | (cases h; rfl)
  · obtain ⟨sys, -, heq⟩ :=
      builder_interpret_line_in_bounds b b.systems_.length lf line k (le_refl _) hk.1 hk.2
    rw [heq] at h
    cases hs : sys.interpret_line lf line b.current_model with
    | error e => simp [hs, Except.map] at h
    | ok sys1 =>
      simp only [hs, Except.map, Except.ok.injEq] at h
      rw [← h]
      simp

theorem add_or_postpone_then_result {π σ : Type} (occ : Occupancy_policy π)
    (hocc : returns_index_or_DISCARD occ) (s s1 : σ) (lf : Line_format) (line : Line)
    (o o1 : π) (k r : Int)
    (h : (do
        let (occupancy1, r1) ← occ.add_or_postpone o lf line k
        pure (s, occupancy1, r1) : Except Fatal (σ × π × Int)) = .ok (s1, o1, r)) :
    r = k ∨ r = DISCARD := by
  simp only [bind, Except.bind, pure, Except.pure] at h
  cases ha : occ.add_or_postpone o lf line k with
  | error e => simp [ha] at h
  | ok res =>
    obtain ⟨p1, r1⟩ := res
    simp only [ha, Except.ok.injEq, Prod.mk.injEq] at h
    rw [← h.2.2]
    exact hocc o p1 lf line k r1 ha

theorem single_system_keep_range {π : Type} (occ : Occupancy_policy π)
    (hocc : returns_index_or_DISCARD occ) (self self1 : PDB_line_selector) (lf : Line_format)
    (line : Line) (o o1 : π) (r : Int)
    (h : PDB_line_selector.keep occ self lf line o = .ok (self1, o1, r)) :
    is_RMK_DISCARD_or_system r (PDB_line_selector.max_nb_systems self) := by
  simp only [PDB_line_selector.keep] at h
  split at h
  · rcases add_or_postpone_then_result occ hocc _ _ _ _ _ _ _ _ h with h1 | h1
    · right; right
      simp [h1, PDB_line_selector.max_nb_systems]
    · exact Or.inr (Or.inl h1)
  · split at h
    · simp only [pure, Except.pure, Except.ok.injEq, Prod.mk.injEq] at h
      exact Or.inl h.2.2.symm
    · simp only [pure, Except.pure, Except.ok.injEq, Prod.mk.injEq] at h
      exact Or.inr (Or.inl h.2.2.symm)

theorem two_systems_keep_range {π : Type} (occ : Occupancy_policy π)
    (hocc : returns_index_or_DISCARD occ) (self self1 : PDB_line_selector_two_systems)
    (lf : Line_format) (line : Line) (o o1 : π) (r : Int)
    (h : PDB_line_selector_two_systems.keep occ self lf line o = .ok (self1, o1, r)) :
    is_RMK_DISCARD_or_system r (PDB_line_selector_two_systems.max_nb_systems self) := by
  simp only [PDB_line_selector_two_systems.keep] at h
  split at h
  · cases hh : is_hydrogen lf line with
    | error e => simp [hh, bind, Except.bind] at h
    | ok b =>
      cases b
      · cases hw : is_water lf line with
        | error e => simp [hh, hw, bind, Except.bind] at h
        | ok w =>
          cases w
          · have h2 : (do
                let (occupancy1, r1) ← occ.add_or_postpone o lf line 1
                pure (self, occupancy1, r1) :
                  Except Fatal (PDB_line_selector_two_systems × π × Int)) = .ok (self1, o1, r) := by
              simpa [hh, hw, bind, Except.bind] using h
            rcases add_or_postpone_then_result occ hocc _ _ _ _ _ _ _ _ h2 with h1 | h1
            · right; right
              simp [h1, PDB_line_selector_two_systems.max_nb_systems]
            · exact Or.inr (Or.inl h1)
          · have h2 : (do
                let (occupancy1, r1) ← occ.add_or_postpone o lf line 2
                pure (self, occupancy1, r1) :
                  Except Fatal (PDB_line_selector_two_systems × π × Int)) = .ok (self1, o1, r) := by
              simpa [hh, hw, bind, Except.bind] using h
            rcases add_or_postpone_then_result occ hocc _ _ _ _ _ _ _ _ h2 with h1 | h1
            · right; right
              simp [h1, PDB_line_selector_two_systems.max_nb_systems]
            · exact Or.inr (Or.inl h1)
      · simp only [hh, bind, Except.bind, pure, Except.pure, if_true, Except.ok.injEq,
          Prod.mk.injEq] at h
        exact Or.inr (Or.inl h.2.2.symm)
  · split at h
    · simp only [pure, Except.pure, Except.ok.injEq, Prod.mk.injEq] at h
      exact Or.inl h.2.2.symm
    · simp only [pure, Except.pure, Except.ok.injEq, Prod.mk.injEq] at h
      exact Or.inr (Or.inl h.2.2.symm)

theorem generic_keep_range {π : Type} (occ : Occupancy_policy π)
    (hocc : returns_index_or_DISCARD occ) (self self1 : Generic_line_selector)
    (lf : Line_format) (line : Line) (o o1 : π) (r : Int)
    (h : Generic_line_selector.keep occ self lf line o = .ok (self1, o1, r)) :
    is_RMK_DISCARD_or_system r (Generic_line_selector.max_nb_systems self) := by
  simp only [Generic_line_selector.keep] at h
  split at h
  · cases hc : Generic_line_selector_base.call self lf line with
    | error e => simp [hc, bind, Except.bind] at h
    | ok ret =>
      by_cases hret : ret = -1
      · simp only [hc, bind, Except.bind, hret, ne_eq, not_true_eq_false, if_false, pure,
          Except.pure, Except.ok.injEq, Prod.mk.injEq] at h
        exact Or.inr (Or.inl h.2.2.symm)
      · have h2 : (do
            let (occupancy1, r1) ← occ.add_or_postpone o lf line ret
            pure (self, occupancy1, r1) :
              Except Fatal (Generic_line_selector × π × Int)) = .ok (self1, o1, r) := by
          simpa [hc, bind, Except.bind, hret] using h
        rcases add_or_postpone_then_result occ hocc _ _ _ _ _ _ _ _ h2 with h1 | h1
        · right; right
          rcases call_range self lf line ret hc with h3 | h3
          · exact absurd h3 hret
          · rw [h1]
            exact h3
        · exact Or.inr (Or.inl h1)
  · split at h
    · simp only [pure, Except.pure, Except.ok.injEq, Prod.mk.injEq] at h
      exact Or.inl h.2.2.symm
    · simp only [pure, Except.pure, Except.ok.injEq, Prod.mk.injEq] at h
      exact Or.inr (Or.inl h.2.2.symm)

theorem chain_max_nb_systems (groups : List (List Char)) (keep_water keep_remaining_chains : Bool)
    (lim : ℚ) (keep_hydrogen : Bool) (seen : Nat) (discarded : Int)
    (hN : groups.length + 2 < 4294967296) :
    ((PDB_line_selector_chain.max_nb_systems
        { PDB_line_selector_chain.new groups keep_water keep_remaining_chains lim
            keep_hydrogen with nb_atm_htm_seen_ := seen, discarded := discarded } : Nat) : Int)
      = (groups.length : Int) + (if keep_water then 1 else 0)
          + (if keep_remaining_chains then 1 else 0) := by
  simp only [PDB_line_selector_chain.max_nb_systems, PDB_line_selector_chain.new,
    insert_groups_max_chain_index, to_unsigned]
  have h0 : (0 : Int) ≤ 0 + (groups.length : Int) + (if keep_water then 1 else 0)
      + (if keep_remaining_chains then 1 else 0) := by
    cases keep_water <;> cases keep_remaining_chains <;> simp <;> omega
  have h1 : 0 + (groups.length : Int) + (if keep_water then 1 else 0)
      + (if keep_remaining_chains then 1 else 0) < 4294967296 := by
    cases keep_water <;> cases keep_remaining_chains <;> simp <;> omega
  rw [Int.emod_eq_of_lt h0 h1, Int.toNat_of_nonneg h0]
  simp

theorem except_bind_eq_ok {ε α β : Type} (x : Except ε α) (f : α → Except ε β) (b : β) :
    (x >>= f) = .ok b ↔ ∃ a, x = .ok a ∧ f a = .ok b := by
  cases x with
  | error e => simp [bind, Except.bind]
  | ok a => simp [bind, Except.bind]

theorem chain_keep_cases {π : Type} (occ : Occupancy_policy π)
    (hocc : returns_index_or_DISCARD occ) (self self1 : PDB_line_selector_chain)
    (lf : Line_format) (line : Line) (o o1 : π) (r : Int)
    (h : PDB_line_selector_chain.keep occ self lf line o = .ok (self1, o1, r)) :
    r = RMK ∨ r = DISCARD ∨ (self.keep_water_ = true ∧ r = self.max_chain_index + 1) ∨
      (self.keep_remaining_chains_ = true ∧
        r = self.max_chain_index + (if self.keep_water_ then 2 else 1)) ∨
      ∃ ch, map_find char_lt ch self.system_index_map_ = some r := by
  simp only [PDB_line_selector_chain.keep] at h
  by_cases hrec : lf.record_type = Record_type.ATOM ∨ lf.record_type = Record_type.HETATM
  · simp only [if_pos hrec] at h
    obtain ⟨ch, hch, h⟩ := (except_bind_eq_ok _ _ _).1 h
    split at h
    all_goals
      obtain ⟨hydrogen, hhy, h⟩ := (except_bind_eq_ok _ _ _).1 h
      cases hydrogen
      · simp only [Bool.false_eq_true, if_false] at h
        obtain ⟨w, hw, h⟩ := (except_bind_eq_ok _ _ _).1 h
        cases w
        · simp only [Bool.false_eq_true, if_false] at h
          cases hfind : map_find char_lt ch self.system_index_map_ with
          | none =>
            simp only [hfind] at h
            cases hkr : self.keep_remaining_chains_
            · simp only [hkr, Bool.false_eq_true, if_false, pure, Except.pure, Except.ok.injEq,
                Prod.mk.injEq] at h
              exact Or.inr (Or.inl h.2.2.symm)
            · simp only [hkr, if_true] at h
              rcases add_or_postpone_then_result occ hocc _ _ _ _ _ _ _ _ h with h1 | h1
              · exact Or.inr (Or.inr (Or.inr (Or.inl ⟨rfl, h1⟩)))
              · exact Or.inr (Or.inl h1)
          | some index =>
            simp only [hfind] at h
            rcases add_or_postpone_then_result occ hocc _ _ _ _ _ _ _ _ h with h1 | h1
            · exact Or.inr (Or.inr (Or.inr (Or.inr ⟨ch, by rw [h1, hfind]⟩)))
            · exact Or.inr (Or.inl h1)
        · simp only [if_true] at h
          cases hkw : self.keep_water_
          · simp only [hkw, Bool.not_false, if_true, pure, Except.pure, Except.ok.injEq,
              Prod.mk.injEq] at h
            exact Or.inr (Or.inl h.2.2.symm)
          · simp only [hkw, Bool.not_true, Bool.false_eq_true, if_false] at h
            obtain ⟨tf, htf, h⟩ := (except_bind_eq_ok _ _ _).1 h
            by_cases hgt : tf > self.Water_Bfactorlim_
            · simp only [if_pos hgt, pure, Except.pure, Except.ok.injEq, Prod.mk.injEq] at h
              exact Or.inr (Or.inl h.2.2.symm)
            · simp only [if_neg hgt] at h
              rcases add_or_postpone_then_result occ hocc _ _ _ _ _ _ _ _ h with h1 | h1
              · exact Or.inr (Or.inr (Or.inl ⟨rfl, h1⟩))
              · exact Or.inr (Or.inl h1)
      · simp only [if_true, pure, Except.pure, Except.ok.injEq, Prod.mk.injEq] at h
        exact Or.inr (Or.inl h.2.2.symm)
  · simp only [if_neg hrec] at h
    split at h
    · simp only [pure, Except.pure, Except.ok.injEq, Prod.mk.injEq] at h
      exact Or.inl h.2.2.symm
    · simp only [pure, Except.pure, Except.ok.injEq, Prod.mk.injEq] at h
      exact Or.inr (Or.inl h.2.2.symm)

theorem chain_keep_range {π : Type} (occ : Occupancy_policy π)
    (hocc : returns_index_or_DISCARD occ) (groups : List (List Char))
    (keep_water keep_remaining_chains : Bool) (lim : ℚ) (keep_hydrogen : Bool) (seen : Nat)
    (discarded : Int) (self1 : PDB_line_selector_chain) (lf : Line_format) (line : Line)
    (o o1 : π) (r : Int) (hN : groups.length + 2 < 4294967296)
    (h : PDB_line_selector_chain.keep occ
        { PDB_line_selector_chain.new groups keep_water keep_remaining_chains lim
            keep_hydrogen with nb_atm_htm_seen_ := seen, discarded := discarded }
        lf line o = .ok (self1, o1, r)) :
    is_RMK_DISCARD_or_system r (PDB_line_selector_chain.max_nb_systems
      { PDB_line_selector_chain.new groups keep_water keep_remaining_chains lim
          keep_hydrogen with nb_atm_htm_seen_ := seen, discarded := discarded }) := by
  unfold is_RMK_DISCARD_or_system
  rw [chain_max_nb_systems groups keep_water keep_remaining_chains lim keep_hydrogen seen
    discarded hN]
  rcases chain_keep_cases occ hocc _ _ _ _ _ _ _ h with h1 | h1 | h1 | h1 | h1
  · exact Or.inl h1
  · exact Or.inr (Or.inl h1)
  · right; right
    simp only [PDB_line_selector_chain.new, insert_groups_max_chain_index] at h1
    rw [h1.2]
    cases keep_remaining_chains <;> simp [h1.1]
  · right; right
    simp only [PDB_line_selector_chain.new, insert_groups_max_chain_index] at h1
    rw [h1.2]
    cases keep_water <;> simp [h1.1]
    omega
  · right; right
    obtain ⟨ch, hfind⟩ := h1
    obtain ⟨k1, hmem⟩ := mem_of_map_find char_lt ch r _ hfind
    simp only [PDB_line_selector_chain.new] at hmem
    rcases mem_insert_groups groups [] 0 (k1, r) hmem with h2 | h2
    · simp only at h2
      cases keep_water <;> cases keep_remaining_chains <;> simp <;> omega
    · simp at h2

/-- C12: the six policies of `occupancy_handlers.h` return from `add_or_postpone` the
system index they were given or DISCARD; and with every policy that does so, an integer
that `keep` returns, for the selector of one system, the one of two systems, the one by
chains built from any groups and flags (the number of groups plus 2 being an `unsigned`)
and a generic one, is RMK, DISCARD or at least 1 and at most `max_nb_systems`. A builder
whose container holds at least `n` systems, as the one constructed with `n` does, reads
the system of an integer from 1 to `n` within the container, and its container keeps its
size. -/
theorem keep_result_within_max_nb_systems {π : Type} (occ : Occupancy_policy π)
    (hocc : returns_index_or_DISCARD occ) :
    (returns_index_or_DISCARD No_occupancy_policy ∧
      returns_index_or_DISCARD Accept_all_occupancy_policy ∧
      returns_index_or_DISCARD Accept_none_occupancy_policy ∧
      returns_index_or_DISCARD Max_occupancy_policy ∧
      returns_index_or_DISCARD Min_occupancy_policy ∧
      returns_index_or_DISCARD Atom_list_occupancy_policy) ∧
    (∀ (self self1 : PDB_line_selector) (lf : Line_format) (line : Line) (o o1 : π) (r : Int),
      PDB_line_selector.keep occ self lf line o = .ok (self1, o1, r) →
      is_RMK_DISCARD_or_system r (PDB_line_selector.max_nb_systems self)) ∧
    (∀ (self self1 : PDB_line_selector_two_systems) (lf : Line_format) (line : Line)
        (o o1 : π) (r : Int),
      PDB_line_selector_two_systems.keep occ self lf line o = .ok (self1, o1, r) →
      is_RMK_DISCARD_or_system r (PDB_line_selector_two_systems.max_nb_systems self)) ∧
    (∀ (groups : List (List Char)) (keep_water keep_remaining_chains : Bool) (lim : ℚ)
        (keep_hydrogen : Bool) (seen : Nat) (discarded : Int)
        (self1 : PDB_line_selector_chain) (lf : Line_format) (line : Line) (o o1 : π)
        (r : Int),
      groups.length + 2 < 4294967296 →
      PDB_line_selector_chain.keep occ
          { PDB_line_selector_chain.new groups keep_water keep_remaining_chains lim
              keep_hydrogen with nb_atm_htm_seen_ := seen, discarded := discarded }
          lf line o = .ok (self1, o1, r) →
      is_RMK_DISCARD_or_system r (PDB_line_selector_chain.max_nb_systems
        { PDB_line_selector_chain.new groups keep_water keep_remaining_chains lim
            keep_hydrogen with nb_atm_htm_seen_ := seen, discarded := discarded })) ∧
    (∀ (self self1 : Generic_line_selector) (lf : Line_format) (line : Line) (o o1 : π)
        (r : Int),
      Generic_line_selector.keep occ self lf line o = .ok (self1, o1, r) →
      is_RMK_DISCARD_or_system r (Generic_line_selector.max_nb_systems self)) ∧
    (∀ (systems : List Molecular_system) (n : Nat),
      n ≤ (All_atom_system_builder.new systems n).systems_.length) ∧
    (∀ (b : All_atom_system_builder) (n : Nat) (lf : Line_format) (line : Line) (k : Int),
      n ≤ b.systems_.length → 1 ≤ k → k ≤ (n : Int) →
      ∃ sys, b.systems_.get? (k - 1).toNat = some sys ∧
        b.interpret_line lf line k
          = (sys.interpret_line lf line b.current_model).map
              (fun sys1 => { b with systems_ := b.systems_.set (k - 1).toNat sys1 })) ∧
    (∀ (b b1 : All_atom_system_builder) (lf : Line_format) (line : Line) (k : Int),
      b.interpret_line lf line k = .ok b1 →
      (k = RMK ∨ (1 ≤ k ∧ k ≤ (b.systems_.length : Int))) →
      b1.systems_.length = b.systems_.length) :=
  ⟨⟨No_occupancy_policy_returns, Accept_all_occupancy_policy_returns,
     Accept_none_occupancy_policy_returns,
     fun p p1 lf line k r h => Min_or_max_occupancy_policy_returns true p p1 lf line k r h,
     fun p p1 lf line k r h => Min_or_max_occupancy_policy_returns false p p1 lf line k r h,
     Atom_list_occupancy_policy_returns⟩,
   fun self self1 lf line o o1 r h => single_system_keep_range occ hocc self self1 lf line o o1 r h,
   fun self self1 lf line o o1 r h => two_systems_keep_range occ hocc self self1 lf line o o1 r h,
   fun groups kw kr lim kh seen discarded self1 lf line o o1 r hN h =>
     chain_keep_range occ hocc groups kw kr lim kh seen discarded self1 lf line o o1 r hN h,
   fun self self1 lf line o o1 r h => generic_keep_range occ hocc self self1 lf line o o1 r h,
   builder_new_length,
   builder_interpret_line_in_bounds,
   builder_interpret_line_length⟩

theorem keep_result_within_max_nb_systems_witness :
    returns_index_or_DISCARD Max_occupancy_policy ∧
    PDB_line_selector_chain.keep Max_occupancy_policy
        { PDB_line_selector_chain.new groups_AB_C true true 200 false with
          nb_atm_htm_seen_ := 0, discarded := 0 }
        (Line_format.new line_water_O) line_water_O state_050
      = .ok ({ PDB_line_selector_chain.new groups_AB_C true true 200 false with
               nb_atm_htm_seen_ := 1, discarded := 0 }, state_050, 3) ∧
    is_RMK_DISCARD_or_system 3 (PDB_line_selector_chain.max_nb_systems
      { PDB_line_selector_chain.new groups_AB_C true true 200 false with
        nb_atm_htm_seen_ := 0, discarded := 0 }) :=
  ⟨fun p p1 lf line k r h => Min_or_max_occupancy_policy_returns true p p1 lf line k r h,
   by decide!,
   (keep_result_within_max_nb_systems Max_occupancy_policy
     (fun p p1 lf line k r h => Min_or_max_occupancy_policy_returns true p p1 lf line k r h)).2.2.2.1
     groups_AB_C true true 200 false 0 0
     { PDB_line_selector_chain.new groups_AB_C true true 200 false with
       nb_atm_htm_seen_ := 1, discarded := 0 }
     (Line_format.new line_water_O) line_water_O state_050 state_050 3 (by decide)
     (by decide!)⟩

/-! ## The charge field -/

theorem is_space_of_digit (c : Char) (d : Nat) (h : digit_value c = some d) :
    is_space c = false := by
  simp only [digit_value] at h
  split at h
  · rename_i hc
    rcases hc with ⟨h1, h2⟩
    have h3 : 48 ≤ c.toNat := h1
    have h4 : c.toNat ≤ 57 := h2
    simp only [is_space, Bool.or_eq_false_iff, decide_eq_false_iff_not]
    refine ⟨⟨⟨⟨⟨?_, ?_⟩, ?_⟩, ?_⟩, ?_⟩, ?_⟩ <;>
      (intro hc; rw [hc] at h3; revert h3; decide)
  · cases h

theorem lexical_cast_int_digit (c : Char) (d : Nat) (h : digit_value c = some d) :
    lexical_cast_int [c] = some (d : Int) := by
  have hd : d ≤ 9 := by
    simp only [digit_value] at h
    split at h
    · rename_i hc
      have h4 : c.toNat ≤ 57 := hc.2
      simp only [Option.some.injEq] at h
      omega
    · cases h
  have hm : c ≠ '-' := by
    intro hc
    have h0 : digit_value '-' = none := by decide
    rw [hc, h0] at h
    cases h
  have hp : c ≠ '+' := by
    intro hc
    have h0 : digit_value '+' = none := by decide
    rw [hc, h0] at h
    cases h
  have hpd : parse_digits [c] = some d := by
    simp [parse_digits, digits_value, h]
  unfold lexical_cast_int
  split
  · rename_i heq
    simp only [List.cons.injEq] at heq
    exact absurd heq.1 hm
  · rename_i heq
    simp only [List.cons.injEq] at heq
    exact absurd heq.1 hp
  · rw [hpd]
    have : d < 2147483648 := by omega
    simp [this]

theorem get_charge_str_of_columns (lf : Line_format) (line : Line) (field : List Char)
    (hlen : 79 ≤ line.length) (hfield : (line.drop 78).take 2 = field) :
    lf.get_charge_str line = .ok (if (trim field).length = 0 then [' '] else trim field) := by
  have h1 : ¬ line.length < 79 := by omega
  have h2 : ¬ 78 > line.length := by omega
  simp only [Line_format.get_charge_str, RECOVER_FIELD, if_neg h1, extract_field, substr, if_neg h2]
  have hw : field_width 78 79 = 2 := by decide
  rw [hw, hfield]
  by_cases ht : (trim field).length = 0
  · simp [ht, Mandatory_fields_default]
  · simp [ht, lexical_cast_string]

/-- C17: for every line of at least 80 characters, `get_charge` returns `d` when the
columns 78-79 are the digit `d` then `+`, `-d` when they are the digit `d` then `-`, and
NO_CHARGE when they are two blanks; it returns NO_CHARGE as well for every line of fewer
than 79 characters, which holds no character of the charge field; NO_CHARGE is 66 and is
not 0. On the 80-character lines `line_CA_42_charge_2_plus` and
`line_CA_42_charge_2_minus` it returns 2 and -2. -/
theorem get_charge_by_length :
    (∀ (lf : Line_format) (line : Line) (c : Char) (d : Nat), 80 ≤ line.length →
      digit_value c = some d →
      ((line.drop 78).take 2 = [c, '+'] → lf.get_charge line = .ok (d : Int)) ∧
      ((line.drop 78).take 2 = [c, '-'] → lf.get_charge line = .ok (-(d : Int)))) ∧
    (∀ (lf : Line_format) (line : Line), 80 ≤ line.length →
      (line.drop 78).take 2 = [' ', ' '] → lf.get_charge line = .ok NO_CHARGE) ∧
    (∀ (lf : Line_format) (line : Line), line.length < 79 →
      lf.get_charge line = .ok NO_CHARGE) ∧
    NO_CHARGE = 66 ∧ NO_CHARGE ≠ 0 ∧
    line_CA_42_charge_2_plus.length = 80 ∧ line_CA_42_charge_2_minus.length = 80 ∧
    (Line_format.new line_CA_42_charge_2_plus).get_charge line_CA_42_charge_2_plus = .ok 2 ∧
    (Line_format.new line_CA_42_charge_2_minus).get_charge line_CA_42_charge_2_minus
      = .ok (-2) := by
  refine ⟨fun lf line c d hlen hd => ⟨fun hf => ?_, fun hf => ?_⟩, fun lf line hlen hf => ?_,
    fun lf line hlen => ?_, rfl, by decide, by decide, by decide, by decide, by decide⟩
  · have hs := is_space_of_digit c d hd
    have hp : is_space '+' = false := by decide
    have ht : trim [c, '+'] = [c, '+'] := by
      simp [trim, List.dropWhile, hs, hp]
    have hstr := get_charge_str_of_columns lf line [c, '+'] (by omega) hf
    rw [ht] at hstr
    simp only [List.length_cons, List.length_nil] at hstr
    simp only [Line_format.get_charge, hstr]
    simp [lexical_cast_int_digit c d hd]
  · have hs := is_space_of_digit c d hd
    have hp : is_space '-' = false := by decide
    have ht : trim [c, '-'] = [c, '-'] := by
      simp [trim, List.dropWhile, hs, hp]
    have hstr := get_charge_str_of_columns lf line [c, '-'] (by omega) hf
    rw [ht] at hstr
    simp only [List.length_cons, List.length_nil] at hstr
    simp only [Line_format.get_charge, hstr]
    simp [lexical_cast_int_digit c d hd]
  · have ht : trim [' ', ' '] = [] := by decide
    have hstr := get_charge_str_of_columns lf line [' ', ' '] (by omega) hf
    rw [ht] at hstr
    simp only [Line_format.get_charge, hstr]
    simp
  · simp [Line_format.get_charge, Line_format.get_charge_str, RECOVER_FIELD, hlen,
      Mandatory_fields_default]

/-! ## The charge of an atom that is written and read again -/

/-- C18, which fails: `get_atom_pdb_format` writes a charge with the directive `% 2i`, the
sign or a blank first and the digit second, whereas `get_charge` reads the digit first and
the sign second. For the atom `PDB_atom_CA_42` with the charge -1 the columns 78-79 of
the line written are `-1` and `get_charge` stops on the line; it does so for every charge
from -9 to -1. For the charge 1 the columns are a blank and `1`, not `1+`. For the
charges from 0 to 9 and for NO_CHARGE the value read is the charge. -/
theorem get_charge_of_written_negative_charge :
    ((get_atom_pdb_format (PDB_atom_CA_42 (-1))).drop 78).take 2 = ['-', '1'] ∧
    (Line_format.new (get_atom_pdb_format (PDB_atom_CA_42 (-1)))).get_charge
        (get_atom_pdb_format (PDB_atom_CA_42 (-1)))
      = .error Fatal.cannot_extract_charge ∧
    (∀ c : Fin 9,
      (Line_format.new (get_atom_pdb_format (PDB_atom_CA_42 (-((c : Int) + 1))))).get_charge
          (get_atom_pdb_format (PDB_atom_CA_42 (-((c : Int) + 1))))
        = .error Fatal.cannot_extract_charge) ∧
    ((get_atom_pdb_format (PDB_atom_CA_42 1)).drop 78).take 2 = [' ', '1'] ∧
    (∀ c : Fin 10,
      (Line_format.new (get_atom_pdb_format (PDB_atom_CA_42 (c : Int)))).get_charge
          (get_atom_pdb_format (PDB_atom_CA_42 (c : Int)))
        = .ok (c : Int)) ∧
    (Line_format.new (get_atom_pdb_format (PDB_atom_CA_42 NO_CHARGE))).get_charge
        (get_atom_pdb_format (PDB_atom_CA_42 NO_CHARGE))
      = .ok NO_CHARGE := by
  refine ⟨by decide!, by decide!, by decide!, by decide!, by decide!, by decide!⟩

/-! ## Numbers written and read again -/

theorem digit_value_digitChar (m : Nat) (h : m < 10) : digit_value (Nat.digitChar m) = some m := by
  interval_cases m <;> decide

theorem digit_value_lt (c : Char) (d : Nat) (h : digit_value c = some d) : d < 10 := by
  simp only [digit_value] at h
  split at h
  · rename_i hc
    have h3 : 48 ≤ c.toNat := hc.1
    have h4 : c.toNat ≤ 57 := hc.2
    simp only [Option.some.injEq] at h
    omega
  · cases h

theorem toDigitsCore_spec (fuel n : Nat) (acc : List Char) (h : n < fuel) :
    ∃ ds : List Char, Nat.toDigitsCore 10 fuel n acc = ds ++ acc ∧ 1 ≤ ds.length ∧
      n < 10 ^ ds.length ∧ (∀ c ∈ ds, ∃ d, digit_value c = some d) ∧
      ∀ (a : Nat) (rest : List Char),
        digits_value a (ds ++ rest) = digits_value (a * 10 ^ ds.length + n) rest := by
  induction fuel generalizing n acc with
  | zero => omega
  | succ fuel ih =>
    simp only [Nat.toDigitsCore]
    by_cases h0 : n / 10 = 0
    · have hn : n < 10 := by omega
      have hmod : n % 10 = n := Nat.mod_eq_of_lt hn
      refine ⟨[Nat.digitChar n], by simp [h0, hmod], by simp, by simpa using hn, ?_, ?_⟩
      · intro c hc
        simp only [List.mem_singleton] at hc
        exact ⟨n, by rw [hc]; exact digit_value_digitChar n hn⟩
      · intro a rest
        simp [digits_value, digit_value_digitChar n hn, Nat.mul_comm]
    · have hlt : n / 10 < fuel := by omega
      obtain ⟨ds, heq, hlen, hbound, hdig, hval⟩ := ih (n / 10) (Nat.digitChar (n % 10) :: acc) hlt
      have hm : n % 10 < 10 := Nat.mod_lt n (by omega)
      refine ⟨ds ++ [Nat.digitChar (n % 10)], by simp [h0, heq], by simp, ?_, ?_, ?_⟩
      · simp only [List.length_append, List.length_singleton, pow_succ]
        omega
      · intro c hc
        simp only [List.mem_append, List.mem_singleton] at hc
        rcases hc with hc | hc
        · exact hdig c hc
        · exact ⟨n % 10, by rw [hc]; exact digit_value_digitChar _ hm⟩
      · intro a rest
        rw [List.append_assoc, hval]
        simp only [List.singleton_append, digits_value, digit_value_digitChar _ hm,
          List.length_append, List.length_singleton, pow_succ]
        congr 1
        have := Nat.div_add_mod n 10
        ring_nf
        omega

theorem nat_digits_spec (n : Nat) :
    1 ≤ (nat_digits n).length ∧ n < 10 ^ (nat_digits n).length ∧
      (∀ c ∈ nat_digits n, ∃ d, digit_value c = some d) ∧
      ∀ (a : Nat) (rest : List Char),
        digits_value a (nat_digits n ++ rest)
          = digits_value (a * 10 ^ (nat_digits n).length + n) rest := by
  obtain ⟨ds, heq, hlen, hbound, hdig, hval⟩ := toDigitsCore_spec (n + 1) n [] (by omega)
  have hds : nat_digits n = ds := by
    simp only [nat_digits, Nat.toDigits, heq, List.append_nil]
  rw [hds]
  exact ⟨hlen, hbound, hdig, hval⟩

theorem digits_value_nat_digits (n : Nat) : digits_value 0 (nat_digits n) = some n := by
  have h := (nat_digits_spec n).2.2.2 0 []
  simpa [digits_value] using h

theorem nat_digits_ne_nil (n : Nat) : nat_digits n ≠ [] := by
  intro h
  have := (nat_digits_spec n).1
  rw [h] at this
  simp at this

/-! ## Fields written and read again -/

theorem dropWhile_is_space_replicate (k : Nat) (s : List Char) :
    (List.replicate k ' ' ++ s).dropWhile is_space = s.dropWhile is_space := by
  induction k with
  | zero => rfl
  | succ k ih =>
    have h : is_space ' ' = true := by decide
    simp only [List.replicate_succ, List.cons_append, List.dropWhile_cons, h, if_true, ih]

theorem dropWhile_is_space_of_free (s : List Char) (h : ∀ c ∈ s, is_space c = false) :
    s.dropWhile is_space = s := by
  cases s with
  | nil => rfl
  | cons c cs => simp [List.dropWhile_cons, h c (by simp)]

theorem trim_pad_of_free (w : Nat) (s : List Char) (h : ∀ c ∈ s, is_space c = false) :
    trim (pad w s) = s := by
  simp only [trim, pad, dropWhile_is_space_replicate, dropWhile_is_space_of_free s h]
  rw [dropWhile_is_space_of_free s.reverse (fun c hc => h c (by simpa using hc))]
  simp

theorem pad_length (w : Nat) (s : List Char) (h : s.length ≤ w) : (pad w s).length = w := by
  simp only [pad, List.length_append, List.length_replicate]
  omega

theorem c_str_of_free (s : List Char) (h : ∀ c ∈ s, c ≠ NUL) : c_str s = s := by
  simp only [c_str]
  rw [List.takeWhile_eq_self_iff]
  intro c hc
  simpa using h c hc

theorem is_space_false_of_digit (c : Char) (h : ∃ d, digit_value c = some d) :
    is_space c = false := by
  obtain ⟨d, hd⟩ := h
  exact is_space_of_digit c d hd

theorem int_digits_free (i : Int) : ∀ c ∈ int_digits i, is_space c = false := by
  intro c hc
  simp only [int_digits] at hc
  split at hc
  · simp only [List.mem_cons] at hc
    rcases hc with hc | hc
    · rw [hc]
      decide
    · exact is_space_false_of_digit c ((nat_digits_spec _).2.2.1 c hc)
  · exact is_space_false_of_digit c ((nat_digits_spec _).2.2.1 c hc)

theorem nat_digits_head_ne (n : Nat) (c0 : Char) (hc0 : digit_value c0 = none) :
    ∀ r : List Char, nat_digits n ≠ c0 :: r := by
  intro r h
  obtain ⟨d, hd⟩ := (nat_digits_spec n).2.2.1 c0 (by rw [h]; simp)
  rw [hc0] at hd
  cases hd

theorem lexical_cast_int_nat_digits (n : Nat) (h : n < 2147483648) :
    lexical_cast_int (nat_digits n) = some (n : Int) := by
  have hpd : parse_digits (nat_digits n) = some n := by
    simp [parse_digits, nat_digits_ne_nil, digits_value_nat_digits]
  unfold lexical_cast_int
  split
  · rename_i r heq
    exact absurd heq (nat_digits_head_ne n '-' (by decide) r)
  · rename_i r heq
    exact absurd heq (nat_digits_head_ne n '+' (by decide) r)
  · simp [hpd, h]

theorem lexical_cast_int_int_digits (i : Int) (h1 : -2147483648 ≤ i) (h2 : i < 2147483648) :
    lexical_cast_int (int_digits i) = some i := by
  by_cases hneg : i < 0
  · have hpd : parse_digits (nat_digits i.natAbs) = some i.natAbs := by
      simp [parse_digits, nat_digits_ne_nil, digits_value_nat_digits]
    have hle : i.natAbs ≤ 2147483648 := by omega
    have hi : -(i.natAbs : Int) = i := by omega
    simp only [int_digits, if_pos hneg, lexical_cast_int, hpd, Option.bind, if_pos hle, hi]
  · have hlt : i.natAbs < 2147483648 := by omega
    have hi : (i.natAbs : Int) = i := by omega
    simp only [int_digits, if_neg hneg]
    rw [lexical_cast_int_nat_digits _ hlt, hi]

theorem int_digits_bound (i : Int) (w : Nat) (h : (int_digits i).length ≤ w) :
    i.natAbs < 10 ^ w := by
  have hs := nat_digits_spec i.natAbs
  have hlen : (nat_digits i.natAbs).length ≤ w := by
    simp only [int_digits] at h
    split at h
    · simp only [List.length_cons] at h
      omega
    · exact h
  exact lt_of_lt_of_le hs.2.1 (Nat.pow_le_pow_right (by omega) hlen)

theorem int_digits_ne_nil (i : Int) : int_digits i ≠ [] := by
  simp only [int_digits]
  split
  · simp
  · exact nat_digits_ne_nil _

theorem RECOVER_FIELD_segment {τ : Type} (cast : List Char → Option τ) (mandatory : Bool)
    (fname : String) (frm upto : Nat) (dflt : τ) (pre seg post : List Char)
    (hpre : pre.length = frm) (hw : field_width frm upto = seg.length)
    (hup : upto < frm + seg.length) :
    RECOVER_FIELD cast mandatory fname frm upto dflt (pre ++ seg ++ post)
      = field_value cast mandatory fname dflt seg := by
  have h1 : ¬ (pre ++ seg ++ post).length < upto := by
    simp only [List.length_append]
    omega
  have h2 : ¬ frm > (pre ++ seg ++ post).length := by
    simp only [List.length_append]
    omega
  have h3 : ((pre ++ seg ++ post).drop frm).take seg.length = seg := by
    rw [List.append_assoc, ← hpre, List.drop_left, List.take_left]
  simp only [RECOVER_FIELD, if_neg h1, extract_field, substr, if_neg h2, hw, h3, field_value]

theorem field_value_int (mandatory : Bool) (fname : String) (dflt : Int) (w : Nat) (i : Int)
    (h1 : -2147483648 ≤ i) (h2 : i < 2147483648) :
    field_value lexical_cast_int mandatory fname dflt (format_d w i) = .ok i := by
  have ht : trim (format_d w i) = int_digits i := trim_pad_of_free w _ (int_digits_free i)
  have hne : ¬ (int_digits i).length = 0 := by
    simpa using int_digits_ne_nil i
  simp only [field_value, ht, if_neg hne, lexical_cast_int_int_digits i h1 h2]

theorem field_value_string (mandatory : Bool) (fname : String) (dflt : List Char) (w : Nat)
    (s : List Char) (hne : s ≠ []) (hfree : ∀ c ∈ s, is_space c = false ∧ c ≠ NUL) :
    field_value lexical_cast_string mandatory fname dflt (format_s w (c_str s)) = .ok s := by
  have hc : c_str s = s := c_str_of_free s (fun c hc => (hfree c hc).2)
  have ht : trim (format_s w s) = s := trim_pad_of_free w s (fun c hc => (hfree c hc).1)
  have hl : ¬ s.length = 0 := by simpa using hne
  simp only [field_value, hc, ht, if_neg hl, lexical_cast_string]

theorem field_value_char (fname : String) (c : Char) (h : is_space c = true → c = ' ') :
    field_value lexical_cast_char false fname ' ' (format_c c) = .ok c := by
  cases hs : is_space c
  · have ht : trim [c] = [c] := by simp [trim, List.dropWhile, hs]
    simp [field_value, format_c, ht, lexical_cast_char]
  · have ht : trim [c] = [] := by simp [trim, List.dropWhile, hs]
    simp only [field_value, format_c, ht, List.length_nil, if_true, Bool.not_false]
    rw [h hs]

/-! ## The line written for an atom -/

theorem get_atom_pdb_format_layout (s0 s1 s3 s5 s8 sx sy sz so st s17 s18 : List Char)
    (c4 c7 c9 : Char)
    (h0 : s0.length = 6) (h1 : s1.length = 5) (h3 : s3.length = 4) (h5 : s5.length = 3)
    (h8 : s8.length = 4) (hx : sx.length = 8) (hy : sy.length = 8) (hz : sz.length = 8)
    (ho : so.length = 6) (ht : st.length = 6) (h17 : s17.length = 2) (h18 : s18.length = 2)
    (lf : Line_format) (L : List Char)
    (hL : L = s0 ++ (s1 ++ [' '] ++ s3 ++ format_c c4 ++ s5 ++ [' '] ++ format_c c7 ++ s8
        ++ format_c c9 ++ [' ', ' ', ' '] ++ sx ++ sy ++ sz ++ so ++ st ++ "          ".toList
        ++ s17) ++ s18) :
    L.length = 80 ∧
    lf.get_atom_serial_number L = field_value lexical_cast_int true "atom_serial_number" (-1) (s1) ∧
    lf.get_atom_name L = field_value lexical_cast_string true "atom_name" [' '] (s3) ∧
    lf.get_alternate_location L = field_value lexical_cast_char false "alternate_location" ' ' (format_c c4) ∧
    lf.get_residue_name L = field_value lexical_cast_string true "residue_name" [' '] (s5) ∧
    lf.get_chain_identifier L = field_value lexical_cast_char false "chain_identifier" ' ' (format_c c7) ∧
    lf.get_residue_sequence_number L = field_value lexical_cast_int true "residue_sequence_number" (-1) (s8) ∧
    lf.get_insertion_code L = field_value lexical_cast_char false "insertion_code" ' ' (format_c c9) ∧
    lf.get_x L = field_value lexical_cast_double true "x" NO_FLOAT (sx) ∧
    lf.get_y L = field_value lexical_cast_double true "y" NO_FLOAT (sy) ∧
    lf.get_z L = field_value lexical_cast_double true "z" NO_FLOAT (sz) ∧
    lf.get_occupancy L = field_value lexical_cast_double true "occupancy" NO_FLOAT (so) ∧
    lf.get_temperature_factor L = field_value lexical_cast_double true "temperature_factor" NO_FLOAT (st) ∧
    lf.get_element L = field_value lexical_cast_string true "element" [' '] (s17) ∧
    lf.get_charge_str L = field_value lexical_cast_string false "charge_str" [' '] (s18) := by
  subst hL
  refine ⟨?_, ?_, ?_, ?_, ?_, ?_, ?_, ?_, ?_, ?_, ?_, ?_, ?_, ?_, ?_⟩
  · simp [h0, h1, h3, h5, h8, hx, hy, hz, ho, ht, h17, h18, format_c]
  · have e : s0 ++ (s1 ++ [' '] ++ s3 ++ format_c c4 ++ s5 ++ [' '] ++ format_c c7 ++ s8
          ++ format_c c9 ++ [' ', ' ', ' '] ++ sx ++ sy ++ sz ++ so ++ st ++ "          ".toList
          ++ s17) ++ s18
        = (s0) ++ (s1)
          ++ ([' '] ++ s3 ++ format_c c4 ++ s5 ++ [' '] ++ format_c c7 ++ s8 ++ format_c c9 ++ [' ', ' ', ' '] ++ sx ++ sy ++ sz ++ so ++ st ++ "          ".toList ++ s17 ++ s18) := by
      simp only [List.append_assoc, List.append_nil]
    rw [Line_format.get_atom_serial_number, e]
    exact RECOVER_FIELD_segment _ _ _ 6 10 _ _ _ _
      (by simp [h0, h1, h3, h5, h8, hx, hy, hz, ho, ht, h17, h18, format_c])
      (by simp [h0, h1, h3, h5, h8, hx, hy, hz, ho, ht, h17, h18, format_c, field_width])
      (by simp [h0, h1, h3, h5, h8, hx, hy, hz, ho, ht, h17, h18, format_c])
  · have e : s0 ++ (s1 ++ [' '] ++ s3 ++ format_c c4 ++ s5 ++ [' '] ++ format_c c7 ++ s8
          ++ format_c c9 ++ [' ', ' ', ' '] ++ sx ++ sy ++ sz ++ so ++ st ++ "          ".toList
          ++ s17) ++ s18
        = (s0 ++ s1 ++ [' ']) ++ (s3)
          ++ (format_c c4 ++ s5 ++ [' '] ++ format_c c7 ++ s8 ++ format_c c9 ++ [' ', ' ', ' '] ++ sx ++ sy ++ sz ++ so ++ st ++ "          ".toList ++ s17 ++ s18) := by
      simp only [List.append_assoc, List.append_nil]
    rw [Line_format.get_atom_name, e]
    exact RECOVER_FIELD_segment _ _ _ 12 15 _ _ _ _
      (by simp [h0, h1, h3, h5, h8, hx, hy, hz, ho, ht, h17, h18, format_c])
      (by simp [h0, h1, h3, h5, h8, hx, hy, hz, ho, ht, h17, h18, format_c, field_width])
      (by simp [h0, h1, h3, h5, h8, hx, hy, hz, ho, ht, h17, h18, format_c])
  · have e : s0 ++ (s1 ++ [' '] ++ s3 ++ format_c c4 ++ s5 ++ [' '] ++ format_c c7 ++ s8
          ++ format_c c9 ++ [' ', ' ', ' '] ++ sx ++ sy ++ sz ++ so ++ st ++ "          ".toList
          ++ s17) ++ s18
        = (s0 ++ s1 ++ [' '] ++ s3) ++ (format_c c4)
          ++ (s5 ++ [' '] ++ format_c c7 ++ s8 ++ format_c c9 ++ [' ', ' ', ' '] ++ sx ++ sy ++ sz ++ so ++ st ++ "          ".toList ++ s17 ++ s18) := by
      simp only [List.append_assoc, List.append_nil]
    rw [Line_format.get_alternate_location, e]
    exact RECOVER_FIELD_segment _ _ _ 16 16 _ _ _ _
      (by simp [h0, h1, h3, h5, h8, hx, hy, hz, ho, ht, h17, h18, format_c])
      (by simp [h0, h1, h3, h5, h8, hx, hy, hz, ho, ht, h17, h18, format_c, field_width])
      (by simp [h0, h1, h3, h5, h8, hx, hy, hz, ho, ht, h17, h18, format_c])
  · have e : s0 ++ (s1 ++ [' '] ++ s3 ++ format_c c4 ++ s5 ++ [' '] ++ format_c c7 ++ s8
          ++ format_c c9 ++ [' ', ' ', ' '] ++ sx ++ sy ++ sz ++ so ++ st ++ "          ".toList
          ++ s17) ++ s18
        = (s0 ++ s1 ++ [' '] ++ s3 ++ format_c c4) ++ (s5)
          ++ ([' '] ++ format_c c7 ++ s8 ++ format_c c9 ++ [' ', ' ', ' '] ++ sx ++ sy ++ sz ++ so ++ st ++ "          ".toList ++ s17 ++ s18) := by
      simp only [List.append_assoc, List.append_nil]
    rw [Line_format.get_residue_name, e]
    exact RECOVER_FIELD_segment _ _ _ 17 19 _ _ _ _
      (by simp [h0, h1, h3, h5, h8, hx, hy, hz, ho, ht, h17, h18, format_c])
      (by simp [h0, h1, h3, h5, h8, hx, hy, hz, ho, ht, h17, h18, format_c, field_width])
      (by simp [h0, h1, h3, h5, h8, hx, hy, hz, ho, ht, h17, h18, format_c])
  · have e : s0 ++ (s1 ++ [' '] ++ s3 ++ format_c c4 ++ s5 ++ [' '] ++ format_c c7 ++ s8
          ++ format_c c9 ++ [' ', ' ', ' '] ++ sx ++ sy ++ sz ++ so ++ st ++ "          ".toList
          ++ s17) ++ s18
        = (s0 ++ s1 ++ [' '] ++ s3 ++ format_c c4 ++ s5 ++ [' ']) ++ (format_c c7)
          ++ (s8 ++ format_c c9 ++ [' ', ' ', ' '] ++ sx ++ sy ++ sz ++ so ++ st ++ "          ".toList ++ s17 ++ s18) := by
      simp only [List.append_assoc, List.append_nil]
    rw [Line_format.get_chain_identifier, e]
    exact RECOVER_FIELD_segment _ _ _ 21 21 _ _ _ _
      (by simp [h0, h1, h3, h5, h8, hx, hy, hz, ho, ht, h17, h18, format_c])
      (by simp [h0, h1, h3, h5, h8, hx, hy, hz, ho, ht, h17, h18, format_c, field_width])
      (by simp [h0, h1, h3, h5, h8, hx, hy, hz, ho, ht, h17, h18, format_c])
  · have e : s0 ++ (s1 ++ [' '] ++ s3 ++ format_c c4 ++ s5 ++ [' '] ++ format_c c7 ++ s8
          ++ format_c c9 ++ [' ', ' ', ' '] ++ sx ++ sy ++ sz ++ so ++ st ++ "          ".toList
          ++ s17) ++ s18
        = (s0 ++ s1 ++ [' '] ++ s3 ++ format_c c4 ++ s5 ++ [' '] ++ format_c c7) ++ (s8)
          ++ (format_c c9 ++ [' ', ' ', ' '] ++ sx ++ sy ++ sz ++ so ++ st ++ "          ".toList ++ s17 ++ s18) := by
      simp only [List.append_assoc, List.append_nil]
    rw [Line_format.get_residue_sequence_number, e]
    exact RECOVER_FIELD_segment _ _ _ 22 25 _ _ _ _
      (by simp [h0, h1, h3, h5, h8, hx, hy, hz, ho, ht, h17, h18, format_c])
      (by simp [h0, h1, h3, h5, h8, hx, hy, hz, ho, ht, h17, h18, format_c, field_width])
      (by simp [h0, h1, h3, h5, h8, hx, hy, hz, ho, ht, h17, h18, format_c])
  · have e : s0 ++ (s1 ++ [' '] ++ s3 ++ format_c c4 ++ s5 ++ [' '] ++ format_c c7 ++ s8
          ++ format_c c9 ++ [' ', ' ', ' '] ++ sx ++ sy ++ sz ++ so ++ st ++ "          ".toList
          ++ s17) ++ s18
        = (s0 ++ s1 ++ [' '] ++ s3 ++ format_c c4 ++ s5 ++ [' '] ++ format_c c7 ++ s8) ++ (format_c c9)
          ++ ([' ', ' ', ' '] ++ sx ++ sy ++ sz ++ so ++ st ++ "          ".toList ++ s17 ++ s18) := by
      simp only [List.append_assoc, List.append_nil]
    rw [Line_format.get_insertion_code, e]
    exact RECOVER_FIELD_segment _ _ _ 26 26 _ _ _ _
      (by simp [h0, h1, h3, h5, h8, hx, hy, hz, ho, ht, h17, h18, format_c])
      (by simp [h0, h1, h3, h5, h8, hx, hy, hz, ho, ht, h17, h18, format_c, field_width])
      (by simp [h0, h1, h3, h5, h8, hx, hy, hz, ho, ht, h17, h18, format_c])
  · have e : s0 ++ (s1 ++ [' '] ++ s3 ++ format_c c4 ++ s5 ++ [' '] ++ format_c c7 ++ s8
          ++ format_c c9 ++ [' ', ' ', ' '] ++ sx ++ sy ++ sz ++ so ++ st ++ "          ".toList
          ++ s17) ++ s18
        = (s0 ++ s1 ++ [' '] ++ s3 ++ format_c c4 ++ s5 ++ [' '] ++ format_c c7 ++ s8 ++ format_c c9 ++ [' ', ' ', ' ']) ++ (sx)
          ++ (sy ++ sz ++ so ++ st ++ "          ".toList ++ s17 ++ s18) := by
      simp only [List.append_assoc, List.append_nil]
    rw [Line_format.get_x, e]
    exact RECOVER_FIELD_segment _ _ _ 30 37 _ _ _ _
      (by simp [h0, h1, h3, h5, h8, hx, hy, hz, ho, ht, h17, h18, format_c])
      (by simp [h0, h1, h3, h5, h8, hx, hy, hz, ho, ht, h17, h18, format_c, field_width])
      (by simp [h0, h1, h3, h5, h8, hx, hy, hz, ho, ht, h17, h18, format_c])
  · have e : s0 ++ (s1 ++ [' '] ++ s3 ++ format_c c4 ++ s5 ++ [' '] ++ format_c c7 ++ s8
          ++ format_c c9 ++ [' ', ' ', ' '] ++ sx ++ sy ++ sz ++ so ++ st ++ "          ".toList
          ++ s17) ++ s18
        = (s0 ++ s1 ++ [' '] ++ s3 ++ format_c c4 ++ s5 ++ [' '] ++ format_c c7 ++ s8 ++ format_c c9 ++ [' ', ' ', ' '] ++ sx) ++ (sy)
          ++ (sz ++ so ++ st ++ "          ".toList ++ s17 ++ s18) := by
      simp only [List.append_assoc, List.append_nil]
    rw [Line_format.get_y, e]
    exact RECOVER_FIELD_segment _ _ _ 38 45 _ _ _ _
      (by simp [h0, h1, h3, h5, h8, hx, hy, hz, ho, ht, h17, h18, format_c])
      (by simp [h0, h1, h3, h5, h8, hx, hy, hz, ho, ht, h17, h18, format_c, field_width])
      (by simp [h0, h1, h3, h5, h8, hx, hy, hz, ho, ht, h17, h18, format_c])
  · have e : s0 ++ (s1 ++ [' '] ++ s3 ++ format_c c4 ++ s5 ++ [' '] ++ format_c c7 ++ s8
          ++ format_c c9 ++ [' ', ' ', ' '] ++ sx ++ sy ++ sz ++ so ++ st ++ "          ".toList
          ++ s17) ++ s18
        = (s0 ++ s1 ++ [' '] ++ s3 ++ format_c c4 ++ s5 ++ [' '] ++ format_c c7 ++ s8 ++ format_c c9 ++ [' ', ' ', ' '] ++ sx ++ sy) ++ (sz)
          ++ (so ++ st ++ "          ".toList ++ s17 ++ s18) := by
      simp only [List.append_assoc, List.append_nil]
    rw [Line_format.get_z, e]
    exact RECOVER_FIELD_segment _ _ _ 46 53 _ _ _ _
      (by simp [h0, h1, h3, h5, h8, hx, hy, hz, ho, ht, h17, h18, format_c])
      (by simp [h0, h1, h3, h5, h8, hx, hy, hz, ho, ht, h17, h18, format_c, field_width])
      (by simp [h0, h1, h3, h5, h8, hx, hy, hz, ho, ht, h17, h18, format_c])
  · have e : s0 ++ (s1 ++ [' '] ++ s3 ++ format_c c4 ++ s5 ++ [' '] ++ format_c c7 ++ s8
          ++ format_c c9 ++ [' ', ' ', ' '] ++ sx ++ sy ++ sz ++ so ++ st ++ "          ".toList
          ++ s17) ++ s18
        = (s0 ++ s1 ++ [' '] ++ s3 ++ format_c c4 ++ s5 ++ [' '] ++ format_c c7 ++ s8 ++ format_c c9 ++ [' ', ' ', ' '] ++ sx ++ sy ++ sz) ++ (so)
          ++ (st ++ "          ".toList ++ s17 ++ s18) := by
      simp only [List.append_assoc, List.append_nil]
    rw [Line_format.get_occupancy, e]
    exact RECOVER_FIELD_segment _ _ _ 54 59 _ _ _ _
      (by simp [h0, h1, h3, h5, h8, hx, hy, hz, ho, ht, h17, h18, format_c])
      (by simp [h0, h1, h3, h5, h8, hx, hy, hz, ho, ht, h17, h18, format_c, field_width])
      (by simp [h0, h1, h3, h5, h8, hx, hy, hz, ho, ht, h17, h18, format_c])
  · have e : s0 ++ (s1 ++ [' '] ++ s3 ++ format_c c4 ++ s5 ++ [' '] ++ format_c c7 ++ s8
          ++ format_c c9 ++ [' ', ' ', ' '] ++ sx ++ sy ++ sz ++ so ++ st ++ "          ".toList
          ++ s17) ++ s18
        = (s0 ++ s1 ++ [' '] ++ s3 ++ format_c c4 ++ s5 ++ [' '] ++ format_c c7 ++ s8 ++ format_c c9 ++ [' ', ' ', ' '] ++ sx ++ sy ++ sz ++ so) ++ (st)
          ++ ("          ".toList ++ s17 ++ s18) := by
      simp only [List.append_assoc, List.append_nil]
    rw [Line_format.get_temperature_factor, e]
    exact RECOVER_FIELD_segment _ _ _ 60 65 _ _ _ _
      (by simp [h0, h1, h3, h5, h8, hx, hy, hz, ho, ht, h17, h18, format_c])
      (by simp [h0, h1, h3, h5, h8, hx, hy, hz, ho, ht, h17, h18, format_c, field_width])
      (by simp [h0, h1, h3, h5, h8, hx, hy, hz, ho, ht, h17, h18, format_c])
  · have e : s0 ++ (s1 ++ [' '] ++ s3 ++ format_c c4 ++ s5 ++ [' '] ++ format_c c7 ++ s8
          ++ format_c c9 ++ [' ', ' ', ' '] ++ sx ++ sy ++ sz ++ so ++ st ++ "          ".toList
          ++ s17) ++ s18
        = (s0 ++ s1 ++ [' '] ++ s3 ++ format_c c4 ++ s5 ++ [' '] ++ format_c c7 ++ s8 ++ format_c c9 ++ [' ', ' ', ' '] ++ sx ++ sy ++ sz ++ so ++ st ++ "          ".toList) ++ (s17)
          ++ (s18) := by
      simp only [List.append_assoc, List.append_nil]
    rw [Line_format.get_element, e]
    exact RECOVER_FIELD_segment _ _ _ 76 77 _ _ _ _
      (by simp [h0, h1, h3, h5, h8, hx, hy, hz, ho, ht, h17, h18, format_c])
      (by simp [h0, h1, h3, h5, h8, hx, hy, hz, ho, ht, h17, h18, format_c, field_width])
      (by simp [h0, h1, h3, h5, h8, hx, hy, hz, ho, ht, h17, h18, format_c])
  · have e : s0 ++ (s1 ++ [' '] ++ s3 ++ format_c c4 ++ s5 ++ [' '] ++ format_c c7 ++ s8
          ++ format_c c9 ++ [' ', ' ', ' '] ++ sx ++ sy ++ sz ++ so ++ st ++ "          ".toList
          ++ s17) ++ s18
        = (s0 ++ s1 ++ [' '] ++ s3 ++ format_c c4 ++ s5 ++ [' '] ++ format_c c7 ++ s8 ++ format_c c9 ++ [' ', ' ', ' '] ++ sx ++ sy ++ sz ++ so ++ st ++ "          ".toList ++ s17) ++ (s18)
          ++ ([]) := by
      simp only [List.append_assoc, List.append_nil]
    rw [Line_format.get_charge_str, e]
    exact RECOVER_FIELD_segment _ _ _ 78 79 _ _ _ _
      (by simp [h0, h1, h3, h5, h8, hx, hy, hz, ho, ht, h17, h18, format_c])
      (by simp [h0, h1, h3, h5, h8, hx, hy, hz, ho, ht, h17, h18, format_c, field_width])
      (by simp [h0, h1, h3, h5, h8, hx, hy, hz, ho, ht, h17, h18, format_c])

theorem format_space_i_length (c : Int) (h1 : -9 ≤ c) (h2 : c ≤ 9) :
    (format_space_i 2 c).length = 2 := by
  interval_cases c <;> decide

theorem record_type_of_written (is_hetatm : Bool) (rest : List Char) :
    (Line_format.new ((if !is_hetatm then "ATOM  ".toList else "HETATM".toList) ++ rest)).record_type
      = if is_hetatm then Record_type.HETATM else Record_type.ATOM := by
  cases is_hetatm <;>
    simp [Line_format.record_type, Line_format.type_new, List.cons_prefix_cons]

/-- C19, as stated, fails: the atom `PDB_atom_without_element` has the fields that the
claim lists within their widths, its element, of at most 2 characters, being empty; the
line written for it has 80 characters, and `get_element` stops on it, the field being
mandatory and blank. -/
theorem get_element_of_written_empty_element :
    (int_digits PDB_atom_without_element.atom_serial_number).length ≤ 5 ∧
    is_name_of_width 4 PDB_atom_without_element.atom_name ∧
    PDB_atom_without_element.residue_name.length ≤ 3 ∧
    (int_digits PDB_atom_without_element.residue_sequence_number).length ≤ 4 ∧
    PDB_atom_without_element.element.length ≤ 2 ∧
    (get_atom_pdb_format PDB_atom_without_element).length = 80 ∧
    (Line_format.new (get_atom_pdb_format PDB_atom_without_element)).get_element
        (get_atom_pdb_format PDB_atom_without_element)
      = .error (Fatal.field_is_empty "element") := by
  refine ⟨by decide, ?_, by decide, by decide, by decide, by decide!, by decide!⟩
  unfold is_name_of_width
  decide

/-- C19, amended: for an atom whose serial number and residue sequence number are
written in at most 5 and 4 characters, whose atom name, residue name and element are not
empty, free of whitespace and of NUL, and of at most 4, 3 and 2 characters, whose
alternate location, chain identifier and insertion code are blanks or not whitespace,
whose coordinates are written in 8 characters and occupancy and temperature factor in 6,
and whose charge is NO_CHARGE or from -9 to 9: the line written has 80 characters, its
record type is HETATM for a hetero-atom and ATOM otherwise, and the getters give back the
serial number, atom name, alternate location, residue name, chain identifier, residue
sequence number, insertion code and element of the atom. -/
theorem getters_of_written_line (atom : PDB_Atom)
    (hserial : (int_digits atom.atom_serial_number).length ≤ 5)
    (hname : is_name_of_width 4 atom.atom_name)
    (haltloc : is_blank_or_not_space atom.alternate_location)
    (hresname : is_name_of_width 3 atom.residue_name)
    (hchain : is_blank_or_not_space atom.chain_identifier)
    (hresseq : (int_digits atom.residue_sequence_number).length ≤ 4)
    (hicode : is_blank_or_not_space atom.insertion_code)
    (hx : (format_f 8 3 atom.x).length = 8) (hy : (format_f 8 3 atom.y).length = 8)
    (hz : (format_f 8 3 atom.z).length = 8)
    (hocc : (format_f 6 2 atom.occupancy).length = 6)
    (htf : (format_f 6 2 atom.temperature_factor).length = 6)
    (helement : is_name_of_width 2 atom.element)
    (hcharge : atom.charge = NO_CHARGE ∨ (-9 ≤ atom.charge ∧ atom.charge ≤ 9)) :
    (get_atom_pdb_format atom).length = 80 ∧
    (Line_format.new (get_atom_pdb_format atom)).record_type
      = (if atom.is_hetatm then Record_type.HETATM else Record_type.ATOM) ∧
    (Line_format.new (get_atom_pdb_format atom)).get_atom_serial_number
        (get_atom_pdb_format atom) = .ok atom.atom_serial_number ∧
    (Line_format.new (get_atom_pdb_format atom)).get_atom_name
        (get_atom_pdb_format atom) = .ok atom.atom_name ∧
    (Line_format.new (get_atom_pdb_format atom)).get_alternate_location
        (get_atom_pdb_format atom) = .ok atom.alternate_location ∧
    (Line_format.new (get_atom_pdb_format atom)).get_residue_name
        (get_atom_pdb_format atom) = .ok atom.residue_name ∧
    (Line_format.new (get_atom_pdb_format atom)).get_chain_identifier
        (get_atom_pdb_format atom) = .ok atom.chain_identifier ∧
    (Line_format.new (get_atom_pdb_format atom)).get_residue_sequence_number
        (get_atom_pdb_format atom) = .ok atom.residue_sequence_number ∧
    (Line_format.new (get_atom_pdb_format atom)).get_insertion_code
        (get_atom_pdb_format atom) = .ok atom.insertion_code ∧
    (Line_format.new (get_atom_pdb_format atom)).get_element
        (get_atom_pdb_format atom) = .ok atom.element := by
  have hcn : c_str atom.atom_name = atom.atom_name :=
    c_str_of_free _ (fun c hc => (hname.2.2 c hc).2)
  have hcr : c_str atom.residue_name = atom.residue_name :=
    c_str_of_free _ (fun c hc => (hresname.2.2 c hc).2)
  have hce : c_str atom.element = atom.element :=
    c_str_of_free _ (fun c hc => (helement.2.2 c hc).2)
  have h0 : (if !atom.is_hetatm then "ATOM  ".toList else "HETATM".toList).length = 6 := by
    cases atom.is_hetatm <;> rfl
  have h18 : (if atom.charge = NO_CHARGE then "  ".toList
      else format_space_i 2 atom.charge).length = 2 := by
    by_cases hc : atom.charge = NO_CHARGE
    · simp [hc]
    · rcases hcharge with h | h
      · exact absurd h hc
      · simp only [if_neg hc]
        exact format_space_i_length _ h.1 h.2
  have hb1 := int_digits_bound _ 5 hserial
  have hb2 := int_digits_bound _ 4 hresseq
  obtain ⟨hlen, h1, h3, h4, h5, h7, h8, h9, -, -, -, -, -, h17, -⟩ :=
    get_atom_pdb_format_layout _ _ _ _ _ _ _ _ _ _ _ _ _ _ _ h0
      (pad_length 5 _ hserial)
      (pad_length 4 (c_str atom.atom_name) (by rw [hcn]; exact hname.2.1))
      (pad_length 3 (c_str atom.residue_name) (by rw [hcr]; exact hresname.2.1))
      (pad_length 4 _ hresseq) hx hy hz hocc htf
      (pad_length 2 (c_str atom.element) (by rw [hce]; exact helement.2.1)) h18
      (Line_format.new (get_atom_pdb_format atom)) (get_atom_pdb_format atom) rfl
  have hrec : (Line_format.new (get_atom_pdb_format atom)).record_type
      = (if atom.is_hetatm then Record_type.HETATM else Record_type.ATOM) := by
    unfold get_atom_pdb_format
    rw [List.append_assoc]
    exact record_type_of_written _ _
  refine ⟨hlen, hrec, ?_, ?_, ?_, ?_, ?_, ?_, ?_, ?_⟩
  · rw [h1]
    exact field_value_int _ _ _ _ _ (by omega) (by omega)
  · rw [h3]
    exact field_value_string _ _ _ _ _ hname.1 hname.2.2
  · rw [h4]
    exact field_value_char _ _ haltloc
  · rw [h5]
    exact field_value_string _ _ _ _ _ hresname.1 hresname.2.2
  · rw [h7]
    exact field_value_char _ _ hchain
  · rw [h8]
    exact field_value_int _ _ _ _ _ (by omega) (by omega)
  · rw [h9]
    exact field_value_char _ _ hicode
  · rw [h17]
    exact field_value_string _ _ _ _ _ helement.1 helement.2.2

theorem getters_of_written_line_witness :
    is_name_of_width 4 (PDB_atom_CA_42 1).atom_name ∧
    is_name_of_width 3 (PDB_atom_CA_42 1).residue_name ∧
    is_name_of_width 2 (PDB_atom_CA_42 1).element ∧
    (format_f 8 3 (PDB_atom_CA_42 1).x).length = 8 ∧
    (get_atom_pdb_format (PDB_atom_CA_42 1)).length = 80 ∧
    (Line_format.new (get_atom_pdb_format (PDB_atom_CA_42 1))).get_atom_name
        (get_atom_pdb_format (PDB_atom_CA_42 1)) = .ok "CA".toList ∧
    (Line_format.new (get_atom_pdb_format (PDB_atom_CA_42 1))).get_element
        (get_atom_pdb_format (PDB_atom_CA_42 1)) = .ok "C".toList :=
  ⟨by unfold is_name_of_width; decide, by unfold is_name_of_width; decide,
   by unfold is_name_of_width; decide, by decide!,
   (fun h => ⟨h.1, h.2.2.2.1, h.2.2.2.2.2.2.2.2.2⟩)
     (getters_of_written_line (PDB_atom_CA_42 1) (by decide)
       (by unfold is_name_of_width; decide) (by unfold is_blank_or_not_space; decide)
       (by unfold is_name_of_width; decide) (by unfold is_blank_or_not_space; decide)
       (by decide) (by unfold is_blank_or_not_space; decide) (by decide!) (by decide!)
       (by decide!) (by decide!) (by decide!) (by unfold is_name_of_width; decide)
       (Or.inr (by decide)))⟩

/-! ## Decimals written and read again -/

theorem RECOVER_FIELD_of_columns {τ : Type} (cast : List Char → Option τ) (mandatory : Bool)
    (fname : String) (frm upto : Nat) (dflt : τ) (line : Line) (hfrm : frm ≤ line.length)
    (hup : upto ≤ line.length) :
    RECOVER_FIELD cast mandatory fname frm upto dflt line
      = field_value cast mandatory fname dflt ((line.drop frm).take (field_width frm upto)) := by
  have h1 : ¬ line.length < upto := by omega
  have h2 : ¬ frm > line.length := by omega
  simp only [RECOVER_FIELD, if_neg h1, extract_field, substr, if_neg h2, field_value]

theorem is_fixed_decimal_length (w prec : Nat) (t : List Char) (h : is_fixed_decimal w prec t) :
    t.length = w := by
  obtain ⟨-, -, -, -, hl, -⟩ := h
  exact hl

theorem trim_eq_nil_of_all_space (s : List Char) (h : ∀ c ∈ s, is_space c = true) :
    trim s = [] := by
  have h1 : s.dropWhile is_space = [] := by
    rw [List.dropWhile_eq_nil_iff]
    exact h
  simp [trim, h1]

theorem RECOVER_FIELD_blank {τ : Type} (cast : List Char → Option τ) (mandatory : Bool)
    (fname : String) (frm upto : Nat) (dflt : τ) (line : Line) (hfu : frm ≤ upto)
    (hw : field_width frm upto = upto + 1 - frm)
    (h : ∀ c ∈ columns line frm upto, is_space c = true) :
    RECOVER_FIELD cast mandatory fname frm upto dflt line
      = if mandatory then
          (if line.length < upto then .error (Fatal.cannot_extract_field fname)
           else .error (Fatal.field_is_empty fname))
        else .ok dflt := by
  by_cases hlen : line.length < upto
  · cases mandatory <;> simp [RECOVER_FIELD, hlen]
  · rw [RECOVER_FIELD_of_columns cast mandatory fname frm upto dflt line (by omega) (by omega),
      hw]
    have ht : trim ((line.drop frm).take (upto + 1 - frm)) = [] :=
      trim_eq_nil_of_all_space _ h
    cases mandatory <;> simp [field_value, ht, hlen]

/-- C21: for every line, an optional field (alternate location, chain identifier,
insertion code, charge string) whose columns hold no character of the line, or only
whitespace, is read as its default value, a blank; and a mandatory field whose columns
are within the line and hold only whitespace is a stop of the getter on an empty field. -/
theorem getters_on_blank_fields (lf : Line_format) (line : Line) :
    ((∀ c ∈ columns line 16 16, is_space c = true) →
      lf.get_alternate_location line = .ok ' ') ∧
    ((∀ c ∈ columns line 21 21, is_space c = true) →
      lf.get_chain_identifier line = .ok ' ') ∧
    ((∀ c ∈ columns line 26 26, is_space c = true) →
      lf.get_insertion_code line = .ok ' ') ∧
    ((∀ c ∈ columns line 78 79, is_space c = true) →
      lf.get_charge_str line = .ok [' '] ∧ lf.get_charge line = .ok NO_CHARGE) ∧
    (5 < line.length → (∀ c ∈ columns line 0 5, is_space c = true) →
      lf.get_record_name line = .error (Fatal.field_is_empty "record_name")) ∧
    (10 < line.length → (∀ c ∈ columns line 6 10, is_space c = true) →
      lf.get_atom_serial_number line = .error (Fatal.field_is_empty "atom_serial_number")) ∧
    (15 < line.length → (∀ c ∈ columns line 12 15, is_space c = true) →
      lf.get_atom_name line = .error (Fatal.field_is_empty "atom_name")) ∧
    (19 < line.length → (∀ c ∈ columns line 17 19, is_space c = true) →
      lf.get_residue_name line = .error (Fatal.field_is_empty "residue_name")) ∧
    (25 < line.length → (∀ c ∈ columns line 22 25, is_space c = true) →
      lf.get_residue_sequence_number line
        = .error (Fatal.field_is_empty "residue_sequence_number")) ∧
    (37 < line.length → (∀ c ∈ columns line 30 37, is_space c = true) →
      lf.get_x line = .error (Fatal.field_is_empty "x")) ∧
    (45 < line.length → (∀ c ∈ columns line 38 45, is_space c = true) →
      lf.get_y line = .error (Fatal.field_is_empty "y")) ∧
    (53 < line.length → (∀ c ∈ columns line 46 53, is_space c = true) →
      lf.get_z line = .error (Fatal.field_is_empty "z")) ∧
    (59 < line.length → (∀ c ∈ columns line 54 59, is_space c = true) →
      lf.get_occupancy line = .error (Fatal.field_is_empty "occupancy")) ∧
    (65 < line.length → (∀ c ∈ columns line 60 65, is_space c = true) →
      lf.get_temperature_factor line
        = .error (Fatal.field_is_empty "temperature_factor")) ∧
    (77 < line.length → (∀ c ∈ columns line 76 77, is_space c = true) →
      lf.get_element line = .error (Fatal.field_is_empty "element")) ∧
    (13 < line.length → (∀ c ∈ columns line 10 13, is_space c = true) →
      lf.get_model_number line = .error (Fatal.field_is_empty "model_number")) := by
  have opt : ∀ {τ : Type} (cast : List Char → Option τ) (fname : String) (frm upto : Nat)
      (dflt : τ), frm ≤ upto → field_width frm upto = upto + 1 - frm →
      (∀ c ∈ columns line frm upto, is_space c = true) →
      RECOVER_FIELD cast false fname frm upto dflt line = .ok dflt := by
    intro τ cast fname frm upto dflt hfu hw h
    rw [RECOVER_FIELD_blank cast false fname frm upto dflt line hfu hw h]
    rfl
  have man : ∀ {τ : Type} (cast : List Char → Option τ) (fname : String) (frm upto : Nat)
      (dflt : τ), frm ≤ upto → field_width frm upto = upto + 1 - frm → upto < line.length →
      (∀ c ∈ columns line frm upto, is_space c = true) →
      RECOVER_FIELD cast true fname frm upto dflt line
        = .error (Fatal.field_is_empty fname) := by
    intro τ cast fname frm upto dflt hfu hw hlen h
    rw [RECOVER_FIELD_blank cast true fname frm upto dflt line hfu hw h]
    have : ¬ line.length < upto := by omega
    simp [this]
  refine ⟨fun h => opt _ _ 16 16 _ (by omega) (by decide) h,
    fun h => opt _ _ 21 21 _ (by omega) (by decide) h,
    fun h => opt _ _ 26 26 _ (by omega) (by decide) h,
    fun h => ?_,
    fun hl h => man _ _ 0 5 _ (by omega) (by decide) hl h,
    fun hl h => man _ _ 6 10 _ (by omega) (by decide) hl h,
    fun hl h => man _ _ 12 15 _ (by omega) (by decide) hl h,
    fun hl h => man _ _ 17 19 _ (by omega) (by decide) hl h,
    fun hl h => man _ _ 22 25 _ (by omega) (by decide) hl h,
    fun hl h => man _ _ 30 37 _ (by omega) (by decide) hl h,
    fun hl h => man _ _ 38 45 _ (by omega) (by decide) hl h,
    fun hl h => man _ _ 46 53 _ (by omega) (by decide) hl h,
    fun hl h => man _ _ 54 59 _ (by omega) (by decide) hl h,
    fun hl h => man _ _ 60 65 _ (by omega) (by decide) hl h,
    fun hl h => man _ _ 76 77 _ (by omega) (by decide) hl h,
    fun hl h => man _ _ 10 13 _ (by omega) (by decide) hl h⟩
  have hs : lf.get_charge_str line = .ok [' '] := opt _ _ 78 79 _ (by omega) (by decide) h
  refine ⟨hs, ?_⟩
  simp [Line_format.get_charge, hs]

/-! ## Integer fields -/

theorem digit_value_eq (c : Char) :
    digit_value c = if is_digit c then some (c.toNat - 48) else none := by
  by_cases h : '0' ≤ c ∧ c ≤ '9' <;> simp [digit_value, is_digit, h]

theorem digits_value_eq (s : List Char) (acc : Nat) :
    digits_value acc s
      = if s.all is_digit then some (s.foldl (fun a c => 10 * a + (c.toNat - 48)) acc)
        else none := by
  induction s generalizing acc with
  | nil => simp [digits_value]
  | cons c cs ih =>
    simp only [digits_value, digit_value_eq, List.all_cons, List.foldl_cons]
    cases hc : is_digit c
    · simp
    · simp [ih]

theorem foldl_decimal_lt (s : List Char) (acc : Nat) (h : s.all is_digit = true) :
    s.foldl (fun a c => 10 * a + (c.toNat - 48)) acc < (acc + 1) * 10 ^ s.length := by
  induction s generalizing acc with
  | nil => simp
  | cons c cs ih =>
    simp only [List.all_cons, Bool.and_eq_true] at h
    have hc : c.toNat - 48 ≤ 9 := by
      have h1 := h.1
      simp only [is_digit, decide_eq_true_eq] at h1
      have h2 : c.toNat ≤ 57 := h1.2
      omega
    have := ih (10 * acc + (c.toNat - 48)) h.2
    simp only [List.foldl_cons, List.length_cons, pow_succ]
    calc List.foldl (fun a c => 10 * a + (c.toNat - 48)) (10 * acc + (c.toNat - 48)) cs
        < (10 * acc + (c.toNat - 48) + 1) * 10 ^ cs.length := this
      _ ≤ ((acc + 1) * 10) * 10 ^ cs.length := Nat.mul_le_mul_right _ (by omega)
      _ = (acc + 1) * (10 ^ cs.length * 10) := by ring

theorem parse_digits_eq (r : List Char) :
    parse_digits r
      = if !r.isEmpty && r.all is_digit then some (decimal_value r) else none := by
  cases r with
  | nil => simp [parse_digits]
  | cons c cs =>
    simp only [parse_digits, digits_value_eq, decimal_value]
    simp

theorem decimal_value_lt (r : List Char) (h : r.all is_digit = true) (hlen : r.length ≤ 9) :
    decimal_value r < 2147483648 := by
  have h1 := foldl_decimal_lt r 0 h
  have h2 : 10 ^ r.length ≤ 10 ^ 9 := Nat.pow_le_pow_right (by omega) hlen
  simp only [decimal_value]
  omega

theorem lexical_cast_int_eq (s : List Char) (hlen : s.length ≤ 9) :
    lexical_cast_int s
      = if is_integer_literal s then some (integer_literal_value s) else none := by
  have key : ∀ r : List Char, r.length ≤ 9 →
      ((parse_digits r).bind fun n => if n < 2147483648 then some (n : Int) else none)
        = if !r.isEmpty && r.all is_digit then some (decimal_value r : Int) else none := by
    intro r hr
    rw [parse_digits_eq]
    by_cases h : (!r.isEmpty && r.all is_digit) = true
    · simp only [h, if_true, Option.bind]
      simp only [Bool.and_eq_true] at h
      simp [decimal_value_lt r h.2 hr]
    · simp [h]
  have keyneg : ∀ r : List Char, r.length ≤ 9 →
      ((parse_digits r).bind fun n => if n ≤ 2147483648 then some (-(n : Int)) else none)
        = if !r.isEmpty && r.all is_digit then some (-(decimal_value r : Int)) else none := by
    intro r hr
    rw [parse_digits_eq]
    by_cases h : (!r.isEmpty && r.all is_digit) = true
    · simp only [h, if_true, Option.bind]
      simp only [Bool.and_eq_true] at h
      have := decimal_value_lt r h.2 hr
      simp [Nat.le_of_lt this]
    · simp [h]
  cases s with
  | nil => simp [lexical_cast_int, is_integer_literal, parse_digits]
  | cons c cs =>
    simp only [List.length_cons] at hlen
    by_cases hm : c = '-'
    · subst hm
      simp only [lexical_cast_int, is_integer_literal, integer_literal_value]
      exact keyneg cs (by omega)
    · by_cases hp : c = '+'
      · subst hp
        simp only [lexical_cast_int, is_integer_literal, integer_literal_value]
        exact key cs (by omega)
      · have e1 : lexical_cast_int (c :: cs)
            = (parse_digits (c :: cs)).bind
                fun n => if n < 2147483648 then some (n : Int) else none := by
          unfold lexical_cast_int
          split
          · rename_i r heq
            simp only [List.cons.injEq] at heq
            exact absurd heq.1 hm
          · rename_i r heq
            simp only [List.cons.injEq] at heq
            exact absurd heq.1 hp
          · rfl
        have e2 : is_integer_literal (c :: cs)
            = (!(c :: cs).isEmpty && (c :: cs).all is_digit) := by
          unfold is_integer_literal
          split
          · rename_i r heq
            simp only [List.cons.injEq] at heq
            exact absurd heq.1 hm
          · rename_i r heq
            simp only [List.cons.injEq] at heq
            exact absurd heq.1 hp
          · rfl
        have e3 : integer_literal_value (c :: cs) = (decimal_value (c :: cs) : Int) := by
          unfold integer_literal_value
          split
          · rename_i r heq
            simp only [List.cons.injEq] at heq
            exact absurd heq.1 hm
          · rename_i r heq
            simp only [List.cons.injEq] at heq
            exact absurd heq.1 hp
          · rfl
        rw [e1, e2, e3]
        exact key (c :: cs) (by simp only [List.length_cons]; omega)

theorem field_value_int_eq (fname : String) (dflt : Int) (seg : List Char)
    (hlen : seg.length ≤ 9) :
    field_value lexical_cast_int true fname dflt seg
      = if trim seg = [] then .error (Fatal.field_is_empty fname)
        else if is_integer_literal (trim seg) then .ok (integer_literal_value (trim seg))
        else .error (Fatal.cannot_convert (trim seg)) := by
  have h1 : (trim seg).length ≤ 9 := le_trans (trim_length_le seg) hlen
  by_cases he : trim seg = []
  · simp [field_value, he]
  · have hl : ¬ (trim seg).length = 0 := by simpa using he
    simp only [field_value, if_neg hl, if_neg he, lexical_cast_int_eq _ h1]
    cases is_integer_literal (trim seg) <;> simp

theorem columns_length_le (line : Line) (frm upto : Nat) :
    (columns line frm upto).length ≤ upto + 1 - frm := by
  simp only [columns, List.length_take]
  omega

/-- C22: for a line that goes beyond the last column of an integer field (atom serial
number, residue sequence number, model number), the text of the columns being trimmed:
when it is a decimal integer literal the getter returns the integer it denotes; when it
is not empty and not such a literal the getter stops on the conversion of that text;
when it is empty the getter stops on an empty field; so a value is returned only for a
literal and is never the default value. The serial number field `4x2` is a stop. -/
theorem integer_getters_by_literal (lf : Line_format) (line : Line) :
    (10 < line.length →
      lf.get_atom_serial_number line
        = if trim (columns line 6 10) = [] then
            .error (Fatal.field_is_empty "atom_serial_number")
          else if is_integer_literal (trim (columns line 6 10)) then
            .ok (integer_literal_value (trim (columns line 6 10)))
          else .error (Fatal.cannot_convert (trim (columns line 6 10)))) ∧
    (25 < line.length →
      lf.get_residue_sequence_number line
        = if trim (columns line 22 25) = [] then
            .error (Fatal.field_is_empty "residue_sequence_number")
          else if is_integer_literal (trim (columns line 22 25)) then
            .ok (integer_literal_value (trim (columns line 22 25)))
          else .error (Fatal.cannot_convert (trim (columns line 22 25)))) ∧
    (13 < line.length →
      lf.get_model_number line
        = if trim (columns line 10 13) = [] then
            .error (Fatal.field_is_empty "model_number")
          else if is_integer_literal (trim (columns line 10 13)) then
            .ok (integer_literal_value (trim (columns line 10 13)))
          else .error (Fatal.cannot_convert (trim (columns line 10 13)))) ∧
    (Line_format.new line_serial_4x2).get_atom_serial_number line_serial_4x2
      = .error (Fatal.cannot_convert "4x2".toList) := by
  have gen : ∀ (fname : String) (frm upto : Nat) (dflt : Int), frm ≤ upto → upto ≤ frm + 8 →
      field_width frm upto = upto + 1 - frm → upto < line.length →
      RECOVER_FIELD lexical_cast_int true fname frm upto dflt line
        = if trim (columns line frm upto) = [] then .error (Fatal.field_is_empty fname)
          else if is_integer_literal (trim (columns line frm upto)) then
            .ok (integer_literal_value (trim (columns line frm upto)))
          else .error (Fatal.cannot_convert (trim (columns line frm upto))) := by
    intro fname frm upto dflt hfu hw9 hw hlen
    rw [RECOVER_FIELD_of_columns lexical_cast_int true fname frm upto dflt line (by omega)
      (by omega), hw]
    exact field_value_int_eq fname dflt _ (le_trans (columns_length_le line frm upto) (by omega))
  exact ⟨fun h => gen _ 6 10 _ (by omega) (by omega) (by decide) h,
    fun h => gen _ 22 25 _ (by omega) (by omega) (by decide) h,
    fun h => gen _ 10 13 _ (by omega) (by omega) (by decide) h, by decide⟩

/-! ## The silent policy and the policy of a list of atoms -/

/-- C23: for the policy `Accept_none_occupancy_policy`, on a line whose occupancy and
alternate location are read, `add_or_postpone` returns without a stop; it returns
DISCARD when the occupancy is not 1 and the alternate location is blank and the system
index given otherwise, so that, the index given not being DISCARD, it returns DISCARD
exactly when the occupancy is not 1 and the alternate location is blank; and `finalize`
leaves the builder as it is, without a call of it, and returns 0. -/
theorem accept_none_policy_add_or_postpone {β : Type} (lf : Line_format) (line : Line)
    (system_index : Int) (occ : ℚ) (altloc : Char)
    (interp : β → Line_format → Line → Int → Except Fatal β) (b : β)
    (hocc : lf.get_occupancy line = .ok occ)
    (halt : lf.get_alternate_location line = .ok altloc) :
    Accept_none_occupancy_policy.add_or_postpone () lf line system_index
      = .ok ((), if occ ≠ 1 ∧ altloc = ' ' then DISCARD else system_index) ∧
    (system_index ≠ DISCARD →
      (Accept_none_occupancy_policy.add_or_postpone () lf line system_index
          = .ok ((), DISCARD) ↔ (occ ≠ 1 ∧ altloc = ' '))) ∧
    Accept_none_occupancy_policy.finalize interp () b = .ok (b, 0) := by
  have h : Accept_none_occupancy_policy.add_or_postpone () lf line system_index
      = .ok ((), if occ ≠ 1 ∧ altloc = ' ' then DISCARD else system_index) := by
    by_cases h1 : occ = 1
    · simp [Accept_none_occupancy_policy, bind, Except.bind, hocc, h1, pure, Except.pure]
    · by_cases h2 : altloc = ' '
      · simp [Accept_none_occupancy_policy, bind, Except.bind, hocc, halt, h1, h2, pure,
          Except.pure]
      · simp [Accept_none_occupancy_policy, bind, Except.bind, hocc, halt, h1, h2, pure,
          Except.pure]
  refine ⟨h, fun hk => ?_, rfl⟩
  rw [h]
  by_cases hc : occ ≠ 1 ∧ altloc = ' '
  · simp [hc]
  · simp only [if_neg hc, Except.ok.injEq, Prod.mk.injEq, true_and, hc, iff_false]
    exact hk

theorem accept_none_policy_add_or_postpone_witness :
    (Line_format.new line_occ_050).get_occupancy line_occ_050 = .ok (1 / 2) ∧
    (Line_format.new line_occ_050).get_alternate_location line_occ_050 = .ok ' ' ∧
    Accept_none_occupancy_policy.add_or_postpone () (Line_format.new line_occ_050) line_occ_050 1
      = .ok ((), DISCARD) ∧
    Accept_none_occupancy_policy.finalize recording_interpret_line () [] = .ok ([], 0) :=
  ⟨by decide!, by decide,
   ((accept_none_policy_add_or_postpone (Line_format.new line_occ_050) line_occ_050 1 (1 / 2) ' '
      recording_interpret_line [] (by decide!) (by decide)).2.1 (by decide)).mpr
      ⟨by norm_num, rfl⟩,
   (accept_none_policy_add_or_postpone (Line_format.new line_occ_050) line_occ_050 1 (1 / 2) ' '
      recording_interpret_line [] (by decide!) (by decide)).2.2⟩

/-- C24: for the policy `Atom_list_occupancy_policy` of a set of serial numbers, on a
line whose occupancy and alternate location are read: when the occupancy is 1 or the
alternate location is not blank, `add_or_postpone` returns the system index given; and
when the atom serial number is read, it returns the system index given if the occupancy
is 1, or the alternate location is not blank, or the serial number is in the set, and
DISCARD otherwise, so that, the index given not being DISCARD, it returns the index
exactly in those three cases. The set is left as it is. -/
theorem atom_list_policy_add_or_postpone (selected_atoms : List Int) (lf : Line_format)
    (line : Line) (system_index : Int) (occ : ℚ) (altloc : Char)
    (hocc : lf.get_occupancy line = .ok occ)
    (halt : lf.get_alternate_location line = .ok altloc) :
    (occ = 1 ∨ altloc ≠ ' ' →
      Atom_list_occupancy_policy.add_or_postpone selected_atoms lf line system_index
        = .ok (selected_atoms, system_index)) ∧
    (∀ sn, lf.get_atom_serial_number line = .ok sn →
      Atom_list_occupancy_policy.add_or_postpone selected_atoms lf line system_index
        = .ok (selected_atoms,
            if occ = 1 ∨ altloc ≠ ' ' ∨ sn ∈ selected_atoms then system_index else DISCARD) ∧
      (system_index ≠ DISCARD →
        (Atom_list_occupancy_policy.add_or_postpone selected_atoms lf line system_index
            = .ok (selected_atoms, system_index)
          ↔ (occ = 1 ∨ altloc ≠ ' ' ∨ sn ∈ selected_atoms)))) := by
  have h1 : occ = 1 ∨ altloc ≠ ' ' →
      Atom_list_occupancy_policy.add_or_postpone selected_atoms lf line system_index
        = .ok (selected_atoms, system_index) := by
    intro h
    by_cases ho : occ = 1
    · simp [Atom_list_occupancy_policy, bind, Except.bind, hocc, ho, pure, Except.pure]
    · have ha : altloc ≠ ' ' := h.resolve_left ho
      simp [Atom_list_occupancy_policy, bind, Except.bind, hocc, halt, ho, ha, pure,
        Except.pure]
  refine ⟨h1, fun sn hsn => ?_⟩
  have h2 : Atom_list_occupancy_policy.add_or_postpone selected_atoms lf line system_index
      = .ok (selected_atoms,
          if occ = 1 ∨ altloc ≠ ' ' ∨ sn ∈ selected_atoms then system_index else DISCARD) := by
    by_cases hu : occ = 1 ∨ altloc ≠ ' '
    · rw [h1 hu]
      have : occ = 1 ∨ altloc ≠ ' ' ∨ sn ∈ selected_atoms := by tauto
      rw [if_pos this]
    · have ho : occ ≠ 1 := fun h => hu (Or.inl h)
      have ha : altloc = ' ' := by
        by_contra h
        exact hu (Or.inr h)
      by_cases hs : sn ∈ selected_atoms
      · simp [Atom_list_occupancy_policy, bind, Except.bind, hocc, halt, hsn, ho, ha, hs,
          pure, Except.pure]
      · simp [Atom_list_occupancy_policy, bind, Except.bind, hocc, halt, hsn, ho, ha, hs,
          pure, Except.pure]
  refine ⟨h2, fun hk => ?_⟩
  rw [h2]
  by_cases hc : occ = 1 ∨ altloc ≠ ' ' ∨ sn ∈ selected_atoms
  · simp [hc]
  · simp only [if_neg hc, Except.ok.injEq, Prod.mk.injEq, true_and, hc, iff_false]
    exact fun h => hk h.symm

theorem atom_list_policy_add_or_postpone_witness :
    (Line_format.new line_occ_050).get_occupancy line_occ_050 = .ok (1 / 2) ∧
    (Line_format.new line_occ_050).get_alternate_location line_occ_050 = .ok ' ' ∧
    (Line_format.new line_occ_050).get_atom_serial_number line_occ_050 = .ok 7 ∧
    Atom_list_occupancy_policy.add_or_postpone [3, 7] (Line_format.new line_occ_050)
      line_occ_050 1 = .ok ([3, 7], 1) ∧
    Atom_list_occupancy_policy.add_or_postpone [3, 8] (Line_format.new line_occ_050)
      line_occ_050 1 = .ok ([3, 8], DISCARD) :=
  ⟨by decide!, by decide, by decide,
   (((atom_list_policy_add_or_postpone [3, 7] (Line_format.new line_occ_050) line_occ_050 1
      (1 / 2) ' ' (by decide!) (by decide)).2 7 (by decide)).2 (by decide)).mpr
      (Or.inr (Or.inr (by decide))),
   by decide!⟩

/-! ## The extremal policies and the builder -/

theorem extremal_add_or_postpone (tm : Bool) :
    (extremal_occupancy_policy tm).add_or_postpone
      = Min_or_max_occupancy_policy.add_or_postpone tm := by
  cases tm <;> rfl

theorem add_or_postpone_then_DISCARD {π σ : Type} (occ : Occupancy_policy π) (lf : Line_format)
    (line : Line)
    (hpol : ∀ (p p1 : π) (k r : Int), occ.add_or_postpone p lf line k = .ok (p1, r) → r = DISCARD)
    (s s1 : σ) (o o1 : π) (k r : Int)
    (h : (do
        let (occupancy1, r1) ← occ.add_or_postpone o lf line k
        pure (s, occupancy1, r1) : Except Fatal (σ × π × Int)) = .ok (s1, o1, r)) :
    r = DISCARD := by
  simp only [bind, Except.bind, pure, Except.pure] at h
  cases ha : occ.add_or_postpone o lf line k with
  | error e => simp [ha] at h
  | ok res =>
    obtain ⟨p1, r1⟩ := res
    simp only [ha, Except.ok.injEq, Prod.mk.injEq] at h
    rw [← h.2.2]
    exact hpol o p1 k r1 ha

theorem single_system_keep_DISCARD {π : Type} (occ : Occupancy_policy π) (lf : Line_format)
    (line : Line)
    (hpol : ∀ (p p1 : π) (k r : Int), occ.add_or_postpone p lf line k = .ok (p1, r) → r = DISCARD)
    (hrec : lf.record_type = Record_type.ATOM ∨ lf.record_type = Record_type.HETATM)
    (self self1 : PDB_line_selector) (o o1 : π) (r : Int)
    (h : PDB_line_selector.keep occ self lf line o = .ok (self1, o1, r)) : r = DISCARD := by
  simp only [PDB_line_selector.keep, if_pos hrec] at h
  exact add_or_postpone_then_DISCARD occ lf line hpol _ _ _ _ _ _ h

theorem two_systems_keep_DISCARD {π : Type} (occ : Occupancy_policy π) (lf : Line_format)
    (line : Line)
    (hpol : ∀ (p p1 : π) (k r : Int), occ.add_or_postpone p lf line k = .ok (p1, r) → r = DISCARD)
    (hrec : lf.record_type = Record_type.ATOM ∨ lf.record_type = Record_type.HETATM)
    (self self1 : PDB_line_selector_two_systems) (o o1 : π) (r : Int)
    (h : PDB_line_selector_two_systems.keep occ self lf line o = .ok (self1, o1, r)) :
    r = DISCARD := by
  simp only [PDB_line_selector_two_systems.keep, if_pos hrec] at h
  obtain ⟨hy, hhy, h⟩ := (except_bind_eq_ok _ _ _).1 h
  cases hy
  · simp only [Bool.false_eq_true, if_false] at h
    obtain ⟨w, hw, h⟩ := (except_bind_eq_ok _ _ _).1 h
    cases w
    · simp only [Bool.false_eq_true, if_false] at h
      exact add_or_postpone_then_DISCARD occ lf line hpol _ _ _ _ _ _ h
    · simp only [if_true] at h
      exact add_or_postpone_then_DISCARD occ lf line hpol _ _ _ _ _ _ h
  · simp only [if_true, pure, Except.pure, Except.ok.injEq, Prod.mk.injEq] at h
    exact h.2.2.symm

theorem chain_keep_DISCARD {π : Type} (occ : Occupancy_policy π) (lf : Line_format)
    (line : Line)
    (hpol : ∀ (p p1 : π) (k r : Int), occ.add_or_postpone p lf line k = .ok (p1, r) → r = DISCARD)
    (hrec : lf.record_type = Record_type.ATOM ∨ lf.record_type = Record_type.HETATM)
    (self self1 : PDB_line_selector_chain) (o o1 : π) (r : Int)
    (h : PDB_line_selector_chain.keep occ self lf line o = .ok (self1, o1, r)) :
    r = DISCARD := by
  simp only [PDB_line_selector_chain.keep, if_pos hrec] at h
  obtain ⟨ch, hch, h⟩ := (except_bind_eq_ok _ _ _).1 h
  split at h
  all_goals
    obtain ⟨hydrogen, hhy, h⟩ := (except_bind_eq_ok _ _ _).1 h
    cases hydrogen
    · simp only [Bool.false_eq_true, if_false] at h
      obtain ⟨w, hw, h⟩ := (except_bind_eq_ok _ _ _).1 h
      cases w
      · simp only [Bool.false_eq_true, if_false] at h
        cases hfind : map_find char_lt ch self.system_index_map_ with
        | none =>
          simp only [hfind] at h
          cases hkr : self.keep_remaining_chains_
          · simp only [hkr, Bool.false_eq_true, if_false, pure, Except.pure, Except.ok.injEq,
              Prod.mk.injEq] at h
            exact h.2.2.symm
          · simp only [hkr, if_true] at h
            exact add_or_postpone_then_DISCARD occ lf line hpol _ _ _ _ _ _ h
        | some index =>
          simp only [hfind] at h
          exact add_or_postpone_then_DISCARD occ lf line hpol _ _ _ _ _ _ h
      · simp only [if_true] at h
        cases hkw : self.keep_water_
        · simp only [hkw, Bool.not_false, if_true, pure, Except.pure, Except.ok.injEq,
            Prod.mk.injEq] at h
          exact h.2.2.symm
        · simp only [hkw, Bool.not_true, Bool.false_eq_true, if_false] at h
          obtain ⟨tf, htf, h⟩ := (except_bind_eq_ok _ _ _).1 h
          by_cases hgt : tf > self.Water_Bfactorlim_
          · simp only [if_pos hgt, pure, Except.pure, Except.ok.injEq, Prod.mk.injEq] at h
            exact h.2.2.symm
          · simp only [if_neg hgt] at h
            exact add_or_postpone_then_DISCARD occ lf line hpol _ _ _ _ _ _ h
    · simp only [if_true, pure, Except.pure, Except.ok.injEq, Prod.mk.injEq] at h
      exact h.2.2.symm

theorem generic_keep_DISCARD {π : Type} (occ : Occupancy_policy π) (lf : Line_format)
    (line : Line)
    (hpol : ∀ (p p1 : π) (k r : Int), occ.add_or_postpone p lf line k = .ok (p1, r) → r = DISCARD)
    (hrec : lf.record_type = Record_type.ATOM ∨ lf.record_type = Record_type.HETATM)
    (self self1 : Generic_line_selector) (o o1 : π) (r : Int)
    (h : Generic_line_selector.keep occ self lf line o = .ok (self1, o1, r)) : r = DISCARD := by
  simp only [Generic_line_selector.keep, if_pos hrec] at h
  obtain ⟨ret, hret, h⟩ := (except_bind_eq_ok _ _ _).1 h
  by_cases hr : ret = -1
  · simp only [hr, ne_eq, not_true_eq_false, if_false, pure, Except.pure, Except.ok.injEq,
      Prod.mk.injEq] at h
    exact h.2.2.symm
  · simp only [ne_eq, hr, not_false_eq_true, if_true] at h
    exact add_or_postpone_then_DISCARD occ lf line hpol _ _ _ _ _ _ h

theorem turn_leaves_builder_of_DISCARD {σ π β : Type}
    (keep : σ → Line_format → Line → π → Except Fatal (σ × π × Int))
    (interp : β → Line_format → Line → Int → Except Fatal β) (line : Line)
    (hk : ∀ (s s1 : σ) (o o1 : π) (r : Int),
      keep s (Line_format.new line) line o = .ok (s1, o1, r) → r = DISCARD) :
    turn_leaves_builder keep interp line := by
  intro st st1 h
  unfold Line_reader.read_line at h
  split at h
  · simp only [pure, Except.pure, Except.ok.injEq] at h
    rw [← h]
    exact ⟨rfl, rfl⟩
  · simp only at h
    split at h
    · cases h
    · rename_i sel1 occ1 r hkeep
      have hr := hk _ _ _ _ _ hkeep
      simp only [hr, ne_eq, not_true_eq_false, if_false, pure, Except.pure, Except.ok.injEq] at h
      rw [← h]
      exact ⟨rfl, rfl⟩

/-- C25: for the policy of the greatest occupancy (`tm` set) and the one of the least
occupancy, on a coordinate line whose occupancy and alternate location are read: when the
occupancy is 1 or the alternate location is not blank, `add_or_postpone` returns the
system index given and leaves the buffer and the running extremum as they were; when the
occupancy is not 1 and the alternate location is blank, it returns DISCARD, whether the
line is put in the buffer (the occupancy is not beyond the running extremum) or not, and
then a turn of the loop of `read_stream` on the line, with any of the four selectors,
leaves the builder as it was. -/
theorem extremal_policy_add_or_postpone {β : Type} (tm : Bool) (p : Min_or_max_state)
    (line : Line) (system_index : Int) (occ : ℚ) (altloc : Char)
    (interp : β → Line_format → Line → Int → Except Fatal β)
    (hrec : (Line_format.new line).record_type = Record_type.ATOM ∨
      (Line_format.new line).record_type = Record_type.HETATM)
    (hocc : (Line_format.new line).get_occupancy line = .ok occ)
    (halt : (Line_format.new line).get_alternate_location line = .ok altloc) :
    (occ = 1 ∨ altloc ≠ ' ' →
      (extremal_occupancy_policy tm).add_or_postpone p (Line_format.new line) line system_index
        = .ok (p, system_index)) ∧
    (occ ≠ 1 ∧ altloc = ' ' →
      (extremal_occupancy_policy tm).add_or_postpone p (Line_format.new line) line system_index
        = .ok (if not_beyond tm p.min_or_max_occupancy occ then
                 { Min_or_max_occupancy_policy.add_line p occ line system_index with
                   min_or_max_occupancy := occ }
               else p, DISCARD) ∧
      turn_leaves_builder (PDB_line_selector.keep (extremal_occupancy_policy tm)) interp line ∧
      turn_leaves_builder (PDB_line_selector_two_systems.keep (extremal_occupancy_policy tm))
        interp line ∧
      turn_leaves_builder (PDB_line_selector_chain.keep (extremal_occupancy_policy tm))
        interp line ∧
      turn_leaves_builder (Generic_line_selector.keep (extremal_occupancy_policy tm))
        interp line) := by
  constructor
  · intro h
    rw [extremal_add_or_postpone]
    by_cases ho : occ = 1
    · simp [Min_or_max_occupancy_policy.add_or_postpone, bind, Except.bind, hocc, ho, pure,
        Except.pure]
    · have ha : altloc ≠ ' ' := h.resolve_left ho
      simp [Min_or_max_occupancy_policy.add_or_postpone, bind, Except.bind, hocc, halt, ho, ha,
        pure, Except.pure]
  · rintro ⟨ho, ha⟩
    have hadd : ∀ (q : Min_or_max_state) (k : Int),
        (extremal_occupancy_policy tm).add_or_postpone q (Line_format.new line) line k
          = .ok (if not_beyond tm q.min_or_max_occupancy occ then
                   { Min_or_max_occupancy_policy.add_line q occ line k with
                     min_or_max_occupancy := occ }
                 else q, DISCARD) := by
      intro q k
      rw [extremal_add_or_postpone]
      cases tm
      · by_cases hb : occ ≤ q.min_or_max_occupancy <;>
          simp [Min_or_max_occupancy_policy.add_or_postpone, bind, Except.bind, hocc, halt, ho,
            ha, pure, Except.pure, hb, not_beyond]
      · by_cases hb : q.min_or_max_occupancy ≤ occ <;>
          simp [Min_or_max_occupancy_policy.add_or_postpone, bind, Except.bind, hocc, halt, ho,
            ha, pure, Except.pure, hb, not_beyond]
    have hpol : ∀ (q q1 : Min_or_max_state) (k r : Int),
        (extremal_occupancy_policy tm).add_or_postpone q (Line_format.new line) line k
          = .ok (q1, r) → r = DISCARD := by
      intro q q1 k r h
      rw [hadd] at h
      simp only [Except.ok.injEq, Prod.mk.injEq] at h
      exact h.2.symm
    exact ⟨hadd p system_index,
      turn_leaves_builder_of_DISCARD _ _ _ fun s s1 o o1 r h =>
        single_system_keep_DISCARD _ _ _ hpol hrec s s1 o o1 r h,
      turn_leaves_builder_of_DISCARD _ _ _ fun s s1 o o1 r h =>
        two_systems_keep_DISCARD _ _ _ hpol hrec s s1 o o1 r h,
      turn_leaves_builder_of_DISCARD _ _ _ fun s s1 o o1 r h =>
        chain_keep_DISCARD _ _ _ hpol hrec s s1 o o1 r h,
      turn_leaves_builder_of_DISCARD _ _ _ fun s s1 o o1 r h =>
        generic_keep_DISCARD _ _ _ hpol hrec s s1 o o1 r h⟩

theorem extremal_policy_add_or_postpone_witness :
    ((Line_format.new line_occ_070).record_type = Record_type.ATOM ∨
      (Line_format.new line_occ_070).record_type = Record_type.HETATM) ∧
    (Line_format.new line_occ_070).get_occupancy line_occ_070 = .ok (7 / 10) ∧
    (Line_format.new line_occ_070).get_alternate_location line_occ_070 = .ok ' ' ∧
    (extremal_occupancy_policy true).add_or_postpone state_050 (Line_format.new line_occ_070)
        line_occ_070 1
      = .ok (if not_beyond true state_050.min_or_max_occupancy (7 / 10) then
               { Min_or_max_occupancy_policy.add_line state_050 (7 / 10) line_occ_070 1 with
                 min_or_max_occupancy := 7 / 10 }
             else state_050, DISCARD) ∧
    turn_leaves_builder (PDB_line_selector.keep (extremal_occupancy_policy true))
      recording_interpret_line line_occ_070 :=
  ⟨by decide, by decide!, by decide,
   ((extremal_policy_add_or_postpone true state_050 line_occ_070 1 (7 / 10) ' '
      recording_interpret_line (by decide) (by decide!) (by decide)).2 ⟨by norm_num, rfl⟩).1,
   ((extremal_policy_add_or_postpone true state_050 line_occ_070 1 (7 / 10) ' '
      recording_interpret_line (by decide) (by decide!) (by decide)).2 ⟨by norm_num, rfl⟩).2.1⟩

/-! ## The lines that a selector discards -/

theorem get_chain_identifier_ok (lf : Line_format) (line : Line) :
    ∃ c, lf.get_chain_identifier line = .ok c :=
  RECOVER_FIELD_char_optional _ 21 line

/-- C26: a line that a selector discards itself is not given to the occupancy policy:
whatever the policy and its state, so for the policies of the greatest and of the least
occupancy whatever their buffer and running extremum, `keep` returns DISCARD with the
state of the policy as it was, and does so even for a policy that would stop on every
call. This holds for a coordinate line that is an hydrogen with the selector of two
systems, or with the selector by chains when hydrogens are not kept; for a water, with
the selector by chains, when water is not kept or when its temperature factor is above
the limit; for a line of a chain in no group when the remaining chains are not kept; for
a line that no selection of the generic selector accepts; and, with each of the four
selectors, for a line that is not a coordinate line, where the integer returned is RMK on
a MODEL line and DISCARD otherwise. -/
theorem selector_discards_without_policy {π : Type} (occ : Occupancy_policy π)
    (lf : Line_format) (line : Line) (occupancy : π) :
    ((lf.record_type = Record_type.ATOM ∨ lf.record_type = Record_type.HETATM) →
      (is_hydrogen lf line = .ok true →
        ∀ self, PDB_line_selector_two_systems.keep occ self lf line occupancy
          = .ok (self, occupancy, DISCARD)) ∧
      (∀ self : PDB_line_selector_chain,
        (self.keep_hydrogen_ = false ∧ is_hydrogen lf line = .ok true) ∨
        ((self.keep_hydrogen_ = true ∨ is_hydrogen lf line = .ok false) ∧
          is_water lf line = .ok true ∧
          (self.keep_water_ = false ∨
            ∃ t, lf.get_temperature_factor line = .ok t ∧ t > self.Water_Bfactorlim_)) ∨
        ((self.keep_hydrogen_ = true ∨ is_hydrogen lf line = .ok false) ∧
          is_water lf line = .ok false ∧ self.keep_remaining_chains_ = false ∧
          ∃ ch, lf.get_chain_identifier line = .ok ch ∧
            map_find char_lt ch self.system_index_map_ = none) →
        PDB_line_selector_chain.keep occ self lf line occupancy
          = .ok ({ self with nb_atm_htm_seen_ := (self.nb_atm_htm_seen_ + 1) % 4294967296 },
                 occupancy, DISCARD)) ∧
      (∀ self : Generic_line_selector, Generic_line_selector_base.call self lf line = .ok (-1) →
        Generic_line_selector.keep occ self lf line occupancy = .ok (self, occupancy, DISCARD))) ∧
    (¬ (lf.record_type = Record_type.ATOM ∨ lf.record_type = Record_type.HETATM) →
      (∀ self, PDB_line_selector.keep occ self lf line occupancy
        = .ok (if lf.record_type = Record_type.MODEL then (self, occupancy, RMK)
               else ({ self with discarded := self.discarded + 1 }, occupancy, DISCARD))) ∧
      (∀ self, PDB_line_selector_two_systems.keep occ self lf line occupancy
        = .ok (self, occupancy, if lf.record_type = Record_type.MODEL then RMK else DISCARD)) ∧
      (∀ self, PDB_line_selector_chain.keep occ self lf line occupancy
        = .ok (if lf.record_type = Record_type.MODEL then (self, occupancy, RMK)
               else ({ self with discarded := self.discarded + 1 }, occupancy, DISCARD))) ∧
      (∀ self, Generic_line_selector.keep occ self lf line occupancy
        = .ok (self, occupancy, if lf.record_type = Record_type.MODEL then RMK else DISCARD))) := by
  constructor
  · intro hrec
    refine ⟨fun hh self => ?_, fun self hcase => ?_, fun self hc => ?_⟩
    · simp [PDB_line_selector_two_systems.keep, hrec, bind, Except.bind, hh, pure, Except.pure]
    · obtain ⟨ch, hch⟩ := get_chain_identifier_ok lf line
      rcases hcase with ⟨hk, hh⟩ | ⟨hh, hw, hwk⟩ | ⟨hh, hw, hkr, ch1, hch1, hfind⟩
      · simp [PDB_line_selector_chain.keep, hrec, bind, Except.bind, hch, hk, hh, pure,
          Except.pure]
      · rcases hwk with hwk | ⟨t, ht, hgt⟩
        · rcases hh with h | h <;>
            simp [PDB_line_selector_chain.keep, hrec, bind, Except.bind, hch, h, hw, hwk, pure,
              Except.pure]
        · cases hkw : self.keep_water_ <;> rcases hh with h | h <;>
            simp [PDB_line_selector_chain.keep, hrec, bind, Except.bind, hch, h, hw, hkw, ht,
              hgt, pure, Except.pure]
      · rw [hch] at hch1
        cases hch1
        rcases hh with h | h <;>
          simp [PDB_line_selector_chain.keep, hrec, bind, Except.bind, hch, h, hw, hkr, hfind,
            pure, Except.pure]
    · simp [Generic_line_selector.keep, hrec, bind, Except.bind, hc, pure, Except.pure]
  · intro hrec
    refine ⟨fun self => ?_, fun self => ?_, fun self => ?_, fun self => ?_⟩
    · by_cases hm : lf.record_type = Record_type.MODEL <;>
        simp [PDB_line_selector.keep, hrec, hm, pure, Except.pure]
    · by_cases hm : lf.record_type = Record_type.MODEL <;>
        simp [PDB_line_selector_two_systems.keep, hrec, hm, pure, Except.pure]
    · by_cases hm : lf.record_type = Record_type.MODEL <;>
        simp [PDB_line_selector_chain.keep, hrec, hm, pure, Except.pure]
    · by_cases hm : lf.record_type = Record_type.MODEL <;>
        simp [Generic_line_selector.keep, hrec, hm, pure, Except.pure]

theorem selector_discards_without_policy_witness :
    ((Line_format.new line_water_H).record_type = Record_type.ATOM ∨
      (Line_format.new line_water_H).record_type = Record_type.HETATM) ∧
    is_hydrogen (Line_format.new line_water_H) line_water_H = .ok true ∧
    PDB_line_selector_two_systems.keep Max_occupancy_policy {} (Line_format.new line_water_H)
      line_water_H state_050 = .ok ({}, state_050, DISCARD) :=
  ⟨by decide, by decide,
   ((selector_discards_without_policy Max_occupancy_policy (Line_format.new line_water_H)
      line_water_H state_050).1 (by decide)).1 (by decide) {}⟩

/-! ## The order of the atoms of a residue -/

theorem visited_of_yields {ι α : Type} (equal : ι → ι → Except Fatal Bool)
    (dereference : ι → Except Fatal α) (increment : ι → Option (Except Fatal ι)) (last : ι)
    (Y : ι → List α → Prop)
    (hnil : ∀ it, Y it [] → equal it last = .ok true)
    (hcons : ∀ it a l, Y it (a :: l) →
      equal it last = .ok false ∧ dereference it = .ok a ∧
        ∃ it1, increment it = some (.ok it1) ∧ Y it1 l) :
    ∀ (l : List α) (it : ι) (fuel : Nat), Y it l → l.length < fuel →
      visited equal dereference increment fuel it last = some (.ok l) := by
  intro l
  induction l with
  | nil =>
    intro it fuel hY hf
    cases fuel with
    | zero => simp at hf
    | succ n => simp only [visited, hnil it hY]
  | cons a l ih =>
    intro it fuel hY hf
    cases fuel with
    | zero => simp at hf
    | succ n =>
      obtain ⟨h1, h2, it1, h3, h4⟩ := hcons it a l hY
      have h5 := ih it1 n h4 (by simpa using hf)
      simp only [visited, h1, h2, h3, h5]

theorem residue_visited_atoms (r : Molecular_residue) (fuel : Nat)
    (hf : r.atom_container.length < fuel) : r.visited_atoms fuel = some (.ok r.atoms) := by
  unfold Molecular_residue.visited_atoms
  refine visited_of_yields _ _ _ _
    (fun it l => ∃ entries, it.atm_it = .position entries ∧ l = entries.map Prod.snd)
    ?_ ?_ r.atoms r.atoms_begin fuel ⟨r.atom_container, rfl, rfl⟩ (by simpa [Molecular_residue.atoms] using hf)
  · rintro it ⟨entries, h1, h2⟩
    have : entries = [] := by simpa using h2.symm
    subst this
    simp [Atoms_iterator_from_residue.equal, Molecular_residue.atoms_end, map_end, h1,
      Map_iterator.equal, pure, Except.pure]
  · rintro it a l ⟨entries, h1, h2⟩
    cases entries with
    | nil => simp at h2
    | cons e rest =>
      simp only [List.map_cons, List.cons.injEq] at h2
      refine ⟨?_, ?_, ⟨{ it with atm_it := .position rest }, ?_, rest, rfl, h2.2⟩⟩
      · simp [Atoms_iterator_from_residue.equal, Molecular_residue.atoms_end, map_end, h1,
          Map_iterator.equal, pure, Except.pure]
      · simp [Atoms_iterator_from_residue.dereference, h1, Map_iterator.dereference, bind,
          Except.bind, pure, Except.pure, h2.1]
      · simp [Atoms_iterator_from_residue.increment, h1, Map_iterator.increment, bind,
          Except.bind, pure, Except.pure]

theorem map_insert_pairwise {κ ν : Type} (lt : κ → κ → Bool)
    (htrans : ∀ a b c, lt a b = true → lt b c = true → lt a c = true)
    (k : κ) (v : ν) (m : List (κ × ν))
    (h : m.Pairwise fun a b => lt a.1 b.1 = true) :
    (map_insert lt k v m).Pairwise fun a b => lt a.1 b.1 = true := by
  induction m with
  | nil => simp [map_insert]
  | cons e1 rest ih =>
    obtain ⟨k1, v1⟩ := e1
    rw [List.pairwise_cons] at h
    cases c1 : lt k1 k
    · cases c2 : lt k k1
      · simp only [map_insert, c1, c2, Bool.false_eq_true, if_false]
        exact List.pairwise_cons.2 h
      · simp only [map_insert, c1, c2, Bool.false_eq_true, if_false, if_true]
        refine List.pairwise_cons.2 ⟨?_, List.pairwise_cons.2 h⟩
        intro e he
        rcases List.mem_cons.1 he with h1 | h1
        · rw [h1]
          exact c2
        · exact htrans _ _ _ c2 (h.1 e h1)
    · simp only [map_insert, c1, if_true]
      refine List.pairwise_cons.2 ⟨?_, ih h.2⟩
      intro e he
      rcases mem_map_insert lt k v rest e he with h1 | h1
      · rw [h1]
        exact c1
      · exact h.1 e h1

theorem lexical_cast_int_range (s : List Char) (v : Int) (h : lexical_cast_int s = some v) :
    -2147483648 ≤ v ∧ v < 2147483648 := by
  have key : ∀ (r : List Char),
      (((parse_digits r).bind fun n => if n ≤ 2147483648 then some (-(n : Int)) else none) = some v →
        -2147483648 ≤ v ∧ v < 2147483648) ∧
      (((parse_digits r).bind fun n => if n < 2147483648 then some (n : Int) else none) = some v →
        -2147483648 ≤ v ∧ v < 2147483648) := by
    intro r
    cases parse_digits r with
    | none => simp
    | some n =>
      simp only [Option.some_bind]
      constructor
      · intro h
        split at h
        · simp only [Option.some.injEq] at h
          omega
        · cases h
      · intro h
        split at h
        · simp only [Option.some.injEq] at h
          omega
        · cases h
  unfold lexical_cast_int at h
  split at h
  · exact (key _).1 h
  · exact (key _).2 h
  · exact (key _).2 h

theorem RECOVER_FIELD_mandatory_ok {τ : Type} (cast : List Char → Option τ) (fname : String)
    (frm upto : Nat) (dflt v : τ) (line : Line)
    (h : RECOVER_FIELD cast true fname frm upto dflt line = .ok v) : ∃ s, cast s = some v := by
  unfold RECOVER_FIELD at h
  split at h
  · simp at h
  · unfold extract_field at h
    split at h
    · cases h
    · simp only at h
      split at h
      · simp at h
      · split at h
        · rename_i s v1 hc
          simp only [Except.ok.injEq] at h
          exact ⟨_, h ▸ hc⟩
        · cases h

theorem get_atom_serial_number_range (lf : Line_format) (line : Line) (sn : Int)
    (h : lf.get_atom_serial_number line = .ok sn) : -2147483648 ≤ sn ∧ sn < 2147483648 := by
  obtain ⟨s, hs⟩ := RECOVER_FIELD_mandatory_ok _ _ _ _ _ _ _ h
  exact lexical_cast_int_range s sn hs

theorem atom_new_serial_number (lf : Line_format) (line : Line) (atom : Molecular_atom)
    (h : Molecular_atom.new lf line = .ok atom) :
    lf.get_atom_serial_number line = .ok atom.atom_serial_number := by
  unfold Molecular_atom.new at h
  obtain ⟨x, -, h⟩ := (except_bind_eq_ok _ _ _).1 h
  obtain ⟨y, -, h⟩ := (except_bind_eq_ok _ _ _).1 h
  obtain ⟨z, -, h⟩ := (except_bind_eq_ok _ _ _).1 h
  obtain ⟨sn, hsn, h⟩ := (except_bind_eq_ok _ _ _).1 h
  obtain ⟨name, -, h⟩ := (except_bind_eq_ok _ _ _).1 h
  obtain ⟨altloc, -, h⟩ := (except_bind_eq_ok _ _ _).1 h
  obtain ⟨occ, -, h⟩ := (except_bind_eq_ok _ _ _).1 h
  obtain ⟨tf, -, h⟩ := (except_bind_eq_ok _ _ _).1 h
  obtain ⟨el, -, h⟩ := (except_bind_eq_ok _ _ _).1 h
  obtain ⟨ch, -, h⟩ := (except_bind_eq_ok _ _ _).1 h
  simp only [pure, Except.pure, Except.ok.injEq] at h
  rw [← h]
  exact hsn

theorem unsigned_lt_trans (a b c : Nat) (h1 : unsigned_lt a b = true) (h2 : unsigned_lt b c = true) :
    unsigned_lt a c = true := by
  simp only [unsigned_lt, decide_eq_true_eq] at h1 h2 ⊢
  omega

/-- The keys of the atoms of a residue are ascending, and each is the serial number of
its atom, a 32-bit `int`, converted to `unsigned`. -/
theorem add_atom_keys (r r1 : Molecular_residue) (lf : Line_format) (line : Line)
    (h : r.add_atom lf line = .ok r1)
    (hs : r.atom_container.Pairwise fun a b => unsigned_lt a.1 b.1 = true)
    (hk : ∀ e ∈ r.atom_container, e.1 = to_unsigned e.2.atom_serial_number ∧
      -2147483648 ≤ e.2.atom_serial_number ∧ e.2.atom_serial_number < 2147483648) :
    (r1.atom_container.Pairwise fun a b => unsigned_lt a.1 b.1 = true) ∧
    ∀ e ∈ r1.atom_container, e.1 = to_unsigned e.2.atom_serial_number ∧
      -2147483648 ≤ e.2.atom_serial_number ∧ e.2.atom_serial_number < 2147483648 := by
  unfold Molecular_residue.add_atom at h
  obtain ⟨sn, hsn, h⟩ := (except_bind_eq_ok _ _ _).1 h
  split at h
  · cases h
  · obtain ⟨atom, hatom, h⟩ := (except_bind_eq_ok _ _ _).1 h
    simp only [pure, Except.pure, Except.ok.injEq] at h
    rw [← h]
    have hsn1 := atom_new_serial_number lf line atom hatom
    rw [hsn] at hsn1
    simp only [Except.ok.injEq] at hsn1
    refine ⟨map_insert_pairwise unsigned_lt unsigned_lt_trans _ _ _ hs, fun e he => ?_⟩
    rcases mem_map_insert _ _ _ _ _ he with h1 | h1
    · rw [h1]
      simp only
      rw [← hsn1]
      exact ⟨rfl, get_atom_serial_number_range lf line sn hsn⟩
    · exact hk e h1

theorem add_atoms_keys (calls : List (Line_format × Line)) (r r1 : Molecular_residue)
    (h : r.add_atoms calls = .ok r1)
    (hs : r.atom_container.Pairwise fun a b => unsigned_lt a.1 b.1 = true)
    (hk : ∀ e ∈ r.atom_container, e.1 = to_unsigned e.2.atom_serial_number ∧
      -2147483648 ≤ e.2.atom_serial_number ∧ e.2.atom_serial_number < 2147483648) :
    (r1.atom_container.Pairwise fun a b => unsigned_lt a.1 b.1 = true) ∧
    ∀ e ∈ r1.atom_container, e.1 = to_unsigned e.2.atom_serial_number ∧
      -2147483648 ≤ e.2.atom_serial_number ∧ e.2.atom_serial_number < 2147483648 := by
  induction calls generalizing r with
  | nil =>
    simp only [Molecular_residue.add_atoms, pure, Except.pure, Except.ok.injEq] at h
    rw [← h]
    exact ⟨hs, hk⟩
  | cons c rest ih =>
    obtain ⟨lf, line⟩ := c
    simp only [Molecular_residue.add_atoms] at h
    split at h
    · cases h
    · rename_i r2 h2
      obtain ⟨hs2, hk2⟩ := add_atom_keys r r2 lf line h2 hs hk
      exact ih r2 h hs2 hk2

/-- C30, as stated, fails: the residue built by `add_atom` on a line of serial number 5,
then on a line of serial number -1, is iterated in the order 5, -1, which is not
ascending: the key of an atom is its serial number converted to `unsigned`. -/
theorem residue_atoms_order_with_negative_serial :
    (Molecular_residue.new_by_name "ALA".toList 1 ' ').add_atoms calls_serial_5_minus_1
      = .ok residue_serials_5_minus_1 ∧
    residue_serials_5_minus_1.visited_serial_numbers 3 = some (.ok [5, -1]) ∧
    ¬ ((5 : Int) < -1) := by
  decide!

/-- C30, amended: a residue built from one without an atom by a sequence of calls of
`add_atom` that all return is iterated, from `atoms_begin()` to `atoms_end()`, without a
stop and over all its atoms, in strictly ascending order of their serial numbers
converted to `unsigned`; so in strictly ascending order of the serial numbers themselves
when none of them is negative. -/
theorem residue_atoms_ascending_keys (r0 r : Molecular_residue)
    (calls : List (Line_format × Line)) (h0 : r0.atom_container = [])
    (h : r0.add_atoms calls = .ok r) :
    (∀ fuel, r.atom_container.length < fuel → r.visited_atoms fuel = some (.ok r.atoms)) ∧
    (r.atoms.Pairwise fun a b =>
      to_unsigned a.atom_serial_number < to_unsigned b.atom_serial_number) ∧
    ((∀ a ∈ r.atoms, 0 ≤ a.atom_serial_number) →
      r.atoms.Pairwise fun a b => a.atom_serial_number < b.atom_serial_number) := by
  obtain ⟨hs, hk⟩ := add_atoms_keys calls r0 r h (by rw [h0]; exact List.Pairwise.nil)
    (by rw [h0]; simp)
  have h1 : r.atoms.Pairwise fun a b =>
      to_unsigned a.atom_serial_number < to_unsigned b.atom_serial_number := by
    unfold Molecular_residue.atoms
    rw [List.pairwise_map]
    refine List.Pairwise.imp_of_mem ?_ hs
    intro a b ha hb hab
    rw [← (hk a ha).1, ← (hk b hb).1]
    simpa [unsigned_lt] using hab
  refine ⟨fun fuel hf => residue_visited_atoms r fuel hf, h1, fun hpos => ?_⟩
  refine List.Pairwise.imp_of_mem ?_ h1
  intro a b ha hb hab
  have ha0 := hpos a ha
  have hb0 := hpos b hb
  obtain ⟨ea, hea, hea2⟩ := List.mem_map.1 (show a ∈ r.atom_container.map Prod.snd from ha)
  obtain ⟨eb, heb, heb2⟩ := List.mem_map.1 (show b ∈ r.atom_container.map Prod.snd from hb)
  have hra := (hk ea hea).2
  have hrb := (hk eb heb).2
  rw [hea2] at hra
  rw [heb2] at hrb
  simp only [to_unsigned] at hab
  omega

theorem residue_atoms_ascending_keys_witness :
    (Molecular_residue.new_by_name "ALA".toList 1 ' ').atom_container = [] ∧
    (Molecular_residue.new_by_name "ALA".toList 1 ' ').add_atoms calls_serial_42_5
      = .ok residue_serials_5_42 ∧
    residue_serials_5_42.visited_atoms 3 = some (.ok residue_serials_5_42.atoms) ∧
    residue_serials_5_42.atoms.Pairwise fun a b =>
      to_unsigned a.atom_serial_number < to_unsigned b.atom_serial_number :=
  ⟨rfl, by decide!,
   (residue_atoms_ascending_keys (Molecular_residue.new_by_name "ALA".toList 1 ' ')
      residue_serials_5_42 calls_serial_42_5 rfl (by decide!)).1 3 (by decide),
   (residue_atoms_ascending_keys (Molecular_residue.new_by_name "ALA".toList 1 ' ')
      residue_serials_5_42 calls_serial_42_5 rfl (by decide!)).2.1⟩

/-! ## The iterators over the atoms of a chain and of a model -/

theorem chain_make_valid_loop (rest : List ((Int × Char) × Molecular_residue)) :
    ∀ (e : (Int × Char) × Molecular_residue) (entries : List (Nat × Molecular_atom)),
    ∃ it, Atoms_iterator_from_chain.make_valid_loop { res_it := .position [] } (e :: rest)
        { atm_it := .position entries, atm_end := .position [] }
        { atm_it := .position [], atm_end := .position [] } = .ok it ∧
      it.yields (entries.map Prod.snd ++ rest.flatMap fun e1 => e1.2.atoms) := by
  induction rest with
  | nil =>
    intro e entries
    cases entries with
    | nil =>
      refine ⟨{ res_it := { res_it := .position [] }, res_end := { res_it := .position [] },
                atm_it := { atm_it := .position [], atm_end := .position [] },
                atm_end := { atm_it := .position [], atm_end := .position [] } },
        ?_, rfl, Or.inl ⟨rfl, rfl⟩⟩
      simp [Atoms_iterator_from_chain.make_valid_loop, Atoms_iterator_from_residue.equal,
        Residues_iterator_from_chain.equal, Map_iterator.equal, bind, Except.bind, pure,
        Except.pure]
    | cons a entries =>
      refine ⟨{ res_it := { res_it := .position [e] }, res_end := { res_it := .position [] },
                atm_it := { atm_it := .position (a :: entries), atm_end := .position [] },
                atm_end := { atm_it := .position [], atm_end := .position [] } },
        ?_, rfl, Or.inr ⟨e, [], a :: entries, rfl, by simp, rfl, rfl, rfl⟩⟩
      simp [Atoms_iterator_from_chain.make_valid_loop, Atoms_iterator_from_residue.equal,
        Map_iterator.equal, bind, Except.bind, pure, Except.pure]
  | cons e1 rest ih =>
    intro e entries
    cases entries with
    | nil =>
      obtain ⟨it, h1, h2⟩ := ih e1 e1.2.atom_container
      refine ⟨it, ?_, ?_⟩
      · rw [← h1]
        simp [Atoms_iterator_from_chain.make_valid_loop, Atoms_iterator_from_residue.equal,
          Residues_iterator_from_chain.equal, Residues_iterator_from_chain.dereference,
          Map_iterator.equal, Map_iterator.dereference, bind, Except.bind, pure, Except.pure,
          Molecular_residue.atoms_begin, Molecular_residue.atoms_end, map_begin, map_end]
      · simpa [Molecular_residue.atoms] using h2
    | cons a entries =>
      refine ⟨{ res_it := { res_it := .position (e :: e1 :: rest) },
                res_end := { res_it := .position [] },
                atm_it := { atm_it := .position (a :: entries), atm_end := .position [] },
                atm_end := { atm_it := .position [], atm_end := .position [] } },
        ?_, rfl, Or.inr ⟨e, e1 :: rest, a :: entries, rfl, by simp, rfl, rfl, rfl⟩⟩
      simp [Atoms_iterator_from_chain.make_valid_loop, Atoms_iterator_from_residue.equal,
        Map_iterator.equal, bind, Except.bind, pure, Except.pure]

theorem chain_atoms_begin (c : Molecular_chain) :
    ∃ it, c.atoms_begin = .ok it ∧ it.yields c.atoms := by
  unfold Molecular_chain.atoms_begin Atoms_iterator_from_chain.new
  cases hc : c.residue_container with
  | nil =>
    refine ⟨Atoms_iterator_from_chain.past_the_end, ?_, rfl,
      Or.inl ⟨rfl, by simp [Molecular_chain.atoms, hc]⟩⟩
    simp [Molecular_chain.residues_begin, Molecular_chain.residues_end, map_begin, map_end, hc,
      Residues_iterator_from_chain.equal, Map_iterator.equal, bind, Except.bind, pure,
      Except.pure, Atoms_iterator_from_chain.past_the_end]
  | cons e rest =>
    obtain ⟨it, h1, h2⟩ := chain_make_valid_loop rest e e.2.atom_container
    refine ⟨it, ?_, ?_⟩
    · rw [← h1]
      simp [Molecular_chain.residues_begin, Molecular_chain.residues_end, map_begin, map_end, hc,
        Residues_iterator_from_chain.equal, Residues_iterator_from_chain.dereference,
        Map_iterator.equal, Map_iterator.dereference, bind, Except.bind, pure, Except.pure,
        Atoms_iterator_from_chain.make_valid, Molecular_residue.atoms_begin,
        Molecular_residue.atoms_end]
    · simpa [Molecular_chain.atoms, hc, Molecular_residue.atoms] using h2

theorem chain_atoms_end (c : Molecular_chain) :
    c.atoms_end = .ok Atoms_iterator_from_chain.past_the_end := by
  simp [Molecular_chain.atoms_end, Atoms_iterator_from_chain.new, Molecular_chain.residues_end,
    map_end, Residues_iterator_from_chain.equal, Map_iterator.equal, bind, Except.bind, pure,
    Except.pure, Atoms_iterator_from_chain.past_the_end]

theorem chain_equal_end_nil (it : Atoms_iterator_from_chain) (h : it.yields []) :
    it.equal Atoms_iterator_from_chain.past_the_end = .ok true := by
  obtain ⟨h1, h2 | ⟨e, rest, entries, -, hne, -, -, h3⟩⟩ := h
  · simp [Atoms_iterator_from_chain.equal, Atoms_iterator_from_chain.past_the_end, h1, h2.1,
      Residues_iterator_from_chain.equal, Map_iterator.equal, bind, Except.bind, pure,
      Except.pure]
  · cases entries with
    | nil => exact absurd rfl hne
    | cons a entries => simp at h3

theorem chain_equal_end_cons (it : Atoms_iterator_from_chain) (a : Molecular_atom)
    (l : List Molecular_atom) (h : it.yields (a :: l)) :
    it.equal Atoms_iterator_from_chain.past_the_end = .ok false ∧
    it.dereference = .ok a ∧ ∃ it1, it.increment = .ok it1 ∧ it1.yields l := by
  obtain ⟨h1, h2 | ⟨e, rest, entries, h2, hne, h3, h4, h5⟩⟩ := h
  · simp at h2
  · cases entries with
    | nil => exact absurd rfl hne
    | cons a1 entries =>
      simp only [List.map_cons, List.cons_append, List.cons.injEq] at h5
      obtain ⟨it1, h6, h7⟩ := chain_make_valid_loop rest e entries
      refine ⟨?_, ?_, it1, ?_, ?_⟩
      · simp [Atoms_iterator_from_chain.equal, Atoms_iterator_from_chain.past_the_end, h2,
          Residues_iterator_from_chain.equal, Map_iterator.equal, bind, Except.bind, pure,
          Except.pure]
      · simp [Atoms_iterator_from_chain.dereference, Atoms_iterator_from_residue.dereference,
          h3, Map_iterator.dereference, bind, Except.bind, pure, Except.pure, h5.1]
      · rw [← h6]
        simp [Atoms_iterator_from_chain.increment, Atoms_iterator_from_residue.increment, h3,
          Map_iterator.increment, bind, Except.bind, pure, Except.pure,
          Atoms_iterator_from_chain.make_valid, h2, h1, h4]
      · rw [h5.2]
        exact h7

theorem model_make_valid_loop (rest : List (Char × Molecular_chain)) :
    ∀ (e : Char × Molecular_chain) (atm_it : Atoms_iterator_from_chain)
      (l1 : List Molecular_atom), atm_it.yields l1 →
    ∃ it, Atoms_iterator_from_model.make_valid_loop { chain_it := .position [] } (e :: rest)
        atm_it Atoms_iterator_from_chain.past_the_end = .ok it ∧
      it.yields (l1 ++ rest.flatMap fun e1 => e1.2.atoms) := by
  induction rest with
  | nil =>
    intro e atm_it l1 hy
    cases l1 with
    | nil =>
      refine ⟨{ chain_it := { chain_it := .position [] },
                chain_end := { chain_it := .position [] }, atm_it := atm_it,
                atm_end := Atoms_iterator_from_chain.past_the_end },
        ?_, rfl, Or.inl ⟨rfl, rfl⟩⟩
      simp [Atoms_iterator_from_model.make_valid_loop, chain_equal_end_nil atm_it hy,
        Chains_iterator_from_model.equal, Map_iterator.equal, bind, Except.bind, pure,
        Except.pure]
    | cons a l1 =>
      refine ⟨{ chain_it := { chain_it := .position [e] },
                chain_end := { chain_it := .position [] }, atm_it := atm_it,
                atm_end := Atoms_iterator_from_chain.past_the_end },
        ?_, rfl, Or.inr ⟨e, [], a :: l1, rfl, by simp, hy, rfl, rfl⟩⟩
      simp [Atoms_iterator_from_model.make_valid_loop, (chain_equal_end_cons atm_it a l1 hy).1,
        bind, Except.bind, pure, Except.pure]
  | cons e1 rest ih =>
    intro e atm_it l1 hy
    cases l1 with
    | nil =>
      obtain ⟨it1, h1, h2⟩ := chain_atoms_begin e1.2
      obtain ⟨it, h3, h4⟩ := ih e1 it1 e1.2.atoms h2
      refine ⟨it, ?_, ?_⟩
      · rw [← h3]
        simp [Atoms_iterator_from_model.make_valid_loop, chain_equal_end_nil atm_it hy,
          Chains_iterator_from_model.equal, Chains_iterator_from_model.dereference,
          Map_iterator.equal, Map_iterator.dereference, bind, Except.bind, pure, Except.pure,
          h1, chain_atoms_end]
      · simpa using h4
    | cons a l1 =>
      refine ⟨{ chain_it := { chain_it := .position (e :: e1 :: rest) },
                chain_end := { chain_it := .position [] }, atm_it := atm_it,
                atm_end := Atoms_iterator_from_chain.past_the_end },
        ?_, rfl, Or.inr ⟨e, e1 :: rest, a :: l1, rfl, by simp, hy, rfl, rfl⟩⟩
      simp [Atoms_iterator_from_model.make_valid_loop, (chain_equal_end_cons atm_it a l1 hy).1,
        bind, Except.bind, pure, Except.pure]

theorem model_atoms_begin (m : Molecular_model) :
    ∃ it, m.atoms_begin = .ok it ∧ it.yields m.atoms := by
  unfold Molecular_model.atoms_begin Atoms_iterator_from_model.new
  cases hc : m.chain_container with
  | nil =>
    refine ⟨Atoms_iterator_from_model.past_the_end, ?_, rfl,
      Or.inl ⟨rfl, by simp [Molecular_model.atoms, hc]⟩⟩
    simp [Molecular_model.chains_begin, Molecular_model.chains_end, map_begin, map_end, hc,
      Chains_iterator_from_model.equal, Map_iterator.equal, bind, Except.bind, pure,
      Except.pure, Atoms_iterator_from_model.past_the_end]
  | cons e rest =>
    obtain ⟨it1, h1, h2⟩ := chain_atoms_begin e.2
    obtain ⟨it, h3, h4⟩ := model_make_valid_loop rest e it1 e.2.atoms h2
    refine ⟨it, ?_, ?_⟩
    · rw [← h3]
      simp [Molecular_model.chains_begin, Molecular_model.chains_end, map_begin, map_end, hc,
        Chains_iterator_from_model.equal, Chains_iterator_from_model.dereference,
        Map_iterator.equal, Map_iterator.dereference, bind, Except.bind, pure, Except.pure,
        Atoms_iterator_from_model.make_valid, h1, chain_atoms_end]
    · simpa [Molecular_model.atoms, hc] using h4

theorem model_atoms_end (m : Molecular_model) :
    m.atoms_end = .ok Atoms_iterator_from_model.past_the_end := by
  simp [Molecular_model.atoms_end, Atoms_iterator_from_model.new, Molecular_model.chains_end,
    map_end, Chains_iterator_from_model.equal, Map_iterator.equal, bind, Except.bind, pure,
    Except.pure, Atoms_iterator_from_model.past_the_end]

theorem model_equal_end_nil (it : Atoms_iterator_from_model) (h : it.yields []) :
    it.equal Atoms_iterator_from_model.past_the_end = .ok true ∧ it.is_end = .ok true := by
  obtain ⟨h1, h2 | ⟨e, rest, l1, -, hne, -, -, h3⟩⟩ := h
  · simp [Atoms_iterator_from_model.equal, Atoms_iterator_from_model.is_end,
      Atoms_iterator_from_model.past_the_end, h1, h2.1,
      Chains_iterator_from_model.equal, Map_iterator.equal, bind, Except.bind, pure,
      Except.pure]
  · cases l1 with
    | nil => exact absurd rfl hne
    | cons a l1 => simp at h3

theorem model_equal_end_cons (it : Atoms_iterator_from_model) (a : Molecular_atom)
    (l : List Molecular_atom) (h : it.yields (a :: l)) :
    it.equal Atoms_iterator_from_model.past_the_end = .ok false ∧ it.is_end = .ok false ∧
    it.dereference = .ok a ∧ ∃ it1, it.increment = .ok it1 ∧ it1.yields l := by
  obtain ⟨h1, h2 | ⟨e, rest, l1, h2, hne, h3, h4, h5⟩⟩ := h
  · simp at h2
  · cases l1 with
    | nil => exact absurd rfl hne
    | cons a1 l1 =>
      simp only [List.cons_append, List.cons.injEq] at h5
      obtain ⟨h6, h7, it2, h8, h9⟩ := chain_equal_end_cons it.atm_it a1 l1 h3
      obtain ⟨it1, h10, h11⟩ := model_make_valid_loop rest e it2 l1 h9
      refine ⟨?_, ?_, ?_, it1, ?_, ?_⟩
      · simp [Atoms_iterator_from_model.equal, Atoms_iterator_from_model.past_the_end, h2,
          Chains_iterator_from_model.equal, Map_iterator.equal, bind, Except.bind, pure,
          Except.pure]
      · simp [Atoms_iterator_from_model.is_end, h1, h2,
          Chains_iterator_from_model.equal, Map_iterator.equal, pure, Except.pure]
      · rw [h5.1]
        exact h7
      · rw [← h10]
        simp [Atoms_iterator_from_model.increment, h8, bind, Except.bind, pure, Except.pure,
          Atoms_iterator_from_model.make_valid, h2, h1, h4]
      · rw [h5.2]
        exact h11

theorem model_visited_atoms (m : Molecular_model) (fuel : Nat) (hf : m.atoms.length < fuel) :
    m.visited_atoms fuel = some (.ok m.atoms) := by
  obtain ⟨it, h1, h2⟩ := model_atoms_begin m
  unfold Molecular_model.visited_atoms
  rw [h1, model_atoms_end]
  simp only
  refine visited_of_yields _ _ _ _ Atoms_iterator_from_model.yields ?_ ?_ m.atoms it fuel h2 hf
  · intro it1 hy
    exact (model_equal_end_nil it1 hy).1
  · intro it1 a l hy
    obtain ⟨h3, -, h4, it2, h5, h6⟩ := model_equal_end_cons it1 a l hy
    exact ⟨h3, h4, it2, by rw [h5], h6⟩

/-! ## The order of the chains and of the residues -/

theorem map_assign_keys {κ ν : Type} (lt : κ → κ → Bool) (k : κ) (v : ν) (m : List (κ × ν)) :
    (map_assign lt k v m).map Prod.fst = m.map Prod.fst := by
  induction m with
  | nil => rfl
  | cons e1 rest ih =>
    obtain ⟨k1, v1⟩ := e1
    cases c1 : lt k1 k <;> cases c2 : lt k k1 <;>
      simp [map_assign, c1, c2, ih]

theorem keys_ascending_iff {κ ν : Type} (lt : κ → κ → Bool) (c : List (κ × ν)) :
    keys_ascending lt c ↔ (c.map Prod.fst).Pairwise fun a b => lt a b = true := by
  unfold keys_ascending
  rw [List.pairwise_map]

theorem keys_ascending_assign {κ ν : Type} (lt : κ → κ → Bool) (k : κ) (v : ν)
    (c : List (κ × ν)) (h : keys_ascending lt c) : keys_ascending lt (map_assign lt k v c) := by
  rw [keys_ascending_iff, map_assign_keys, ← keys_ascending_iff]
  exact h

theorem pair_lt_trans (a b c : Int × Char) (h1 : pair_lt a b = true) (h2 : pair_lt b c = true) :
    pair_lt a c = true := by
  simp only [pair_lt, int_lt, char_lt, Bool.or_eq_true, Bool.and_eq_true, Bool.not_eq_true',
    decide_eq_true_eq, decide_eq_false_iff_not] at h1 h2 ⊢
  omega

theorem keys_ascending_insert_char {ν : Type} (k : Char) (v : ν) (c : List (Char × ν))
    (h : keys_ascending char_lt c) : keys_ascending char_lt (map_insert char_lt k v c) :=
  map_insert_pairwise char_lt char_lt_trans k v c h

theorem keys_ascending_insert_pair {ν : Type} (k : Int × Char) (v : ν)
    (c : List ((Int × Char) × ν)) (h : keys_ascending pair_lt c) :
    keys_ascending pair_lt (map_insert pair_lt k v c) :=
  map_insert_pairwise pair_lt pair_lt_trans k v c h

theorem mem_of_map_find_key {κ ν : Type} (lt : κ → κ → Bool) (k : κ) (v : ν) (m : List (κ × ν))
    (h : map_find lt k m = some v) : ∃ e ∈ m, e.2 = v := by
  obtain ⟨k1, h1⟩ := mem_of_map_find lt k v m h
  exact ⟨(k1, v), h1, rfl⟩

theorem get_or_create_chain_by_id_ordered (m : Molecular_model) (id : Char)
    (h : m.is_ordered) : (m.get_or_create_chain_by_id id).1.is_ordered := by
  unfold Molecular_model.get_or_create_chain_by_id
  split
  · exact h
  · refine ⟨keys_ascending_insert_char _ _ _ h.1, fun e he => ?_⟩
    rcases mem_map_insert _ _ _ _ _ he with h1 | h1
    · rw [h1]
      exact List.Pairwise.nil
    · exact h.2 e h1

theorem get_or_create_residue_by_name_ordered (c : Molecular_chain) (resname : List Char)
    (ressn : Int) (insc : Char) (h : keys_ascending pair_lt c.residue_container) :
    keys_ascending pair_lt (c.get_or_create_residue_by_name resname ressn insc).1.residue_container := by
  unfold Molecular_chain.get_or_create_residue_by_name
  split
  · exact h
  · exact keys_ascending_insert_pair _ _ _ h

theorem get_or_create_chain_ordered (m m1 : Molecular_model) (lf : Line_format) (line : Line)
    (ch : Char) (c : Molecular_chain) (h : m.is_ordered)
    (hc : m.get_or_create_chain lf line = .ok (m1, ch, c)) :
    m1.is_ordered ∧ keys_ascending pair_lt c.residue_container := by
  unfold Molecular_model.get_or_create_chain at hc
  obtain ⟨ch1, -, hc⟩ := (except_bind_eq_ok _ _ _).1 hc
  split at hc
  · rename_i c1 hfind
    simp only [pure, Except.pure, Except.ok.injEq, Prod.mk.injEq] at hc
    obtain ⟨e, he, he2⟩ := mem_of_map_find_key _ _ _ _ hfind
    rw [← hc.1, ← hc.2.2, ← he2]
    exact ⟨h, h.2 e he⟩
  · obtain ⟨id, -, hc⟩ := (except_bind_eq_ok _ _ _).1 hc
    simp only [pure, Except.pure, Except.ok.injEq, Prod.mk.injEq] at hc
    rw [← hc.1, ← hc.2.2]
    refine ⟨⟨keys_ascending_insert_char _ _ _ h.1, fun e he => ?_⟩, List.Pairwise.nil⟩
    rcases mem_map_insert _ _ _ _ _ he with h1 | h1
    · rw [h1]
      exact List.Pairwise.nil
    · exact h.2 e h1

theorem get_or_create_residue_ordered (c c1 : Molecular_chain) (lf : Line_format) (line : Line)
    (rk : Int × Char) (r : Molecular_residue) (h : keys_ascending pair_lt c.residue_container)
    (hc : c.get_or_create_residue lf line = .ok (c1, rk, r)) :
    keys_ascending pair_lt c1.residue_container := by
  unfold Molecular_chain.get_or_create_residue at hc
  obtain ⟨ressn, -, hc⟩ := (except_bind_eq_ok _ _ _).1 hc
  obtain ⟨insc, -, hc⟩ := (except_bind_eq_ok _ _ _).1 hc
  split at hc
  · simp only [pure, Except.pure, Except.ok.injEq, Prod.mk.injEq] at hc
    rw [← hc.1]
    exact h
  · obtain ⟨r1, -, hc⟩ := (except_bind_eq_ok _ _ _).1 hc
    simp only [pure, Except.pure, Except.ok.injEq, Prod.mk.injEq] at hc
    rw [← hc.1]
    exact keys_ascending_insert_pair _ _ _ h

theorem interpret_line_ordered (s s1 : Molecular_system) (lf : Line_format) (line : Line)
    (current_model : Int) (h : ∀ e ∈ s.model_container, e.2.is_ordered)
    (hs : s.interpret_line lf line current_model = .ok s1) :
    ∀ e ∈ s1.model_container, e.2.is_ordered := by
  unfold Molecular_system.interpret_line at hs
  have hm : (∀ e ∈ (s.get_or_create_model current_model).1.model_container, e.2.is_ordered) ∧
      (s.get_or_create_model current_model).2.is_ordered := by
    unfold Molecular_system.get_or_create_model
    split
    · rename_i m hfind
      obtain ⟨e, he, he2⟩ := mem_of_map_find_key _ _ _ _ hfind
      exact ⟨h, he2 ▸ h e he⟩
    · refine ⟨fun e he => ?_, ⟨List.Pairwise.nil, fun e he => by cases he⟩⟩
      rcases mem_map_insert _ _ _ _ _ he with h1 | h1
      · rw [h1]
        exact ⟨List.Pairwise.nil, fun e he => by cases he⟩
      · exact h e h1
  generalize s.get_or_create_model current_model = sm at hs hm
  obtain ⟨s0, model⟩ := sm
  simp only at hs hm
  obtain ⟨⟨model1, ch, chain⟩, h1, hs⟩ := (except_bind_eq_ok _ _ _).1 hs
  obtain ⟨⟨chain1, rk, residue⟩, h2, hs⟩ := (except_bind_eq_ok _ _ _).1 hs
  obtain ⟨residue1, -, hs⟩ := (except_bind_eq_ok _ _ _).1 hs
  simp only [pure, Except.pure, Except.ok.injEq] at hs
  obtain ⟨hm1, hch⟩ := get_or_create_chain_ordered model model1 lf line ch chain hm.2 h1
  have hch1 := get_or_create_residue_ordered chain chain1 lf line rk residue hch h2
  rw [← hs]
  intro e he
  rcases mem_map_assign _ _ _ _ _ he with h3 | h3
  · rw [h3]
    refine ⟨keys_ascending_assign _ _ _ _ hm1.1, fun e1 he1 => ?_⟩
    rcases mem_map_assign _ _ _ _ _ he1 with h4 | h4
    · rw [h4]
      exact keys_ascending_assign _ _ _ _ hch1
    · exact hm1.2 e1 h4
  · exact hm.1 e h3

/-- C27: for every model, the loop from `atoms_begin()` to `atoms_end()`, given fuel for
one turn more than there are atoms, ends without a stop (no end iterator is
dereferenced, incremented or compared when singular) and visits exactly the atoms of the
model, which are the atoms of its residues, residue after residue within a chain and
chain after chain, in the order of the containers, whichever chains have no residue and
whichever residues have no atom. The containers are in ascending order of their keys: a
new model is ordered, and the members that create a chain or a residue, and
`interpret_line` on a system, keep the chains in ascending order of identifier and the
residues of each chain in ascending order of (sequence number, insertion code). -/
theorem atoms_iterator_from_model_visits (m : Molecular_model) :
    (∀ fuel, m.atoms.length < fuel → m.visited_atoms fuel = some (.ok m.atoms)) ∧
    m.atoms = m.chain_container.flatMap (fun c =>
      c.2.residue_container.flatMap fun r => r.2.atom_container.map Prod.snd) ∧
    (∀ nbm, (Molecular_model.new nbm).is_ordered) ∧
    (m.is_ordered → ∀ id, (m.get_or_create_chain_by_id id).1.is_ordered) ∧
    (∀ (c : Molecular_chain) (resname : List Char) (ressn : Int) (insc : Char),
      keys_ascending pair_lt c.residue_container →
      keys_ascending pair_lt
        (c.get_or_create_residue_by_name resname ressn insc).1.residue_container) ∧
    (∀ (s s1 : Molecular_system) (lf : Line_format) (line : Line) (current_model : Int),
      (∀ e ∈ s.model_container, e.2.is_ordered) →
      s.interpret_line lf line current_model = .ok s1 →
      ∀ e ∈ s1.model_container, e.2.is_ordered) :=
  ⟨fun fuel hf => model_visited_atoms m fuel hf, rfl,
   fun _ => ⟨List.Pairwise.nil, fun e he => by cases he⟩,
   fun h id => get_or_create_chain_by_id_ordered m id h,
   fun c resname ressn insc h => get_or_create_residue_by_name_ordered c resname ressn insc h,
   fun s s1 lf line cm h hs => interpret_line_ordered s s1 lf line cm h hs⟩

/-! ## The selected iterator -/

theorem selected_increment (p : Molecular_atom → Bool) (l0 : List Molecular_atom) :
    ∀ (a : Molecular_atom) (it : Atoms_iterator_from_model) (fuel : Nat),
    it.yields (a :: l0) → l0.length < fuel →
    ∃ it1 l1, Selected_atom_iterator.increment fuel { atom_iterator := it, keep := p }
        = some (.ok { atom_iterator := it1, keep := p }) ∧
      it1.yields l1 ∧ l1.length ≤ l0.length ∧ (∀ b l2, l1 = b :: l2 → p b = true) ∧
      l1.filter p = l0.filter p := by
  induction l0 with
  | nil =>
    intro a it fuel hy hf
    cases fuel with
    | zero => simp at hf
    | succ n =>
      obtain ⟨-, -, -, it1, h1, h2⟩ := model_equal_end_cons it a [] hy
      refine ⟨it1, [], ?_, h2, le_refl _, (fun b l2 h => by cases h), rfl⟩
      simp only [Selected_atom_iterator.increment, h1, (model_equal_end_nil it1 h2).2]
  | cons b l0 ih =>
    intro a it fuel hy hf
    cases fuel with
    | zero => simp at hf
    | succ n =>
      obtain ⟨-, -, -, it1, h1, h2⟩ := model_equal_end_cons it a (b :: l0) hy
      obtain ⟨-, h3, h4, -⟩ := model_equal_end_cons it1 b l0 h2
      cases hp : p b
      · obtain ⟨it2, l1, h5, h6, h7, h8, h9⟩ := ih b it1 n h2 (by simpa using hf)
        refine ⟨it2, l1, ?_, h6, Nat.le_succ_of_le h7, h8, ?_⟩
        · simp only [Selected_atom_iterator.increment, h1, h3, h4, hp, Bool.not_false, if_true]
          exact h5
        · rw [h9]
          simp [List.filter_cons, hp]
      · refine ⟨it1, b :: l0, ?_, h2, le_refl _, fun b1 l2 h => ?_, rfl⟩
        · simp only [Selected_atom_iterator.increment, h1, h3, h4, hp, Bool.not_true,
            Bool.false_eq_true, if_false]
        · simp only [List.cons.injEq] at h
          rw [← h.1]
          exact hp

theorem selected_new (p : Molecular_atom → Bool) (l0 : List Molecular_atom)
    (it : Atoms_iterator_from_model) (fuel : Nat) (hy : it.yields l0) (hf : l0.length ≤ fuel) :
    ∃ it1 l1, make_selected_atom_iterator fuel it p
        = some (.ok { atom_iterator := it1, keep := p }) ∧
      it1.yields l1 ∧ l1.length ≤ l0.length ∧ (∀ b l2, l1 = b :: l2 → p b = true) ∧
      l1.filter p = l0.filter p := by
  unfold make_selected_atom_iterator
  cases l0 with
  | nil =>
    refine ⟨it, [], ?_, hy, le_refl _, (fun b l2 h => by cases h), rfl⟩
    simp only [Selected_atom_iterator.new, (model_equal_end_nil it hy).2]
  | cons a l0 =>
    obtain ⟨-, h3, h4, -⟩ := model_equal_end_cons it a l0 hy
    cases hp : p a
    · obtain ⟨it2, l1, h5, h6, h7, h8, h9⟩ := selected_increment p l0 a it fuel hy
        (by simpa using hf)
      refine ⟨it2, l1, ?_, h6, ?_, h8, ?_⟩
      · simp only [Selected_atom_iterator.new, h3, h4, hp, Bool.not_false, if_true]
        exact h5
      · simp only [List.length_cons]
        omega
      · rw [h9]
        simp [List.filter_cons, hp]
    · refine ⟨it, a :: l0, ?_, hy, le_refl _, fun b1 l2 h => ?_, rfl⟩
      · simp only [Selected_atom_iterator.new, h3, h4, hp, Bool.not_true, Bool.false_eq_true,
          if_false]
      · simp only [List.cons.injEq] at h
        rw [← h.1]
        exact hp

/-- C29: for every model and every selection `p` of atoms, the loop from the selected
iterator made from `atoms_begin()` to the one made from `atoms_end()`, given fuel for
one turn more than there are atoms in the model, ends without a stop and visits exactly
the atoms of the model that satisfy `p`, in the order of the model; this covers the
models where no atom satisfies `p` and those whose last atom does not. -/
theorem selected_atom_iterator_visits (m : Molecular_model) (p : Molecular_atom → Bool) :
    ∀ fuel, m.atoms.length < fuel →
      m.visited_selected_atoms fuel p = some (.ok (m.atoms.filter p)) := by
  intro fuel hf
  obtain ⟨it, h1, h2⟩ := model_atoms_begin m
  obtain ⟨it1, l1, h3, h4, h5, h6, h7⟩ := selected_new p m.atoms it fuel h2 (le_of_lt hf)
  have hlast : make_selected_atom_iterator fuel Atoms_iterator_from_model.past_the_end p
      = some (.ok { atom_iterator := Atoms_iterator_from_model.past_the_end, keep := p }) := by
    simp only [make_selected_atom_iterator, Selected_atom_iterator.new]
    rfl
  unfold Molecular_model.visited_selected_atoms
  rw [h1, model_atoms_end]
  simp only [h3, hlast]
  rw [← h7]
  refine visited_of_yields _ _ _ _
    (fun sit l => sit.keep = p ∧ ∃ l0, sit.atom_iterator.yields l0 ∧ l0.length < fuel ∧
      (∀ b l2, l0 = b :: l2 → p b = true) ∧ l = l0.filter p)
    ?_ ?_ (l1.filter p) _ fuel ⟨rfl, l1, h4, lt_of_le_of_lt h5 hf, h6, rfl⟩ ?_
  · rintro sit ⟨-, l0, hy, -, hhead, hl⟩
    cases l0 with
    | nil => exact (model_equal_end_nil _ hy).1
    | cons b l2 => simp [List.filter_cons, hhead b l2 rfl] at hl
  · rintro sit a l ⟨hk, l0, hy, hlen, hhead, hl⟩
    cases l0 with
    | nil => simp at hl
    | cons b l2 =>
      have hb := hhead b l2 rfl
      simp only [List.filter_cons, hb, if_true, List.cons.injEq] at hl
      obtain ⟨h8, -, h9, -⟩ := model_equal_end_cons _ b l2 hy
      obtain ⟨it2, l3, h10, h11, h12, h13, h14⟩ := selected_increment p l2 b sit.atom_iterator
        fuel hy (by simpa using Nat.lt_of_succ_lt hlen)
      refine ⟨h8, by rw [hl.1]; exact h9, { atom_iterator := it2, keep := p }, ?_, rfl, l3, h11,
        ?_, h13, by rw [hl.2, h14]⟩
      · rw [← h10]
        cases sit
        simp only at hk
        rw [hk]
      · simp only [List.length_cons] at hlen
        omega
  · exact lt_of_le_of_lt (List.length_filter_le _ _) (lt_of_le_of_lt h5 hf)

theorem selected_atom_iterator_visits_witness :
    model_with_empty_parts.atoms.length < 6 ∧
    model_with_empty_parts.visited_selected_atoms 6 select_CA
      = some (.ok (model_with_empty_parts.atoms.filter select_CA)) :=
  ⟨by decide!, selected_atom_iterator_visits model_with_empty_parts select_CA 6 (by decide!)⟩

/-! ## The iterator over the residues of a model -/

theorem residues_increment_loop (rest : List (Char × Molecular_chain)) :
    ∀ (e : Char × Molecular_chain) (res_it res_end : Residues_iterator_from_chain),
    ∃ it, Residues_iterator_from_model.increment_loop { chain_it := .position [] } (e :: rest)
        res_it res_end = .ok it ∧
      it.yields (rest.flatMap fun e1 => e1.2.residue_container.map Prod.snd) := by
  induction rest with
  | nil =>
    intro e res_it res_end
    refine ⟨{ chain_it := { chain_it := .position [] },
              chain_end := { chain_it := .position [] }, res_it := res_it,
              res_end := res_end }, ?_, rfl, Or.inl ⟨rfl, rfl⟩⟩
    simp [Residues_iterator_from_model.increment_loop, Chains_iterator_from_model.equal,
      Map_iterator.equal, bind, Except.bind, pure, Except.pure]
  | cons e1 rest ih =>
    intro e res_it res_end
    cases hc : e1.2.residue_container with
    | nil =>
      obtain ⟨it, h1, h2⟩ := ih e1 e1.2.residues_begin e1.2.residues_end
      refine ⟨it, ?_, ?_⟩
      · rw [← h1]
        simp [Residues_iterator_from_model.increment_loop, Chains_iterator_from_model.equal,
          Chains_iterator_from_model.dereference, Residues_iterator_from_chain.equal,
          Map_iterator.equal, Map_iterator.dereference, bind, Except.bind, pure, Except.pure,
          Molecular_chain.residues_begin, Molecular_chain.residues_end, map_begin, map_end, hc]
      · simpa [hc] using h2
    | cons r entries =>
      refine ⟨{ chain_it := { chain_it := .position (e1 :: rest) },
                chain_end := { chain_it := .position [] },
                res_it := { res_it := .position (r :: entries) },
                res_end := { res_it := .position [] } },
        ?_, rfl, Or.inr ⟨e1, rest, r :: entries, rfl, by simp, rfl, rfl, by simp [hc]⟩⟩
      simp [Residues_iterator_from_model.increment_loop, Chains_iterator_from_model.equal,
        Chains_iterator_from_model.dereference, Residues_iterator_from_chain.equal,
        Map_iterator.equal, Map_iterator.dereference, bind, Except.bind, pure, Except.pure,
        Molecular_chain.residues_begin, Molecular_chain.residues_end, map_begin, map_end, hc]

theorem model_residues_end (m : Molecular_model) :
    m.residues_end = .ok Residues_iterator_from_model.past_the_end := by
  simp [Molecular_model.residues_end, Residues_iterator_from_model.new,
    Molecular_model.chains_end, map_end, Chains_iterator_from_model.equal, Map_iterator.equal,
    bind, Except.bind, pure, Except.pure, Residues_iterator_from_model.past_the_end]

theorem model_residues_begin (m : Molecular_model)
    (h : ∀ e rest, m.chain_container = e :: rest → e.2.residue_container ≠ []) :
    ∃ it, m.residues_begin = .ok it ∧ it.yields m.residues := by
  unfold Molecular_model.residues_begin Residues_iterator_from_model.new
  cases hc : m.chain_container with
  | nil =>
    refine ⟨Residues_iterator_from_model.past_the_end, ?_, rfl,
      Or.inl ⟨rfl, by simp [Molecular_model.residues, hc]⟩⟩
    simp [Molecular_model.chains_begin, Molecular_model.chains_end, map_begin, map_end, hc,
      Chains_iterator_from_model.equal, Map_iterator.equal, bind, Except.bind, pure,
      Except.pure, Residues_iterator_from_model.past_the_end]
  | cons e rest =>
    have hne := h e rest hc
    refine ⟨{ chain_it := { chain_it := .position (e :: rest) },
              chain_end := { chain_it := .position [] },
              res_it := { res_it := .position e.2.residue_container },
              res_end := { res_it := .position [] } },
      ?_, rfl, Or.inr ⟨e, rest, e.2.residue_container, rfl, hne, rfl, rfl,
        by simp [Molecular_model.residues, hc]⟩⟩
    simp [Molecular_model.chains_begin, Molecular_model.chains_end, map_begin, map_end, hc,
      Chains_iterator_from_model.equal, Chains_iterator_from_model.dereference,
      Map_iterator.equal, Map_iterator.dereference, bind, Except.bind, pure, Except.pure,
      Molecular_chain.residues_begin, Molecular_chain.residues_end]

theorem residues_equal_end_nil (it : Residues_iterator_from_model) (h : it.yields []) :
    it.equal Residues_iterator_from_model.past_the_end = .ok true := by
  obtain ⟨h1, h2 | ⟨e, rest, entries, -, hne, -, -, h3⟩⟩ := h
  · simp [Residues_iterator_from_model.equal, Residues_iterator_from_model.past_the_end, h1,
      h2.1, Chains_iterator_from_model.equal, Map_iterator.equal, bind, Except.bind, pure,
      Except.pure]
  · cases entries with
    | nil => exact absurd rfl hne
    | cons a entries => simp at h3

theorem residues_equal_end_cons (it : Residues_iterator_from_model) (r : Molecular_residue)
    (l : List Molecular_residue) (h : it.yields (r :: l)) :
    it.equal Residues_iterator_from_model.past_the_end = .ok false ∧
    it.dereference = .ok r ∧ ∃ it1, it.increment = .ok it1 ∧ it1.yields l := by
  obtain ⟨h1, h2 | ⟨e, rest, entries, h2, hne, h3, h4, h5⟩⟩ := h
  · simp at h2
  · cases entries with
    | nil => exact absurd rfl hne
    | cons r1 entries =>
      simp only [List.map_cons, List.cons_append, List.cons.injEq] at h5
      refine ⟨?_, ?_, ?_⟩
      · simp [Residues_iterator_from_model.equal, Residues_iterator_from_model.past_the_end, h2,
          Chains_iterator_from_model.equal, Map_iterator.equal, bind, Except.bind, pure,
          Except.pure]
      · simp [Residues_iterator_from_model.dereference, Residues_iterator_from_chain.dereference,
          h3, Map_iterator.dereference, bind, Except.bind, pure, Except.pure, h5.1]
      · cases entries with
        | nil =>
          obtain ⟨it1, h6, h7⟩ := residues_increment_loop rest e { res_it := .position [] }
            { res_it := .position [] }
          refine ⟨it1, ?_, ?_⟩
          · rw [← h6]
            simp [Residues_iterator_from_model.increment, Residues_iterator_from_chain.increment,
              Residues_iterator_from_chain.equal, h3, h4, h2, h1, Map_iterator.increment,
              Map_iterator.equal, bind, Except.bind, pure, Except.pure]
          · rw [h5.2]
            simpa using h7
        | cons r2 entries =>
          refine ⟨{ it with res_it := { res_it := .position (r2 :: entries) } }, ?_, h1,
            Or.inr ⟨e, rest, r2 :: entries, h2, by simp, rfl, h4, h5.2⟩⟩
          simp [Residues_iterator_from_model.increment, Residues_iterator_from_chain.increment,
            Residues_iterator_from_chain.equal, h3, h4, Map_iterator.increment,
            Map_iterator.equal, bind, Except.bind, pure, Except.pure]

theorem model_visited_residues (m : Molecular_model) (fuel : Nat)
    (h : ∀ e rest, m.chain_container = e :: rest → e.2.residue_container ≠ [])
    (hf : m.residues.length < fuel) : m.visited_residues fuel = some (.ok m.residues) := by
  obtain ⟨it, h1, h2⟩ := model_residues_begin m h
  unfold Molecular_model.visited_residues
  rw [h1, model_residues_end]
  simp only
  refine visited_of_yields _ _ _ _ Residues_iterator_from_model.yields ?_ ?_ m.residues it fuel
    h2 hf
  · intro it1 hy
    exact residues_equal_end_nil it1 hy
  · intro it1 a l hy
    obtain ⟨h3, h4, it2, h5, h6⟩ := residues_equal_end_cons it1 a l hy
    exact ⟨h3, h4, it2, by rw [h5], h6⟩

theorem model_visited_residues_stop (m : Molecular_model) (e : Char × Molecular_chain)
    (rest : List (Char × Molecular_chain)) (hc : m.chain_container = e :: rest)
    (he : e.2.residue_container = []) (fuel : Nat) :
    m.visited_residues (fuel + 1) = some (.error Fatal.out_of_range) := by
  have hb : m.residues_begin = .ok
      { chain_it := { chain_it := .position (e :: rest) },
        chain_end := { chain_it := .position [] },
        res_it := { res_it := .position [] }, res_end := { res_it := .position [] } } := by
    simp [Molecular_model.residues_begin, Residues_iterator_from_model.new,
      Molecular_model.chains_begin, Molecular_model.chains_end, map_begin, map_end, hc,
      Chains_iterator_from_model.equal, Chains_iterator_from_model.dereference,
      Map_iterator.equal, Map_iterator.dereference, bind, Except.bind, pure, Except.pure,
      Molecular_chain.residues_begin, Molecular_chain.residues_end, he]
  unfold Molecular_model.visited_residues
  rw [hb, model_residues_end]
  simp [visited, Residues_iterator_from_model.equal, Residues_iterator_from_model.past_the_end,
    Residues_iterator_from_model.dereference, Residues_iterator_from_chain.dereference,
    Chains_iterator_from_model.equal, Map_iterator.equal, Map_iterator.dereference, bind,
    Except.bind, pure, Except.pure, throw, throwThe, MonadExceptOf.throw]

/-- C28: on a model whose first chain has no residue, the loop from `residues_begin()` to
`residues_end()` dereferences the end of the residues of that chain in its first turn,
whatever the fuel and whatever the later chains: so on the model that
`get_or_create_chain('A')` makes from a new model, where no residue is to be visited, and
on a model whose second chain has a residue, which is not reached. The constructor of
`Residues_iterator_from_model` takes the residues of the first chain without the skip of
chains without a residue that `increment` makes: on every model that has no chain or
whose first chain has a residue, the loop, given fuel for one turn more than there are
residues, ends without a stop and visits the residues of the chains, chain after chain,
whichever later chains have no residue. -/
theorem residues_iterator_from_model_on_empty_first_chain :
    (∀ (m : Molecular_model) (e : Char × Molecular_chain) (rest : List (Char × Molecular_chain)),
      m.chain_container = e :: rest → e.2.residue_container = [] →
      ∀ fuel, m.visited_residues (fuel + 1) = some (.error Fatal.out_of_range)) ∧
    (∀ fuel, model_only_empty_A.visited_residues (fuel + 1)
      = some (.error Fatal.out_of_range)) ∧
    model_only_empty_A.residues = [] ∧
    (∀ fuel, model_empty_A_then_B.visited_residues (fuel + 1)
      = some (.error Fatal.out_of_range)) ∧
    model_empty_A_then_B.residues = [residue_ALA_with_42] ∧
    (∀ (m : Molecular_model) (fuel : Nat),
      (∀ e rest, m.chain_container = e :: rest → e.2.residue_container ≠ []) →
      m.residues.length < fuel → m.visited_residues fuel = some (.ok m.residues)) ∧
    model_A_empty_B_C.visited_residues 3 = some (.ok model_A_empty_B_C.residues) :=
  ⟨fun m e rest hc he fuel => model_visited_residues_stop m e rest hc he fuel,
   fun _ => rfl, rfl, fun _ => rfl, rfl,
   fun m fuel h hf => model_visited_residues m fuel h hf, by decide!⟩

/-! ## The charge that stands for no charge -/

theorem trim_eq_rdropWhile (s : List Char) :
    trim s = (s.dropWhile is_space).rdropWhile is_space := rfl

theorem trim_head_not_space (s : List Char) (c : Char) (t : List Char) (h : trim s = c :: t) :
    is_space c = false := by
  rw [trim_eq_rdropWhile] at h
  have hp : (c :: t) <+: s.dropWhile is_space := by
    rw [← h]
    exact List.rdropWhile_prefix _ _
  obtain ⟨u, hu⟩ := hp
  have hne : s.dropWhile is_space ≠ [] := by
    rw [← hu]
    simp
  have hh := List.head_dropWhile_not is_space s hne
  have hc : (s.dropWhile is_space).head hne = c := by
    simp only [← hu, List.cons_append, List.head_cons]
  rw [hc] at hh
  exact hh

theorem trim_ne_nil_of_not_space (s : List Char) (h : ∃ c ∈ s, is_space c = false) :
    trim s ≠ [] := by
  intro ht
  rw [trim_eq_rdropWhile, List.rdropWhile_eq_nil_iff] at ht
  obtain ⟨c, hc, hs⟩ := h
  by_cases hne : s.dropWhile is_space = []
  · rw [List.dropWhile_eq_nil_iff] at hne
    rw [hne c hc] at hs
    cases hs
  · have hh := List.head_dropWhile_not is_space s hne
    rw [ht _ (List.head_mem hne)] at hh
    cases hh

theorem lexical_cast_int_single (c : Char) (v : Int) (h : lexical_cast_int [c] = some v) :
    0 ≤ v ∧ v ≤ 9 := by
  by_cases hm : c = '-'
  · subst hm
    simp [lexical_cast_int, parse_digits] at h
  · by_cases hp : c = '+'
    · subst hp
      simp [lexical_cast_int, parse_digits] at h
    · have e : lexical_cast_int [c]
          = (parse_digits [c]).bind fun n => if n < 2147483648 then some (n : Int) else none := by
        unfold lexical_cast_int
        split
        · rename_i r heq
          simp only [List.cons.injEq] at heq
          exact absurd heq.1 hm
        · rename_i r heq
          simp only [List.cons.injEq] at heq
          exact absurd heq.1 hp
        · rfl
      rw [e] at h
      simp only [parse_digits, List.cons_ne_nil, if_false, digits_value] at h
      cases hd : digit_value c with
      | none => simp [hd] at h
      | some d =>
        have hlt := digit_value_lt c d hd
        simp only [hd, Nat.mul_zero, Nat.zero_add, Option.some_bind] at h
        split at h
        · simp only [Option.some.injEq] at h
          omega
        · cases h

/-- C38: on every line on which `get_charge` returns, the value returned is NO_CHARGE,
which is 66, exactly when the columns 78-79 hold no character of the line or only
whitespace; and a value returned when they hold a character that is not whitespace lies
between -9 and 9. -/
theorem get_charge_NO_CHARGE_iff_blank (lf : Line_format) (line : Line) (v : Int)
    (h : lf.get_charge line = .ok v) :
    (v = NO_CHARGE ↔ ∀ c ∈ columns line 78 79, is_space c = true) ∧
    ((∃ c ∈ columns line 78 79, is_space c = false) → -9 ≤ v ∧ v ≤ 9) ∧ NO_CHARGE = 66 := by
  have key : (∃ c ∈ columns line 78 79, is_space c = false) → -9 ≤ v ∧ v ≤ 9 := by
    intro hex
    have hlen : 79 ≤ line.length := by
      obtain ⟨c, hc, -⟩ := hex
      by_contra hlt
      have : line.drop 78 = [] := List.drop_eq_nil_of_le (by omega)
      simp [columns, this] at hc
    have hstr := get_charge_str_of_columns lf line _ hlen rfl
    have hne : trim ((line.drop 78).take 2) ≠ [] := trim_ne_nil_of_not_space _ hex
    have hl : ¬ (trim ((line.drop 78).take 2)).length = 0 := by simpa using hne
    rw [if_neg hl] at hstr
    cases ht : trim ((line.drop 78).take 2) with
    | nil => exact absurd ht hne
    | cons c0 t =>
      have hc0 := trim_head_not_space _ c0 t ht
      have hns : c0 :: t ≠ [' '] := by
        intro heq
        simp only [List.cons.injEq] at heq
        rw [heq.1] at hc0
        revert hc0
        decide
      rw [ht] at hstr
      simp only [Line_format.get_charge, hstr, if_neg hns, List.getD_cons_zero] at h
      split at h
      · cases h
      · rename_i ch hsign
        split at h
        · rename_i d hd
          simp only [Except.ok.injEq] at h
          have hr := lexical_cast_int_single c0 d hd
          have hch : ch = 1 ∨ ch = -1 := by
            split at hsign
            · split at hsign
              · simp only [Except.ok.injEq] at hsign
                exact Or.inr hsign.symm
              · split at hsign
                · cases hsign
                · simp only [Except.ok.injEq] at hsign
                  exact Or.inl hsign.symm
            · simp only [Except.ok.injEq] at hsign
              exact Or.inl hsign.symm
          rcases hch with h1 | h1 <;> rw [h1] at h <;> omega
        · cases h
  refine ⟨⟨fun hv => ?_, fun hall => ?_⟩, key, rfl⟩
  · intro c hc
    by_contra hs
    have hs1 : is_space c = false := by simpa using hs
    have := key ⟨c, hc, hs1⟩
    rw [hv] at this
    simp [NO_CHARGE] at this
  · have hw : field_width 78 79 = 79 + 1 - 78 := by decide
    have hstr : lf.get_charge_str line = .ok [' '] := by
      have := RECOVER_FIELD_blank lexical_cast_string false "charge_str" 78 79 [' '] line
        (by omega) hw hall
      simpa using this
    simp only [Line_format.get_charge, hstr, if_true, Except.ok.injEq] at h
    exact h.symm

theorem get_charge_NO_CHARGE_iff_blank_witness :
    (Line_format.new line_CA_42_then_2).get_charge line_CA_42_then_2 = .ok 2 ∧
    ((∃ c ∈ columns line_CA_42_then_2 78 79, is_space c = false) →
      (-9 : Int) ≤ 2 ∧ (2 : Int) ≤ 9) :=
  ⟨by decide,
   (get_charge_NO_CHARGE_iff_blank (Line_format.new line_CA_42_then_2) line_CA_42_then_2 2
      (by decide)).2.1⟩

/-! ## A read of one atom -/

/-- C33: the read of the input made of the 78-character line `line_N_1` and of `END`,
with the selector of one system, the policy that accepts every line and a builder made
with `max_nb_systems()` systems on an empty container, returns with one line passed to
the builder and exactly one system; the system holds exactly one model, numbered 1,
which holds exactly one chain, `A`, which holds exactly one residue, ALA of sequence
number 1, which holds exactly one atom: serial number 1, name `N`, element `N`,
occupancy 1. -/
theorem read_stream_of_one_atom :
    line_N_1.length = 78 ∧
    Line_reader.read_stream (PDB_line_selector.keep Accept_all_occupancy_policy)
        (Accept_all_occupancy_policy.finalize All_atom_system_builder.interpret_line)
        All_atom_system_builder.interpret_line All_atom_system_builder.create_systems
        PDB_line_selector.new
        (All_atom_system_builder.new [] (PDB_line_selector.max_nb_systems PDB_line_selector.new))
        [line_N_1, line_END] () ' '
      = .ok ({ discarded := 1 },
             { current_model := 1, systems_ := [system_with_N_1], prebuilt_systems := true,
               max_systems := 1 }, 1) ∧
    system_with_N_1.number_of_models = 1 ∧
    system_with_N_1.model_container.map Prod.fst = [1] ∧
    (∀ m, system_with_N_1.get_model 1 = .ok m →
      m.model_number = 1 ∧ m.number_of_chains = 1 ∧ m.number_of_residues = 1 ∧
      m.number_of_atoms = 1 ∧
      ∀ r, m.get_residue 'A' 1 ' ' = .ok r →
        r.residue_name = "ALA".toList ∧ r.residue_sequence_number = 1 ∧
        ∀ a, r.get_atom 1 = .ok a →
          a.atom_serial_number = 1 ∧ a.atom_name = "N".toList ∧ a.element = "N".toList ∧
          a.occupancy = 1) ∧
    (system_with_N_1.get_model 1).bind (fun m => m.get_atom 'A' 1 ' ' 1) = .ok atom_N_1 := by
  refine ⟨by decide, by decide!, by decide, by decide, ?_, by decide!⟩
  intro m hm
  have h1 : system_with_N_1.get_model 1 = .ok (system_with_N_1.get_or_create_model 1).2 := by
    decide!
  rw [h1] at hm
  simp only [Except.ok.injEq] at hm
  subst hm
  refine ⟨by decide!, by decide!, by decide!, by decide!, ?_⟩
  intro r hr
  have h2 : (system_with_N_1.get_or_create_model 1).2.get_residue 'A' 1 ' '
      = .ok { residue_name := "ALA".toList, residue_sequence_number := 1, insertion_code := ' ',
              atom_container := [(1, atom_N_1)] } := by
    decide!
  rw [h2] at hr
  simp only [Except.ok.injEq] at hr
  subst hr
  refine ⟨by decide, by decide, ?_⟩
  intro a ha
  have h3 : ({ residue_name := "ALA".toList, residue_sequence_number := 1, insertion_code := ' ',
               atom_container := [(1, atom_N_1)] } : Molecular_residue).get_atom 1
      = .ok atom_N_1 := by
    decide!
  rw [h3] at ha
  simp only [Except.ok.injEq] at ha
  subst ha
  exact ⟨by decide, by decide, by decide, by decide!⟩

/-! ## The systems that a call of the builder leaves alone -/

theorem system_interpret_line_index (s s1 : Molecular_system) (lf : Line_format) (line : Line)
    (cm : Int) (h : s.interpret_line lf line cm = .ok s1) :
    s1.index = s.index ∧ s1.name = s.name ∧ s1.alternate_location = s.alternate_location := by
  unfold Molecular_system.interpret_line at h
  have hm : (s.get_or_create_model cm).1.index = s.index ∧
      (s.get_or_create_model cm).1.name = s.name ∧
      (s.get_or_create_model cm).1.alternate_location = s.alternate_location := by
    unfold Molecular_system.get_or_create_model
    split <;> exact ⟨rfl, rfl, rfl⟩
  generalize s.get_or_create_model cm = sm at h hm
  obtain ⟨s0, model⟩ := sm
  simp only at h hm
  obtain ⟨⟨model1, ch, chain⟩, -, h⟩ := (except_bind_eq_ok _ _ _).1 h
  obtain ⟨⟨chain1, rk, residue⟩, -, h⟩ := (except_bind_eq_ok _ _ _).1 h
  obtain ⟨residue1, -, h⟩ := (except_bind_eq_ok _ _ _).1 h
  simp only [pure, Except.pure, Except.ok.injEq] at h
  rw [← h]
  exact hm

theorem builder_new_systems (n : Nat) :
    (All_atom_system_builder.new [] n).systems_
      = (List.range n).map fun i : Nat => Molecular_system.new ((i : Int) + 1) := by
  have h : ∀ l : List Nat, (do let a ← l; pure (a : Int) : List Int)
      = List.map (fun a : Nat => (a : Int)) l := by
    intro l
    induction l with
    | nil => rfl
    | cons a rest ih => simpa using ih
  unfold All_atom_system_builder.new
  simp only [List.nil_append]
  rw [h, List.map_map]
  rfl

/-- What holds of a builder made with `n` systems on an empty container, whatever the
calls it has received: it has its `n` systems, and the system at the position `j` has
the index `j + 1`. -/
theorem builder_positions (n : Nat) (calls : List (Line × Int)) :
    ∀ (b0 b : All_atom_system_builder), b0.prebuilt_systems = true →
      b0.systems_.length = n →
      (∀ (j : Nat) (sys : Molecular_system), b0.systems_[j]? = some sys → sys.index = (j : Int) + 1) →
      b0.interpret_lines calls = .ok b →
      b.prebuilt_systems = true ∧ b.systems_.length = n ∧
      ∀ (j : Nat) (sys : Molecular_system), b.systems_[j]? = some sys → sys.index = (j : Int) + 1 := by
  induction calls with
  | nil =>
    intro b0 b hp hl hi h
    simp only [All_atom_system_builder.interpret_lines, pure, Except.pure, Except.ok.injEq] at h
    rw [← h]
    exact ⟨hp, hl, hi⟩
  | cons c rest ih =>
    intro b0 b hp hl hi h
    obtain ⟨line, k⟩ := c
    simp only [All_atom_system_builder.interpret_lines] at h
    cases h1 : b0.interpret_line (Line_format.new line) line k with
    | error e =>
      rw [h1] at h
      cases h
    | ok b1 =>
      rw [h1] at h
      simp only at h
      refine ih b1 b ?_ ?_ ?_ h
      all_goals
        by_cases hk : k = RMK
        · rw [hk, builder_interpret_line_RMK] at h1
          split at h1
          · split at h1
            · simp only [Except.ok.injEq] at h1
              rw [← h1]
              first | exact hp | exact hl | exact hi
            · cases h1
          · simp only [Except.ok.injEq] at h1
            rw [← h1]
            first | exact hp | exact hl | exact hi
        · obtain ⟨-, systems1, sys, sys1, hs, hk1, hg, hint, -, -⟩ :=
            builder_interpret_line_coordinate b0 b1 _ line k hk h1
          have hs1 : systems1 = b0.systems_ := by
            rcases hs with hs | hs
            · exact hs
            · rw [hp] at hs
              cases hs.1
          rw [hs1] at hg
          have hlt : (k - 1).toNat < b0.systems_.length := (List.get?_eq_some.mp hg).1
          obtain ⟨sys2, hg2, heq⟩ := builder_interpret_line_in_bounds b0 b0.systems_.length
            (Line_format.new line) line k (le_refl _) hk1 (by omega)
          rw [hg] at hg2
          simp only [Option.some.injEq] at hg2
          rw [heq, ← hg2, hint] at h1
          simp only [Except.map, Except.ok.injEq] at h1
          rw [← h1]
          first
            | exact hp
            | (simp only [List.length_set]; exact hl)
            | (intro j sys3 hj
               simp only at hj
               by_cases hjk : (k - 1).toNat = j
               · rw [← hjk, List.getElem?_set_self hlt] at hj
                 simp only [Option.some.injEq] at hj
                 rw [← hj, (system_interpret_line_index sys sys1 _ line _ hint).1, ← hjk]
                 exact hi _ sys (by rw [← List.get?_eq_getElem?]; exact hg)
               · rw [List.getElem?_set_ne hjk] at hj
                 exact hi j sys3 hj)

/-- C34: a builder made on an empty container with `n` systems, after any calls, has its
`n` systems, the one at the position `k - 1` having the index `k`. A call of
`interpret_line` on it with a system index `k` from 1 to `n`, when it returns, leaves
the current model number and every system at another position as they were, and puts
at the position `k - 1` what `interpret_line` of that system gives, whose index is still
`k`. A call with RMK leaves every system as it was, leaves the builder as it was when
the record is not a MODEL record, and else changes the current model number alone. -/
theorem builder_interpret_line_frame (n : Nat) (calls : List (Line × Int))
    (b : All_atom_system_builder) (lf : Line_format) (line : Line)
    (hb : (All_atom_system_builder.new [] n).interpret_lines calls = .ok b) :
    b.systems_.length = n ∧
    (∀ (j : Nat) (sys : Molecular_system), b.systems_[j]? = some sys → sys.index = (j : Int) + 1) ∧
    (∀ (k : Int) (b1 : All_atom_system_builder), 1 ≤ k → k ≤ (n : Int) →
      b.interpret_line lf line k = .ok b1 →
      b1.current_model = b.current_model ∧ b1.systems_.length = n ∧
      (∀ j, j ≠ (k - 1).toNat → b1.systems_[j]? = b.systems_[j]?) ∧
      ∃ sys sys1, b.systems_[(k - 1).toNat]? = some sys ∧ sys.index = k ∧
        sys.interpret_line lf line b.current_model = .ok sys1 ∧
        b1.systems_[(k - 1).toNat]? = some sys1 ∧ sys1.index = k) ∧
    (∀ b1 : All_atom_system_builder, b.interpret_line lf line RMK = .ok b1 →
      b1.systems_ = b.systems_ ∧
      (lf.record_type ≠ Record_type.MODEL → b1 = b) ∧
      (lf.record_type = Record_type.MODEL →
        lf.get_model_number line = .ok b1.current_model ∧
        b1 = { b with current_model := b1.current_model })) := by
  have hnew : (All_atom_system_builder.new [] n).systems_.length = n := by
    rw [builder_new_systems]
    simp
  have hidx : ∀ (j : Nat) (sys : Molecular_system),
      (All_atom_system_builder.new [] n).systems_[j]? = some sys →
      sys.index = (j : Int) + 1 := by
    intro j sys hj
    rw [builder_new_systems, List.getElem?_map] at hj
    cases hr : (List.range n)[j]? with
    | none => simp [hr] at hj
    | some i =>
      have hij : i = j := by
        rw [List.getElem?_range] at hr
        · simpa using hr.symm
        · by_contra hlt
          rw [List.getElem?_eq_none (by simpa using hlt)] at hr
          cases hr
      simp only [hr, Option.map_some', Option.some.injEq] at hj
      rw [← hj, hij]
      rfl
  obtain ⟨-, hl, hi⟩ := builder_positions n calls _ b rfl hnew hidx hb
  refine ⟨hl, hi, ?_, ?_⟩
  · intro k b1 h1 hkn h
    obtain ⟨sys, hg, heq⟩ := builder_interpret_line_in_bounds b n lf line k (le_of_eq hl.symm)
      h1 hkn
    have hlt : (k - 1).toNat < b.systems_.length := (List.get?_eq_some.mp hg).1
    rw [List.get?_eq_getElem?] at hg
    rw [heq] at h
    cases hs : sys.interpret_line lf line b.current_model with
    | error e => simp [hs, Except.map] at h
    | ok sys1 =>
      simp only [hs, Except.map, Except.ok.injEq] at h
      rw [← h]
      have hk : sys.index = k := by
        rw [hi _ sys hg]
        omega
      refine ⟨rfl, by simp [hl], fun j hj => ?_, sys, sys1, hg, hk, hs, ?_, ?_⟩
      · simp only
        rw [List.getElem?_set_ne (Ne.symm hj)]
      · simp only
        rw [List.getElem?_set_self hlt]
      · rw [(system_interpret_line_index sys sys1 lf line _ hs).1]
        exact hk
  · intro b1 h
    rw [builder_interpret_line_RMK] at h
    split at h
    · rename_i hm
      split at h
      · rename_i nm hnm
        simp only [Except.ok.injEq] at h
        rw [← h]
        exact ⟨rfl, fun hne => absurd hm hne, fun _ => ⟨hnm, rfl⟩⟩
      · cases h
    · rename_i hm
      simp only [Except.ok.injEq] at h
      rw [← h]
      exact ⟨rfl, fun _ => rfl, fun h1 => absurd h1 hm⟩

theorem builder_interpret_line_frame_witness :
    (All_atom_system_builder.new [] 2).interpret_lines [(line_MODEL_2, RMK)]
      = .ok { All_atom_system_builder.new [] 2 with current_model := 2 } ∧
    ({ All_atom_system_builder.new [] 2 with current_model := 2 } :
      All_atom_system_builder).systems_.length = 2 ∧
    ∀ b1 : All_atom_system_builder,
      ({ All_atom_system_builder.new [] 2 with current_model := 2 } :
        All_atom_system_builder).interpret_line (Line_format.new line_CA_42) line_CA_42 RMK
        = .ok b1 →
      b1.systems_ = ({ All_atom_system_builder.new [] 2 with current_model := 2 } :
        All_atom_system_builder).systems_ ∧
      ((Line_format.new line_CA_42).record_type ≠ Record_type.MODEL →
        b1 = { All_atom_system_builder.new [] 2 with current_model := 2 }) ∧
      ((Line_format.new line_CA_42).record_type = Record_type.MODEL →
        (Line_format.new line_CA_42).get_model_number line_CA_42 = .ok b1.current_model ∧
        b1 = { ({ All_atom_system_builder.new [] 2 with current_model := 2 } :
                 All_atom_system_builder) with current_model := b1.current_model }) :=
  ⟨by decide,
   (builder_interpret_line_frame 2 [(line_MODEL_2, RMK)] _ (Line_format.new line_CA_42)
      line_CA_42 (by decide)).1,
   (builder_interpret_line_frame 2 [(line_MODEL_2, RMK)] _ (Line_format.new line_CA_42)
      line_CA_42 (by decide)).2.2.2⟩

/-! ## The lines that the selector of one system discards -/

theorem read_line_without_selector {π β : Type} (occ : Occupancy_policy π)
    (interp : β → Line_format → Line → Int → Except Fatal β)
    (st st1 : Reader_state PDB_line_selector π β) (line : Line)
    (h : st.without_selector = st1.without_selector) :
    (Line_reader.read_line (PDB_line_selector.keep occ) interp st line).map
        Reader_state.without_selector
      = (Line_reader.read_line (PDB_line_selector.keep occ) interp st1 line).map
        Reader_state.without_selector := by
  obtain ⟨sel, o, b, d, n⟩ := st
  obtain ⟨sel1, o1, b1, d1, n1⟩ := st1
  simp only [Reader_state.without_selector, Prod.mk.injEq] at h
  obtain ⟨rfl, rfl, rfl, rfl⟩ := h
  unfold Line_reader.read_line
  by_cases he : line.isEmpty = true
  · simp [he, pure, Except.pure, Except.map, Reader_state.without_selector]
  · simp only [he, Bool.false_eq_true, if_false]
    by_cases hrec : (Line_format.new line).record_type = Record_type.ATOM ∨
        (Line_format.new line).record_type = Record_type.HETATM
    · simp only [PDB_line_selector.keep, if_pos hrec, bind, Except.bind]
      cases ha : occ.add_or_postpone o (Line_format.new line) line 1 with
      | error e => rfl
      | ok res =>
        obtain ⟨o2, r⟩ := res
        simp only [pure, Except.pure]
        by_cases hr : r ≠ DISCARD
        · simp only [if_pos hr]
          cases hal : (Line_format.new line).get_alternate_location line with
          | error e => rfl
          | ok al =>
            simp only
            by_cases h1 : al ≠ ' '
            · simp only [if_pos h1]
              by_cases h2 : d = ' '
              · simp only [if_pos h2, Line_reader.pass_line]
                cases hi : interp b (Line_format.new line) line r <;> rfl
              · simp only [if_neg h2]
                by_cases h3 : al ≠ d
                · simp only [if_pos h3]
                  rfl
                · simp only [if_neg h3, Line_reader.pass_line]
                  cases hi : interp b (Line_format.new line) line r <;> rfl
            · simp only [if_neg h1, Line_reader.pass_line]
              cases hi : interp b (Line_format.new line) line r <;> rfl
        · simp only [if_neg hr]
          rfl
    · simp only [PDB_line_selector.keep, if_neg hrec]
      by_cases hm : (Line_format.new line).record_type = Record_type.MODEL
      · simp only [if_pos hm, pure, Except.pure]
        have hr : RMK ≠ DISCARD := by decide
        simp only [if_pos hr]
        cases hal : (Line_format.new line).get_alternate_location line with
        | error e => rfl
        | ok al =>
          simp only
          by_cases h1 : al ≠ ' '
          · simp only [if_pos h1]
            by_cases h2 : d = ' '
            · simp only [if_pos h2, Line_reader.pass_line]
              cases hi : interp b (Line_format.new line) line RMK <;> rfl
            · simp only [if_neg h2]
              by_cases h3 : al ≠ d
              · simp only [if_pos h3]
                rfl
              · simp only [if_neg h3, Line_reader.pass_line]
                cases hi : interp b (Line_format.new line) line RMK <;> rfl
          · simp only [if_neg h1, Line_reader.pass_line]
            cases hi : interp b (Line_format.new line) line RMK <;> rfl
      · simp only [if_neg hm, pure, Except.pure, ne_eq, not_true_eq_false, if_false]
        rfl

theorem read_line_of_other_record {π β : Type} (occ : Occupancy_policy π)
    (interp : β → Line_format → Line → Int → Except Fatal β)
    (st : Reader_state PDB_line_selector π β) (line : Line)
    (h : line.isEmpty = true ∨
      ((Line_format.new line).record_type ≠ Record_type.ATOM ∧
       (Line_format.new line).record_type ≠ Record_type.HETATM ∧
       (Line_format.new line).record_type ≠ Record_type.MODEL)) :
    ∃ st1, Line_reader.read_line (PDB_line_selector.keep occ) interp st line = .ok st1 ∧
      st1.without_selector = st.without_selector := by
  unfold Line_reader.read_line
  by_cases he : line.isEmpty = true
  · exact ⟨st, by simp [he, pure, Except.pure], rfl⟩
  · rcases h with h | ⟨h1, h2, h3⟩
    · exact absurd h he
    · have hrec : ¬ ((Line_format.new line).record_type = Record_type.ATOM ∨
          (Line_format.new line).record_type = Record_type.HETATM) := by
        rintro (h | h)
        · exact h1 h
        · exact h2 h
      simp only [he, Bool.false_eq_true, if_false, PDB_line_selector.keep, if_neg hrec, if_neg h3,
        pure, Except.pure, ne_eq, not_true_eq_false]
      exact ⟨_, rfl, rfl⟩

theorem read_lines_without_other_records {π β : Type} (occ : Occupancy_policy π)
    (interp : β → Line_format → Line → Int → Except Fatal β) (input : List Line) :
    ∀ (st st1 : Reader_state PDB_line_selector π β),
      st.without_selector = st1.without_selector →
      (Line_reader.read_lines (PDB_line_selector.keep occ) interp input st).map
          Reader_state.without_selector
        = (Line_reader.read_lines (PDB_line_selector.keep occ) interp
            (coordinate_and_MODEL_lines input) st1).map Reader_state.without_selector := by
  induction input with
  | nil =>
    intro st st1 h
    simp [coordinate_and_MODEL_lines, Line_reader.read_lines, pure, Except.pure, Except.map, h]
  | cons line rest ih =>
    intro st st1 h
    by_cases hk : (!line.isEmpty &&
        (decide ((Line_format.new line).record_type = Record_type.ATOM) ||
         decide ((Line_format.new line).record_type = Record_type.HETATM) ||
         decide ((Line_format.new line).record_type = Record_type.MODEL))) = true
    · have hf : coordinate_and_MODEL_lines (line :: rest)
          = line :: coordinate_and_MODEL_lines rest := by
        simp only [coordinate_and_MODEL_lines, List.filter_cons, hk, if_true]
      rw [hf]
      have hstep := read_line_without_selector occ interp st st1 line h
      simp only [Line_reader.read_lines]
      cases h1 : Line_reader.read_line (PDB_line_selector.keep occ) interp st line with
      | error e =>
        cases h2 : Line_reader.read_line (PDB_line_selector.keep occ) interp st1 line with
        | error e1 =>
          rw [h1, h2] at hstep
          simp only [Except.map, Except.error.injEq] at hstep
          simp only [Except.map, hstep]
        | ok s2 =>
          rw [h1, h2] at hstep
          simp [Except.map] at hstep
      | ok s1 =>
        cases h2 : Line_reader.read_line (PDB_line_selector.keep occ) interp st1 line with
        | error e1 =>
          rw [h1, h2] at hstep
          simp [Except.map] at hstep
        | ok s2 =>
          rw [h1, h2] at hstep
          simp only [Except.map, Except.ok.injEq] at hstep
          exact ih s1 s2 hstep
    · have hf : coordinate_and_MODEL_lines (line :: rest) = coordinate_and_MODEL_lines rest := by
        simp only [coordinate_and_MODEL_lines, List.filter_cons, hk, Bool.false_eq_true, if_false]
      rw [hf]
      have hother : line.isEmpty = true ∨
          ((Line_format.new line).record_type ≠ Record_type.ATOM ∧
           (Line_format.new line).record_type ≠ Record_type.HETATM ∧
           (Line_format.new line).record_type ≠ Record_type.MODEL) := by
        by_cases he : line.isEmpty = true
        · exact Or.inl he
        · right
          simp only [he, Bool.not_false, Bool.true_and, Bool.or_eq_true, decide_eq_true_eq,
            not_or] at hk
          exact ⟨hk.1.1, hk.1.2, hk.2⟩
      obtain ⟨s1, h1, h2⟩ := read_line_of_other_record occ interp st line hother
      simp only [Line_reader.read_lines, h1]
      exact ih s1 st1 (h2.trans h)

/-- C37: with the selector of one system, any occupancy policy and any builder, the read
of an input and the read of the lines of the input that are not empty and whose record
type is ATOM, HETATM or MODEL end alike: with the same stop, or with the same builder,
so the same systems, and the same number of lines passed. In particular the read of a
remark, an END record, an empty line, an ENDMDL record and then the coordinate line
`line_N_1` goes on to the coordinate line and builds the system that holds its atom. -/
theorem read_stream_without_other_records {π β : Type} (occ : Occupancy_policy π)
    (interp : β → Line_format → Line → Int → Except Fatal β) (create_systems : β → Char → β)
    (sel : PDB_line_selector) (builder : β) (input : List Line) (occupancy : π)
    (default_altloc : Char) :
    (Line_reader.read_stream (PDB_line_selector.keep occ) (occ.finalize interp) interp
        create_systems sel builder input occupancy default_altloc).map Prod.snd
      = (Line_reader.read_stream (PDB_line_selector.keep occ) (occ.finalize interp) interp
        create_systems sel builder (coordinate_and_MODEL_lines input) occupancy
        default_altloc).map Prod.snd ∧
    coordinate_and_MODEL_lines input_END_then_N_1 = [line_N_1] ∧
    (Line_reader.read_stream (PDB_line_selector.keep Accept_all_occupancy_policy)
        (Accept_all_occupancy_policy.finalize All_atom_system_builder.interpret_line)
        All_atom_system_builder.interpret_line All_atom_system_builder.create_systems
        PDB_line_selector.new (All_atom_system_builder.new [] 1) input_END_then_N_1 () ' ').map
        Prod.snd
      = .ok ({ current_model := 1, systems_ := [system_with_N_1], prebuilt_systems := true,
               max_systems := 1 }, 1) := by
  refine ⟨?_, by decide, by decide!⟩
  have h := read_lines_without_other_records occ interp input
    { line_selector := sel, occupancy := occupancy, builder := builder,
      default_altloc := default_altloc, nblines := 0 }
    { line_selector := sel, occupancy := occupancy, builder := builder,
      default_altloc := default_altloc, nblines := 0 } rfl
  unfold Line_reader.read_stream
  generalize Line_reader.read_lines (PDB_line_selector.keep occ) interp input
    { line_selector := sel, occupancy := occupancy, builder := builder,
      default_altloc := default_altloc, nblines := 0 } = r at h
  generalize Line_reader.read_lines (PDB_line_selector.keep occ) interp
    (coordinate_and_MODEL_lines input)
    { line_selector := sel, occupancy := occupancy, builder := builder,
      default_altloc := default_altloc, nblines := 0 } = r1 at h
  cases r with
  | error e =>
    cases r1 with
    | error e1 =>
      simp only [Except.map, Except.error.injEq] at h
      simp only [Except.map, h]
    | ok s2 => simp [Except.map] at h
  | ok s1 =>
    cases r1 with
    | error e1 => simp [Except.map] at h
    | ok s2 =>
      simp only [Except.map, Except.ok.injEq, Reader_state.without_selector,
        Prod.mk.injEq] at h
      obtain ⟨h1, h2, h3, h4⟩ := h
      simp only [h1, h2, h3, h4]
      cases occ.finalize interp s2.occupancy s2.builder with
      | error e => rfl
      | ok res => rfl

/-! ## Keyed containers in ascending order -/

theorem Strict_order.irrefl {κ : Type} {lt : κ → κ → Bool} (h : Strict_order lt) (a : κ) :
    lt a a = false := by
  cases h1 : lt a a
  · rfl
  · have := h.asymm a a h1
    rw [h1] at this
    cases this

theorem int_lt_strict : Strict_order int_lt where
  trans := by
    intro a b c h1 h2
    simp only [int_lt, decide_eq_true_eq] at h1 h2 ⊢
    omega
  asymm := by
    intro a b h1
    simp only [int_lt, decide_eq_true_eq, decide_eq_false_iff_not] at h1 ⊢
    omega
  total := by
    intro a b h1 h2
    simp only [int_lt, decide_eq_false_iff_not] at h1 h2
    omega

theorem unsigned_lt_strict : Strict_order unsigned_lt where
  trans := by
    intro a b c h1 h2
    simp only [unsigned_lt, decide_eq_true_eq] at h1 h2 ⊢
    omega
  asymm := by
    intro a b h1
    simp only [unsigned_lt, decide_eq_true_eq, decide_eq_false_iff_not] at h1 ⊢
    omega
  total := by
    intro a b h1 h2
    simp only [unsigned_lt, decide_eq_false_iff_not] at h1 h2
    omega

theorem char_lt_strict : Strict_order char_lt where
  trans := char_lt_trans
  asymm := char_lt_asymm
  total := char_lt_total

theorem pair_lt_strict : Strict_order pair_lt where
  trans := pair_lt_trans
  asymm := by
    intro a b h1
    simp only [pair_lt, int_lt, char_lt, Bool.or_eq_true, Bool.and_eq_true, Bool.not_eq_true',
      decide_eq_true_eq, decide_eq_false_iff_not, Bool.or_eq_false_iff, Bool.and_eq_false_imp]
      at h1 ⊢
    omega
  total := by
    intro a b h1 h2
    simp only [pair_lt, int_lt, char_lt, Bool.or_eq_false_iff, Bool.and_eq_false_imp,
      Bool.not_eq_true', decide_eq_false_iff_not] at h1 h2
    have e1 : a.1 = b.1 := by omega
    have e2 : a.2.toNat = b.2.toNat := by
      have := h1.2 (by omega)
      have := h2.2 (by omega)
      omega
    have e3 : a.2 = b.2 := by
      apply Char.ext
      apply UInt32.ext
      exact e2
    exact Prod.ext e1 e3

theorem map_find_mem {κ ν : Type} {lt : κ → κ → Bool} (ho : Strict_order lt) (k : κ) (v : ν)
    (m : List (κ × ν)) (h : map_find lt k m = some v) : (k, v) ∈ m := by
  induction m with
  | nil => simp [map_find] at h
  | cons e1 rest ih =>
    obtain ⟨k1, v1⟩ := e1
    cases c1 : lt k1 k <;> cases c2 : lt k k1 <;>
      simp only [map_find, c1, c2, if_true, if_false, Bool.false_eq_true] at h
    · simp only [Option.some.injEq] at h
      rw [ho.total k k1 c2 c1, h]
      exact List.mem_cons_self _ _
    · cases h
    · exact List.mem_cons_of_mem _ (ih h)
    · exact List.mem_cons_of_mem _ (ih h)

theorem map_find_of_mem {κ ν : Type} {lt : κ → κ → Bool} (ho : Strict_order lt) (k : κ) (v : ν)
    (m : List (κ × ν)) (hs : keys_ascending lt m) (h : (k, v) ∈ m) :
    map_find lt k m = some v := by
  induction m with
  | nil => cases h
  | cons e1 rest ih =>
    obtain ⟨k1, v1⟩ := e1
    unfold keys_ascending at hs
    rw [List.pairwise_cons] at hs
    rcases List.mem_cons.1 h with h1 | h1
    · simp only [Prod.mk.injEq] at h1
      rw [← h1.1, ← h1.2]
      simp [map_find, ho.irrefl k]
    · have h2 : lt k1 k = true := hs.1 (k, v) h1
      simp only [map_find, h2, if_true]
      exact ih hs.2 h1

theorem map_find_eq_some_iff {κ ν : Type} {lt : κ → κ → Bool} (ho : Strict_order lt) (k : κ)
    (v : ν) (m : List (κ × ν)) (hs : keys_ascending lt m) :
    map_find lt k m = some v ↔ (k, v) ∈ m :=
  ⟨map_find_mem ho k v m, map_find_of_mem ho k v m hs⟩

theorem map_find_eq_none_iff {κ ν : Type} {lt : κ → κ → Bool} (ho : Strict_order lt) (k : κ)
    (m : List (κ × ν)) (hs : keys_ascending lt m) :
    map_find lt k m = none ↔ k ∉ m.map Prod.fst := by
  constructor
  · intro h hk
    obtain ⟨e, he, hek⟩ := List.mem_map.1 hk
    have := map_find_of_mem ho k e.2 m hs (by rw [← hek]; exact he)
    rw [h] at this
    cases this
  · intro h
    cases hf : map_find lt k m with
    | none => rfl
    | some v =>
      exact absurd (List.mem_map.2 ⟨(k, v), map_find_mem ho k v m hf, rfl⟩) h

theorem map_find_assign_of_ne {κ ν : Type} {lt : κ → κ → Bool} (ho : Strict_order lt)
    (k o : κ) (v : ν) (m : List (κ × ν)) (hne : k ≠ o) :
    map_find lt k (map_assign lt o v m) = map_find lt k m := by
  induction m with
  | nil => rfl
  | cons e1 rest ih =>
    obtain ⟨k1, v1⟩ := e1
    cases c1 : lt k1 o
    · cases c2 : lt o k1
      · have hk1 : o = k1 := ho.total o k1 c2 c1
        subst hk1
        simp only [map_assign, c1, Bool.false_eq_true, if_false, map_find]
        cases d1 : lt o k
        · cases d2 : lt k o
          · exact absurd (ho.total k o d2 d1) hne
          · simp
        · simp
      · simp [map_assign, c1, c2]
    · simp only [map_assign, c1, if_true, map_find]
      cases d1 : lt k1 k
      · simp
      · simp [ih]

theorem map_insert_length {κ ν : Type} (lt : κ → κ → Bool) (k : κ) (v : ν) (m : List (κ × ν))
    (h : map_find lt k m = none) : (map_insert lt k v m).length = m.length + 1 := by
  induction m with
  | nil => rfl
  | cons e1 rest ih =>
    obtain ⟨k1, v1⟩ := e1
    cases c1 : lt k1 k <;> cases c2 : lt k k1 <;>
      simp only [map_find, c1, c2, if_true, if_false, Bool.false_eq_true] at h
    · cases h
    · simp [map_insert, c1, c2]
    · simp [map_insert, c1, ih h]
    · simp [map_insert, c1, ih h]

theorem mem_map_insert_iff {κ ν : Type} (lt : κ → κ → Bool) (k : κ) (v : ν) (m : List (κ × ν))
    (e : κ × ν) (h : map_find lt k m = none) :
    e ∈ map_insert lt k v m ↔ e = (k, v) ∨ e ∈ m := by
  refine ⟨mem_map_insert lt k v m e, ?_⟩
  induction m with
  | nil =>
    intro he
    simpa [map_insert] using he
  | cons e1 rest ih =>
    obtain ⟨k1, v1⟩ := e1
    intro he
    cases c1 : lt k1 k <;> cases c2 : lt k k1 <;>
      simp only [map_find, c1, c2, if_true, if_false, Bool.false_eq_true] at h
    · cases h
    · simp only [map_insert, c1, c2, Bool.false_eq_true, if_false, if_true, List.mem_cons]
      rcases he with he | he
      · exact Or.inl he
      · exact Or.inr (List.mem_cons.1 he)
    all_goals
      simp only [map_insert, c1, if_true, List.mem_cons]
      rcases he with he | he
      · exact Or.inr (ih h (Or.inl he))
      · rcases List.mem_cons.1 he with he | he
        · exact Or.inl he
        · exact Or.inr (ih h (Or.inr he))

theorem mem_map_assign_key {κ ν : Type} {lt : κ → κ → Bool} (ho : Strict_order lt) (k : κ)
    (v : ν) (m : List (κ × ν)) (e : κ × ν) (h : e ∈ map_assign lt k v m) :
    e = (k, v) ∨ e ∈ m := by
  induction m with
  | nil => simp [map_assign] at h
  | cons e1 rest ih =>
    obtain ⟨k1, v1⟩ := e1
    cases c1 : lt k1 k <;> cases c2 : lt k k1 <;>
      simp only [map_assign, c1, c2, if_true, if_false, Bool.false_eq_true,
        List.mem_cons] at h ⊢
    · rcases h with h | h
      · rw [ho.total k k1 c2 c1]
        exact Or.inl h
      · exact Or.inr (Or.inr h)
    · exact Or.inr h
    all_goals
      rcases h with h | h
      · exact Or.inr (Or.inl h)
      · rcases ih h with h | h
        · exact Or.inl h
        · exact Or.inr (Or.inr h)

theorem foldl_add_eq_sum {α : Type} (g : α → Nat) (l : List α) (n : Nat) :
    l.foldl (fun total e => total + g e) n = n + (l.map g).sum := by
  induction l generalizing n with
  | nil => simp
  | cons a rest ih =>
    simp only [List.foldl_cons, ih, List.map_cons, List.sum_cons]
    omega

theorem sum_map_insert {κ ν : Type} (lt : κ → κ → Bool) (g : κ × ν → Nat) (k : κ) (v : ν)
    (m : List (κ × ν)) (h : map_find lt k m = none) :
    ((map_insert lt k v m).map g).sum = (m.map g).sum + g (k, v) := by
  induction m with
  | nil => simp [map_insert]
  | cons e1 rest ih =>
    obtain ⟨k1, v1⟩ := e1
    cases c1 : lt k1 k <;> cases c2 : lt k k1 <;>
      simp only [map_find, c1, c2, if_true, if_false, Bool.false_eq_true] at h
    · cases h
    · simp only [map_insert, c1, c2, Bool.false_eq_true, if_false, if_true, List.map_cons,
        List.sum_cons]
      omega
    all_goals
      simp only [map_insert, c1, if_true, List.map_cons, List.sum_cons, ih h]
      omega

theorem sum_map_assign {κ ν : Type} (lt : κ → κ → Bool) (g : ν → Nat)
    (k : κ) (v v0 : ν) (m : List (κ × ν)) (h : map_find lt k m = some v0) :
    ((map_assign lt k v m).map fun e => g e.2).sum + g v0
      = (m.map fun e => g e.2).sum + g v := by
  induction m with
  | nil => simp [map_find] at h
  | cons e1 rest ih =>
    obtain ⟨k1, v1⟩ := e1
    cases c1 : lt k1 k <;> cases c2 : lt k k1 <;>
      simp only [map_find, c1, c2, if_true, if_false, Bool.false_eq_true] at h
    · simp only [Option.some.injEq] at h
      simp only [map_assign, c1, c2, Bool.false_eq_true, if_false, List.map_cons,
        List.sum_cons, h]
      omega
    · cases h
    all_goals
      have := ih h
      simp only [map_assign, c1, if_true, List.map_cons, List.sum_cons]
      omega

/-! ## The steps of `interpret_line` -/

theorem get_or_create_model_cases (s : Molecular_system) (i : Int) :
    (∃ m, map_find int_lt i s.model_container = some m ∧ s.get_or_create_model i = (s, m)) ∨
    (map_find int_lt i s.model_container = none ∧
      s.get_or_create_model i
        = ({ s with model_container :=
               map_insert int_lt i (Molecular_model.new i) s.model_container },
           Molecular_model.new i)) := by
  unfold Molecular_system.get_or_create_model
  cases h : map_find int_lt i s.model_container with
  | none => exact Or.inr ⟨rfl, rfl⟩
  | some m => exact Or.inl ⟨m, rfl, rfl⟩

theorem get_or_create_chain_cases (m m1 : Molecular_model) (lf : Line_format) (line : Line)
    (ch : Char) (c : Molecular_chain) (h : m.get_or_create_chain lf line = .ok (m1, ch, c)) :
    lf.get_chain_identifier line = .ok ch ∧
    ((map_find char_lt ch m.chain_container = some c ∧ m1 = m) ∨
     (map_find char_lt ch m.chain_container = none ∧ c = Molecular_chain.new ch ∧
      m1 = { m with chain_container := map_insert char_lt ch c m.chain_container })) := by
  unfold Molecular_model.get_or_create_chain at h
  obtain ⟨ch1, hch, h⟩ := (except_bind_eq_ok _ _ _).1 h
  cases hf : map_find char_lt ch1 m.chain_container with
  | some c1 =>
    simp only [hf, pure, Except.pure, Except.ok.injEq, Prod.mk.injEq] at h
    obtain ⟨rfl, rfl, rfl⟩ := h
    exact ⟨hch, Or.inl ⟨hf, rfl⟩⟩
  | none =>
    simp only [hf, hch, bind, Except.bind, pure, Except.pure, Except.ok.injEq,
      Prod.mk.injEq] at h
    obtain ⟨rfl, rfl, rfl⟩ := h
    exact ⟨hch, Or.inr ⟨hf, rfl, rfl⟩⟩

theorem get_or_create_chain_of_getter (m : Molecular_model) (lf : Line_format) (line : Line)
    (ch : Char) (hch : lf.get_chain_identifier line = .ok ch) :
    m.get_or_create_chain lf line
      = match map_find char_lt ch m.chain_container with
        | some c => .ok (m, ch, c)
        | none =>
          .ok ({ m with chain_container :=
                   map_insert char_lt ch (Molecular_chain.new ch) m.chain_container },
               ch, Molecular_chain.new ch) := by
  unfold Molecular_model.get_or_create_chain
  simp only [hch, bind, Except.bind]
  cases map_find char_lt ch m.chain_container <;> rfl

theorem get_or_create_residue_cases (c c1 : Molecular_chain) (lf : Line_format) (line : Line)
    (rk : Int × Char) (r : Molecular_residue)
    (h : c.get_or_create_residue lf line = .ok (c1, rk, r)) :
    lf.get_residue_sequence_number line = .ok rk.1 ∧ lf.get_insertion_code line = .ok rk.2 ∧
    ((map_find pair_lt rk c.residue_container = some r ∧ c1 = c) ∨
     (map_find pair_lt rk c.residue_container = none ∧ Molecular_residue.new lf line = .ok r ∧
      c1 = { c with residue_container := map_insert pair_lt rk r c.residue_container })) := by
  unfold Molecular_chain.get_or_create_residue at h
  obtain ⟨rs, hrs, h⟩ := (except_bind_eq_ok _ _ _).1 h
  obtain ⟨ic, hic, h⟩ := (except_bind_eq_ok _ _ _).1 h
  cases hf : map_find pair_lt (rs, ic) c.residue_container with
  | some r1 =>
    simp only [hf, pure, Except.pure, Except.ok.injEq, Prod.mk.injEq] at h
    obtain ⟨rfl, rfl, rfl⟩ := h
    exact ⟨hrs, hic, Or.inl ⟨hf, rfl⟩⟩
  | none =>
    simp only [hf] at h
    obtain ⟨r1, hr1, h⟩ := (except_bind_eq_ok _ _ _).1 h
    simp only [pure, Except.pure, Except.ok.injEq, Prod.mk.injEq] at h
    obtain ⟨rfl, rfl, rfl⟩ := h
    exact ⟨hrs, hic, Or.inr ⟨hf, hr1, rfl⟩⟩

theorem get_or_create_residue_of_getters (c : Molecular_chain) (lf : Line_format) (line : Line)
    (rs : Int) (ic : Char) (hrs : lf.get_residue_sequence_number line = .ok rs)
    (hic : lf.get_insertion_code line = .ok ic) :
    c.get_or_create_residue lf line
      = match map_find pair_lt (rs, ic) c.residue_container with
        | some r => .ok (c, (rs, ic), r)
        | none =>
          match Molecular_residue.new lf line with
          | .error e => .error e
          | .ok r =>
            .ok ({ c with residue_container :=
                     map_insert pair_lt (rs, ic) r c.residue_container }, (rs, ic), r) := by
  unfold Molecular_chain.get_or_create_residue
  simp only [hrs, hic, bind, Except.bind]
  cases map_find pair_lt (rs, ic) c.residue_container with
  | some r => rfl
  | none =>
    simp only
    cases Molecular_residue.new lf line <;> rfl

/-- The steps of a call of `interpret_line` that returns. -/
theorem interpret_line_steps (s s1 : Molecular_system) (lf : Line_format) (line : Line)
    (cm : Int) (h : s.interpret_line lf line cm = .ok s1) :
    ∃ model1 ch chain chain1 rk residue residue1,
      (s.get_or_create_model cm).2.get_or_create_chain lf line = .ok (model1, ch, chain) ∧
      chain.get_or_create_residue lf line = .ok (chain1, rk, residue) ∧
      residue.add_atom lf line = .ok residue1 ∧
      s1 = { (s.get_or_create_model cm).1 with
             model_container :=
               map_assign int_lt cm
                 { model1 with
                   chain_container :=
                     map_assign char_lt ch
                       { chain1 with
                         residue_container :=
                           map_assign pair_lt rk residue1 chain1.residue_container }
                       model1.chain_container }
                 (s.get_or_create_model cm).1.model_container } := by
  unfold Molecular_system.interpret_line at h
  generalize s.get_or_create_model cm = sm at h ⊢
  obtain ⟨s0, model⟩ := sm
  simp only at h ⊢
  obtain ⟨⟨model1, ch, chain⟩, h1, h⟩ := (except_bind_eq_ok _ _ _).1 h
  obtain ⟨⟨chain1, rk, residue⟩, h2, h⟩ := (except_bind_eq_ok _ _ _).1 h
  obtain ⟨residue1, h3, h⟩ := (except_bind_eq_ok _ _ _).1 h
  simp only [pure, Except.pure, Except.ok.injEq] at h
  exact ⟨model1, ch, chain, chain1, rk, residue, residue1, h1, h2, h3, h.symm⟩

/-- A call of `interpret_line` whose steps return, returns. -/
theorem interpret_line_of_steps (s : Molecular_system) (lf : Line_format) (line : Line)
    (cm : Int) (model1 : Molecular_model) (ch : Char) (chain chain1 : Molecular_chain)
    (rk : Int × Char) (residue residue1 : Molecular_residue)
    (h1 : (s.get_or_create_model cm).2.get_or_create_chain lf line = .ok (model1, ch, chain))
    (h2 : chain.get_or_create_residue lf line = .ok (chain1, rk, residue))
    (h3 : residue.add_atom lf line = .ok residue1) :
    ∃ s1, s.interpret_line lf line cm = .ok s1 := by
  unfold Molecular_system.interpret_line
  generalize s.get_or_create_model cm = sm at h1 ⊢
  obtain ⟨s0, model⟩ := sm
  simp only at h1 ⊢
  simp only [h1, h2, h3, bind, Except.bind, pure, Except.pure]
  exact ⟨_, rfl⟩

/-! ## The accessors that do not create -/

theorem interpret_line_well_formed (s s1 : Molecular_system) (lf : Line_format) (line : Line)
    (cm : Int) (hw : s.is_well_formed) (h : s.interpret_line lf line cm = .ok s1) :
    s1.is_well_formed := by
  have hord := interpret_line_ordered s s1 lf line cm (fun e he => (hw.2 e he).2.1) h
  obtain ⟨model1, ch, chain, chain1, rk, residue, residue1, h1, h2, h3, hs1⟩ :=
    interpret_line_steps s s1 lf line cm h
  -- the system and the model after `get_or_create_model`
  have hm : keys_ascending int_lt (s.get_or_create_model cm).1.model_container ∧
      (∀ e ∈ (s.get_or_create_model cm).1.model_container,
        e.2.model_number = e.1 ∧ e.2.atoms_ordered) ∧
      (s.get_or_create_model cm).2.model_number = cm ∧
      (s.get_or_create_model cm).2.atoms_ordered := by
    rcases get_or_create_model_cases s cm with ⟨m, hf, he⟩ | ⟨hf, he⟩
    · rw [he]
      have hmem := map_find_mem int_lt_strict cm m _ hf
      exact ⟨hw.1, fun e he1 => ⟨(hw.2 e he1).1, (hw.2 e he1).2.2⟩, (hw.2 _ hmem).1,
        (hw.2 _ hmem).2.2⟩
    · rw [he]
      refine ⟨map_insert_pairwise int_lt int_lt_strict.trans _ _ _ hw.1, fun e he1 => ?_, rfl,
        fun c hc => by cases hc⟩
      rcases mem_map_insert _ _ _ _ _ he1 with h4 | h4
      · rw [h4]
        exact ⟨rfl, fun c hc => by cases hc⟩
      · exact ⟨(hw.2 e h4).1, (hw.2 e h4).2.2⟩
  generalize s.get_or_create_model cm = sm at h1 hs1 hm
  obtain ⟨s0, model⟩ := sm
  simp only at h1 hs1 hm
  obtain ⟨hm1, hm2, hm3, hm4⟩ := hm
  -- the chain
  obtain ⟨-, hcase⟩ := get_or_create_chain_cases model model1 lf line ch chain h1
  have hnum : model1.model_number = cm := by
    rcases hcase with ⟨-, e⟩ | ⟨-, -, e⟩ <;> rw [e] <;> exact hm3
  have hmodel1 : model1.atoms_ordered ∧
      ∀ r ∈ chain.residue_container, keys_ascending unsigned_lt r.2.atom_container := by
    rcases hcase with ⟨hf, e⟩ | ⟨hf, hc, e⟩
    · rw [e]
      exact ⟨hm4, hm4 _ (map_find_mem char_lt_strict ch chain _ hf)⟩
    · rw [e, hc]
      refine ⟨fun c hc1 => ?_, fun r hr => by cases hr⟩
      rcases mem_map_insert _ _ _ _ _ hc1 with h4 | h4
      · rw [h4]
        intro r hr
        cases hr
      · exact hm4 c h4
  -- the residue
  obtain ⟨-, -, hcase2⟩ := get_or_create_residue_cases chain chain1 lf line rk residue h2
  have hchain1 : (∀ r ∈ chain1.residue_container,
      keys_ascending unsigned_lt r.2.atom_container) ∧
      keys_ascending unsigned_lt residue.atom_container := by
    rcases hcase2 with ⟨hf, e⟩ | ⟨hf, hnew, e⟩
    · rw [e]
      exact ⟨hmodel1.2, hmodel1.2 _ (map_find_mem pair_lt_strict rk residue _ hf)⟩
    · have hemp : residue.atom_container = [] := by
        unfold Molecular_residue.new at hnew
        obtain ⟨rn, -, hnew⟩ := (except_bind_eq_ok _ _ _).1 hnew
        obtain ⟨sn, -, hnew⟩ := (except_bind_eq_ok _ _ _).1 hnew
        obtain ⟨ic, -, hnew⟩ := (except_bind_eq_ok _ _ _).1 hnew
        simp only [pure, Except.pure, Except.ok.injEq] at hnew
        rw [← hnew]
      rw [e]
      refine ⟨fun r hr => ?_, by rw [hemp]; exact List.Pairwise.nil⟩
      rcases mem_map_insert _ _ _ _ _ hr with h4 | h4
      · rw [h4, hemp]
        exact List.Pairwise.nil
      · exact hmodel1.2 r h4
  -- the atom
  obtain ⟨sn, atom, -, -, -, hr1⟩ := add_atom_ok residue residue1 lf line h3
  have hres1 : keys_ascending unsigned_lt residue1.atom_container := by
    rw [hr1]
    exact map_insert_pairwise unsigned_lt unsigned_lt_strict.trans _ _ _ hchain1.2
  rw [hs1]
  refine ⟨keys_ascending_assign _ _ _ _ hm1, fun e he => ?_⟩
  have hord_e := hord e (by rw [hs1]; exact he)
  rcases mem_map_assign_key int_lt_strict _ _ _ _ he with h4 | h4
  · rw [h4]
    rw [h4] at hord_e
    refine ⟨hnum, hord_e, fun c hc => ?_⟩
    rcases mem_map_assign_key char_lt_strict _ _ _ _ hc with h5 | h5
    · rw [h5]
      intro r hr
      rcases mem_map_assign_key pair_lt_strict _ _ _ _ hr with h6 | h6
      · rw [h6]
        exact hres1
      · exact hchain1.1 r h6
    · exact hmodel1.1 c h5
  · exact ⟨(hm2 e h4).1, hord_e, (hm2 e h4).2⟩

/-- C31: the accessors that do not create return the entry found or stop, and give no
state back. On containers in ascending order of their keys, `get_model(i)` stops exactly
when `has_model(i)` is false, which is when `i` is not a key, and else returns the model
kept under `i`; `get_chain`, `get_residue` and `get_atom` stop exactly when the chain
identifier, the pair of the sequence number and the insertion code, or the serial number
is not a key, and else return the entry kept under it; the accessors of a model by
several keys are the accessors of each level in turn. A new system is in that order with
each model under its number, a call of `interpret_line` that returns keeps it so, and
then the model that `get_model(i)` returns has the model number `i`. -/
theorem accessors_stop_on_absent_keys :
    (∀ (s : Molecular_system) (i : Int),
      ((∃ e, s.get_model i = .error e) ↔ s.has_model i = false) ∧
      (keys_ascending int_lt s.model_container →
        (s.has_model i = true ↔ i ∈ s.model_container.map Prod.fst) ∧
        (∀ m, s.get_model i = .ok m ↔ (i, m) ∈ s.model_container))) ∧
    (∀ (m : Molecular_model) (id : Char), keys_ascending char_lt m.chain_container →
      ((∃ e, m.get_chain id = .error e) ↔ id ∉ m.chain_container.map Prod.fst) ∧
      (∀ c, m.get_chain id = .ok c ↔ (id, c) ∈ m.chain_container)) ∧
    (∀ (c : Molecular_chain) (ressn : Int) (insc : Char),
      keys_ascending pair_lt c.residue_container →
      ((∃ e, c.get_residue ressn insc = .error e)
        ↔ (ressn, insc) ∉ c.residue_container.map Prod.fst) ∧
      (∀ r, c.get_residue ressn insc = .ok r ↔ ((ressn, insc), r) ∈ c.residue_container)) ∧
    (∀ (r : Molecular_residue) (sn : Nat), keys_ascending unsigned_lt r.atom_container →
      ((∃ e, r.get_atom sn = .error e) ↔ sn ∉ r.atom_container.map Prod.fst) ∧
      (∀ a, r.get_atom sn = .ok a ↔ (sn, a) ∈ r.atom_container)) ∧
    (∀ (m : Molecular_model) (id : Char) (ressn : Int) (insc : Char) (sn : Nat),
      m.get_residue id ressn insc = (m.get_chain id).bind (fun c => c.get_residue ressn insc) ∧
      m.get_atom id ressn insc sn
        = (m.get_residue id ressn insc).bind (fun r => r.get_atom sn)) ∧
    (∀ index, (Molecular_system.new index).is_well_formed) ∧
    (∀ (s s1 : Molecular_system) (lf : Line_format) (line : Line) (cm : Int),
      s.is_well_formed → s.interpret_line lf line cm = .ok s1 → s1.is_well_formed) ∧
    (∀ (s : Molecular_system) (i : Int) (m : Molecular_model),
      s.is_well_formed → s.get_model i = .ok m → m.model_number = i) := by
  have gen : ∀ {κ ν : Type} (lt : κ → κ → Bool) (ho : Strict_order lt) (k : κ)
      (c : List (κ × ν)) (err : Fatal) (get : Except Fatal ν),
      get = (match map_find lt k c with
        | some v => .ok v
        | none => .error err) →
      keys_ascending lt c →
      ((∃ e, get = .error e) ↔ k ∉ c.map Prod.fst) ∧ (∀ v, get = .ok v ↔ (k, v) ∈ c) := by
    intro κ ν lt ho k c err get hget hs
    rw [hget]
    cases hf : map_find lt k c with
    | none =>
      have hn := (map_find_eq_none_iff ho k c hs).1 hf
      refine ⟨⟨fun _ => hn, fun _ => ⟨err, rfl⟩⟩, fun v => ⟨(fun h => by cases h), fun h => ?_⟩⟩
      exact absurd (List.mem_map.2 ⟨(k, v), h, rfl⟩) hn
    | some v0 =>
      have hm := map_find_mem ho k v0 c hf
      refine ⟨⟨(fun ⟨e, he⟩ => by cases he),
        fun h => absurd (List.mem_map.2 ⟨(k, v0), hm, rfl⟩) h⟩, fun v => ?_⟩
      simp only [Except.ok.injEq]
      constructor
      · intro h
        rw [← h]
        exact hm
      · intro h
        have := map_find_of_mem ho k v c hs h
        rw [hf] at this
        simpa using this
  refine ⟨fun s i => ⟨?_, fun hs => ?_⟩, fun m id hs => ?_, fun c ressn insc hs => ?_, fun r sn hs => ?_,
    fun m id ressn insc sn => ⟨rfl, ?_⟩, fun index => ⟨List.Pairwise.nil, fun e he => by cases he⟩,
    fun s s1 lf line cm hw h => interpret_line_well_formed s s1 lf line cm hw h,
    fun s i m hw h => ?_⟩
  · unfold Molecular_system.get_model Molecular_system.has_model
    cases map_find int_lt i s.model_container <;>
      simp [pure, Except.pure, throw, throwThe, MonadExceptOf.throw]
  · have g := gen int_lt int_lt_strict i s.model_container (Fatal.cannot_find_model i)
      (s.get_model i) (by unfold Molecular_system.get_model; cases map_find int_lt i _ <;> rfl)
      hs
    refine ⟨?_, g.2⟩
    unfold Molecular_system.has_model
    cases hf : map_find int_lt i s.model_container with
    | none =>
      have hn := (map_find_eq_none_iff int_lt_strict i _ hs).1 hf
      simp [hn]
    | some v =>
      have hm := map_find_mem int_lt_strict i v _ hf
      simp only [Option.isSome_some, true_iff]
      exact List.mem_map.2 ⟨(i, v), hm, rfl⟩
  · exact gen char_lt char_lt_strict id m.chain_container _ (m.get_chain id)
      (by unfold Molecular_model.get_chain; cases map_find char_lt id _ <;> rfl) hs
  · exact gen pair_lt pair_lt_strict (ressn, insc) c.residue_container _
      (c.get_residue ressn insc)
      (by unfold Molecular_chain.get_residue; cases map_find pair_lt (ressn, insc) _ <;> rfl) hs
  · exact gen unsigned_lt unsigned_lt_strict sn r.atom_container _ (r.get_atom sn)
      (by unfold Molecular_residue.get_atom; cases map_find unsigned_lt sn _ <;> rfl) hs
  · unfold Molecular_model.get_atom Molecular_model.get_residue
    cases m.get_chain id with
    | error e => rfl
    | ok c =>
      simp only [bind, Except.bind]
  · unfold Molecular_system.get_model at h
    cases hf : map_find int_lt i s.model_container with
    | none => simp [hf, throw, throwThe, MonadExceptOf.throw] at h
    | some v =>
      simp only [hf, pure, Except.pure, Except.ok.injEq] at h
      rw [← h]
      exact (hw.2 _ (map_find_mem int_lt_strict i v _ hf)).1

/-! ## The accessors that create -/

theorem get_or_create_chain_by_id_find (m : Molecular_model) (id : Char) :
    map_find char_lt id (m.get_or_create_chain_by_id id).1.chain_container
      = some (m.get_or_create_chain_by_id id).2 := by
  unfold Molecular_model.get_or_create_chain_by_id
  cases hf : map_find char_lt id m.chain_container with
  | some c => exact hf
  | none => exact map_find_insert_self char_lt char_lt_irrefl id _ _ hf

theorem get_or_create_residue_by_name_find (c : Molecular_chain) (resname : List Char)
    (ressn : Int) (insc : Char) :
    map_find pair_lt (ressn, insc)
        (c.get_or_create_residue_by_name resname ressn insc).1.residue_container
      = some (c.get_or_create_residue_by_name resname ressn insc).2 := by
  unfold Molecular_chain.get_or_create_residue_by_name
  cases hf : map_find pair_lt (ressn, insc) c.residue_container with
  | some r => exact hf
  | none => exact map_find_insert_self pair_lt pair_lt_irrefl _ _ _ hf

/-- C32: at each level the accessor that creates inserts exactly one new entry when the
key is not found, and else returns the entry found and leaves the container as it is; so
a second call with the same key returns what the first returned and leaves the state
that the first left. For `get_or_create_model(i)` the entry inserted is the model
numbered `i` without a chain; for `get_or_create_chain`, by an identifier or by a line,
the chain of that identifier without a residue; for `get_or_create_residue`, by a name
or by a line, the residue built from the name or the line, without an atom. -/
theorem get_or_create_twice :
    (∀ (s : Molecular_system) (i : Int),
      (s.has_model i = false →
        (s.get_or_create_model i).2 = { model_number := i, chain_container := [] } ∧
        (s.get_or_create_model i).1.number_of_models = s.number_of_models + 1 ∧
        (∀ e, e ∈ (s.get_or_create_model i).1.model_container
          ↔ e = (i, { model_number := i, chain_container := [] }) ∨ e ∈ s.model_container) ∧
        (s.get_or_create_model i).1.has_model i = true) ∧
      (s.has_model i = true →
        (s.get_or_create_model i).1 = s ∧ s.get_model i = .ok (s.get_or_create_model i).2) ∧
      (s.get_or_create_model i).1.get_or_create_model i = s.get_or_create_model i) ∧
    (∀ (m : Molecular_model) (id : Char),
      (map_find char_lt id m.chain_container = none →
        (m.get_or_create_chain_by_id id).2 = { chain_identifier := id, residue_container := [] } ∧
        (m.get_or_create_chain_by_id id).1.number_of_chains = m.number_of_chains + 1 ∧
        (∀ e, e ∈ (m.get_or_create_chain_by_id id).1.chain_container
          ↔ e = (id, { chain_identifier := id, residue_container := [] })
            ∨ e ∈ m.chain_container)) ∧
      (∀ c, map_find char_lt id m.chain_container = some c →
        m.get_or_create_chain_by_id id = (m, c)) ∧
      (m.get_or_create_chain_by_id id).1.get_or_create_chain_by_id id
        = m.get_or_create_chain_by_id id) ∧
    (∀ (m m1 : Molecular_model) (lf : Line_format) (line : Line) (ch : Char)
      (c : Molecular_chain), m.get_or_create_chain lf line = .ok (m1, ch, c) →
      ((map_find char_lt ch m.chain_container = some c ∧ m1 = m) ∨
       (map_find char_lt ch m.chain_container = none ∧
        c = { chain_identifier := ch, residue_container := [] } ∧
        m1.number_of_chains = m.number_of_chains + 1 ∧
        ∀ e, e ∈ m1.chain_container ↔ e = (ch, c) ∨ e ∈ m.chain_container)) ∧
      ∀ (lf2 : Line_format) (line2 : Line), lf2.get_chain_identifier line2 = .ok ch →
        m1.get_or_create_chain lf2 line2 = .ok (m1, ch, c)) ∧
    (∀ (c : Molecular_chain) (resname : List Char) (ressn : Int) (insc : Char),
      (map_find pair_lt (ressn, insc) c.residue_container = none →
        (c.get_or_create_residue_by_name resname ressn insc).2
          = { residue_name := resname, residue_sequence_number := ressn, insertion_code := insc,
              atom_container := [] } ∧
        (c.get_or_create_residue_by_name resname ressn insc).1.number_of_residues
          = c.number_of_residues + 1 ∧
        (∀ e, e ∈ (c.get_or_create_residue_by_name resname ressn insc).1.residue_container
          ↔ e = ((ressn, insc), (c.get_or_create_residue_by_name resname ressn insc).2)
            ∨ e ∈ c.residue_container)) ∧
      (∀ r, map_find pair_lt (ressn, insc) c.residue_container = some r →
        c.get_or_create_residue_by_name resname ressn insc = (c, r)) ∧
      ∀ resname2 : List Char,
        Molecular_chain.get_or_create_residue_by_name
            (c.get_or_create_residue_by_name resname ressn insc).1 resname2 ressn insc
          = c.get_or_create_residue_by_name resname ressn insc) ∧
    (∀ (c c1 : Molecular_chain) (lf : Line_format) (line : Line) (rk : Int × Char)
      (r : Molecular_residue), c.get_or_create_residue lf line = .ok (c1, rk, r) →
      ((map_find pair_lt rk c.residue_container = some r ∧ c1 = c) ∨
       (map_find pair_lt rk c.residue_container = none ∧
        Molecular_residue.new lf line = .ok r ∧ r.atom_container = [] ∧
        c1.number_of_residues = c.number_of_residues + 1 ∧
        ∀ e, e ∈ c1.residue_container ↔ e = (rk, r) ∨ e ∈ c.residue_container)) ∧
      ∀ (lf2 : Line_format) (line2 : Line), lf2.get_residue_sequence_number line2 = .ok rk.1 →
        lf2.get_insertion_code line2 = .ok rk.2 →
        c1.get_or_create_residue lf2 line2 = .ok (c1, rk, r)) := by
  refine ⟨fun s i => ⟨fun h => ?_, fun h => ?_, ?_⟩, fun m id => ⟨fun h => ?_, fun c h => ?_, ?_⟩,
    fun m m1 lf line ch c h => ?_,
    fun c resname ressn insc => ⟨fun h => ?_, fun r h => ?_, fun resname2 => ?_⟩,
    fun c c1 lf line rk r h => ?_⟩
  · have hf : map_find int_lt i s.model_container = none := by
      unfold Molecular_system.has_model at h
      cases hf : map_find int_lt i s.model_container with
      | none => rfl
      | some v => simp [hf] at h
    rcases get_or_create_model_cases s i with ⟨m, hm, -⟩ | ⟨-, he⟩
    · rw [hf] at hm
      cases hm
    · rw [he]
      refine ⟨rfl, map_insert_length _ _ _ _ hf, fun e => mem_map_insert_iff _ _ _ _ e hf, ?_⟩
      simp only [Molecular_system.has_model]
      rw [map_find_insert_self int_lt int_lt_irrefl _ _ _ hf]
      rfl
  · rcases get_or_create_model_cases s i with ⟨m, hm, he⟩ | ⟨hf, -⟩
    · rw [he]
      refine ⟨rfl, ?_⟩
      simp only [Molecular_system.get_model, hm]
      rfl
    · unfold Molecular_system.has_model at h
      simp [hf] at h
  · have hfind := get_or_create_model_find s i
    rcases get_or_create_model_cases (s.get_or_create_model i).1 i with ⟨m, hm, he⟩ | ⟨hf, -⟩
    · rw [hfind] at hm
      simp only [Option.some.injEq] at hm
      rw [he, ← hm]
    · rw [hfind] at hf
      cases hf
  · unfold Molecular_model.get_or_create_chain_by_id
    simp only [h]
    exact ⟨rfl, map_insert_length _ _ _ _ h, fun e => mem_map_insert_iff _ _ _ _ e h⟩
  · unfold Molecular_model.get_or_create_chain_by_id
    simp only [h]
  · have hfind := get_or_create_chain_by_id_find m id
    generalize m.get_or_create_chain_by_id id = res at hfind ⊢
    unfold Molecular_model.get_or_create_chain_by_id
    simp only [hfind]
  · obtain ⟨hch, hcase⟩ := get_or_create_chain_cases m m1 lf line ch c h
    obtain ⟨-, hfind, -⟩ := get_or_create_chain_ok m m1 lf line ch c h
    refine ⟨?_, fun lf2 line2 h2 => ?_⟩
    · rcases hcase with h1 | ⟨h1, h2, h3⟩
      · exact Or.inl h1
      · refine Or.inr ⟨h1, h2, ?_, fun e => ?_⟩
        · rw [h3]
          exact map_insert_length _ _ _ _ h1
        · rw [h3]
          exact mem_map_insert_iff _ _ _ _ e h1
    · rw [get_or_create_chain_of_getter m1 lf2 line2 ch h2, hfind]
  · unfold Molecular_chain.get_or_create_residue_by_name
    simp only [h]
    exact ⟨rfl, map_insert_length _ _ _ _ h, fun e => mem_map_insert_iff _ _ _ _ e h⟩
  · unfold Molecular_chain.get_or_create_residue_by_name
    simp only [h]
  · have hfind := get_or_create_residue_by_name_find c resname ressn insc
    generalize c.get_or_create_residue_by_name resname ressn insc = res at hfind ⊢
    unfold Molecular_chain.get_or_create_residue_by_name
    simp only [hfind]
  · obtain ⟨hrs, hic, hcase⟩ := get_or_create_residue_cases c c1 lf line rk r h
    obtain ⟨-, -, hfind, -⟩ := get_or_create_residue_ok c c1 lf line rk r h
    refine ⟨?_, fun lf2 line2 h2 h3 => ?_⟩
    · rcases hcase with h1 | ⟨h1, h2, h3⟩
      · exact Or.inl h1
      · refine Or.inr ⟨h1, h2, ?_, ?_, fun e => ?_⟩
        · unfold Molecular_residue.new at h2
          obtain ⟨rn, -, h2⟩ := (except_bind_eq_ok _ _ _).1 h2
          obtain ⟨sn, -, h2⟩ := (except_bind_eq_ok _ _ _).1 h2
          obtain ⟨ic, -, h2⟩ := (except_bind_eq_ok _ _ _).1 h2
          simp only [pure, Except.pure, Except.ok.injEq] at h2
          rw [← h2]
        · rw [h3]
          exact map_insert_length _ _ _ _ h1
        · rw [h3]
          exact mem_map_insert_iff _ _ _ _ e h1
    · rw [get_or_create_residue_of_getters c1 lf2 line2 rk.1 rk.2 h2 h3, hfind]

/-! ## Counts -/

theorem chain_number_of_atoms_eq_sum (c : Molecular_chain) :
    c.number_of_atoms = (c.residue_container.map fun e => e.2.number_of_atoms).sum := by
  simp only [Molecular_chain.number_of_atoms, foldl_add_eq_sum, Nat.zero_add]

theorem model_number_of_atoms_eq_sum (m : Molecular_model) :
    m.number_of_atoms = (m.chain_container.map fun e => e.2.number_of_atoms).sum := by
  simp only [Molecular_model.number_of_atoms, foldl_add_eq_sum, Nat.zero_add]

theorem model_number_of_residues_eq_sum (m : Molecular_model) :
    m.number_of_residues = (m.chain_container.map fun e => e.2.number_of_residues).sum := by
  simp only [Molecular_model.number_of_residues, foldl_add_eq_sum, Nat.zero_add]

theorem chain_number_of_atoms_eq_length (c : Molecular_chain) :
    c.number_of_atoms = c.atoms.length := by
  rw [chain_number_of_atoms_eq_sum]
  simp [Molecular_chain.atoms, List.length_flatMap, Molecular_residue.number_of_atoms,
    Molecular_residue.atoms, Function.comp_def]

theorem model_number_of_atoms_eq_length (m : Molecular_model) :
    m.number_of_atoms = m.atoms.length := by
  rw [model_number_of_atoms_eq_sum]
  simp [Molecular_model.atoms, List.length_flatMap, chain_number_of_atoms_eq_length,
    Function.comp_def]

theorem interpret_line_number_of_atoms (s s1 : Molecular_system) (lf : Line_format)
    (line : Line) (cm : Int) (h : s.interpret_line lf line cm = .ok s1) :
    ∃ m1, s1.get_model cm = .ok m1 ∧
      m1.number_of_atoms = (s.get_or_create_model cm).2.number_of_atoms + 1 := by
  obtain ⟨model1, ch, chain, chain1, rk, residue, residue1, h1, h2, h3, hs1⟩ :=
    interpret_line_steps s s1 lf line cm h
  have hfm := get_or_create_model_find s cm
  generalize s.get_or_create_model cm = sm at h1 hs1 hfm ⊢
  obtain ⟨s0, model⟩ := sm
  simp only at h1 hs1 hfm ⊢
  obtain ⟨-, hfc, -⟩ := get_or_create_chain_ok model model1 lf line ch chain h1
  obtain ⟨-, hcase⟩ := get_or_create_chain_cases model model1 lf line ch chain h1
  obtain ⟨-, -, hfr, -⟩ := get_or_create_residue_ok chain chain1 lf line rk residue h2
  obtain ⟨-, -, hcase2⟩ := get_or_create_residue_cases chain chain1 lf line rk residue h2
  obtain ⟨sn, atom, -, -, hnone, hr1⟩ := add_atom_ok residue residue1 lf line h3
  obtain ⟨chain2, hchain2⟩ : ∃ c2 : Molecular_chain, c2 =
      { chain_identifier := chain1.chain_identifier,
        residue_container := map_assign pair_lt rk residue1 chain1.residue_container } :=
    ⟨_, rfl⟩
  obtain ⟨model2, hmodel2⟩ : ∃ m2 : Molecular_model, m2 =
      { model_number := model1.model_number,
        chain_container := map_assign char_lt ch chain2 model1.chain_container } :=
    ⟨_, rfl⟩
  rw [← hchain2, ← hmodel2] at hs1
  refine ⟨model2, ?_, ?_⟩
  · rw [hs1]
    simp only [Molecular_system.get_model]
    rw [map_find_assign_self int_lt cm _ _ (by simp [hfm])]
    rfl
  · -- the residue
    have e1 : residue1.number_of_atoms = residue.number_of_atoms + 1 := by
      rw [hr1]
      exact map_insert_length _ _ _ _ hnone
    -- the chain
    have e2 := sum_map_assign pair_lt (fun r : Molecular_residue => r.number_of_atoms) rk
      residue1 residue chain1.residue_container hfr
    dsimp only at e2
    have e3 : (chain1.residue_container.map fun e => e.2.number_of_atoms).sum
        = chain.number_of_atoms + (if map_find pair_lt rk chain.residue_container = none
            then residue.number_of_atoms else 0) := by
      rcases hcase2 with ⟨hf, e⟩ | ⟨hf, -, e⟩
      · rw [e, hf, chain_number_of_atoms_eq_sum]
        simp
      · rw [e, hf, chain_number_of_atoms_eq_sum]
        simp only [if_true]
        exact sum_map_insert pair_lt (fun e => e.2.number_of_atoms) rk residue _ hf
    have e4 : map_find pair_lt rk chain.residue_container = none →
        residue.number_of_atoms = 0 := by
      intro hf
      rcases hcase2 with ⟨hf1, -⟩ | ⟨-, hnew, -⟩
      · rw [hf] at hf1
        cases hf1
      · unfold Molecular_residue.new at hnew
        obtain ⟨rn, -, hnew⟩ := (except_bind_eq_ok _ _ _).1 hnew
        obtain ⟨sn1, -, hnew⟩ := (except_bind_eq_ok _ _ _).1 hnew
        obtain ⟨ic, -, hnew⟩ := (except_bind_eq_ok _ _ _).1 hnew
        simp only [pure, Except.pure, Except.ok.injEq] at hnew
        rw [← hnew]
        rfl
    have e5 : chain2.number_of_atoms = chain.number_of_atoms + 1 := by
      rw [chain_number_of_atoms_eq_sum, hchain2]
      simp only
      by_cases hf : map_find pair_lt rk chain.residue_container = none
      · rw [if_pos hf] at e3
        have := e4 hf
        omega
      · rw [if_neg hf] at e3
        omega
    -- the model
    have e6 := sum_map_assign char_lt (fun c : Molecular_chain => c.number_of_atoms) ch
      chain2 chain model1.chain_container hfc
    dsimp only at e6
    have e7 : (model1.chain_container.map fun e => e.2.number_of_atoms).sum
        = model.number_of_atoms + (if map_find char_lt ch model.chain_container = none
            then chain.number_of_atoms else 0) := by
      rcases hcase with ⟨hf, e⟩ | ⟨hf, -, e⟩
      · rw [e, hf, model_number_of_atoms_eq_sum]
        simp
      · rw [e, hf, model_number_of_atoms_eq_sum]
        simp only [if_true]
        exact sum_map_insert char_lt (fun e => e.2.number_of_atoms) ch chain _ hf
    have e8 : map_find char_lt ch model.chain_container = none →
        chain.number_of_atoms = 0 := by
      intro hf
      rcases hcase with ⟨hf1, -⟩ | ⟨-, hc, -⟩
      · rw [hf] at hf1
        cases hf1
      · rw [hc]
        rfl
    rw [model_number_of_atoms_eq_sum, hmodel2]
    simp only
    by_cases hf : map_find char_lt ch model.chain_container = none
    · rw [if_pos hf] at e7
      have := e8 hf
      omega
    · rw [if_neg hf] at e7
      omega

/-- C39: for every model, `number_of_atoms()` is the number of the atoms of the model,
which is the number of atoms that the loop from `atoms_begin()` to `atoms_end()` visits
when it is given fuel for one more turn, and is the sum of `number_of_atoms()` over the
chains; `number_of_residues()` is the sum of `number_of_residues()` over the chains.
After a call of `interpret_line` on a system that returns, the model of the number given
has one atom more than it had before, a model that was not there before having had
none. -/
theorem counts_agree_with_traversal :
    (∀ m : Molecular_model,
      m.number_of_atoms = m.atoms.length ∧
      (∀ fuel, m.number_of_atoms < fuel →
        ∃ l, m.visited_atoms fuel = some (.ok l) ∧ l.length = m.number_of_atoms) ∧
      m.number_of_atoms = (m.chain_container.map fun e => e.2.number_of_atoms).sum ∧
      m.number_of_residues = (m.chain_container.map fun e => e.2.number_of_residues).sum) ∧
    (∀ (s s1 : Molecular_system) (lf : Line_format) (line : Line) (cm : Int),
      s.interpret_line lf line cm = .ok s1 →
      ∃ m1, s1.get_model cm = .ok m1 ∧
        (∀ m0, s.get_model cm = .ok m0 → m1.number_of_atoms = m0.number_of_atoms + 1) ∧
        (s.has_model cm = false → m1.number_of_atoms = 1)) := by
  refine ⟨fun m => ⟨model_number_of_atoms_eq_length m, fun fuel hf => ?_,
    model_number_of_atoms_eq_sum m, model_number_of_residues_eq_sum m⟩,
    fun s s1 lf line cm h => ?_⟩
  · rw [model_number_of_atoms_eq_length] at hf
    exact ⟨m.atoms, model_visited_atoms m fuel hf, (model_number_of_atoms_eq_length m).symm⟩
  · obtain ⟨m1, h1, h2⟩ := interpret_line_number_of_atoms s s1 lf line cm h
    refine ⟨m1, h1, fun m0 h0 => ?_, fun h0 => ?_⟩
    · rcases get_or_create_model_cases s cm with ⟨m, hm, he⟩ | ⟨hf, -⟩
      · rw [he] at h2
        simp only [Molecular_system.get_model, hm, pure, Except.pure, Except.ok.injEq] at h0
        rw [← h0]
        exact h2
      · simp [Molecular_system.get_model, hf, throw, throwThe, MonadExceptOf.throw] at h0
    · rcases get_or_create_model_cases s cm with ⟨m, hm, -⟩ | ⟨-, he⟩
      · simp [Molecular_system.has_model, hm] at h0
      · rw [he] at h2
        exact h2

/-! ## The same serial number in two residues -/

theorem map_find_nil {κ ν : Type} (lt : κ → κ → Bool) (k : κ) :
    map_find lt k ([] : List (κ × ν)) = none := rfl

/-- The residue that a model holds in the chain `ch` under the key `rk`, after a chain
was got or created and a residue written in it, for another chain or another key. -/
theorem find_residue_in_model_of_ne (model model1 : Molecular_model) (lf : Line_format)
    (line : Line) (ch : Char) (chain chain1 : Molecular_chain) (rk : Int × Char)
    (residue residue1 : Molecular_residue)
    (h1 : model.get_or_create_chain lf line = .ok (model1, ch, chain))
    (h2 : chain.get_or_create_residue lf line = .ok (chain1, rk, residue))
    (ch2 : Char) (rk2 : Int × Char) (hne : ch2 ≠ ch ∨ rk2 ≠ rk) :
    (map_find char_lt ch2
        (map_assign char_lt ch
          { chain_identifier := chain1.chain_identifier,
            residue_container := map_assign pair_lt rk residue1 chain1.residue_container }
          model1.chain_container)).bind (fun c => map_find pair_lt rk2 c.residue_container)
      = (map_find char_lt ch2 model.chain_container).bind
          (fun c => map_find pair_lt rk2 c.residue_container) := by
  obtain ⟨-, hfc, -⟩ := get_or_create_chain_ok model model1 lf line ch chain h1
  obtain ⟨-, hcase⟩ := get_or_create_chain_cases model model1 lf line ch chain h1
  obtain ⟨-, -, hfr, -⟩ := get_or_create_residue_ok chain chain1 lf line rk residue h2
  obtain ⟨-, -, hcase2⟩ := get_or_create_residue_cases chain chain1 lf line rk residue h2
  by_cases hch : ch2 = ch
  · subst hch
    have hrk : rk2 ≠ rk := by
      rcases hne with h | h
      · exact absurd rfl h
      · exact h
    rw [map_find_assign_self char_lt ch2 _ _ (by simp [hfc])]
    simp only [Option.some_bind]
    rw [map_find_assign_of_ne pair_lt_strict rk2 rk _ _ hrk]
    have e1 : map_find pair_lt rk2 chain1.residue_container
        = map_find pair_lt rk2 chain.residue_container := by
      rcases hcase2 with ⟨-, e⟩ | ⟨-, -, e⟩
      · rw [e]
      · rw [e]
        exact map_find_insert_of_ne pair_lt pair_lt_strict.trans pair_lt_strict.asymm
          pair_lt_strict.total rk2 rk _ _ hrk
    rw [e1]
    rcases hcase with ⟨hf, -⟩ | ⟨hf, hc, -⟩
    · rw [hf]
      rfl
    · rw [hf, hc]
      rfl
  · rw [map_find_assign_of_ne char_lt_strict ch2 ch _ _ hch]
    rcases hcase with ⟨-, e⟩ | ⟨-, -, e⟩
    · rw [e]
    · rw [e]
      simp only
      rw [map_find_insert_of_ne char_lt char_lt_strict.trans char_lt_strict.asymm
        char_lt_strict.total ch2 ch _ _ hch]

/-- A call of `interpret_line` that returns leaves the residues at the other places of
the system as they were. -/
theorem interpret_line_find_residue_of_ne (s s1 : Molecular_system) (lf : Line_format)
    (line : Line) (cm : Int) (ch : Char) (rs : Int) (ic : Char)
    (h : s.interpret_line lf line cm = .ok s1)
    (hch : lf.get_chain_identifier line = .ok ch)
    (hrs : lf.get_residue_sequence_number line = .ok rs)
    (hic : lf.get_insertion_code line = .ok ic)
    (cm2 : Int) (ch2 : Char) (rs2 : Int) (ic2 : Char)
    (hne : cm2 ≠ cm ∨ ch2 ≠ ch ∨ rs2 ≠ rs ∨ ic2 ≠ ic) :
    s1.find_residue cm2 ch2 rs2 ic2 = s.find_residue cm2 ch2 rs2 ic2 := by
  obtain ⟨model1, ch0, chain, chain1, rk, residue, residue1, h1, h2, h3, hs1⟩ :=
    interpret_line_steps s s1 lf line cm h
  have hfm := get_or_create_model_find s cm
  have hcm := get_or_create_model_cases s cm
  generalize s.get_or_create_model cm = sm at h1 hs1 hfm hcm
  obtain ⟨s0, model⟩ := sm
  simp only [Prod.mk.injEq] at h1 hs1 hfm hcm
  obtain ⟨hch0, -⟩ := get_or_create_chain_cases model model1 lf line ch0 chain h1
  obtain ⟨hrs0, hic0, -⟩ := get_or_create_residue_cases chain chain1 lf line rk residue h2
  rw [hch] at hch0
  rw [hrs] at hrs0
  rw [hic] at hic0
  simp only [Except.ok.injEq] at hch0 hrs0 hic0
  subst hch0
  unfold Molecular_system.find_residue
  rw [hs1]
  simp only
  by_cases hcm2 : cm2 = cm
  · subst hcm2
    have hne2 : ch2 ≠ ch ∨ (rs2, ic2) ≠ rk := by
      rcases hne with h | h | h | h
      · exact absurd rfl h
      · exact Or.inl h
      · right
        intro e
        rw [← e] at hrs0
        exact h hrs0.symm
      · right
        intro e
        rw [← e] at hic0
        exact h hic0.symm
    rw [map_find_assign_self int_lt cm2 _ _ (by simp [hfm])]
    simp only [Option.some_bind]
    rw [find_residue_in_model_of_ne model model1 lf line ch chain chain1 rk residue residue1 h1
      h2 ch2 (rs2, ic2) hne2]
    rcases hcm with ⟨m, hm, he⟩ | ⟨hm, he⟩
    · rw [hm, he.2]
      rfl
    · rw [hm, he.2]
      rfl
  · rw [map_find_assign_of_ne int_lt_strict cm2 cm _ _ hcm2]
    rcases hcm with ⟨m, hm, he⟩ | ⟨hm, he⟩
    · rw [he.1]
    · rw [he.1]
      simp only
      rw [map_find_insert_of_ne int_lt int_lt_strict.trans int_lt_strict.asymm
        int_lt_strict.total cm2 cm _ _ hcm2]

/-- The residue to which `interpret_line` adds the atom of a line: the one found at the
place of the line, or a new one built from the line. -/
theorem interpret_line_residue (s s1 : Molecular_system) (lf : Line_format) (line : Line)
    (cm : Int) (h : s.interpret_line lf line cm = .ok s1) :
    ∃ ch rs ic residue residue1,
      lf.get_chain_identifier line = .ok ch ∧ lf.get_residue_sequence_number line = .ok rs ∧
      lf.get_insertion_code line = .ok ic ∧
      (match s.find_residue cm ch rs ic with
        | some r => Except.ok r
        | none => Molecular_residue.new lf line) = .ok residue ∧
      residue.add_atom lf line = .ok residue1 := by
  obtain ⟨model1, ch, chain, chain1, rk, residue, residue1, h1, h2, h3, -⟩ :=
    interpret_line_steps s s1 lf line cm h
  have hcm := get_or_create_model_cases s cm
  generalize s.get_or_create_model cm = sm at h1 hcm
  obtain ⟨s0, model⟩ := sm
  simp only [Prod.mk.injEq] at h1 hcm
  obtain ⟨hch, hcase⟩ := get_or_create_chain_cases model model1 lf line ch chain h1
  obtain ⟨hrs, hic, hcase2⟩ := get_or_create_residue_cases chain chain1 lf line rk residue h2
  refine ⟨ch, rk.1, rk.2, residue, residue1, hch, hrs, hic, ?_, h3⟩
  have hfind : s.find_residue cm ch rk.1 rk.2 = map_find pair_lt rk chain.residue_container := by
    unfold Molecular_system.find_residue
    have e1 : (map_find char_lt ch model.chain_container).bind
        (fun c => map_find pair_lt (rk.1, rk.2) c.residue_container)
        = map_find pair_lt rk chain.residue_container := by
      rcases hcase with ⟨hf, -⟩ | ⟨hf, hc, -⟩
      · rw [hf]
        rfl
      · rw [hf, hc]
        rfl
    rcases hcm with ⟨m, hm, he⟩ | ⟨hm, he⟩
    · rw [hm, ← he.2]
      exact e1
    · rw [hm]
      rw [he.2] at e1
      rw [← e1]
      rfl
  rw [hfind]
  rcases hcase2 with ⟨hf, -⟩ | ⟨hf, hnew, -⟩
  · rw [hf]
  · rw [hf]
    exact hnew

/-- A call of `interpret_line` returns when the fields of the place are read and
`add_atom` returns on the residue found at the place of the line, or on a new one. -/
theorem interpret_line_of_residue (s : Molecular_system) (lf : Line_format) (line : Line)
    (cm : Int) (ch : Char) (rs : Int) (ic : Char) (residue residue1 : Molecular_residue)
    (hch : lf.get_chain_identifier line = .ok ch)
    (hrs : lf.get_residue_sequence_number line = .ok rs)
    (hic : lf.get_insertion_code line = .ok ic)
    (hres : (match s.find_residue cm ch rs ic with
        | some r => Except.ok r
        | none => Molecular_residue.new lf line) = .ok residue)
    (hadd : residue.add_atom lf line = .ok residue1) :
    ∃ s1, s.interpret_line lf line cm = .ok s1 := by
  have hcm := get_or_create_model_cases s cm
  -- the chain
  have hc := get_or_create_chain_of_getter (s.get_or_create_model cm).2 lf line ch hch
  have hfc : (map_find int_lt cm s.model_container).bind
      (fun m => map_find char_lt ch m.chain_container)
      = map_find char_lt ch (s.get_or_create_model cm).2.chain_container := by
    rcases hcm with ⟨m, hm, he⟩ | ⟨hm, he⟩
    · rw [hm, he]
      rfl
    · rw [hm, he]
      rfl
  unfold Molecular_system.find_residue at hres
  cases hf1 : map_find char_lt ch (s.get_or_create_model cm).2.chain_container with
  | some chain =>
    rw [hf1] at hc hfc
    have hr := get_or_create_residue_of_getters chain lf line rs ic hrs hic
    have hfr : (map_find int_lt cm s.model_container).bind (fun m =>
        (map_find char_lt ch m.chain_container).bind fun c =>
          map_find pair_lt (rs, ic) c.residue_container)
        = map_find pair_lt (rs, ic) chain.residue_container := by
      rcases hcm with ⟨m, hm, he⟩ | ⟨hm, he⟩
      · rw [he] at hf1
        simp only at hf1
        rw [hm]
        simp only [Option.some_bind, hf1]
      · rw [he] at hf1
        simp [Molecular_model.new, map_find] at hf1
    rw [hfr] at hres
    cases hf2 : map_find pair_lt (rs, ic) chain.residue_container with
    | some r =>
      rw [hf2] at hres hr
      simp only [Except.ok.injEq] at hres
      subst hres
      exact interpret_line_of_steps s lf line cm _ ch chain _ _ _ residue1 hc hr hadd
    | none =>
      rw [hf2] at hres hr
      simp only at hres
      rw [hres] at hr
      exact interpret_line_of_steps s lf line cm _ ch _ _ _ _ residue1 hc hr hadd
  | none =>
    rw [hf1] at hc hfc
    have hnone : (map_find int_lt cm s.model_container).bind (fun m =>
        (map_find char_lt ch m.chain_container).bind fun c =>
          map_find pair_lt (rs, ic) c.residue_container) = none := by
      cases hm : map_find int_lt cm s.model_container with
      | none => rfl
      | some m =>
        rw [hm] at hfc
        simp only [Option.some_bind] at hfc ⊢
        rw [hfc]
        rfl
    rw [hnone] at hres
    simp only at hres
    have hr := get_or_create_residue_of_getters (Molecular_chain.new ch) lf line rs ic hrs hic
    simp only [Molecular_chain.new, map_find_nil, hres] at hr
    exact interpret_line_of_steps s lf line cm _ ch _ _ _ _ residue1 hc hr hadd

theorem get_atom_of_find_residue (s : Molecular_system) (cm : Int) (ch : Char) (rs : Int)
    (ic : Char) (sn : Nat) (a : Molecular_atom) :
    (s.get_model cm).bind (fun m => m.get_atom ch rs ic sn) = .ok a ↔
      ∃ r, s.find_residue cm ch rs ic = some r ∧ r.get_atom sn = .ok a := by
  unfold Molecular_system.find_residue Molecular_system.get_model Molecular_model.get_atom
    Molecular_model.get_chain Molecular_chain.get_residue
  cases map_find int_lt cm s.model_container with
  | none => simp [Except.bind, throw, throwThe, MonadExceptOf.throw]
  | some m =>
    simp only [pure, Except.pure, Except.bind, Option.some_bind, bind]
    cases map_find char_lt ch m.chain_container with
    | none => simp [throw, throwThe, MonadExceptOf.throw]
    | some c =>
      simp only [Option.some_bind]
      cases map_find pair_lt (rs, ic) c.residue_container with
      | none => simp [throw, throwThe, MonadExceptOf.throw]
      | some r => simp

/-- C36, as stated, fails: the system that holds the atom of `line_N_1`, which is reached
by `interpret_line` on that line, and the lines `line_N_1` and `line_N_1_of_chain_B` have
the same serial number 1 and go to the chains A and B, yet `interpret_line` stops on
`line_N_1`: its serial number is already held by its own residue. -/
theorem same_serial_already_in_the_residue :
    (Molecular_system.new 1).interpret_line (Line_format.new line_N_1) line_N_1 1
      = .ok system_with_N_1 ∧
    (Line_format.new line_N_1).get_atom_serial_number line_N_1 = .ok 1 ∧
    (Line_format.new line_N_1_of_chain_B).get_atom_serial_number line_N_1_of_chain_B
      = .ok 1 ∧
    (Line_format.new line_N_1).get_chain_identifier line_N_1 = .ok 'A' ∧
    (Line_format.new line_N_1_of_chain_B).get_chain_identifier line_N_1_of_chain_B
      = .ok 'B' ∧
    system_with_N_1.interpret_line (Line_format.new line_N_1) line_N_1 1
      = .error (Fatal.assertion_failed "Two atoms with same serial numbers.") := by
  decide!

/-- C36, amended: a serial number is unique inside a residue only. Take any system and two
lines with the same serial number, each of which `Molecular_system::interpret_line` accepts
on that system, and whose places differ by the model, the chain identifier, the residue
sequence number or the insertion code. Then the second line is accepted after the first
one, and the system obtained holds the atom of each line, under the common serial number,
in the residue of that line. -/
theorem same_serial_in_two_residues (s s1 s2 : Molecular_system)
    (lf1 lf2 : Line_format) (line1 line2 : Line) (cm1 cm2 : Int)
    (ch1 ch2 : Char) (rs1 rs2 : Int) (ic1 ic2 : Char) (sn : Int)
    (h1 : s.interpret_line lf1 line1 cm1 = .ok s1)
    (h2 : s.interpret_line lf2 line2 cm2 = .ok s2)
    (hch1 : lf1.get_chain_identifier line1 = .ok ch1)
    (hrs1 : lf1.get_residue_sequence_number line1 = .ok rs1)
    (hic1 : lf1.get_insertion_code line1 = .ok ic1)
    (hsn1 : lf1.get_atom_serial_number line1 = .ok sn)
    (hch2 : lf2.get_chain_identifier line2 = .ok ch2)
    (hrs2 : lf2.get_residue_sequence_number line2 = .ok rs2)
    (hic2 : lf2.get_insertion_code line2 = .ok ic2)
    (hsn2 : lf2.get_atom_serial_number line2 = .ok sn)
    (hdiff : cm1 ≠ cm2 ∨ ch1 ≠ ch2 ∨ rs1 ≠ rs2 ∨ ic1 ≠ ic2) :
    ∃ s12 atom1 atom2,
      s1.interpret_line lf2 line2 cm2 = .ok s12 ∧
      Molecular_atom.new lf1 line1 = .ok atom1 ∧
      Molecular_atom.new lf2 line2 = .ok atom2 ∧
      (s12.get_model cm1).bind (fun m => m.get_atom ch1 rs1 ic1 (to_unsigned sn))
        = .ok atom1 ∧
      (s12.get_model cm2).bind (fun m => m.get_atom ch2 rs2 ic2 (to_unsigned sn))
        = .ok atom2 := by
  -- the residue of the second line is the same in `s` and in `s1`
  have hsame : s1.find_residue cm2 ch2 rs2 ic2 = s.find_residue cm2 ch2 rs2 ic2 :=
    interpret_line_find_residue_of_ne s s1 lf1 line1 cm1 ch1 rs1 ic1 h1 hch1 hrs1 hic1
      cm2 ch2 rs2 ic2 (by
        rcases hdiff with h | h | h | h
        · exact Or.inl (Ne.symm h)
        · exact Or.inr (Or.inl (Ne.symm h))
        · exact Or.inr (Or.inr (Or.inl (Ne.symm h)))
        · exact Or.inr (Or.inr (Or.inr (Ne.symm h))))
  obtain ⟨ch, rs, ic, residue, residue1, ech, ers, eic, hres, hadd⟩ :=
    interpret_line_residue s s2 lf2 line2 cm2 h2
  rw [hch2] at ech
  rw [hrs2] at ers
  rw [hic2] at eic
  simp only [Except.ok.injEq] at ech ers eic
  subst ech ers eic
  rw [← hsame] at hres
  obtain ⟨s12, h12⟩ := interpret_line_of_residue s1 lf2 line2 cm2 ch2 rs2 ic2 residue residue1
    hch2 hrs2 hic2 hres hadd
  -- the atom of the second line
  obtain ⟨ch, rs, ic, sn2, atom2, model2, ech, ers, eic, esn, hatom2, hm2, hget2⟩ :=
    interpret_line_stores s1 s12 lf2 line2 cm2 h12
  rw [hch2] at ech
  rw [hrs2] at ers
  rw [hic2] at eic
  rw [hsn2] at esn
  simp only [Except.ok.injEq] at ech ers eic esn
  subst ech ers eic esn
  -- the atom of the first line
  obtain ⟨ch, rs, ic, sn1, atom1, model1, ech, ers, eic, esn, hatom1, hm1, hget1⟩ :=
    interpret_line_stores s s1 lf1 line1 cm1 h1
  rw [hch1] at ech
  rw [hrs1] at ers
  rw [hic1] at eic
  rw [hsn1] at esn
  simp only [Except.ok.injEq] at ech ers eic esn
  subst ech ers eic esn
  have hfirst : (s1.get_model cm1).bind (fun m => m.get_atom ch1 rs1 ic1 (to_unsigned sn))
      = .ok atom1 := by
    rw [hm1]
    exact hget1
  obtain ⟨r, hr, hra⟩ := (get_atom_of_find_residue s1 cm1 ch1 rs1 ic1 _ atom1).1 hfirst
  have hkept : s12.find_residue cm1 ch1 rs1 ic1 = s1.find_residue cm1 ch1 rs1 ic1 :=
    interpret_line_find_residue_of_ne s1 s12 lf2 line2 cm2 ch2 rs2 ic2 h12 hch2 hrs2 hic2
      cm1 ch1 rs1 ic1 hdiff
  refine ⟨s12, atom1, atom2, h12, hatom1, hatom2, ?_, ?_⟩
  · exact (get_atom_of_find_residue s12 cm1 ch1 rs1 ic1 _ atom1).2 ⟨r, hkept.trans hr, hra⟩
  · rw [hm2]
    exact hget2

theorem same_serial_in_two_residues_witness :
    (Molecular_system.new 1).interpret_line (Line_format.new line_N_1) line_N_1 1
      = .ok system_with_N_1 ∧
    ∃ s12 atom1 atom2,
      system_with_N_1.interpret_line (Line_format.new line_N_1_of_chain_B)
        line_N_1_of_chain_B 1 = .ok s12 ∧
      Molecular_atom.new (Line_format.new line_N_1) line_N_1 = .ok atom1 ∧
      Molecular_atom.new (Line_format.new line_N_1_of_chain_B) line_N_1_of_chain_B
        = .ok atom2 ∧
      (s12.get_model 1).bind (fun m => m.get_atom 'A' 1 ' ' (to_unsigned 1)) = .ok atom1 ∧
      (s12.get_model 1).bind (fun m => m.get_atom 'B' 1 ' ' (to_unsigned 1)) = .ok atom2 :=
  ⟨by decide!,
   same_serial_in_two_residues (Molecular_system.new 1) system_with_N_1
     system_with_N_1_of_chain_B
     (Line_format.new line_N_1) (Line_format.new line_N_1_of_chain_B) line_N_1 line_N_1_of_chain_B 1 1 'A' 'B' 1 1 ' ' ' ' 1
     (by decide!) (by decide!) (by decide) (by decide) (by decide) (by decide)
     (by decide) (by decide) (by decide) (by decide) (Or.inr (Or.inl (by decide)))⟩

/-! ## One system index for each occupancy of the buffer -/

theorem double_lt_strict : Strict_order double_lt where
  trans := fun a b c h1 h2 => by
    simp only [double_lt, decide_eq_true_eq] at *
    exact lt_trans h1 h2
  asymm := fun a b h => by
    simp only [double_lt, decide_eq_true_eq, decide_eq_false_iff_not, not_lt] at *
    exact le_of_lt h
  total := double_lt_eq_of_not

namespace Min_or_max_occupancy_policy

theorem add_line_find_of_ne (p : Min_or_max_state) (o : ℚ) (line : Line) (k : Int) (key : ℚ)
    (hne : key ≠ o) :
    map_find double_lt key (add_line p o line k).lines = map_find double_lt key p.lines := by
  unfold add_line
  cases hf : map_find double_lt o p.lines with
  | some e =>
    simp only
    exact map_find_assign_of_ne double_lt_strict key o _ _ hne
  | none =>
    simp only
    rw [map_find_assign_of_ne double_lt_strict key o _ _ hne]
    exact map_find_insert_of_ne double_lt double_lt_strict.trans double_lt_strict.asymm
      double_lt_strict.total key o _ _ hne

/-- The entries of the buffer after a sequence of calls, from those before it: the lines of
the buffered calls of an occupancy are appended to its entry, which keeps its system index;
an entry that is created takes the system index of the first of them. -/
theorem buffer_run (tm : Bool) (calls : List (Line × Int)) (p p1 : Min_or_max_state)
    (hrun : add_or_postpone_all tm p calls = .ok p1) (o : ℚ) :
    map_find double_lt o p1.lines =
      match map_find double_lt o p.lines with
      | some e =>
        some (e.1, e.2 ++ ((buffered_calls tm p.min_or_max_occupancy calls).filter
          fun c => decide (occupancy_of c.1 = o)).map Prod.fst)
      | none =>
        if (buffered_calls tm p.min_or_max_occupancy calls).filter
            (fun c => decide (occupancy_of c.1 = o)) = [] then none
        else some (first_index ((buffered_calls tm p.min_or_max_occupancy calls).filter
                fun c => decide (occupancy_of c.1 = o)),
              ((buffered_calls tm p.min_or_max_occupancy calls).filter
                fun c => decide (occupancy_of c.1 = o)).map Prod.fst) := by
  induction calls generalizing p with
  | nil =>
    simp only [add_or_postpone_all, pure, Except.pure, Except.ok.injEq] at hrun
    subst hrun
    cases map_find double_lt o p.lines with
    | none => simp [buffered_calls]
    | some e => simp [buffered_calls]
  | cons c rest ih =>
    obtain ⟨line, k⟩ := c
    simp only [add_or_postpone_all] at hrun
    split at hrun
    · simp at hrun
    · rename_i p2 r hstep
      have h2 := ih p2 hrun
      rcases add_or_postpone_cases tm p p2 line k r hstep with
        ⟨hna, hp, -⟩ | ⟨ha, -, ⟨hnb, hp⟩ | ⟨hnb, hp⟩⟩
      · subst hp
        have hb : buffered_calls tm p2.min_or_max_occupancy ((line, k) :: rest)
            = buffered_calls tm p2.min_or_max_occupancy rest := by
          simp [buffered_calls, hna]
        rw [hb]
        exact h2
      · have hb : buffered_calls tm p.min_or_max_occupancy ((line, k) :: rest)
            = (line, k) :: buffered_calls tm (occupancy_of line) rest := by
          simp [buffered_calls, ha, hnb]
        have hmin : p2.min_or_max_occupancy = occupancy_of line := by rw [hp]
        rw [hb]
        rw [hmin] at h2
        by_cases ho : o = occupancy_of line
        · subst ho
          have hf : map_find double_lt (occupancy_of line) p2.lines
              = some (match map_find double_lt (occupancy_of line) p.lines with
                  | some e => (e.1, e.2 ++ [line])
                  | none => (k, [line])) := by
            rw [hp]
            exact add_line_find p (occupancy_of line) line k
          rw [hf] at h2
          rw [h2]
          cases map_find double_lt (occupancy_of line) p.lines with
          | none => simp [first_index]
          | some e => simp
        · have hf : map_find double_lt o p2.lines = map_find double_lt o p.lines := by
            rw [hp]
            exact add_line_find_of_ne p (occupancy_of line) line k o ho
          rw [hf] at h2
          rw [h2]
          have hfil : ((line, k) :: buffered_calls tm (occupancy_of line) rest).filter
                (fun c => decide (occupancy_of c.1 = o))
              = (buffered_calls tm (occupancy_of line) rest).filter
                (fun c => decide (occupancy_of c.1 = o)) := by
            simp [List.filter_cons, Ne.symm ho]
          rw [hfil]
      · subst hp
        have hb : buffered_calls tm p2.min_or_max_occupancy ((line, k) :: rest)
            = buffered_calls tm p2.min_or_max_occupancy rest := by
          simp [buffered_calls, ha, hnb]
        rw [hb]
        exact h2

/-- C35: the buffer of an extremal policy keeps one system index for each occupancy. After
any sequence of `add_or_postpone` calls on a new policy, the entry of an occupancy holds
the lines of the buffered calls of that occupancy, in the order of the calls, with the
system index of the first of them; and `finalize`, when the buffer is not empty and the
running extremum is not 0.5, gives the builder every line of the entry of the running
extremum with that one index, whatever the index given with the later calls. -/
theorem finalize_passes_first_buffered_index (take_max : Bool) (calls : List (Line × Int))
    (p : Min_or_max_state)
    (hrun : add_or_postpone_all take_max (new take_max) calls = .ok p)
    {β : Type} (interp : β → Line_format → Line → Int → Except Fatal β) (b : β) :
    (∀ o : ℚ, map_find double_lt o p.lines =
      if buffered_at take_max o calls = [] then none
      else some (first_index (buffered_at take_max o calls),
                 (buffered_at take_max o calls).map Prod.fst)) ∧
    (p.lines ≠ [] → p.min_or_max_occupancy ≠ 1 / 2 →
      buffered_at take_max p.min_or_max_occupancy calls ≠ [] ∧
      finalize interp p b =
        (((buffered_at take_max p.min_or_max_occupancy calls).map Prod.fst).foldlM
          (fun b1 l => interp b1 (Line_format.new l) l
            (first_index (buffered_at take_max p.min_or_max_occupancy calls))) b).map
          (fun b1 => (b1, ((buffered_at take_max p.min_or_max_occupancy calls).length : Int))))
    := by
  have hentries : ∀ o : ℚ, map_find double_lt o p.lines =
      if buffered_at take_max o calls = [] then none
      else some (first_index (buffered_at take_max o calls),
                 (buffered_at take_max o calls).map Prod.fst) := by
    intro o
    have h := buffer_run take_max calls (new take_max) p hrun o
    have hnone : map_find double_lt o (new take_max).lines = none := rfl
    rw [hnone] at h
    exact h
  refine ⟨hentries, fun hl hm => ?_⟩
  have hr := reached_state take_max calls [] (new take_max) p
    ⟨Or.inl rfl, fun h => absurd rfl h⟩ hrun
  have hsome : (map_find double_lt p.min_or_max_occupancy p.lines).isSome = true := by
    rcases hr.1 with h | h
    · exact absurd h hl
    · exact h
  have hfind := hentries p.min_or_max_occupancy
  have hne : buffered_at take_max p.min_or_max_occupancy calls ≠ [] := by
    intro h
    rw [if_pos h] at hfind
    rw [hfind] at hsome
    cases hsome
  rw [if_neg hne] at hfind
  have hemp : p.lines.isEmpty = false := by
    cases hl1 : p.lines with
    | nil => exact absurd hl1 hl
    | cons _ _ => rfl
  refine ⟨hne, ?_⟩
  unfold finalize
  rw [hemp]
  simp only [Bool.false_eq_true, if_false, if_neg hm, hfind]
  rw [replay_eq_foldlM]
  simp

theorem finalize_passes_first_buffered_index_witness :
    add_or_postpone_all true (new true) calls_070_twice = .ok state_070_twice ∧
    buffered_at true (7 / 10) calls_070_twice = calls_070_twice ∧
    finalize recording_interpret_line state_070_twice []
      = .ok ([(line_occ_070, 1), (line_occ_070, 1)], 2) :=
  ⟨by decide!, by decide!,
   ((finalize_passes_first_buffered_index true calls_070_twice state_070_twice (by decide!)
      recording_interpret_line []).2 (by decide!) (by decide!)).2.trans (by decide!)⟩

end Min_or_max_occupancy_policy

/-! ## The model to which the lines of an input are attached -/

end ESBTL
